import Mathlib

/-! The HTTP engine of x3270 (`x3270/Common/httpd-core.c`).

A shallow embedding of the web-server protocol module and theorems about it.

Conventions of the embedding.

* A `char` is a `Char` with code 0..255; a byte string is a `List Char`.
* A `const char *` is modelled by the list of bytes found from the pointer on;
  the C string it denotes is `cstr` of that list (the bytes before the first
  NUL; the end of the list also terminates the string).
* A pointer into `request_buf` is the index of the byte it points at.
* Functions that mutate the connection or the registry return the new values.
-/

namespace Httpd

/-- Byte strings. -/
abbrev Bytes := List Char

/-- The NUL character. -/
def NUL : Char := Char.ofNat 0

/-- The double-quote character. -/
def DQUOTE : Char := Char.ofNat 34

/-! ## C library primitives used by the module -/

/-- The C string found at a pointer: the bytes before the first NUL. -/
def cstr : Bytes → Bytes
  | [] => []
  | c :: cs => if c = NUL then [] else c :: cstr cs

/-- Library `strlen`. -/
def strlen (s : Bytes) : Nat := (cstr s).length

/-- Library `isspace` in the C locale, applied to an `unsigned char`. -/
def isspace (c : Char) : Bool :=
  c.toNat = 32 || (9 ≤ c.toNat && c.toNat ≤ 13)

/-- Library `iscntrl` in the C locale, applied to an `unsigned char`. -/
def iscntrl (c : Char) : Bool :=
  c.toNat < 32 || c.toNat = 127

/-- Library `isdigit`. -/
def isdigit (c : Char) : Bool :=
  48 ≤ c.toNat && c.toNat ≤ 57

/-- Library `tolower` in the C locale. -/
def tolower (c : Char) : Char :=
  if 65 ≤ c.toNat ∧ c.toNat ≤ 90 then Char.ofNat (c.toNat + 32) else c

/-- The test `strcmp(a, b) == 0`. -/
def strcmp_eq (a b : Bytes) : Bool := cstr a == cstr b

/-- The test `strcasecmp(a, b) == 0`. -/
def strcasecmp_eq (a b : Bytes) : Bool :=
  (cstr a).map tolower == (cstr b).map tolower

/-- The test `strncmp(a, b, n) == 0`. -/
def strncmp_eq (a b : Bytes) (n : Nat) : Bool :=
  (cstr a).take n == (cstr b).take n

/-- The test `strncasecmp(a, b, n) == 0`. -/
def strncasecmp_eq (a b : Bytes) (n : Nat) : Bool :=
  ((cstr a).take n).map tolower == ((cstr b).take n).map tolower

/-- Library `strchr(s, c)`: the offset of the first occurrence of `c` in the
C string at `s`, the terminating NUL being part of the string; `none` is the
null pointer. The second argument counts the bytes already passed. -/
def strchr_from : Bytes → Char → Nat → Option Nat
  | [], c, i => if c = NUL then some i else none
  | x :: xs, c, i =>
    if x = c then some i
    else if x = NUL then none
    else strchr_from xs c (i + 1)

/-- Library `strchr(s, c)`, as an offset from `s`. -/
def strchr (s : Bytes) (c : Char) : Option Nat := strchr_from s c 0

/-- Conversion `%d` of printf. -/
def fmt_d (n : Int) : Bytes :=
  if n < 0 then '-' :: Nat.toDigits 10 n.natAbs else Nat.toDigits 10 n.toNat

/-- Conversion `%u` of printf applied to `(unsigned)len`, a 32-bit unsigned. -/
def fmt_u (len : Nat) : Bytes := Nat.toDigits 10 (len % 2 ^ 32)

/-! ## hex_digit, percent_decode, html_quote, uri_quote -/

/-- Function `hex_digit`: `strchr` in the lower-case table, then in the
upper-case table, else -1. -/
def hex_digit (c : Char) : Int :=
  match strchr "0123456789abcdef".toList c with
  | some x => (x : Int)
  | none =>
    match strchr "0123456789ABCDEF".toList c with
    | some x => (x : Int)
    | none => -1

/-- The decoder states of `percent_decode`. -/
inductive pd_state where
  | PS_BASE
  | PS_PCT
  | PS_HEX1
  deriving DecidableEq, Repr

open pd_state

/-- The `while (s < uri + len)` loop of `percent_decode`, with the state, the
first hex digit and the output buffer `r` as accumulators; the list is the
input still to read. `none` is the NULL return. -/
def percent_decode_loop (plus : Bool) : pd_state → Int → Bytes → Bytes → Option Bytes
  | state, _, r, [] => if state ≠ PS_BASE then none else some r
  | PS_BASE, hex1, r, c :: s =>
    if c = '%' then percent_decode_loop plus PS_PCT hex1 r s
    else if plus && c = '+' then percent_decode_loop plus PS_BASE hex1 (r ++ [' ']) s
    else percent_decode_loop plus PS_BASE hex1 (r ++ [c]) s
  | PS_PCT, _, r, c :: s =>
    let hex1 := hex_digit c
    if hex1 < 0 then none else percent_decode_loop plus PS_HEX1 hex1 r s
  | PS_HEX1, hex1, r, c :: s =>
    let hex2 := hex_digit c
    if hex2 < 0 then none
    else
      let xc := Char.ofNat (((hex1.toNat <<< 4) ||| hex2.toNat) % 256)
      percent_decode_loop plus PS_BASE hex1 (r ++ [xc]) s

/-- Function `percent_decode(uri, len, plus)`: `uri` is the `len` bytes to
decode; the result is the content of the returned buffer, `none` for NULL. -/
def percent_decode (uri : Bytes) (plus : Bool) : Option Bytes :=
  percent_decode_loop plus PS_BASE 0 [] uri

/-- Function `html_quote`: walks the C string `text` up to its NUL. -/
def html_quote : Bytes → Bytes
  | [] => []
  | c :: text =>
    if c = NUL then []
    else if c = '&' then "&amp;".toList ++ html_quote text
    else if c = '<' then "&lt;".toList ++ html_quote text
    else if c = '>' then "&gt;".toList ++ html_quote text
    else if c = DQUOTE then "&quot;".toList ++ html_quote text
    else c :: html_quote text

/-- Conversion `%02x` of printf applied to `c & 0xff`. -/
def fmt_02x (c : Char) : Bytes :=
  let n := c.toNat % 256
  [Nat.digitChar (n / 16), Nat.digitChar (n % 16)]

/-- Function `uri_quote`: `char` is signed, so a byte above 0x7f compares
below the space and is escaped. -/
def uri_quote : Bytes → Bytes
  | [] => []
  | c :: text =>
    if c = NUL then []
    else if 32 < c.toNat ∧ c.toNat < 127 ∧ c ≠ '%' then c :: uri_quote text
    else '%' :: fmt_02x c ++ uri_quote text

/-! ## Types of the module -/

/-- Print mode. -/
inductive httpd_print_t where
  | HP_SEND
  | HP_BUFFER
  deriving DecidableEq, Repr

/-- Error type, in the order of the enumeration (the code compares them). -/
inductive errmode_t where
  | ERRMODE_NON_HTTP
  | ERRMODE_FATAL
  | ERRMODE_NONFATAL
  deriving DecidableEq, Repr

/-- The numeric value of an `errmode_t`. -/
def errmode_t.toNat : errmode_t → Nat
  | .ERRMODE_NON_HTTP => 0
  | .ERRMODE_FATAL => 1
  | .ERRMODE_NONFATAL => 2

/-- Supported verbs. -/
inductive verb_t where
  | VERB_GET
  | VERB_HEAD
  | VERB_OTHER
  deriving DecidableEq, Repr

/-- Result codes of the engine (declared in httpd-core.h, named by the code). -/
inductive httpd_status_t where
  | HS_CONTINUE
  | HS_PENDING
  | HS_SUCCESS_OPEN
  | HS_SUCCESS_CLOSE
  | HS_ERROR_OPEN
  | HS_ERROR_CLOSE
  deriving DecidableEq, Repr

/-- Dump mode of `httpd_print_dump`. -/
inductive dump_t where
  | DUMP_WITH_LENGTH
  | DUMP_WITHOUT_LENGTH
  deriving DecidableEq, Repr

/-- HTTP request fields (name: value); the list linkage is the Lean list. -/
structure field_t where
  name : Bytes
  value : Bytes
  deriving DecidableEq, Repr

/-- Per-request state. Pointers into `request_buf` are indices, `none` is
NULL. `request_buf` lists the leading bytes of the array of
`MAX_HTTPD_REQUEST + 1` bytes; the bytes of the array behind the end of the
list are NUL (`buf_get`, `buf_set`). -/
structure request_t where
  print_buf : Bytes
  request_buf : Bytes
  nr : Nat
  saw_first : Bool
  rll : Nat
  verb : verb_t
  http_1_0 : Bool
  persistent : Bool
  uri : Option Nat
  query : Option Nat
  queries : List field_t
  fragment : Option Nat
  fields_start : Option Nat
  fields : List field_t
  location : Option Bytes
  async_node : Option Nat
  it_offset : Nat
  ot_offset : Nat
  deriving DecidableEq, Repr

/-- Connection state. `dhandle` is the address of the object (the handle
returned by `httpd_new`, stored in a registry entry's `async_session`); `sent`
records, in order, the buffers handed to `hio_send` for this connection (the
transport, httpd-io.c, is outside the module). -/
structure httpd_t where
  dhandle : Nat
  mhandle : Nat
  cr : Bool
  seq : Nat
  request : request_t
  sent : List Bytes
  deriving DecidableEq, Repr

/-- Registry object kinds. -/
inductive or_t where
  | OR_DIR
  | OR_FIXED
  | OR_FIXED_BINARY
  | OR_DYN_TERM
  | OR_DYN_NONTERM
  deriving DecidableEq, Repr

/-- Modelled from the spec: the enumeration `content_t` is declared in
httpd-core.h, which is not part of the sources at hand; the module only
compares a content type with `CT_HTML`. -/
inductive content_t where
  | CT_HTML
  | CT_TEXT
  | CT_BINARY
  deriving DecidableEq, Repr

/-- Modelled from the spec: flag bit "emit the standard trailer", declared in
httpd-core.h. -/
def HF_TRAILER : Nat := 1

/-- Modelled from the spec: flag bit "hidden from directory listings",
declared in httpd-core.h. -/
def HF_HIDDEN : Nat := 2

/-- Registry entry. The members of the union `u` are separate fields
(`fixed`, `fixed_binary`, `fixed_binary_length`, `dyn`); `alias_` is the
member `alias` (a reserved word here); `dyn` identifies the
registered callback; `async_session` holds the `dhandle` of the connection
the entry is busy with. -/
structure httpd_reg_t where
  path : Bytes
  desc : Bytes
  alias_ : Option Bytes
  content_type : content_t
  content_str : Bytes
  flags : Nat
  type : or_t
  fixed : Bytes
  fixed_binary : Bytes
  fixed_binary_length : Nat
  dyn : Nat
  async_session : Option Nat
  deriving DecidableEq, Repr

/-- A read `buf[i]` inside the request buffer. -/
def buf_get (buf : Bytes) (i : Nat) : Char := buf.getD i NUL

/-- A store `buf[i] = c` into the request buffer. -/
def buf_set : Bytes → Nat → Char → Bytes
  | [], 0, c => [c]
  | [], i + 1, c => NUL :: buf_set [] i c
  | _ :: xs, 0, c => c :: xs
  | x :: xs, i + 1, c => x :: buf_set xs i c

/-- The registry `httpd_reg`: the linked list, most recently registered entry
first. -/
abbrev registry := List httpd_reg_t

/-- A pointer to a registry entry is the number of entries registered before
it, which registrations (insertions at the head) leave unchanged. -/
def reg_deref (regs : registry) (p : Nat) : Option httpd_reg_t :=
  if p < regs.length then regs.get? (regs.length - 1 - p) else none

/-- Store through a pointer to a registry entry. -/
def reg_store (regs : registry) (p : Nat) (e : httpd_reg_t) : registry :=
  if p < regs.length then regs.set (regs.length - 1 - p) e else regs

/-- What the module takes from its surroundings: the global `build` string,
the text returned by `asctime(gmtime(&t))` for the clock reading, the bytes
lying behind `request_buf` in memory (`beyond i` is the byte at array index
`MAX_HTTPD_REQUEST + 1 + i`), the helper `xs_buffer` of util.c for the one
call whose format is not a literal (it gets the format, `none` for a null
pointer, and the string arguments, and yields the allocated text, `none`
when the call has no result), whether `errno` reads `ERANGE` when the request
line is validated (`httpd_parse_number` tests `errno` and nothing in the
module clears it), and the registered callbacks of type
`reg_dyn_t`, which receive the sub-path and the connection and may change the
connection and the registry (for instance through `httpd_dyn_complete`). -/
structure Env where
  build : Bytes
  asctime : Bytes
  beyond : Nat → Char
  xs_buffer : Option Bytes → List Bytes → Option Bytes
  erange : Bool
  dyn : Nat → Bytes → httpd_t → registry → httpd_status_t × httpd_t × registry

/-- Maximum request size. -/
def MAX_HTTPD_REQUEST : Nat := 8192 - 1

/-- Column width of a directory listing. -/
def DIRLIST_NLEN : Nat := 14

/-! ## Output -/

/-- Function `status_text`. -/
def status_text (status_code : Int) : Bytes :=
  if status_code = 200 then "OK".toList
  else if status_code = 301 then "Moved Permanently".toList
  else if status_code = 400 then "Bad Request".toList
  else if status_code = 404 then "Not Found".toList
  else if status_code = 409 then "Conflict".toList
  else if status_code = 500 then "Internal Server Error".toList
  else if status_code = 501 then "Not implemented".toList
  else "Unknown".toList

/-- Function `httpd_send`: traces the data (which advances the output trace
offset) and hands the buffer to `hio_send`. -/
def httpd_send (h : httpd_t) (buf : Bytes) : httpd_t :=
  { h with
    sent := h.sent ++ [buf]
    request := { h.request with ot_offset := h.request.ot_offset + buf.length } }

/-- Function `httpd_print_buf`. -/
def httpd_print_buf (h : httpd_t) (type : httpd_print_t) (buf : Bytes) : httpd_t :=
  if type = .HP_SEND then httpd_send h buf
  else { h with request := { h.request with print_buf := h.request.print_buf ++ buf } }

/-- The `while (sl > 0)` loop of `httpd_vprint`; `sp` is the text still to
write. Every round writes at least one byte, the first argument bounds the
number of rounds. -/
def httpd_vprint_loop (type : httpd_print_t) : Nat → httpd_t → Bytes → httpd_t
  | 0, h, _ => h
  | fuel + 1, h, sp =>
    if sp.length = 0 then h
    else
      let before := sp.takeWhile (fun c => c != '\n')
      let crlf : Bool := before.length < sp.length
      let wlen := before.length
      let h1 := if wlen ≠ 0 then httpd_print_buf h type before else h
      let sp1 := if wlen ≠ 0 then sp.drop wlen else sp
      if crlf then
        httpd_vprint_loop type fuel (httpd_print_buf h1 type ['\r', '\n']) (sp1.drop 1)
      else httpd_vprint_loop type fuel h1 sp1

/-- Function `httpd_vprint` (and `httpd_print`), applied to the text that
`xs_vbuffer` expands the format and its arguments to. -/
def httpd_vprint (h : httpd_t) (type : httpd_print_t) (text : Bytes) : httpd_t :=
  let buf := cstr text
  httpd_vprint_loop type buf.length h buf

/-- Function `httpd_print`. -/
def httpd_print (h : httpd_t) (type : httpd_print_t) (text : Bytes) : httpd_t :=
  httpd_vprint h type text

/-- Function `httpd_content_len`. -/
def httpd_content_len (h : httpd_t) (len : Nat) : httpd_t :=
  httpd_send h ("Content-Length: ".toList ++ fmt_u len ++ ['\r', '\n', '\r', '\n'])

/-- Function `httpd_print_dump`. -/
def httpd_print_dump (h : httpd_t) (type : dump_t) : httpd_t :=
  let h1 := if type = .DUMP_WITH_LENGTH then httpd_content_len h h.request.print_buf.length else h
  let h2 := if h1.request.print_buf.length ≠ 0 then httpd_send h1 h1.request.print_buf else h1
  { h2 with request := { h2.request with print_buf := [] } }

/-- Function `httpd_reinit_request`. -/
def httpd_reinit_request (r : request_t) : request_t :=
  { r with
    nr := 0
    saw_first := false
    rll := 0
    http_1_0 := false
    persistent := true
    fields := []
    fields_start := none
    queries := []
    print_buf := []
    verb := .VERB_OTHER
    it_offset := 0
    ot_offset := 0 }

/-- Reinitialize the request of a connection. -/
def httpd_t.reinit (h : httpd_t) : httpd_t :=
  { h with request := httpd_reinit_request h.request }

/-- Function `httpd_init_request`: `memset` to zero, then reinitialize. -/
def httpd_init_request : request_t :=
  httpd_reinit_request
    { print_buf := []
      request_buf := []
      nr := 0
      saw_first := false
      rll := 0
      verb := .VERB_GET
      http_1_0 := false
      persistent := false
      uri := none
      query := none
      queries := []
      fragment := none
      fields_start := none
      fields := []
      location := none
      async_node := none
      it_offset := 0
      ot_offset := 0 }

/-- Functions `httpd_new` and `httpd_init_state`: the connection allocated at
address `dhandle` when the global counter `httpd_seq` reads `seq`. -/
def httpd_new (dhandle mhandle seq : Nat) : httpd_t :=
  { dhandle := dhandle
    mhandle := mhandle
    cr := false
    seq := seq
    request := httpd_init_request
    sent := [] }

/-- Function `httpd_http_header`. -/
def httpd_http_header (env : Env) (h : httpd_t) (status_code : Int) (do_close : Bool)
    (content_type : Bytes) : httpd_t :=
  let h1 := httpd_print h .HP_BUFFER
    ("HTTP/1.1 ".toList ++ fmt_d status_code ++ " ".toList ++ status_text status_code ++ ['\n'])
  let a := cstr env.asctime
  let h2 := httpd_print h1 .HP_BUFFER
    ("Date: ".toList ++ a.take (a.length - 1) ++ " UTC\n".toList)
  let h3 := httpd_print h2 .HP_BUFFER ("Server: ".toList ++ cstr env.build ++ ['\n'])
  let h4 := if do_close then httpd_print h3 .HP_BUFFER "Connection: close\n".toList else h3
  let h5 :=
    match h4.request.location with
    | some location =>
      if status_code = 301 then
        httpd_print h4 .HP_BUFFER ("Location: ".toList ++ cstr location ++ ['\n'])
      else h4
    | none => h4
  let h6 := httpd_print h5 .HP_BUFFER ("Content-Type: ".toList ++ cstr content_type ++ ['\n'])
  httpd_print_dump h6 .DUMP_WITHOUT_LENGTH

/-- Function `httpd_html_trailer`. -/
def httpd_html_trailer (env : Env) (h : httpd_t) (type : httpd_print_t) : httpd_t :=
  let h1 := httpd_print h type ['\n']
  let h2 := httpd_print h1 type " <HR>\n".toList
  let h3 := httpd_print h2 type
    (" <I>".toList ++ cstr env.build ++
      (" - <A HREF=".toList ++ [DQUOTE] ++ "http://x3270.bgp.nu/".toList ++ [DQUOTE] ++
        ">x3270.bgp.nu</A></I>\n".toList))
  httpd_print h3 type " </BODY>\n".toList

/-- The document type line that opens every generated page. -/
def doctype_line : Bytes :=
  "<!DOCTYPE HTML PUBLIC ".toList ++ [DQUOTE] ++ "-//IETF//DTD HTML 2.0//EN".toList ++
    [DQUOTE] ++ ">\n".toList

/-- Function `httpd_verror`; `text` is the expanded extended error message. -/
def httpd_verror (env : Env) (h : httpd_t) (mode : errmode_t) (status_code : Int)
    (verb : verb_t) (text : Bytes) : httpd_status_t × httpd_t :=
  let h1 :=
    if mode ≠ .ERRMODE_NON_HTTP then
      httpd_http_header env h status_code (mode.toNat ≤ errmode_t.ERRMODE_FATAL.toNat)
        "text/html; charset=iso8859-1".toList
    else h
  let h2 := if mode = .ERRMODE_NON_HTTP then httpd_print h1 .HP_BUFFER ['\n'] else h1
  let h3 :=
    if verb ≠ .VERB_HEAD then
      let b1 := httpd_print h2 .HP_BUFFER doctype_line
      let b2 := httpd_print b1 .HP_BUFFER "<HTML>\n".toList
      let b3 := httpd_print b2 .HP_BUFFER " <HEAD>\n".toList
      let b4 := httpd_print b3 .HP_BUFFER
        ("  <TITLE>".toList ++ fmt_d status_code ++ " ".toList ++ status_text status_code ++
          "</TITLE>\n".toList)
      let b5 := httpd_print b4 .HP_BUFFER " </HEAD>\n".toList
      let b6 := httpd_print b5 .HP_BUFFER " <BODY>\n".toList
      let b7 := httpd_print b6 .HP_BUFFER
        (" <H1>".toList ++ fmt_d status_code ++ " ".toList ++ status_text status_code ++
          "</H1>\n".toList)
      let b8 := httpd_vprint b7 .HP_BUFFER text
      let b9 := httpd_html_trailer env b8 .HP_BUFFER
      let b10 := httpd_print b9 .HP_BUFFER "</HTML>\n".toList
      httpd_print_dump b10
        (if errmode_t.ERRMODE_NON_HTTP.toNat < mode.toNat then .DUMP_WITH_LENGTH
         else .DUMP_WITHOUT_LENGTH)
    else h2
  if mode.toNat ≤ errmode_t.ERRMODE_FATAL.toNat || !h3.request.persistent then
    (.HS_ERROR_CLOSE, h3)
  else (.HS_ERROR_OPEN, h3.reinit)

/-- Function `httpd_error`: `httpd_verror` with the verb of the request. -/
def httpd_error (env : Env) (h : httpd_t) (mode : errmode_t) (status_code : Int)
    (text : Bytes) : httpd_status_t × httpd_t :=
  httpd_verror env h mode status_code h.request.verb text

/-! ## The request line -/

/-- Platform constant `ULONG_MAX` of limits.h (64-bit `unsigned long`). -/
def ULONG_MAX : Nat := 2 ^ 64 - 1

/-- Library `strtoul(s, &end, 10)`: the value, the offset of `end` from `s`
(0 when no conversion is performed) and whether `errno` is set to `ERANGE`. -/
def strtoul10 (s : Bytes) : Nat × Nat × Bool :=
  let ws := (s.takeWhile isspace).length
  let s1 := s.drop ws
  let neg : Bool := s1.head? = some '-'
  let sign : Nat := if s1.head? = some '-' ∨ s1.head? = some '+' then 1 else 0
  let digits := (s1.drop sign).takeWhile isdigit
  if digits.length = 0 then (0, 0, false)
  else
    let v := digits.foldl (fun a c => 10 * a + (c.toNat - 48)) 0
    if ULONG_MAX < v then (ULONG_MAX, ws + sign + digits.length, true)
    else ((if neg then (2 ^ 64 - v) % 2 ^ 64 else v), ws + sign + digits.length, false)

/-- Function `httpd_parse_number`: success flag, `*nlp` and `*np`. The code
does not clear `errno` before `strtoul`, so the test `errno == ERANGE` holds
when `strtoul` has set it or when `errno` read `ERANGE` before the call
(`erange`). -/
def httpd_parse_number (erange : Bool) (s : Bytes) : Bool × Nat × Nat :=
  let (u, endp, overflow) := strtoul10 s
  if (u = ULONG_MAX && (overflow || erange)) || endp = 0 then (false, 0, 0)
  else (true, endp, u)

/-- The token separators of the request line. -/
def whitespace : Bytes := [' ', '\t', Char.ofNat 12, Char.ofNat 11]

/-- Library `strtok` on the buffer `buf`, resuming at index `p` (the saved
pointer; the first call starts at the string). Returns the token start (`none`
for NULL), the new saved pointer and the buffer, in which the separator
ending the token has been overwritten by NUL. -/
def strtok (buf : Bytes) (p : Nat) : Option Nat × Nat × Bytes :=
  let p1 := p + ((buf.drop p).takeWhile (fun c => whitespace.contains c)).length
  if buf_get buf p1 = NUL then (none, p1, buf)
  else
    let p2 := p1 +
      ((buf.drop p1).takeWhile (fun c => c != NUL && !whitespace.contains c)).length
    if buf_get buf p2 = NUL then (some p1, p2, buf)
    else (some p1, p2 + 1, buf_set buf p2 NUL)

/-- The table `known_verbs`. -/
def known_verbs : List Bytes :=
  ["GET".toList, "HEAD".toList, "POST".toList, "PUT".toList, "DELETE".toList,
    "CONNECT".toList, "OPTIONS".toList, "TRACE".toList]

/-- The outcome of the protocol-version test of `httpd_digest_request_line`
on the C string `protocol`: `none` when the token is invalid, else the
major and minor numbers. The disjunction is evaluated left to right;
`erange` tells whether `errno` reads `ERANGE` on entry (a first number that
makes `strtoul` set it is rejected, so the second call finds `errno` as the
first did). -/
def protocol_version (erange : Bool) (protocol : Bytes) : Option (Nat × Nat) :=
  if !strncasecmp_eq protocol "HTTP/".toList 5 then none
  else
    let (ok1, major_len, major) := httpd_parse_number erange (protocol.drop 5)
    if !ok1 then none
    else if protocol.getD (5 + major_len) NUL ≠ '.' then none
    else
      let (ok2, _, minor) := httpd_parse_number erange (protocol.drop (5 + major_len + 1))
      if !ok2 then none else some (major, minor)

/-- The four `strtok` calls of `httpd_digest_request_line` on the request
line at the start of the buffer: verb, URI, protocol and junk tokens, and
the buffer after tokenizing. -/
def request_line_tokens (buf : Bytes) :
    Option Nat × Option Nat × Option Nat × Option Nat × Bytes :=
  let (verb, p1, b1) := strtok buf 0
  let (uri, p2, b2) := strtok b1 p1
  let (protocol, p3, b3) := strtok b2 p2
  match protocol with
  | some _ =>
    let (junk, _, b4) := strtok b3 p3
    (verb, uri, protocol, junk, b4)
  | none => (verb, uri, protocol, none, b3)

/-- Function `httpd_digest_request_line`. -/
def httpd_digest_request_line (env : Env) (h : httpd_t) : httpd_status_t × httpd_t :=
  if isspace (buf_get h.request.request_buf 0) then
    httpd_error env h .ERRMODE_NON_HTTP 400
      ("<P>Invalid request syntax.</P>\n<P>Whitespace at the beginning of the " ++
        "request.</P>").toList
  else
    match request_line_tokens h.request.request_buf with
    | (verb, uri, protocol, junk, buf) =>
      let h1 : httpd_t := { h with request := { h.request with request_buf := buf, uri := uri } }
      match verb, uri, junk with
      | some verb, some _, none =>
        let verb_s := cstr (buf.drop verb)
        let checked : Option (errmode_t × httpd_t) :=
          match protocol with
          | some protocol =>
            match protocol_version env.erange (cstr (buf.drop protocol)) with
            | none => none
            | some (major, minor) =>
              let http_1_0 : Bool := major = 1 && minor = 0
              some (.ERRMODE_FATAL, { h1 with
                request := { h1.request with http_1_0 := http_1_0, persistent := !http_1_0 } })
          | none =>
            some (.ERRMODE_NON_HTTP, { h1 with
              request := { h1.request with http_1_0 := true, persistent := false } })
        match checked with
        | none =>
          let h2 : httpd_t :=
            if strcmp_eq verb_s "HEAD".toList then
              { h1 with request := { h1.request with verb := .VERB_HEAD } }
            else h1
          httpd_error env h2 .ERRMODE_NON_HTTP 400
            ("Invalid protocol '".toList ++ cstr (buf.drop (protocol.getD 0)) ++ "'.".toList)
        | some (errmode, h2) =>
          if !known_verbs.any (fun k => strcmp_eq verb_s k) then
            httpd_error env h2 errmode 400
              ("Unknown verb '".toList ++ verb_s ++ "'.".toList)
          else if strcmp_eq verb_s "GET".toList then
            (.HS_CONTINUE, { h2 with request := { h2.request with verb := .VERB_GET } })
          else if strcmp_eq verb_s "HEAD".toList then
            (.HS_CONTINUE, { h2 with request := { h2.request with verb := .VERB_HEAD } })
          else
            httpd_error env h2 errmode 501
              ("Unsupported verb '".toList ++ verb_s ++ "'.".toList)
      | _, _, _ =>
        httpd_error env h1 .ERRMODE_NON_HTTP 400
          "<P>Invalid request syntax.</P>\n<P>Invalid number of tokens.</P>".toList

/-! ## The registry -/

/-- The `while` loop of `httpd_valid_path` over the bytes of the C string
still to read; `first` tells that `s == path`, `nsl` is the slash counter.
Returns `none` for a `return 0` inside the loop, else the last value of `c`,
which is the NUL that ended the loop. -/
def httpd_valid_path_loop : Bytes → Bool → Nat → Option Char
  | [], _, _ => some NUL
  | c :: s, first, nsl =>
    if c = '/' then
      if nsl ≠ 0 then none else httpd_valid_path_loop s false (nsl + 1)
    else if first then none
    else httpd_valid_path_loop s false 0

/-- Function `httpd_valid_path` (a non-null `path`). -/
def httpd_valid_path (path : Bytes) : Bool :=
  match httpd_valid_path_loop (cstr path) true 0 with
  | none => false
  | some c =>
    if (cstr path).length = 0 then false
    else if c = '/' then false
    else true

/-- The entry that `Calloc` returns: all members zero. -/
def httpd_reg_zero : httpd_reg_t :=
  { path := [], desc := [], alias_ := none, content_type := .CT_HTML, content_str := [],
    flags := 0, type := .OR_DIR, fixed := [], fixed_binary := [], fixed_binary_length := 0,
    dyn := 0, async_session := none }

/-- Function `httpd_register_dyn`: the handle (`none` for NULL) and the
registry. -/
def httpd_register_dyn (regs : registry) (path desc : Bytes) (content_type : content_t)
    (content_str : Bytes) (flags : Nat) (dyn : Nat) (type : or_t) : Option Nat × registry :=
  if !httpd_valid_path path then (none, regs)
  else
    (some regs.length,
      { httpd_reg_zero with
        path := path, desc := desc, type := type, content_type := content_type,
        content_str := content_str, flags := flags, dyn := dyn } :: regs)

/-- Function `httpd_register_dir`. -/
def httpd_register_dir (regs : registry) (path desc : Bytes) : Option Nat × registry :=
  if !httpd_valid_path path then (none, regs)
  else
    (some regs.length,
      { httpd_reg_zero with path := path, desc := desc, type := .OR_DIR } :: regs)

/-- Function `httpd_register_fixed`. -/
def httpd_register_fixed (regs : registry) (path desc : Bytes) (content_type : content_t)
    (content_str : Bytes) (flags : Nat) (fixed : Bytes) : Option Nat × registry :=
  if !httpd_valid_path path then (none, regs)
  else
    (some regs.length,
      { httpd_reg_zero with
        path := path, desc := desc, type := .OR_FIXED, content_type := content_type,
        content_str := content_str, flags := flags, fixed := fixed } :: regs)

/-- Function `httpd_register_fixed_binary`. -/
def httpd_register_fixed_binary (regs : registry) (path desc : Bytes)
    (content_type : content_t) (content_str : Bytes) (flags : Nat) (fixed : Bytes)
    (length : Nat) : Option Nat × registry :=
  if !httpd_valid_path path then (none, regs)
  else
    (some regs.length,
      { httpd_reg_zero with
        path := path, desc := desc, type := .OR_FIXED_BINARY, content_type := content_type,
        content_str := content_str, flags := flags, fixed_binary := fixed,
        fixed_binary_length := length } :: regs)

/-- Function `httpd_register_dyn_term`. -/
def httpd_register_dyn_term (regs : registry) (path desc : Bytes) (content_type : content_t)
    (content_str : Bytes) (flags : Nat) (dyn : Nat) : Option Nat × registry :=
  httpd_register_dyn regs path desc content_type content_str flags dyn .OR_DYN_TERM

/-- Function `httpd_register_dyn_nonterm`. -/
def httpd_register_dyn_nonterm (regs : registry) (path desc : Bytes)
    (content_type : content_t) (content_str : Bytes) (flags : Nat) (dyn : Nat) :
    Option Nat × registry :=
  httpd_register_dyn regs path desc content_type content_str flags dyn .OR_DYN_NONTERM

/-- Function `httpd_set_alias`. -/
def httpd_set_alias (regs : registry) (nhandle : Option Nat) (text : Bytes) : registry :=
  match nhandle with
  | none => regs
  | some p =>
    match reg_deref regs p with
    | none => regs
    | some reg => reg_store regs p { reg with alias_ := some text }

/-- Function `lookup_field`: the value of the first field of the list whose
name matches, ignoring case. -/
def lookup_field (name : Bytes) : List field_t → Option Bytes
  | [] => none
  | f :: fs => if strcasecmp_eq f.name name then some f.value else lookup_field name fs

/-! ## Replies -/

/-- The closing `if (!r->persistent)` of the reply functions. -/
def finish_success (h : httpd_t) : httpd_status_t × httpd_t :=
  if !h.request.persistent then (.HS_SUCCESS_CLOSE, h)
  else (.HS_SUCCESS_OPEN, h.reinit)

/-- The statement `if (reg->content_type == CT_HTML) { ... }` that opens the
body of a reply (in `httpd_reply` and in `httpd_dyn_complete`). -/
def html_open (h : httpd_t) (reg : httpd_reg_t) : httpd_t :=
  if reg.content_type = .CT_HTML then
    httpd_print (httpd_print h .HP_BUFFER doctype_line) .HP_BUFFER "<HTML>\n".toList
  else h

/-- The statement `if (reg->content_type == CT_HTML) { ... }` that closes the
body of a reply (in `httpd_reply` and in `httpd_dyn_complete`). -/
def html_close (env : Env) (h : httpd_t) (reg : httpd_reg_t) : httpd_t :=
  if reg.content_type = .CT_HTML then
    httpd_print
      (if reg.flags &&& HF_TRAILER ≠ 0 then httpd_html_trailer env h .HP_BUFFER else h)
      .HP_BUFFER "</HTML>\n".toList
  else h

/-- The `switch (reg->type)` of `httpd_reply` that writes the fixed content. -/
def reply_content (h : httpd_t) (reg : httpd_reg_t) : httpd_t :=
  if reg.type = .OR_FIXED then httpd_print h .HP_BUFFER (cstr reg.fixed)
  else if reg.type = .OR_FIXED_BINARY then
    httpd_send (httpd_content_len h reg.fixed_binary_length)
      (reg.fixed_binary.take reg.fixed_binary_length)
  else h

/-- The output of `httpd_reply` for an object that is not dynamic: the
header, the cache control line and the `switch (r->verb)`. -/
def reply_output (env : Env) (h : httpd_t) (reg : httpd_reg_t) : httpd_t :=
  let h1 := httpd_http_header env h 200 (!h.request.persistent) reg.content_str
  let h2 := httpd_print h1 .HP_SEND "Cache-Control: max-age=43200\n".toList
  if h2.request.verb = .VERB_HEAD then httpd_print h2 .HP_SEND ['\n']
  else
    let b := html_close env (reply_content (html_open h2 reg) reg) reg
    if reg.type ≠ .OR_FIXED_BINARY then httpd_print_dump b .DUMP_WITH_LENGTH else b

/-- Function `httpd_reply` for the entry behind the pointer `p`. The result
is `none` when `p` points at no entry. -/
def httpd_reply (env : Env) (h : httpd_t) (regs : registry) (p : Nat) (uri : Bytes) :
    Option (httpd_status_t × httpd_t × registry) :=
  match reg_deref regs p with
  | none => none
  | some reg =>
    if reg.async_session ≠ none then
      let q_uri := html_quote uri
      let e := httpd_error env h .ERRMODE_NONFATAL 409
        ("<P>Object is busy.</P><P>Only one client may access '".toList ++ cstr q_uri ++
          "' at a time.".toList)
      some (.HS_ERROR_OPEN, e.2, regs)
    else if reg.type = .OR_DYN_TERM ∨ reg.type = .OR_DYN_NONTERM then
      let regs1 := reg_store regs p { reg with async_session := some h.dhandle }
      let h1 : httpd_t := { h with request := { h.request with async_node := some p } }
      let nonterm := (cstr uri).drop (strlen reg.path)
      let nonterm := if nonterm.head? = some '/' then nonterm.drop 1 else nonterm
      some (env.dyn reg.dyn nonterm h1 regs1)
    else
      let r := finish_success (reply_output env h reg)
      some (r.1, r.2, regs)

/-- The `while (nlen--)` loop of `httpd_dirlist`. -/
def dirlist_pad (h : httpd_t) : Nat → httpd_t
  | 0 => h
  | nlen + 1 => dirlist_pad (httpd_print h .HP_BUFFER "&nbsp;".toList) nlen

/-- The body of the `for` loop of `httpd_dirlist` for one registry entry. -/
def dirlist_row (h : httpd_t) (uri : Bytes) (reg : httpd_reg_t) : httpd_t :=
  if strncmp_eq reg.path uri (strlen uri) &&
      (strchr ((cstr reg.path).drop (strlen uri)) '/').isNone &&
      (reg.flags &&& HF_HIDDEN = 0) then
    let rest := (cstr reg.path).drop (strlen uri)
    let nlen := rest.length
    let nlen := if reg.type = .OR_DIR ∨ reg.type = .OR_DYN_NONTERM then nlen + 1 else nlen
    let nlen := if DIRLIST_NLEN < nlen then 2 else DIRLIST_NLEN + 2 - nlen
    let q1 := html_quote (match reg.alias_ with | some a => a | none => reg.path)
    let q2 := html_quote rest
    let h1 := httpd_print h .HP_BUFFER
      ("<P><TT><A HREF=".toList ++ [DQUOTE] ++ cstr q1 ++
        (if reg.type = .OR_DIR ∧ reg.alias_ = none then ['/'] else []) ++
        [DQUOTE] ++ ">".toList ++ cstr q2 ++
        (if reg.type = .OR_DIR ∨ reg.type = .OR_DYN_NONTERM then ['/'] else []) ++
        "</A>".toList)
    let h2 := dirlist_pad h1 nlen
    httpd_print h2 .HP_BUFFER ("</TT>".toList ++ cstr reg.desc ++ "</P>\n".toList)
  else h

/-- The output of `httpd_dirlist`: the header and the `switch (r->verb)`. -/
def dirlist_output (env : Env) (h : httpd_t) (regs : registry) (uri : Bytes) : httpd_t :=
  let h1 := httpd_http_header env h 200 (!h.request.persistent)
    "text/html; charset=iso8859-1".toList
  if h1.request.verb = .VERB_HEAD then httpd_print h1 .HP_SEND ['\n']
  else
    let q_uri := html_quote uri
    let b1 := httpd_print h1 .HP_BUFFER doctype_line
    let b2 := httpd_print b1 .HP_BUFFER "<HTML>\n".toList
    let b3 := httpd_print b2 .HP_BUFFER " <HEAD>\n".toList
    let b4 := httpd_print b3 .HP_BUFFER
      ("  <TITLE>Directory of ".toList ++ cstr q_uri ++ "</TITLE>\n".toList)
    let b5 := httpd_print b4 .HP_BUFFER " </HEAD>\n".toList
    let b6 := httpd_print b5 .HP_BUFFER " <BODY>\n".toList
    let b7 := httpd_print b6 .HP_BUFFER
      (" <H1>Directory of ".toList ++ cstr q_uri ++ "</H1>\n".toList)
    let b8 := regs.foldl (fun acc reg => dirlist_row acc uri reg) b7
    let b9 := httpd_html_trailer env b8 .HP_BUFFER
    let b10 := httpd_print b9 .HP_BUFFER "</HTML>\n".toList
    httpd_print_dump b10 .DUMP_WITH_LENGTH

/-- Function `httpd_dirlist`. -/
def httpd_dirlist (env : Env) (h : httpd_t) (regs : registry) (uri : Bytes) :
    httpd_status_t × httpd_t :=
  finish_success (dirlist_output env h regs uri)

/-- Function `httpd_redirect`. The location is what `xs_buffer` makes of its
arguments `r->location`, "http://%s%s/", `host` and `uri`, in this order;
the result is `none` when that call yields nothing. -/
def httpd_redirect (env : Env) (h : httpd_t) (uri : Bytes) :
    Option (httpd_status_t × httpd_t) :=
  match lookup_field "Host".toList h.request.fields with
  | none => some (httpd_error env h .ERRMODE_NONFATAL 404 "Document not found.".toList)
  | some host =>
    match env.xs_buffer h.request.location ["http://%s%s/".toList, host, uri] with
    | none => none
    | some loc =>
      let h1 : httpd_t := { h with request := { h.request with location := some loc } }
      let e := httpd_error env h1 .ERRMODE_NONFATAL 301
        ("The document has moved <A HREF=".toList ++ [DQUOTE] ++ "http://".toList ++
          cstr host ++ cstr uri ++ "/".toList ++ [DQUOTE] ++ ">here.</A>.".toList)
      let h2 : httpd_t := { e.2 with request := { e.2.request with location := none } }
      some (finish_success h2)

/-- Function `httpd_notfound`. -/
def httpd_notfound (env : Env) (h : httpd_t) (uri : Bytes) : httpd_status_t × httpd_t :=
  let q_uri := html_quote uri
  let e := httpd_error env h .ERRMODE_NONFATAL 404
    ("The requested URL ".toList ++ cstr q_uri ++ " was not found on this server.".toList)
  finish_success e.2

/-- Whether the entry `reg` of kind `OR_DIR` matches `uri` with a trailing
slash (second test of the `OR_DIR` case of `httpd_lookup_uri`). -/
def dir_slash_match (reg : httpd_reg_t) (uri : Bytes) : Bool :=
  (cstr uri).getD (strlen uri - 1) NUL = '/' &&
    strlen reg.path = strlen uri - 1 &&
    strncmp_eq uri reg.path (strlen reg.path)

/-- Whether the entry `reg` of kind `OR_DYN_NONTERM` matches `uri`. -/
def nonterm_match (reg : httpd_reg_t) (uri : Bytes) : Bool :=
  strlen reg.path ≤ strlen uri &&
    strncmp_eq uri reg.path (strlen reg.path) &&
    (strlen uri = strlen reg.path || (cstr uri).getD (strlen reg.path) NUL = '/')

/-- The `for` loop of `httpd_lookup_uri` over the entries still to visit; the
pointer to the entry at the head is the number of entries behind it. -/
def httpd_lookup_loop (env : Env) (h : httpd_t) (regs : registry) (uri : Bytes) :
    List httpd_reg_t → Option (httpd_status_t × httpd_t × registry)
  | [] =>
    let r := httpd_notfound env h uri
    some (r.1, r.2, regs)
  | reg :: rest =>
    match reg.type with
    | .OR_DIR =>
      if strcmp_eq uri reg.path then
        (httpd_redirect env h uri).map (fun r => (r.1, r.2, regs))
      else if dir_slash_match reg uri then
        let r := httpd_dirlist env h regs uri
        some (r.1, r.2, regs)
      else httpd_lookup_loop env h regs uri rest
    | .OR_DYN_NONTERM =>
      if nonterm_match reg uri then httpd_reply env h regs rest.length uri
      else httpd_lookup_loop env h regs uri rest
    | _ =>
      if strcmp_eq uri reg.path then httpd_reply env h regs rest.length uri
      else httpd_lookup_loop env h regs uri rest

/-- Function `httpd_lookup_uri`. -/
def httpd_lookup_uri (env : Env) (h : httpd_t) (regs : registry) (uri : Bytes) :
    Option (httpd_status_t × httpd_t × registry) :=
  if strcmp_eq uri "/".toList || strcmp_eq uri "//".toList then
    let r := httpd_dirlist env h regs "/".toList
    some (r.1, r.2, regs)
  else httpd_lookup_loop env h regs uri regs

/-! ## Queries and header fields -/

/-- The `for` loop of `parse_queries`; `s` is the C string still to split,
`acc` the fields linked so far in order. The result is `none` when
`percent_decode` returns NULL, which the code hands to `strlen`. The first
argument bounds the number of rounds (one per segment). -/
def parse_queries_loop : Nat → Bytes → List field_t → Option (List field_t)
  | 0, _, _ => none
  | fuel + 1, s, acc =>
    let seg := s.takeWhile (fun c => c != '&')
    let last : Bool := seg.length = s.length
    let eov := seg.length
    let next := s.drop (eov + 1)
    match strchr s '=' with
    | none => if last then some acc else parse_queries_loop fuel next acc
    | some eq =>
      if eq = 0 ∨ eov < eq then
        if last then some acc else parse_queries_loop fuel next acc
      else
        match percent_decode (s.take eq) false,
            percent_decode ((s.drop (eq + 1)).take (eov - (eq + 1))) true with
        | some name, some value =>
          let f : field_t := { name := cstr name, value := cstr value }
          if last then some (acc ++ [f]) else parse_queries_loop fuel next (acc ++ [f])
        | _, _ => none

/-- Function `parse_queries` on the C string `query`: the list that ends up
in `h->request.queries` (`old` when no field is linked, for the head pointer
is only written by the first field). -/
def parse_queries (old : List field_t) (query : Bytes) : Option (List field_t) :=
  match parse_queries_loop ((cstr query).length + 1) (cstr query) [] with
  | none => none
  | some [] => some old
  | some fs => some fs

/-- A read `buf[i]` that may lie behind the array. -/
def rd (env : Env) (buf : Bytes) (i : Nat) : Char :=
  if i < MAX_HTTPD_REQUEST + 1 then buf_get buf i else env.beyond (i - (MAX_HTTPD_REQUEST + 1))

/-- The loop `while (value_len && isspace((unsigned char)s[value_len - 1]))
value_len--;` of `httpd_digest_request`: `s` is the index of the newline that
ends the line, the result is the final `value_len`. -/
def trim_value (env : Env) (buf : Bytes) (s : Nat) : Nat → Nat
  | 0 => 0
  | value_len + 1 =>
    if isspace (rd env buf (s + value_len)) then trim_value env buf s value_len
    else value_len + 1

/-- The outcome of parsing one header field: the message of the error
reply, or the index reached and the new field list. -/
inductive field_result where
  | error (msg : Bytes)
  | ok (s : Nat) (fields : List field_t)
  deriving DecidableEq, Repr

/-- The body of the inner `while (*s != \n)` loop of `httpd_digest_request`
for the field that starts at index `s`: the error message of the `return
httpd_error(...)` taken, or the index of the newline ending the line and the
field list with the new field linked in front. The scans are over the listed
bytes of the buffer; a name that runs to the end of the list meets the NUL
behind it, a control character. -/
def digest_field (env : Env) (buf : Bytes) (s : Nat) (fields : List field_t) :
    field_result :=
  let c := buf_get buf s
  if iscntrl c || isspace c || c = ':' then
    .error "Malformed field name in request.".toList
  else
    let name_run := (buf.drop s).takeWhile (fun c => c != '\n' && c != ':' && !isspace c)
    if name_run.any iscntrl || buf.length ≤ s + name_run.length then .error "Malformed field name in request.".toList
    else
      let field_name_len := name_run.length
      let s1 := s + field_name_len
      let s2 := s1 + ((buf.drop s1).takeWhile (fun c => c != '\n' && isspace c)).length
      if buf_get buf s2 ≠ ':' then
        .error "Malformed field (missing colon) in request.".toList
      else
        let s3 := s2 + 1
        let value := s3 + ((buf.drop s3).takeWhile (fun c => c != '\n' && isspace c)).length
        let s4 := value + ((buf.drop value).takeWhile (fun c => c != '\n')).length
        let value_len := trim_value env buf s4 (s4 - value)
        if value_len = 0 then
          .error "Malformed field (missing value) in request.".toList
        else
          let f : field_t :=
            { name := cstr ((buf.drop s).take field_name_len)
              value := cstr ((buf.drop value).take value_len) }
          if lookup_field f.name fields ≠ none then
            .error "Duplicate field in request.".toList
          else .ok s4 (f :: fields)

/-- The loop `while (*s) { while (*s != \n) { ... } s++; }` of
`httpd_digest_request`. The body of the inner loop leaves `s` on a newline,
so it runs at most once per round of the outer loop. The result is the error
message of a failed field (if any) with the fields linked until then; it is
`none` when the bound on the number of rounds (first argument) is used up. -/
def httpd_digest_fields (env : Env) (buf : Bytes) :
    Nat → Nat → List field_t → Option (Option Bytes × List field_t)
  | 0, _, _ => none
  | fuel + 1, s, fields =>
    if buf_get buf s = NUL then some (none, fields)
    else if buf_get buf s = '\n' then httpd_digest_fields env buf fuel (s + 1) fields
    else
      match digest_field env buf s fields with
      | .error msg => some (some msg, fields)
      | .ok s4 fields1 => httpd_digest_fields env buf fuel (s4 + 1) fields1

/-! ## The request -/

/-- The part of `httpd_digest_request` that splits the URI at `?` or `#`:
the C string at `r->uri` (index `u`) is cut by NULs written into the buffer,
and `r->query` and `r->fragment` are set. With both characters present the
first `if` of the code applies when the `?` comes first (both are cut), the
second when the `#` comes first (only the fragment is cut). -/
def split_uri (r : request_t) (u : Nat) : request_t :=
  let us := cstr (r.request_buf.drop u)
  match strchr us '?', strchr us '#' with
  | some q, none =>
    { r with request_buf := buf_set r.request_buf (u + q) NUL, query := some (u + q + 1) }
  | some q, some f =>
    if q < f then
      { r with
        request_buf := buf_set (buf_set r.request_buf (u + q) NUL) (u + f) NUL
        query := some (u + q + 1)
        fragment := some (u + f + 1) }
    else
      { r with request_buf := buf_set r.request_buf (u + f) NUL, fragment := some (u + f + 1) }
  | none, some f =>
    { r with request_buf := buf_set r.request_buf (u + f) NUL, fragment := some (u + f + 1) }
  | none, none => r

/-- How `httpd_digest_request` ends before the registry is searched: with
the reply of a `return httpd_error(...)`, or with the call of
`httpd_lookup_uri` on a connection state and a decoded URI. -/
inductive head_result where
  | reply (status : httpd_status_t) (h : httpd_t)
  | dispatch (h : httpd_t) (uri : Bytes)
  deriving DecidableEq, Repr

/-- The test `(connection = lookup_field("Connection", r->fields)) != NULL &&
!strcasecmp(connection, "close")` of `httpd_digest_request`. -/
def connection_close (fields : List field_t) : Bool :=
  match lookup_field "Connection".toList fields with
  | some connection => strcasecmp_eq connection "close".toList
  | none => false

/-- The part of `httpd_digest_request` that deals with the URI, from the
split at `?` or `#` to the call of `httpd_lookup_uri`. The result is `none`
when a null pointer is dereferenced (`r->uri` null, or `percent_decode`
failing inside `parse_queries`). -/
def digest_uri (env : Env) (h : httpd_t) : Option head_result :=
  match h.request.uri with
  | none => none
  | some u =>
    let h3 : httpd_t := { h with request := split_uri h.request u }
    match percent_decode (cstr (h3.request.request_buf.drop u)) false with
    | none =>
      let e := httpd_error env h3 .ERRMODE_FATAL 400
        "Invalid URI (percent substution error).".toList
      some (.reply e.1 e.2)
    | some cand_uri =>
      let http : Bool := 7 < strlen cand_uri && strncasecmp_eq cand_uri "http://".toList 7
      if http && strchr ((cstr cand_uri).drop 7) '/' = none then
        let e := httpd_error env h3 .ERRMODE_FATAL 400
          "Invalid URI syntax after http://.".toList
        some (.reply e.1 e.2)
      else if !http && (cstr cand_uri).head? ≠ some '/' then
        let e := httpd_error env h3 .ERRMODE_FATAL 400 "Invalid URI".toList
        some (.reply e.1 e.2)
      else
        match h3.request.query with
        | none => some (.dispatch h3 cand_uri)
        | some q =>
          match parse_queries h3.request.queries (h3.request.request_buf.drop q) with
          | none => none
          | some queries =>
            some (.dispatch { h3 with request := { h3.request with queries := queries } }
              cand_uri)

/-- What `httpd_digest_request` does before it searches the registry: either
the reply of the `return httpd_error(...)` taken, or the connection as it is
when `httpd_lookup_uri` is called together with the decoded URI passed to it.
The result is `none` when a null pointer is dereferenced (`r->fields_start`
null, or inside `digest_uri`). -/
def httpd_digest_request_head (env : Env) (h : httpd_t) : Option head_result :=
  match h.request.fields_start with
  | none => none
  | some s =>
    match httpd_digest_fields env h.request.request_buf (h.request.request_buf.length + 1) s
        h.request.fields with
    | none => none
    | some (some msg, fields) =>
      let e := httpd_error env { h with request := { h.request with fields := fields } }
        .ERRMODE_FATAL 400 msg
      some (.reply e.1 e.2)
    | some (none, fields) =>
      let h1 : httpd_t := { h with request := { h.request with fields := fields } }
      if !h1.request.http_1_0 && lookup_field "Host".toList h1.request.fields = none then
        let e := httpd_error env h1 .ERRMODE_FATAL 400 "Missing hostname.".toList
        some (.reply e.1 e.2)
      else if connection_close h1.request.fields then
        digest_uri env { h1 with request := { h1.request with persistent := false } }
      else digest_uri env h1

/-- Function `httpd_digest_request`. -/
def httpd_digest_request (env : Env) (h : httpd_t) (regs : registry) :
    Option (httpd_status_t × httpd_t × registry) :=
  match httpd_digest_request_head env h with
  | none => none
  | some (.reply status h1) => some (status, h1, regs)
  | some (.dispatch h1 cand_uri) => httpd_lookup_uri env h1 regs cand_uri

/-- Function `httpd_input_char`. -/
def httpd_input_char (env : Env) (h : httpd_t) (regs : registry) (c : Char) :
    Option (httpd_status_t × httpd_t × registry) :=
  if h.cr && c = '\n' then some (.HS_CONTINUE, { h with cr := false }, regs)
  else
    let h1 : httpd_t := { h with cr := (c = '\r') }
    let c : Char := if c = '\r' then '\n' else c
    if MAX_HTTPD_REQUEST ≤ h1.request.nr then
      let e := httpd_error env h1
        (if h1.request.saw_first then .ERRMODE_FATAL else .ERRMODE_NON_HTTP) 400
        "The request is too big.".toList
      some (e.1, e.2, regs)
    else
      let h2 : httpd_t := { h1 with request := { h1.request with
        request_buf := buf_set h1.request.request_buf h1.request.nr c
        nr := h1.request.nr + 1 } }
      if c = '\n' then
        if h2.request.rll = 0 then
          if !h2.request.saw_first then
            let e := httpd_error env h2 .ERRMODE_FATAL 400 "Missing request.".toList
            some (e.1, e.2, regs)
          else
            httpd_digest_request env
              { h2 with request := { h2.request with
                request_buf := buf_set h2.request.request_buf h2.request.nr NUL } } regs
        else
          let h3 : httpd_t := { h2 with request := { h2.request with rll := 0 } }
          if !h3.request.saw_first then
            let e := httpd_digest_request_line env
              { h3 with request := { h3.request with
                request_buf := buf_set h3.request.request_buf (h3.request.nr - 1) NUL
                fields_start := some h3.request.nr
                saw_first := true } }
            some (e.1, e.2, regs)
          else some (.HS_CONTINUE, h3, regs)
      else
        some (.HS_CONTINUE, { h2 with request := { h2.request with rll := h2.request.rll + 1 } },
          regs)

/-- The `for` loop of `httpd_input` over the bytes still to process. -/
def httpd_input_loop (env : Env) : httpd_t → registry → Bytes →
    Option (httpd_status_t × httpd_t × registry)
  | h, regs, [] => some (.HS_CONTINUE, h, regs)
  | h, regs, c :: data =>
    match httpd_input_char env h regs c with
    | none => none
    | some (.HS_CONTINUE, h1, regs1) => httpd_input_loop env h1 regs1 data
    | some (.HS_SUCCESS_OPEN, h1, regs1) => some (.HS_SUCCESS_OPEN, h1.reinit, regs1)
    | some (.HS_ERROR_OPEN, h1, regs1) => some (.HS_ERROR_OPEN, h1.reinit, regs1)
    | some (rv, h1, regs1) => some (rv, h1, regs1)

/-- Function `httpd_input`: traces the data (which advances the input trace
offset), then processes it a byte at a time. -/
def httpd_input (env : Env) (h : httpd_t) (regs : registry) (data : Bytes) :
    Option (httpd_status_t × httpd_t × registry) :=
  httpd_input_loop env
    { h with request := { h.request with it_offset := h.request.it_offset + data.length } }
    regs data

/-- Function `httpd_close`: wipes and frees the connection object; the
registry is what remains. -/
def httpd_close (_h : httpd_t) (regs : registry) : registry := regs

/-- Function `httpd_mhandle`. -/
def httpd_mhandle (h : httpd_t) : Nat := h.mhandle

/-- The output of `httpd_dyn_complete`: the header, the cache control line
and the `switch (r->verb)`. -/
def dyn_complete_output (env : Env) (h : httpd_t) (reg : httpd_reg_t) (text : Bytes) :
    httpd_t :=
  let h1 := httpd_http_header env h 200 (!h.request.persistent) reg.content_str
  let h2 := httpd_print h1 .HP_SEND "Cache-Control: no-store\n".toList
  if h2.request.verb = .VERB_HEAD then httpd_print h2 .HP_SEND ['\n']
  else
    httpd_print_dump (html_close env (httpd_vprint (html_open h2 reg) .HP_BUFFER text) reg)
      .DUMP_WITH_LENGTH

/-- Function `httpd_dyn_complete`; `text` is the expanded format. The result
is `none` when `r->async_node` is null or points at no entry. -/
def httpd_dyn_complete (env : Env) (h : httpd_t) (regs : registry) (text : Bytes) :
    Option (httpd_status_t × httpd_t × registry) :=
  match h.request.async_node with
  | none => none
  | some p =>
    match reg_deref regs p with
    | none => none
    | some reg =>
      let regs1 := reg_store regs p { reg with async_session := none }
      let h0 : httpd_t := { h with request := { h.request with async_node := none } }
      let r := finish_success (dyn_complete_output env h0 reg text)
      some (r.1, r.2, regs1)

/-- Function `httpd_dyn_error`; `text` is the expanded format. -/
def httpd_dyn_error (env : Env) (h : httpd_t) (regs : registry) (status_code : Int)
    (text : Bytes) : Option (httpd_status_t × httpd_t × registry) :=
  match h.request.async_node with
  | none => none
  | some p =>
    match reg_deref regs p with
    | none => none
    | some reg =>
      let regs1 := reg_store regs p { reg with async_session := none }
      let h0 : httpd_t := { h with request := { h.request with async_node := none } }
      let e := httpd_verror env h0 .ERRMODE_NONFATAL status_code h0.request.verb text
      some (e.1, e.2, regs1)

/-- Function `httpd_fetch_query`. -/
def httpd_fetch_query (h : httpd_t) (name : Bytes) : Option Bytes :=
  (h.request.queries.find? (fun f => strcmp_eq f.name name)).map (fun f => f.value)

/-! ## Definitions used to state the properties -/

/-- The hexadecimal digits `0-9a-fA-F`. -/
def is_hex (c : Char) : Bool := "0123456789abcdefABCDEF".toList.contains c

/-- The value of a hexadecimal digit, upper and lower case alike. -/
def hex_value (c : Char) : Nat :=
  if c.toNat ≤ 57 then c.toNat - 48
  else if 97 ≤ c.toNat then c.toNat - 87
  else c.toNat - 55

/-- Every `%` met outside an escape is followed by two hexadecimal digits. -/
def well_escaped : Bytes → Bool
  | [] => true
  | c :: rest =>
    if c = '%' then
      match rest with
      | x :: y :: rest2 => is_hex x && is_hex y && well_escaped rest2
      | _ => false
    else well_escaped rest

/-- The text with every escape `%XY` replaced by the byte `16 * X + Y` and,
when `plus` is set, every `+` outside an escape replaced by a space. -/
def unescape (plus : Bool) : Bytes → Bytes
  | [] => []
  | c :: rest =>
    if c = '%' then
      match rest with
      | x :: y :: rest2 => Char.ofNat (16 * hex_value x + hex_value y) :: unescape plus rest2
      | _ => []
    else (if plus && c = '+' then ' ' else c) :: unescape plus rest

/-- Turn a `+` into a space. -/
def plus_to_space (c : Char) : Char := if c = '+' then ' ' else c

/-- The replacement text of `html_quote` for one character. -/
def html_quote_char (c : Char) : Bytes :=
  if c = '&' then "&amp;".toList
  else if c = '<' then "&lt;".toList
  else if c = '>' then "&gt;".toList
  else if c = DQUOTE then "&quot;".toList
  else [c]

/-- The text with every newline replaced by CR LF. -/
def crlf : Bytes → Bytes
  | [] => []
  | c :: s => if c = '\n' then '\r' :: '\n' :: crlf s else c :: crlf s

/-- The connection with `t` appended to the pending output `print_buf`. -/
def append_buf (h : httpd_t) (t : Bytes) : httpd_t :=
  { h with request := { h.request with print_buf := h.request.print_buf ++ t } }

/-- The connection `h` with its output state replaced: the buffers sent, the
pending output and the output trace offset. -/
def with_output (h : httpd_t) (sent : List Bytes) (pb : Bytes) (ot : Nat) : httpd_t :=
  { h with sent := sent, request := { h.request with print_buf := pb, ot_offset := ot } }

/-- Connection `k` differs from `h` at most in its output state, and what `k`
has sent extends what `h` has sent. -/
def OutOnly (h k : httpd_t) : Prop :=
  ∃ (more : List Bytes) (pb : Bytes) (ot : Nat), k = with_output h (h.sent ++ more) pb ot

/-- The header block written by `httpd_http_header`, before the flush. -/
def header_text (env : Env) (location : Option Bytes) (status_code : Int) (do_close : Bool)
    (content_type : Bytes) : Bytes :=
  crlf (cstr ("HTTP/1.1 ".toList ++ fmt_d status_code ++ " ".toList ++
    status_text status_code ++ ['\n'])) ++
  (crlf (cstr ("Date: ".toList ++ (cstr env.asctime).take ((cstr env.asctime).length - 1) ++
    " UTC\n".toList)) ++
  (crlf (cstr ("Server: ".toList ++ cstr env.build ++ ['\n'])) ++
  ((if do_close then crlf (cstr "Connection: close\n".toList) else []) ++
  ((match location with
    | some location =>
      if status_code = 301 then crlf (cstr ("Location: ".toList ++ cstr location ++ ['\n']))
      else []
    | none => []) ++
  crlf (cstr ("Content-Type: ".toList ++ cstr content_type ++ ['\n']))))))

/-- A printf expansion that knows the directives `%s` and `%%`; `none` for
any other directive and for a missing argument. -/
def printf_s : Bytes → List Bytes → Option Bytes
  | [], _ => some []
  | c :: fmt, args =>
    if c = '%' then
      match fmt, args with
      | d :: fmt2, a :: args2 =>
        if d = 's' then (printf_s fmt2 args2).map (fun t => cstr a ++ t)
        else if d = '%' then (printf_s fmt2 (a :: args2)).map (fun t => '%' :: t)
        else none
      | d :: fmt2, [] =>
        if d = '%' then (printf_s fmt2 []).map (fun t => '%' :: t) else none
      | [], _ => none
    else (printf_s fmt args).map (fun t => c :: t)

/-- A sample environment: a build string, a clock reading, NUL bytes behind
the request buffer, an `xs_buffer` that expands its format argument (and
yields nothing for a null format), and callbacks that leave the request
pending. -/
def sample_env : Env :=
  { build := "x3270".toList
    asctime := "Thu Jan  1 00:00:00 1970\n".toList
    beyond := fun _ => NUL
    xs_buffer := fun fmt args =>
      match fmt with
      | none => none
      | some f => printf_s f args
    erange := false
    dyn := fun _ _ h regs => (.HS_PENDING, h, regs) }

/-- A sample registry: a directory registered at `/dir`, then a plain-text
fixed object with text `hello` registered at `/p`. -/
def sample_registry : registry :=
  (httpd_register_fixed (httpd_register_dir [] "/dir".toList "A directory".toList).2
    "/p".toList "A page".toList .CT_TEXT "text/plain".toList 0 "hello".toList).2

/-- A fresh connection. -/
def fresh : httpd_t := httpd_new 1 1 0

/-- A registry entry of kind dynamic terminal at `/dyn` that is busy with the
connection whose handle is 7. -/
def busy_entry : httpd_reg_t :=
  { httpd_reg_zero with
    path := "/dyn".toList, desc := "A dynamic object".toList, type := .OR_DYN_TERM,
    content_type := .CT_TEXT, content_str := "text/plain".toList, async_session := some 7 }

/-- The connection with handle 7 while its request for `/dyn` is pending. -/
def pending_conn : httpd_t :=
  { httpd_new 7 7 0 with
    request := { httpd_init_request with
      verb := .VERB_GET, saw_first := true, async_node := some 0 } }

/-- The connection state in which `httpd_input_char` calls
`httpd_digest_request`: the buffer holds the tokenized request line and the
header lines, the request line has been validated. -/
def digest_state (buf : Bytes) (uri fields_start : Nat) (http_1_0 persistent : Bool) : httpd_t :=
  { fresh with
    request := { fresh.request with
      request_buf := buf, nr := buf.length - 1, saw_first := true, verb := .VERB_GET,
      uri := some uri, fields_start := some fields_start,
      http_1_0 := http_1_0, persistent := persistent } }

/-- The default that the request line gives the persistence flag: set exactly
when a version token is present and its version is not 1.0. -/
def version_default (erange : Bool) (buf : Bytes) : Bool :=
  match request_line_tokens buf with
  | (_, _, some protocol, _, b) =>
    match protocol_version erange (cstr (b.drop protocol)) with
    | some (major, minor) => !(major = 1 && minor = 0)
    | none => false
  | (_, _, none, _, _) => false

/-- The connection state in which `httpd_input_char` calls
`httpd_digest_request_line`: the buffer holds the first line, its newline
overwritten by NUL. -/
def line_state (line : Bytes) : httpd_t :=
  { fresh with
    request := { fresh.request with
      request_buf := line ++ [NUL], nr := line.length + 1, saw_first := true,
      fields_start := some (line.length + 1) } }

/-- The connection with which the registry is searched, if it is. -/
def dispatched_conn (r : Option head_result) (d : httpd_t) : httpd_t :=
  match r with
  | some (.dispatch h _) => h
  | _ => d

/-- The decoded URI with which the registry is searched, if it is. -/
def dispatched_uri (r : Option head_result) : Bytes :=
  match r with
  | some (.dispatch _ uri) => uri
  | _ => []

/-- The request `GET /p HTTP/1.1` with the header lines `Host: abc` and
`Connection: Close`, as `httpd_digest_request` finds it. -/
def close_request : httpd_t :=
  digest_state ("GET".toList ++ [NUL] ++ "/p".toList ++ [NUL] ++ "HTTP/1.1".toList ++ [NUL] ++
    "Host: abc\nConnection: Close\n\n".toList ++ [NUL]) 4 16 false true

/-- Whether the loop of `httpd_lookup_uri` stops at the entry `reg` for the
URI: the tests of the `switch (reg->type)`. -/
def entry_matches (reg : httpd_reg_t) (uri : Bytes) : Bool :=
  match reg.type with
  | .OR_DIR => strcmp_eq uri reg.path || dir_slash_match reg uri
  | .OR_DYN_NONTERM => nonterm_match reg uri
  | _ => strcmp_eq uri reg.path

/-- Index `x` lies in a line of the buffer: `a` is what remains of the line,
followed by its newline. -/
def InLine (buf : Bytes) (x : Nat) (a rest : Bytes) : Prop :=
  buf.drop x = a ++ '\n' :: rest ∧ '\n' ∉ a

/-- The entry of the sample registry for the directory `/dir`. -/
def dir_entry : httpd_reg_t :=
  { httpd_reg_zero with path := "/dir".toList, desc := "A directory".toList, type := .OR_DIR }

/-- The entry of the sample registry for the fixed text at `/p`. -/
def page_entry : httpd_reg_t :=
  { httpd_reg_zero with
    path := "/p".toList, desc := "A page".toList, type := .OR_FIXED, content_type := .CT_TEXT,
    content_str := "text/plain".toList, flags := 0, fixed := "hello".toList }

/-- The bytes that `httpd_input_char` has to store for the input `data`: a CR
counts as a newline and a newline that follows a CR is dropped; `cr` tells
that the byte before `data` was a CR. -/
def normalize : Bool → Bytes → Bytes
  | _, [] => []
  | cr, c :: s =>
    if cr && c = '\n' then normalize false s
    else (if c = '\r' then '\n' else c) :: normalize (c = '\r') s

/-- Whether the input `data` leaves the flag `h->cr` set. -/
def cr_after : Bool → Bytes → Bool
  | cr, [] => cr
  | cr, c :: s => if cr && c = '\n' then cr_after false s else cr_after (c = '\r') s

/-- The connection after the statement `r->request_buf[r->nr++] = c` of
`httpd_input_char` for the input byte `c`. -/
def stored (h : httpd_t) (c : Char) : httpd_t :=
  { h with
    cr := (c = '\r')
    request := { h.request with
      request_buf := buf_set h.request.request_buf h.request.nr (if c = '\r' then '\n' else c)
      nr := h.request.nr + 1 } }

/-- A connection whose request buffer is full, before (`false`) or after
(`true`) the request line. -/
def full_conn (saw_first : Bool) : httpd_t :=
  { fresh with
    request := { fresh.request with nr := MAX_HTTPD_REQUEST, saw_first := saw_first } }

/-- The connection that a result of `httpd_input` carries (a fresh one when
there is no result). -/
def result_conn (r : Option (httpd_status_t × httpd_t × registry)) : httpd_t :=
  match r with
  | some (_, h, _) => h
  | none => fresh

/-- The value of a run of decimal digits. -/
def digits_value (ds : Bytes) : Nat := ds.foldl (fun a c => 10 * a + (c.toNat - 48)) 0

/-- The text starts with a number as `strtoul` reads one at a byte that is
not white space: a digit, or a sign followed by a digit. -/
def starts_number : Bytes → Bool
  | c :: d :: _ => isdigit c || ((c = '+' || c = '-') && isdigit d)
  | [c] => isdigit c
  | [] => false

/-- No two consecutive slashes in the text. -/
def no_double_slash : Bytes → Bool
  | [] => true
  | c :: s => !(c = '/' && s.head? = some '/') && no_double_slash s

/-- A registry entry of kind dynamic nonterminal at `/a`, idle. -/
def nonterm_entry : httpd_reg_t :=
  { httpd_reg_zero with
    path := "/a".toList, desc := "A dynamic tree".toList, type := .OR_DYN_NONTERM,
    content_type := .CT_TEXT, content_str := "text/plain".toList, dyn := 5 }

/-- A second fixed text registered at `/p`, with the text `newer`. -/
def shadow_entry : httpd_reg_t := { page_entry with fixed := "newer".toList }

/-- An environment whose callbacks complete the request at once through
`httpd_dyn_complete`, with the sub-path they were given as the text. -/
def echo_env : Env :=
  { sample_env with
    dyn := fun _ sub h regs =>
      match httpd_dyn_complete sample_env h regs sub with
      | some r => r
      | none => (.HS_ERROR_CLOSE, h, regs) }

/-- A registry entry of kind dynamic terminal at `/dyn`, idle. -/
def dyn_entry : httpd_reg_t := { busy_entry with async_session := none }

/-- A connection with handle 7 and one with handle 8. -/
def conn7 : httpd_t := httpd_new 7 7 0

/-- The second connection. -/
def conn8 : httpd_t := httpd_new 8 8 1

/-- The registry that a result of `httpd_input` carries (empty when there is
no result). -/
def result_regs (r : Option (httpd_status_t × httpd_t × registry)) : registry :=
  match r with
  | some (_, _, regs) => regs
  | none => []

/-- A connection with a GET request in progress that is not persistent. -/
def closing_conn : httpd_t :=
  { fresh with
    request := { fresh.request with
      verb := .VERB_GET, saw_first := true, http_1_0 := true, persistent := false } }

/-- An environment whose callbacks complete the request at once through
`httpd_dyn_complete`, with the value that `httpd_fetch_query` returns for
the name `k` as the text (`none` when it returns NULL). -/
def query_env : Env :=
  { sample_env with
    dyn := fun _ _ h regs =>
      match httpd_dyn_complete sample_env h regs
          (match httpd_fetch_query h "k".toList with
            | some v => v
            | none => "none".toList) with
      | some r => r
      | none => (.HS_ERROR_CLOSE, h, regs) }

/-- A connection whose request has the query fields of `k=1&j=2&k=3`. -/
def query_conn : httpd_t :=
  { fresh with
    request := { fresh.request with
      queries := [{ name := "k".toList, value := "1".toList },
        { name := "j".toList, value := "2".toList },
        { name := "k".toList, value := "3".toList }] } }

/-- The line that announces a body of `n` bytes: `Content-Length:`, the
decimal number, and the blank line that ends the header block. -/
def length_line (n : Nat) : Bytes :=
  "Content-Length: ".toList ++ Nat.toDigits 10 n ++ ['\r', '\n', '\r', '\n']

/-- The buffers in which a buffered body goes out: one buffer, none for an
empty body. -/
def body_chunks (body : Bytes) : List Bytes := if body.length ≠ 0 then [body] else []

/-- The lines that open the document of an HTML object, before the newlines
are expanded. -/
def html_open_text (reg : httpd_reg_t) : Bytes :=
  if reg.content_type = .CT_HTML then cstr doctype_line ++ cstr "<HTML>\n".toList else []

/-- The standard trailer, before the newlines are expanded. -/
def trailer_text (env : Env) : Bytes :=
  cstr ['\n'] ++ (cstr " <HR>\n".toList ++
    (cstr (" <I>".toList ++ cstr env.build ++
      (" - <A HREF=".toList ++ [DQUOTE] ++ "http://x3270.bgp.nu/".toList ++ [DQUOTE] ++
        ">x3270.bgp.nu</A></I>\n".toList)) ++ cstr " </BODY>\n".toList))

/-- The lines that close the document of an HTML object, before the newlines
are expanded. -/
def html_close_text (env : Env) (reg : httpd_reg_t) : Bytes :=
  if reg.content_type = .CT_HTML then
    (if reg.flags &&& HF_TRAILER ≠ 0 then trailer_text env else []) ++ cstr "</HTML>\n".toList
  else []

/-- The document of a fixed text object, before the newlines are expanded. -/
def fixed_document (env : Env) (reg : httpd_reg_t) : Bytes :=
  html_open_text reg ++ (cstr reg.fixed ++ html_close_text env reg)

/-- The document of a completed dynamic request with the text `text`, before
the newlines are expanded. -/
def dyn_document (env : Env) (reg : httpd_reg_t) (text : Bytes) : Bytes :=
  html_open_text reg ++ (cstr text ++ html_close_text env reg)

/-- The document of an error reply, before the newlines are expanded. -/
def error_document (env : Env) (status_code : Int) (text : Bytes) : Bytes :=
  cstr doctype_line ++ (cstr "<HTML>\n".toList ++ (cstr " <HEAD>\n".toList ++
    (cstr ("  <TITLE>".toList ++ fmt_d status_code ++ " ".toList ++ status_text status_code ++
        "</TITLE>\n".toList) ++
    (cstr " </HEAD>\n".toList ++ (cstr " <BODY>\n".toList ++
    (cstr (" <H1>".toList ++ fmt_d status_code ++ " ".toList ++ status_text status_code ++
        "</H1>\n".toList) ++
    (cstr text ++ (trailer_text env ++ cstr "</HTML>\n".toList))))))))

/-- The test of the `for` loop of `httpd_dirlist` that decides whether the
entry `reg` gets a row in the listing of `uri`. -/
def row_shown (uri : Bytes) (reg : httpd_reg_t) : Bool :=
  strncmp_eq reg.path uri (strlen uri) &&
    (strchr ((cstr reg.path).drop (strlen uri)) '/').isNone &&
    (reg.flags &&& HF_HIDDEN = 0)

/-- The padding that `httpd_dirlist` writes between the link and the
description: `n` non-breaking spaces. -/
def pad_text (n : Nat) : Bytes := (List.replicate n "&nbsp;".toList).flatten

/-- The number of non-breaking spaces in the row of `reg` in the listing of
`uri`. -/
def row_pad (uri : Bytes) (reg : httpd_reg_t) : Nat :=
  let nlen := ((cstr reg.path).drop (strlen uri)).length
  let nlen := if reg.type = .OR_DIR ∨ reg.type = .OR_DYN_NONTERM then nlen + 1 else nlen
  if DIRLIST_NLEN < nlen then 2 else DIRLIST_NLEN + 2 - nlen

/-- The row of the entry `reg` in the listing of `uri`, before the newlines
are expanded. -/
def row_document (uri : Bytes) (reg : httpd_reg_t) : Bytes :=
  cstr ("<P><TT><A HREF=".toList ++ [DQUOTE] ++
      cstr (html_quote (match reg.alias_ with | some a => a | none => reg.path)) ++
      (if reg.type = .OR_DIR ∧ reg.alias_ = none then ['/'] else []) ++
      [DQUOTE] ++ ">".toList ++ cstr (html_quote ((cstr reg.path).drop (strlen uri))) ++
      (if reg.type = .OR_DIR ∨ reg.type = .OR_DYN_NONTERM then ['/'] else []) ++
      "</A>".toList) ++
    (pad_text (row_pad uri reg) ++ cstr ("</TT>".toList ++ cstr reg.desc ++ "</P>\n".toList))

/-- The rows of the listing of `uri`, in the order of the registry, before
the newlines are expanded. -/
def rows_document (uri : Bytes) (regs : registry) : Bytes :=
  ((regs.filter (row_shown uri)).map (row_document uri)).flatten

/-- The document of the listing of `uri`, before the newlines are expanded. -/
def dirlist_document (env : Env) (regs : registry) (uri : Bytes) : Bytes :=
  cstr doctype_line ++ (cstr "<HTML>\n".toList ++ (cstr " <HEAD>\n".toList ++
    (cstr ("  <TITLE>Directory of ".toList ++ cstr (html_quote uri) ++ "</TITLE>\n".toList) ++
    (cstr " </HEAD>\n".toList ++ (cstr " <BODY>\n".toList ++
    (cstr (" <H1>Directory of ".toList ++ cstr (html_quote uri) ++ "</H1>\n".toList) ++
    (rows_document uri regs ++ (trailer_text env ++ cstr "</HTML>\n".toList))))))))

/-- The buffers of a reply whose body is buffered: the header buffers, the
length line for the expanded body, and the expanded body. -/
def buffered_reply (head : List Bytes) (doc : Bytes) : List Bytes :=
  head ++ length_line (crlf doc).length :: body_chunks (crlf doc)

/-- The sample registry after four more registrations of fixed objects: a
hidden one at `/h`, one at `/dir/sub`, one at `/dir/` and one at `/`. -/
def listing_registry : registry :=
  (httpd_register_fixed
    (httpd_register_fixed
      (httpd_register_fixed
        (httpd_register_fixed sample_registry "/h".toList "Hidden".toList .CT_TEXT
          "text/plain".toList HF_HIDDEN "h".toList).2
        "/dir/sub".toList "Below".toList .CT_TEXT "text/plain".toList 0 "s".toList).2
      "/dir/".toList "Slash".toList .CT_TEXT "text/plain".toList 0 "d".toList).2
    "/".toList "Root".toList .CT_TEXT "text/plain".toList 0 "r".toList).2

/-- The sample registry after the registration of a fixed object at the root
path `/`. -/
def root_registry : registry :=
  (httpd_register_fixed sample_registry "/".toList "Root".toList .CT_TEXT "text/plain".toList
    0 "r".toList).2

/-- The lines of the listing of `uri` that come before the rows, before the
newlines are expanded. -/
def dirlist_heading (uri : Bytes) : Bytes :=
  cstr doctype_line ++ (cstr "<HTML>\n".toList ++ (cstr " <HEAD>\n".toList ++
    (cstr ("  <TITLE>Directory of ".toList ++ cstr (html_quote uri) ++ "</TITLE>\n".toList) ++
    (cstr " </HEAD>\n".toList ++ (cstr " <BODY>\n".toList ++
    cstr (" <H1>Directory of ".toList ++ cstr (html_quote uri) ++ "</H1>\n".toList))))))

/-- The printable ASCII characters other than the space: the bytes 0x21 to
0x7e. -/
def printable_nonspace (c : Char) : Bool := 33 ≤ c.toNat && c.toNat ≤ 126

/-- What `uri_quote` is to write for one byte: the byte itself when it is
printable, not a space and not `%`, else `%` and the two lower-case
hexadecimal digits of the byte. -/
def quoted_byte (c : Char) : Bytes :=
  if printable_nonspace c && c != '%' then [c]
  else ['%', Nat.digitChar (c.toNat / 16), Nat.digitChar (c.toNat % 16)]

/-- The fresh connection after the input `data` on the sample registry. -/
def fed (data : Bytes) : httpd_t := result_conn (httpd_input sample_env fresh sample_registry data)

/-- The separators of the request line: space, tab, formfeed and vertical
tab. -/
def is_sep (c : Char) : Bool := c = ' ' || c = '\t' || c = Char.ofNat 12 || c = Char.ofNat 11

/-- The tokens of a line: the maximal runs of characters other than the
separators. -/
def line_tokens (line : Bytes) : List Bytes :=
  (line.splitOnP is_sep).filter (fun t => !t.isEmpty)

/-- The tokens of the request line as the validator reads it: the C string at
the start of the request buffer. -/
def request_tokens (buf : Bytes) : List Bytes := line_tokens (cstr buf)

/-- The method check of `httpd_digest_request_line` (the loops over the
tables `known_verbs` and `supported_verbs`) for the verb token `verb`, on the
connection `k` and with the error mode `errmode` that the version check has
left. -/
def verb_check (env : Env) (k : httpd_t) (errmode : errmode_t) (verb : Bytes) :
    httpd_status_t × httpd_t :=
  if !known_verbs.any (fun x => strcmp_eq verb x) then
    httpd_error env k errmode 400 ("Unknown verb '".toList ++ verb ++ "'.".toList)
  else if strcmp_eq verb "GET".toList then
    (.HS_CONTINUE, { k with request := { k.request with verb := .VERB_GET } })
  else if strcmp_eq verb "HEAD".toList then
    (.HS_CONTINUE, { k with request := { k.request with verb := .VERB_HEAD } })
  else httpd_error env k errmode 501 ("Unsupported verb '".toList ++ verb ++ "'.".toList)

/-- The request buffer for the request line `GET / HTTP/1.0` and the header
line `H:` followed by `n` letters `a`, as it is handed to
`httpd_digest_request`: the separators and the newline of the first line
overwritten by NULs, a NUL behind the empty line. The header line starts at
index 15. -/
def big_request (n : Nat) : Bytes :=
  "GET".toList ++ [NUL] ++ "/".toList ++ [NUL] ++ "HTTP/1.0".toList ++ [NUL] ++
    ("H:".toList ++ (List.replicate n 'a' ++ ['\n', '\n', NUL]))

/-- A request with a header `X` whose value has a space at index 46 of the
request buffer. -/
def padded_request : Bytes :=
  "GET /p HTTP/1.1\nHost: ab\nX: aaaaaaaaaaaaaaaaaa bbbbbbbb\n\n".toList

/-- A request that asks for the connection to be closed. -/
def closing_request : Bytes := "GET /p HTTP/1.1\nHost: ab\nConnection: close\n\n".toList

/-- The connection `h` with the input trace offset set to `n`. -/
def set_it (n : Nat) (h : httpd_t) : httpd_t :=
  { h with request := { h.request with it_offset := n } }

/-- The connection `h` with the flag `cr` set to `b` and the input trace
offset set to `n`. -/
def adj (b : Bool) (n : Nat) (h : httpd_t) : httpd_t :=
  { h with cr := b, request := { h.request with it_offset := n } }

/-- A result of the input functions with the connection adjusted by `adj`. -/
def adj_res (b : Bool) (n : Nat) (r : httpd_status_t × httpd_t × registry) :
    httpd_status_t × httpd_t × registry :=
  (r.1, adj b n r.2.1, r.2.2)

/-- A result of `httpd_digest_request_head` with the connection adjusted by
`adj`. -/
def adj_head (b : Bool) (n : Nat) : head_result → head_result
  | .reply status h => .reply status (adj b n h)
  | .dispatch h uri => .dispatch (adj b n h) uri

/-- The part of `httpd_input_char` behind the CR/LF processing: the size
check, the store of the byte `c` and the check for a newline, on the
connection `h1` in which the flag `cr` has been updated. -/
def input_char_store (env : Env) (h1 : httpd_t) (regs : registry) (c : Char) :
    Option (httpd_status_t × httpd_t × registry) :=
  if MAX_HTTPD_REQUEST ≤ h1.request.nr then
    let e := httpd_error env h1
      (if h1.request.saw_first then .ERRMODE_FATAL else .ERRMODE_NON_HTTP) 400
      "The request is too big.".toList
    some (e.1, e.2, regs)
  else
    let h2 : httpd_t := { h1 with request := { h1.request with
      request_buf := buf_set h1.request.request_buf h1.request.nr c
      nr := h1.request.nr + 1 } }
    if c = '\n' then
      if h2.request.rll = 0 then
        if !h2.request.saw_first then
          let e := httpd_error env h2 .ERRMODE_FATAL 400 "Missing request.".toList
          some (e.1, e.2, regs)
        else
          httpd_digest_request env
            { h2 with request := { h2.request with
              request_buf := buf_set h2.request.request_buf h2.request.nr NUL } } regs
      else
        let h3 : httpd_t := { h2 with request := { h2.request with rll := 0 } }
        if !h3.request.saw_first then
          let e := httpd_digest_request_line env
            { h3 with request := { h3.request with
              request_buf := buf_set h3.request.request_buf (h3.request.nr - 1) NUL
              fields_start := some h3.request.nr
              saw_first := true } }
          some (e.1, e.2, regs)
        else some (.HS_CONTINUE, h3, regs)
    else
      some (.HS_CONTINUE, { h2 with request := { h2.request with rll := h2.request.rll + 1 } },
        regs)

/-- How the byte `new` found in the request buffer relates to the byte `old`
stored there: it is that byte, or, when the request line was still awaited
(`saw_first` false) and the byte is a separator or a newline, the NUL that
the validation of the request line puts in its place. -/
def kept (saw_first : Bool) (old new : Char) : Prop :=
  new = old ∨ (saw_first = false ∧ new = NUL ∧ (is_sep old = true ∨ old = '\n'))

/-- The lines `lines`, each followed by the line end `eol`. -/
def with_eol (eol : Bytes) : List Bytes → Bytes
  | [] => []
  | l :: ls => l ++ eol ++ with_eol eol ls

/-- The input with every pair CR LF collapsed to one LF and every other CR
turned into LF; all other bytes stay. -/
def crlf_collapse : Bytes → Bytes
  | [] => []
  | c :: s =>
    if c = '\r' then
      match s with
      | [] => ['\n']
      | d :: t => if d = '\n' then '\n' :: crlf_collapse t else '\n' :: crlf_collapse (d :: t)
    else c :: crlf_collapse s

/-- The buffer `b` has the length of the buffer `a` and newlines where `a` has
them. -/
def same_lines (a b : Bytes) : Prop :=
  b.length = a.length ∧ ∀ j, buf_get b j = '\n' ↔ buf_get a j = '\n'

/-- What the processing of a request may do to the fields that the byte
ingestion works with: the buffer keeps its length and its newlines, and the
byte count, the line length and the start of the fields are either kept or
reset by `httpd_reinit_request`. -/
def ingest_frame (h k : httpd_t) : Prop :=
  same_lines h.request.request_buf k.request.request_buf ∧
    ((k.request.nr = h.request.nr ∧ k.request.rll = h.request.rll ∧
        k.request.fields_start = h.request.fields_start) ∨
      (k.request.nr = 0 ∧ k.request.rll = 0 ∧ k.request.fields_start = none))

/-- Whether the next byte of the connection starts a line: nothing is
buffered, or the last byte buffered is a newline, or the request line has just
been validated (its newline is then a NUL and the fields start here). -/
def at_line_start (h : httpd_t) : Prop :=
  h.request.nr = 0 ∨ buf_get h.request.request_buf (h.request.nr - 1) = '\n' ∨
    h.request.fields_start = some h.request.nr

/-- The invariant of the byte ingestion: the byte count is at most
`MAX_HTTPD_REQUEST`, the buffer has at most `MAX_HTTPD_REQUEST + 1` bytes (a
store at an index makes the modelled buffer longer than that index, so every
store was below this bound), the line length is zero exactly at the start of
a line, and the fields start inside the buffered bytes. -/
def ingest_inv (h : httpd_t) : Prop :=
  h.request.nr ≤ MAX_HTTPD_REQUEST ∧
    h.request.request_buf.length ≤ MAX_HTTPD_REQUEST + 1 ∧
    (h.request.rll = 0 ↔ at_line_start h) ∧
    (∀ f, h.request.fields_start = some f → f ≤ h.request.nr)

/-- The connection states that calls of `httpd_input` reach from a fresh
connection, with any data and any registry at each call. -/
inductive reachable (env : Env) : httpd_t → Prop where
  | fresh (dhandle mhandle seq : Nat) : reachable env (httpd_new dhandle mhandle seq)
  | input (h : httpd_t) (regs : registry) (data : Bytes) (st : httpd_status_t) (k : httpd_t)
      (regs1 : registry) : reachable env h →
      httpd_input env h regs data = some (st, k, regs1) → reachable env k

/-- The connection `k` has the handle and the in-flight node of `h`. -/
def node_frame (h k : httpd_t) : Prop :=
  k.request.async_node = h.request.async_node ∧ k.dhandle = h.dhandle

/-- The busy markers of the registry agree with the connection `h`: an entry
names `h` as its busy holder if and only if the request of `h` references
that entry as its in-flight node. -/
def bound (h : httpd_t) (regs : registry) : Prop :=
  ∀ p reg, reg_deref regs p = some reg →
    (reg.async_session = some h.dhandle ↔ h.request.async_node = some p)

/-- Only dynamic entries of the registry are busy. -/
def dyn_busy_only (regs : registry) : Prop :=
  ∀ p reg, reg_deref regs p = some reg → reg.async_session ≠ none →
    (reg.type = .OR_DYN_TERM ∨ reg.type = .OR_DYN_NONTERM)

/-- A step from the connection `h` and the registry `regs` to `k` and `regs1`
that keeps the busy markers in agreement with the connections: with `h`
itself, and with every other connection. -/
def keeps_bound (h : httpd_t) (regs : registry) (k : httpd_t) (regs1 : registry) : Prop :=
  k.dhandle = h.dhandle ∧ (bound h regs → bound k regs1) ∧
    (∀ g : httpd_t, g.dhandle ≠ h.dhandle → bound h regs → bound g regs → bound g regs1) ∧
    (dyn_busy_only regs → dyn_busy_only regs1)

/-- The states of a server, its connections and its registry, that are
reached from connections without a request in flight and a registry without a
busy entry by calls of `httpd_input` on a connection that has no request in
flight, and by the completion calls `httpd_dyn_complete` and
`httpd_dyn_error`. -/
inductive served (env : Env) : List httpd_t → registry → Prop where
  | init (conns : List httpd_t) (regs : registry) :
      (∀ h ∈ conns, h.request.async_node = none) →
      conns.Pairwise (fun a b => a.dhandle ≠ b.dhandle) →
      (∀ reg ∈ regs, reg.async_session = none) → served env conns regs
  | input (pre post : List httpd_t) (h k : httpd_t) (regs regs1 : registry) (data : Bytes)
      (st : httpd_status_t) : served env (pre ++ h :: post) regs →
      h.request.async_node = none →
      httpd_input env h regs data = some (st, k, regs1) →
      served env (pre ++ k :: post) regs1
  | complete (pre post : List httpd_t) (h k : httpd_t) (regs regs1 : registry) (text : Bytes)
      (st : httpd_status_t) : served env (pre ++ h :: post) regs →
      httpd_dyn_complete env h regs text = some (st, k, regs1) →
      served env (pre ++ k :: post) regs1
  | error (pre post : List httpd_t) (h k : httpd_t) (regs regs1 : registry) (code : Int)
      (text : Bytes) (st : httpd_status_t) : served env (pre ++ h :: post) regs →
      httpd_dyn_error env h regs code text = some (st, k, regs1) →
      served env (pre ++ k :: post) regs1

/-- A registry with two dynamic objects, `/a` (pointer 0) and `/b`
(pointer 1). -/
def two_dyn_registry : registry :=
  (httpd_register_dyn_term
    (httpd_register_dyn_term [] "/a".toList "A".toList .CT_TEXT "text/plain".toList 0 0).2
    "/b".toList "B".toList .CT_TEXT "text/plain".toList 0 1).2

/-- The connection 7 asks for `/a`, which stays pending. -/
def asked_a : Option (httpd_status_t × httpd_t × registry) :=
  httpd_input sample_env conn7 two_dyn_registry "GET /a HTTP/1.0\n\n".toList

/-- The pending connection is fed one more newline. -/
def asked_again : Option (httpd_status_t × httpd_t × registry) :=
  httpd_input sample_env (result_conn asked_a) (result_regs asked_a) "\n".toList

/-- The connection then asks for `/b`. -/
def asked_b : Option (httpd_status_t × httpd_t × registry) :=
  httpd_input sample_env (result_conn asked_again) (result_regs asked_again)
    "GET /b HTTP/1.0\n\n".toList

/-- The request state that `httpd_reinit_request` is to leave, field by
field. -/
def reinitialized (r : request_t) : Prop :=
  r.nr = 0 ∧ r.saw_first = false ∧ r.rll = 0 ∧ r.http_1_0 = false ∧ r.persistent = true ∧
    r.fields = [] ∧ r.fields_start = none ∧ r.queries = [] ∧ r.print_buf = [] ∧
    r.verb = .VERB_OTHER ∧ r.it_offset = 0 ∧ r.ot_offset = 0

/-- The request `GET /p HTTP/1.1` with the header lines `Host: abc`,
`Connection: close` and `A:  bcd`, as `httpd_digest_request` finds it. -/
def truncated_close_request : httpd_t :=
  digest_state ("GET".toList ++ [NUL] ++ "/p".toList ++ [NUL] ++ "HTTP/1.1".toList ++ [NUL] ++
    "Host: abc\nConnection: close\nA:  bcd\n\n".toList ++ [NUL]) 4 16 false true

/-- Platform constant `INT_MAX` of limits.h (32-bit `int`): the longest text
that a function of the printf family, which reports the length of its result
as an `int`, can build. -/
def INT_MAX : Nat := 2 ^ 31 - 1

/-- A plain-text fixed object at `path` whose description is `n` newlines. -/
def tall_entry (path : Bytes) (n : Nat) : httpd_reg_t :=
  { httpd_reg_zero with
    path := path, desc := List.replicate n '\n', type := .OR_FIXED, content_type := .CT_TEXT,
    content_str := "text/plain".toList, flags := 0, fixed := "hello".toList }

/-- The registry after two fixed objects have been registered, at `/a` and at
`/b`, each with a description of `n` newlines. -/
def tall_registry (n : Nat) : registry :=
  (httpd_register_fixed
    (httpd_register_fixed [] "/a".toList (List.replicate n '\n') .CT_TEXT "text/plain".toList 0
      "hello".toList).2
    "/b".toList (List.replicate n '\n') .CT_TEXT "text/plain".toList 0 "hello".toList).2

/-- The connection on which the request line `GET / HTTP/1.0` has been read,
the first of the two blank-line newlines being still to come. -/
def root_request : httpd_t :=
  result_conn (httpd_input_loop sample_env
    { fresh with request := { fresh.request with it_offset := 16 } } []
    "GET / HTTP/1.0\n".toList)

/-- The connection with which `httpd_digest_request` searches the registry for
the request `GET / HTTP/1.0`. -/
def listing_conn : httpd_t :=
  dispatched_conn (httpd_digest_request_head sample_env
    { root_request with request := { root_request.request with
      request_buf := buf_set (buf_set root_request.request.request_buf 15 '\n') 16 NUL
      nr := 16 } }) fresh

/-! ## Lemmas -/

theorem hex_digit_eq (c : Char) (hc : c ≠ NUL) :
    hex_digit c = if is_hex c then (hex_value c : Int) else -1 := by
  by_cases h : c ∈ "0123456789abcdefABCDEF".toList
  · simp only [String.toList, List.mem_cons, List.mem_singleton, List.not_mem_nil, or_false] at h
    rcases h with h | h | h | h | h | h | h | h | h | h | h | h | h | h | h | h | h | h | h | h | h | h <;>
      subst h <;> decide
  · have h2 : is_hex c = false := by
      simpa [is_hex] using h
    simp only [String.toList, List.mem_cons, List.mem_singleton, List.not_mem_nil, or_false,
      not_or] at h
    obtain ⟨h0, h1, h2', h3, h4, h5, h6, h7, h8, h9, ha, hb, hc', hd, he, hf, hA, hB, hC, hD, hE, hF⟩ := h
    simp [hex_digit, strchr, strchr_from, h2, String.toList, Ne.symm h0, Ne.symm h1, Ne.symm h2',
      Ne.symm h3, Ne.symm h4, Ne.symm h5, Ne.symm h6, Ne.symm h7, Ne.symm h8, Ne.symm h9,
      Ne.symm ha, Ne.symm hb, Ne.symm hc', Ne.symm hd, Ne.symm he, Ne.symm hf, Ne.symm hA,
      Ne.symm hB, Ne.symm hC, Ne.symm hD, Ne.symm hE, Ne.symm hF, hc]

theorem hex_value_lt (c : Char) (h : is_hex c = true) : hex_value c < 16 := by
  have h' : c ∈ "0123456789abcdefABCDEF".toList := by simpa [is_hex] using h
  simp only [String.toList, List.mem_cons, List.mem_singleton, List.not_mem_nil, or_false] at h'
  rcases h' with h | h | h | h | h | h | h | h | h | h | h | h | h | h | h | h | h | h | h | h | h | h <;>
    subst h <;> decide

theorem shift_or_eq (a b : Nat) (ha : a < 16) (hb : b < 16) :
    ((a <<< 4) ||| b) % 256 = 16 * a + b := by
  interval_cases a <;> interval_cases b <;> rfl

theorem well_escaped_cons_ne (c : Char) (rest : Bytes) (h : c ≠ '%') :
    well_escaped (c :: rest) = well_escaped rest := by
  match rest with
  | [] => simp [well_escaped, h]
  | [_] => simp [well_escaped, h]
  | _ :: _ :: _ => simp [well_escaped, h]

theorem unescape_cons_ne (plus : Bool) (c : Char) (rest : Bytes) (h : c ≠ '%') :
    unescape plus (c :: rest) = (if plus && c = '+' then ' ' else c) :: unescape plus rest := by
  match rest with
  | [] => simp [unescape, h]
  | [_] => simp [unescape, h]
  | _ :: _ :: _ => simp [unescape, h]

theorem percent_decode_loop_base (plus : Bool) :
    ∀ (n : Nat) (s : Bytes), s.length ≤ n → NUL ∉ s → ∀ (hex1 : Int) (r : Bytes),
      percent_decode_loop plus .PS_BASE hex1 r s =
        if well_escaped s then some (r ++ unescape plus s) else none := by
  intro n
  induction n with
  | zero =>
    intro s hs _ hex1 r
    have : s = [] := List.length_eq_zero.mp (Nat.le_zero.mp hs)
    subst this
    simp [percent_decode_loop, well_escaped, unescape]
  | succ n ih =>
    intro s hs hnul hex1 r
    match s, hs, hnul with
    | [], _, _ => simp [percent_decode_loop, well_escaped, unescape]
    | c :: rest, hs, hnul =>
      have hrest : NUL ∉ rest := fun h => hnul (List.mem_cons_of_mem _ h)
      have hlen : rest.length ≤ n := by simpa using hs
      by_cases hc : c = '%'
      · subst hc
        match rest, hrest, hlen with
        | [], _, _ => simp [percent_decode_loop, well_escaped]
        | [x], hx, _ =>
          have hxn : x ≠ NUL := fun h => hx (by simp [h])
          by_cases hh : is_hex x = true <;>
            simp [percent_decode_loop, well_escaped, hex_digit_eq x hxn, hh]
        | x :: y :: rest2, hxy, hl =>
          have hxn : x ≠ NUL := fun h => hxy (by simp [h])
          have hyn : y ≠ NUL := fun h => hxy (by simp [h])
          have h2 : NUL ∉ rest2 := fun h => hxy (by simp [h])
          have hl2 : rest2.length ≤ n := by
            simp only [List.length_cons] at hl; omega
          by_cases hhx : is_hex x = true
          · by_cases hhy : is_hex y = true
            · have e := shift_or_eq _ _ (hex_value_lt x hhx) (hex_value_lt y hhy)
              have hx0 : ¬ ((hex_value x : Int) < 0) := by omega
              have hy0 : ¬ ((hex_value y : Int) < 0) := by omega
              simp [percent_decode_loop, well_escaped, unescape, hex_digit_eq x hxn,
                hex_digit_eq y hyn, hhx, hhy, ih rest2 hl2 h2, e, hx0, hy0]
            · have hx0 : ¬ ((hex_value x : Int) < 0) := by omega
              simp [percent_decode_loop, well_escaped, hex_digit_eq x hxn,
                hex_digit_eq y hyn, hhx, hhy, hx0]
          · simp [percent_decode_loop, well_escaped, hex_digit_eq x hxn, hhx]
      · by_cases hp : (plus && c = '+') = true
        · have hp' : plus = true ∧ c = '+' := by simpa using hp
          obtain ⟨hp1, hp2⟩ := hp'
          subst hp1 hp2
          simp [percent_decode_loop, well_escaped_cons_ne _ _ hc, unescape_cons_ne _ _ _ hc,
            ih rest hlen hrest]
        · have hp' : ¬ (plus = true ∧ c = '+') := by simpa using hp
          have e1 : percent_decode_loop plus .PS_BASE hex1 r (c :: rest) =
              percent_decode_loop plus .PS_BASE hex1 (r ++ [c]) rest := by
            simp [percent_decode_loop, hc, hp]
          rw [e1, ih rest hlen hrest]
          simp [well_escaped_cons_ne _ _ hc, unescape_cons_ne _ _ _ hc, hp]

theorem percent_decode_loop_hex1 (plus : Bool) (h1 h2 : Int) :
    ∀ (s r : Bytes),
      percent_decode_loop plus .PS_BASE h1 r s = percent_decode_loop plus .PS_BASE h2 r s ∧
      percent_decode_loop plus .PS_PCT h1 r s = percent_decode_loop plus .PS_PCT h2 r s := by
  intro s
  induction s with
  | nil => intro r; simp [percent_decode_loop]
  | cons c s ih =>
    intro r
    constructor
    · by_cases hc : c = '%'
      · simp [percent_decode_loop, hc, (ih r).2]
      · by_cases hp : (plus && c = '+') = true
        · simp only [percent_decode_loop, hc, hp, if_true, if_false]
          exact (ih _).1
        · simp only [percent_decode_loop, hc, hp, if_false]
          exact (ih _).1
    · simp [percent_decode_loop]

theorem percent_decode_loop_acc (plus : Bool) :
    ∀ (s : Bytes) (st : pd_state) (h : Int) (r : Bytes),
      percent_decode_loop plus st h r s =
        (percent_decode_loop plus st h [] s).map (fun t => r ++ t) := by
  intro s
  induction s with
  | nil => intro st h r; cases st <;> simp [percent_decode_loop]
  | cons c s ih =>
    intro st h r
    cases st with
    | PS_BASE =>
      by_cases hc : c = '%'
      · simp only [percent_decode_loop, hc, if_true]
        exact ih _ _ _
      · by_cases hp : (plus && c = '+') = true
        · simp only [percent_decode_loop, hc, hp, if_true, if_false]
          rw [ih _ _ (r ++ [' ']), ih _ _ ([] ++ [' '])]
          simp [Option.map_map, Function.comp_def]
        · simp only [percent_decode_loop, hc, hp, if_false]
          rw [ih _ _ (r ++ [c]), ih _ _ ([] ++ [c])]
          simp [Option.map_map, Function.comp_def]
    | PS_PCT =>
      by_cases hh : hex_digit c < 0
      · simp [percent_decode_loop, hh]
      · simp only [percent_decode_loop, hh, if_false]
        exact ih _ _ _
    | PS_HEX1 =>
      by_cases hh : hex_digit c < 0
      · simp [percent_decode_loop, hh]
      · simp only [percent_decode_loop, hh, if_false]
        rw [ih _ _ (r ++ _), ih _ _ ([] ++ _)]
        simp [Option.map_map, Function.comp_def]

theorem percent_decode_loop_append (plus : Bool) :
    ∀ (a : Bytes) (st : pd_state) (h : Int) (r x : Bytes),
      percent_decode_loop plus st h r a = some x →
      ∀ t : Bytes, percent_decode_loop plus st h r (a ++ t) =
        percent_decode_loop plus .PS_BASE 0 x t := by
  intro a
  induction a with
  | nil =>
    intro st h r x hx t
    cases st with
    | PS_BASE =>
      simp [percent_decode_loop] at hx
      subst hx
      simpa using (percent_decode_loop_hex1 plus h 0 t r).1
    | PS_PCT => simp [percent_decode_loop] at hx
    | PS_HEX1 => simp [percent_decode_loop] at hx
  | cons c a ih =>
    intro st h r x hx t
    cases st with
    | PS_BASE =>
      by_cases hc : c = '%'
      · simp only [percent_decode_loop, hc, if_true, List.cons_append] at hx ⊢
        exact ih _ _ _ _ hx t
      · by_cases hp : (plus && c = '+') = true
        · simp only [percent_decode_loop, hc, hp, if_true, if_false, List.cons_append] at hx ⊢
          exact ih _ _ _ _ hx t
        · simp only [percent_decode_loop, hc, hp, if_false, List.cons_append] at hx ⊢
          exact ih _ _ _ _ hx t
    | PS_PCT =>
      by_cases hh : hex_digit c < 0
      · simp [percent_decode_loop, hh] at hx
      · simp only [percent_decode_loop, hh, if_false, List.cons_append] at hx ⊢
        exact ih _ _ _ _ hx t
    | PS_HEX1 =>
      by_cases hh : hex_digit c < 0
      · simp [percent_decode_loop, hh] at hx
      · simp only [percent_decode_loop, hh, if_false, List.cons_append] at hx ⊢
        exact ih _ _ _ _ hx t

theorem hex_digit_plus_to_space (c : Char) (hc : c = '+') :
    hex_digit c < 0 ∧ hex_digit (plus_to_space c) < 0 := by
  subst hc; decide

theorem percent_decode_loop_plus :
    ∀ (s : Bytes) (st : pd_state) (h : Int) (r : Bytes),
      percent_decode_loop true st h r s =
        percent_decode_loop false st h r (s.map plus_to_space) := by
  intro s
  induction s with
  | nil => intro st h r; cases st <;> simp [percent_decode_loop]
  | cons c s ih =>
    intro st h r
    by_cases hplus : c = '+'
    · subst hplus
      cases st with
      | PS_BASE =>
        have e : plus_to_space '+' = ' ' := by decide
        simp only [List.map_cons, e]
        have e1 : percent_decode_loop true .PS_BASE h r ('+' :: s) =
            percent_decode_loop true .PS_BASE h (r ++ [' ']) s := by
          simp [percent_decode_loop]
        have e2 : percent_decode_loop false .PS_BASE h r (' ' :: s.map plus_to_space) =
            percent_decode_loop false .PS_BASE h (r ++ [' ']) (s.map plus_to_space) := by
          simp [percent_decode_loop]
        rw [e1, e2]; exact ih _ _ _
      | PS_PCT =>
        have := hex_digit_plus_to_space '+' rfl
        simp [percent_decode_loop, this.1, this.2]
      | PS_HEX1 =>
        have := hex_digit_plus_to_space '+' rfl
        simp [percent_decode_loop, this.1, this.2]
    · have e : plus_to_space c = c := by simp [plus_to_space, hplus]
      simp only [List.map_cons, e]
      cases st with
      | PS_BASE =>
        by_cases hc : c = '%'
        · simp only [percent_decode_loop, hc, if_true]
          exact ih _ _ _
        · have hp1 : (true && decide (c = '+')) = false := by simp [hplus]
          have hp2 : (false && decide (c = '+')) = false := by simp
          simp only [percent_decode_loop, hc, hp1, hp2, if_false, Bool.false_eq_true]
          exact ih _ _ _
      | PS_PCT =>
        by_cases hh : hex_digit c < 0
        · simp [percent_decode_loop, hh]
        · simp only [percent_decode_loop, hh, if_false]
          exact ih _ _ _
      | PS_HEX1 =>
        by_cases hh : hex_digit c < 0
        · simp [percent_decode_loop, hh]
        · simp only [percent_decode_loop, hh, if_false]
          exact ih _ _ _

theorem percent_decode_loop_isSome (p q : Bool) :
    ∀ (s : Bytes) (st : pd_state) (h : Int) (r r2 : Bytes),
      (percent_decode_loop p st h r s).isSome = (percent_decode_loop q st h r2 s).isSome := by
  intro s
  induction s with
  | nil => intro st h r r2; cases st <;> simp [percent_decode_loop]
  | cons c s ih =>
    intro st h r r2
    cases st with
    | PS_BASE =>
      by_cases hc : c = '%'
      · simp only [percent_decode_loop, hc, if_true]
        exact ih _ _ _ _
      · simp only [percent_decode_loop, hc, if_false]
        split <;> split <;> exact ih _ _ _ _
    | PS_PCT =>
      by_cases hh : hex_digit c < 0
      · simp [percent_decode_loop, hh]
      · simp only [percent_decode_loop, hh, if_false]
        exact ih _ _ _ _
    | PS_HEX1 =>
      by_cases hh : hex_digit c < 0
      · simp [percent_decode_loop, hh]
      · simp only [percent_decode_loop, hh, if_false]
        exact ih _ _ _ _

theorem percent_decode_loop_plain :
    ∀ (s r : Bytes) (h : Int), '%' ∉ s →
      percent_decode_loop false .PS_BASE h r s = some (r ++ s) := by
  intro s
  induction s with
  | nil => intro r h _; simp [percent_decode_loop]
  | cons c s ih =>
    intro r h hs
    have hc : c ≠ '%' := fun e => hs (by simp [e])
    have hs' : '%' ∉ s := fun e => hs (List.mem_cons_of_mem _ e)
    simp [percent_decode_loop, hc, ih _ _ hs']

theorem crlf_append (a b : Bytes) : crlf (a ++ b) = crlf a ++ crlf b := by
  induction a with
  | nil => rfl
  | cons c a ih => by_cases hc : c = '\n' <;> simp [crlf, hc, ih]

theorem crlf_of_no_newline : ∀ a : Bytes, (∀ c ∈ a, c ≠ '\n') → crlf a = a := by
  intro a
  induction a with
  | nil => intro _; rfl
  | cons c a ih =>
    intro h
    have hc : c ≠ '\n' := h c (List.mem_cons_self _ _)
    have ha : ∀ x ∈ a, x ≠ '\n' := fun x hx => h x (List.mem_cons_of_mem _ hx)
    simp [crlf, hc, ih ha]

theorem append_buf_nil (h : httpd_t) : append_buf h [] = h := by
  simp [append_buf]

theorem append_buf_append (h : httpd_t) (a b : Bytes) :
    append_buf (append_buf h a) b = append_buf h (a ++ b) := by
  simp [append_buf]

theorem httpd_print_buf_buffer (h : httpd_t) (t : Bytes) :
    httpd_print_buf h .HP_BUFFER t = append_buf h t := by
  simp [httpd_print_buf, append_buf]

theorem split_at_newline (sp : Bytes) :
    sp = sp.takeWhile (fun c => c != '\n') ++ sp.drop (sp.takeWhile (fun c => c != '\n')).length ∧
    (∀ c ∈ sp.takeWhile (fun c => c != '\n'), c ≠ '\n') ∧
    ((sp.takeWhile (fun c => c != '\n')).length < sp.length →
      ∃ rest, sp.drop (sp.takeWhile (fun c => c != '\n')).length = '\n' :: rest) := by
  induction sp with
  | nil => simp
  | cons c sp ih =>
    by_cases hc : c = '\n'
    · rw [List.takeWhile_cons]; simp [hc]
    · obtain ⟨h1, h2, h3⟩ := ih
      have e : List.takeWhile (fun c => c != '\n') (c :: sp) =
          c :: List.takeWhile (fun c => c != '\n') sp := by
        rw [List.takeWhile_cons]; simp [hc]
      rw [e]
      refine ⟨?_, ?_, ?_⟩
      · simp only [List.length_cons, List.drop_succ_cons, List.cons_append]
        rw [← h1]
      · intro x hx
        rcases List.mem_cons.mp hx with hx | hx
        · exact hx ▸ hc
        · exact h2 x hx
      · intro hlt
        simp only [List.length_cons, List.drop_succ_cons] at hlt ⊢
        exact h3 (by omega)

theorem httpd_vprint_loop_nil (type : httpd_print_t) (fuel : Nat) (h : httpd_t) :
    httpd_vprint_loop type fuel h [] = h := by
  cases fuel <;> simp [httpd_vprint_loop]

theorem httpd_vprint_loop_buffer :
    ∀ (fuel : Nat) (sp : Bytes) (h : httpd_t), sp.length ≤ fuel →
      httpd_vprint_loop .HP_BUFFER fuel h sp = append_buf h (crlf sp) := by
  intro fuel
  induction fuel with
  | zero =>
    intro sp h hs
    have : sp = [] := List.length_eq_zero.mp (Nat.le_zero.mp hs)
    subst this
    simp [httpd_vprint_loop, crlf, append_buf_nil]
  | succ fuel ih =>
    intro sp h hs
    by_cases hnil : sp = []
    · subst hnil; simp [httpd_vprint_loop, crlf, append_buf_nil]
    · have hlen : sp.length ≠ 0 := fun e => hnil (List.length_eq_zero.mp e)
      obtain ⟨hsplit, hno, hnl⟩ := split_at_newline sp
      generalize hb : sp.takeWhile (fun c => c != '\n') = before at hsplit hno hnl
      have hble : before.length ≤ sp.length := by
        have := congrArg List.length hsplit
        simp only [List.length_append] at this
        omega
      rw [httpd_vprint_loop]
      simp only [hlen, if_false, hb, httpd_print_buf_buffer]
      by_cases hlt : before.length < sp.length
      · obtain ⟨rest, hrest⟩ := hnl hlt
        have hsp : sp = before ++ '\n' :: rest := by rw [← hrest]; exact hsplit
        have hfuel : rest.length ≤ fuel := by
          have : sp.length = before.length + (rest.length + 1) := by
            rw [hsp]; simp
          omega
        by_cases hw : before.length = 0
        · have hb0 : before = [] := List.length_eq_zero.mp hw
          subst hb0
          simp only [List.nil_append] at hsp
          subst hsp
          simp [ih rest _ hfuel, crlf, append_buf_append]
        · have hd : (sp.drop before.length).drop 1 = rest := by
            rw [hrest]; rfl
          simp only [hlt, hw, decide_True, if_true, ne_eq, not_false_eq_true, hd]
          rw [ih rest _ hfuel, append_buf_append, append_buf_append, hsp, crlf_append,
            crlf_of_no_newline before hno]
          simp [crlf]
      · have hbe : before.length = sp.length := by omega
        have hsp : sp = before := by
          have := hsplit
          rw [List.drop_of_length_le (by omega)] at this
          simpa using this
        have hw : before.length ≠ 0 := by omega
        have hd : sp.drop before.length = [] := List.drop_of_length_le (by omega)
        simp only [hlt, hw, decide_False, if_true, ne_eq, not_false_eq_true, hd,
          Bool.false_eq_true, if_false, httpd_vprint_loop_nil]
        rw [hsp, crlf_of_no_newline before hno]

theorem httpd_print_buffer (h : httpd_t) (text : Bytes) :
    httpd_print h .HP_BUFFER text = append_buf h (crlf (cstr text)) := by
  simp [httpd_print, httpd_vprint, httpd_vprint_loop_buffer _ _ _ (Nat.le_refl _)]

theorem httpd_vprint_buffer (h : httpd_t) (text : Bytes) :
    httpd_vprint h .HP_BUFFER text = append_buf h (crlf (cstr text)) := by
  simp [httpd_vprint, httpd_vprint_loop_buffer _ _ _ (Nat.le_refl _)]

theorem OutOnly.refl (h : httpd_t) : OutOnly h h :=
  ⟨[], h.request.print_buf, h.request.ot_offset, by simp [with_output]⟩

theorem OutOnly.trans {a b c : httpd_t} (h1 : OutOnly a b) (h2 : OutOnly b c) : OutOnly a c := by
  obtain ⟨m1, p1, o1, e1⟩ := h1
  obtain ⟨m2, p2, o2, e2⟩ := h2
  refine ⟨m1 ++ m2, p2, o2, ?_⟩
  rw [e2, e1]
  simp [with_output]

theorem OutOnly.sent {h k : httpd_t} (o : OutOnly h k) : ∃ more, k.sent = h.sent ++ more := by
  obtain ⟨m, p, ot, e⟩ := o
  exact ⟨m, by rw [e]; rfl⟩

theorem OutOnly.persistent {h k : httpd_t} (o : OutOnly h k) :
    k.request.persistent = h.request.persistent := by
  obtain ⟨m, p, ot, e⟩ := o
  rw [e]; rfl

theorem OutOnly.verb {h k : httpd_t} (o : OutOnly h k) : k.request.verb = h.request.verb := by
  obtain ⟨m, p, ot, e⟩ := o
  rw [e]; rfl

theorem OutOnly.append_buf (h : httpd_t) (t : Bytes) : OutOnly h (append_buf h t) :=
  ⟨[], h.request.print_buf ++ t, h.request.ot_offset, by simp [with_output, Httpd.append_buf]⟩

theorem OutOnly.send (h : httpd_t) (b : Bytes) : OutOnly h (httpd_send h b) :=
  ⟨[b], h.request.print_buf, h.request.ot_offset + b.length, by simp [with_output, httpd_send]⟩

theorem OutOnly.print_buf (h : httpd_t) (type : httpd_print_t) (b : Bytes) :
    OutOnly h (httpd_print_buf h type b) := by
  unfold httpd_print_buf
  split
  · exact OutOnly.send h b
  · exact OutOnly.append_buf h b

theorem OutOnly.vprint_loop (type : httpd_print_t) :
    ∀ (fuel : Nat) (h : httpd_t) (sp : Bytes), OutOnly h (httpd_vprint_loop type fuel h sp) := by
  intro fuel
  induction fuel with
  | zero => intro h sp; simp [httpd_vprint_loop, OutOnly.refl]
  | succ fuel ih =>
    intro h sp
    rw [httpd_vprint_loop]
    split
    · exact OutOnly.refl h
    · have o1 : OutOnly h (if (sp.takeWhile (fun c => c != '\n')).length ≠ 0 then
          httpd_print_buf h type (sp.takeWhile (fun c => c != '\n')) else h) := by
        split
        · exact OutOnly.print_buf _ _ _
        · exact OutOnly.refl h
      simp only []
      split
      · exact o1.trans ((OutOnly.print_buf _ _ _).trans (ih _ _))
      · exact o1.trans (ih _ _)

theorem OutOnly.print (h : httpd_t) (type : httpd_print_t) (text : Bytes) :
    OutOnly h (httpd_print h type text) :=
  OutOnly.vprint_loop type _ h _

theorem OutOnly.vprint (h : httpd_t) (type : httpd_print_t) (text : Bytes) :
    OutOnly h (httpd_vprint h type text) :=
  OutOnly.vprint_loop type _ h _

theorem OutOnly.content_len (h : httpd_t) (len : Nat) : OutOnly h (httpd_content_len h len) :=
  OutOnly.send h _

theorem OutOnly.print_dump (h : httpd_t) (type : dump_t) : OutOnly h (httpd_print_dump h type) := by
  have o1 : OutOnly h (if type = .DUMP_WITH_LENGTH then
      httpd_content_len h h.request.print_buf.length else h) := by
    split
    · exact OutOnly.content_len _ _
    · exact OutOnly.refl h
  have step2 : ∀ k : httpd_t, OutOnly k (if k.request.print_buf.length ≠ 0 then
      httpd_send k k.request.print_buf else k) := by
    intro k
    split
    · exact OutOnly.send _ _
    · exact OutOnly.refl k
  have key : ∀ k : httpd_t, OutOnly k { k with request := { k.request with print_buf := [] } } :=
    fun k => ⟨[], [], k.request.ot_offset, by simp [with_output]⟩
  exact o1.trans ((step2 _).trans (key _))

theorem OutOnly.html_trailer (env : Env) (h : httpd_t) (type : httpd_print_t) :
    OutOnly h (httpd_html_trailer env h type) := by
  unfold httpd_html_trailer
  exact (OutOnly.print _ _ _).trans ((OutOnly.print _ _ _).trans
    ((OutOnly.print _ _ _).trans (OutOnly.print _ _ _)))

theorem header_text_ne_nil (env : Env) (location : Option Bytes) (status_code : Int)
    (do_close : Bool) (content_type : Bytes) :
    header_text env location status_code do_close content_type ≠ [] := by
  unfold header_text
  have : crlf (cstr ("HTTP/1.1 ".toList ++ fmt_d status_code ++ " ".toList ++
      status_text status_code ++ ['\n'])) ≠ [] := by
    simp [cstr, crlf, NUL]
  intro e
  exact this (List.append_eq_nil.mp e).1

theorem httpd_print_dump_append_buf (k : httpd_t) (T : Bytes) (hT : T ≠ []) :
    httpd_print_dump (append_buf k T) .DUMP_WITHOUT_LENGTH =
      with_output k (k.sent ++ [k.request.print_buf ++ T]) []
        (k.request.ot_offset + (k.request.print_buf ++ T).length) := by
  simp [httpd_print_dump, append_buf, httpd_send, with_output, hT]

theorem httpd_http_header_eq (env : Env) (h : httpd_t) (status_code : Int) (do_close : Bool)
    (content_type : Bytes) :
    httpd_http_header env h status_code do_close content_type =
      with_output h
        (h.sent ++ [h.request.print_buf ++
          header_text env h.request.location status_code do_close content_type]) []
        (h.request.ot_offset + (h.request.print_buf ++
          header_text env h.request.location status_code do_close content_type).length) := by
  have hne := header_text_ne_nil env h.request.location status_code do_close content_type
  rw [← httpd_print_dump_append_buf h _ hne]
  unfold httpd_http_header header_text
  simp only [httpd_print_buffer]
  congr 1
  cases do_close <;> cases hl : h.request.location <;>
    simp only [append_buf_append, Bool.false_eq_true, if_false, if_true, append_buf, hl,
      List.append_assoc, List.nil_append] <;>
    (try split) <;> simp [append_buf]

theorem with_output_sent (h : httpd_t) (s : List Bytes) (pb : Bytes) (ot : Nat) :
    (with_output h s pb ot).sent = s := rfl

theorem OutOnly.of_header (env : Env) (h : httpd_t) (status_code : Int) (do_close : Bool)
    (content_type : Bytes) :
    OutOnly h (httpd_http_header env h status_code do_close content_type) := by
  rw [httpd_http_header_eq]
  exact ⟨_, _, _, rfl⟩

/-- What `httpd_verror` does: output only, then the closing decision. -/
theorem httpd_verror_spec (env : Env) (h : httpd_t) (mode : errmode_t) (status_code : Int)
    (verb : verb_t) (text : Bytes) :
    ∃ k : httpd_t, OutOnly h k ∧
      (mode ≠ .ERRMODE_NON_HTTP → ∃ more, k.sent = h.sent ++
        (h.request.print_buf ++ header_text env h.request.location status_code
          (mode.toNat ≤ errmode_t.ERRMODE_FATAL.toNat)
          "text/html; charset=iso8859-1".toList) :: more) ∧
      httpd_verror env h mode status_code verb text =
        if mode.toNat ≤ errmode_t.ERRMODE_FATAL.toNat || !h.request.persistent then
          (.HS_ERROR_CLOSE, k)
        else (.HS_ERROR_OPEN, k.reinit) := by
  -- the header
  have o1 : OutOnly h (if mode ≠ .ERRMODE_NON_HTTP then
      httpd_http_header env h status_code (mode.toNat ≤ errmode_t.ERRMODE_FATAL.toNat)
        "text/html; charset=iso8859-1".toList else h) := by
    split
    · exact OutOnly.of_header _ _ _ _ _
    · exact OutOnly.refl h
  have s1 : mode ≠ .ERRMODE_NON_HTTP → (if mode ≠ .ERRMODE_NON_HTTP then
      httpd_http_header env h status_code (mode.toNat ≤ errmode_t.ERRMODE_FATAL.toNat)
        "text/html; charset=iso8859-1".toList else h).sent = h.sent ++
        [h.request.print_buf ++ header_text env h.request.location status_code
          (mode.toNat ≤ errmode_t.ERRMODE_FATAL.toNat)
          "text/html; charset=iso8859-1".toList] := by
    intro hm
    rw [if_pos hm, httpd_http_header_eq]
    rfl
  generalize hh1 : (if mode ≠ .ERRMODE_NON_HTTP then
      httpd_http_header env h status_code (mode.toNat ≤ errmode_t.ERRMODE_FATAL.toNat)
        "text/html; charset=iso8859-1".toList else h) = h1 at o1 s1
  have step2 : ∀ k : httpd_t, OutOnly k
      (if mode = .ERRMODE_NON_HTTP then httpd_print k .HP_BUFFER ['\n'] else k) := by
    intro k
    split
    · exact OutOnly.print _ _ _
    · exact OutOnly.refl k
  have step3 : ∀ k : httpd_t, OutOnly k
      (if verb ≠ .VERB_HEAD then
        httpd_print_dump
          (httpd_print (httpd_html_trailer env (httpd_vprint
            (httpd_print (httpd_print (httpd_print (httpd_print (httpd_print (httpd_print
              (httpd_print k .HP_BUFFER doctype_line) .HP_BUFFER "<HTML>\n".toList)
              .HP_BUFFER " <HEAD>\n".toList) .HP_BUFFER
              ("  <TITLE>".toList ++ fmt_d status_code ++ " ".toList ++
                status_text status_code ++ "</TITLE>\n".toList))
              .HP_BUFFER " </HEAD>\n".toList) .HP_BUFFER " <BODY>\n".toList) .HP_BUFFER
              (" <H1>".toList ++ fmt_d status_code ++ " ".toList ++ status_text status_code ++
                "</H1>\n".toList)) .HP_BUFFER text) .HP_BUFFER) .HP_BUFFER "</HTML>\n".toList)
          (if errmode_t.ERRMODE_NON_HTTP.toNat < mode.toNat then .DUMP_WITH_LENGTH
           else .DUMP_WITHOUT_LENGTH)
      else k) := by
    intro k
    split
    · refine OutOnly.trans ?_ (OutOnly.print_dump _ _)
      refine OutOnly.trans ?_ (OutOnly.print _ _ _)
      refine OutOnly.trans ?_ (OutOnly.html_trailer _ _ _)
      refine OutOnly.trans ?_ (OutOnly.vprint _ _ _)
      exact (OutOnly.print _ _ _).trans ((OutOnly.print _ _ _).trans ((OutOnly.print _ _ _).trans
        ((OutOnly.print _ _ _).trans ((OutOnly.print _ _ _).trans
          ((OutOnly.print _ _ _).trans (OutOnly.print _ _ _))))))
    · exact OutOnly.refl k
  have o3 := (step2 h1).trans (step3 _)
  refine ⟨_, o1.trans o3, ?_, ?_⟩
  · intro hm
    obtain ⟨more, hmore⟩ := o3.sent
    exact ⟨more, by rw [hmore, s1 hm]; simp⟩
  · have hp := (o1.trans o3).persistent
    unfold httpd_verror
    simp only [hh1]
    rw [hp]

theorem cstr_of_no_nul : ∀ (s : Bytes), NUL ∉ s → cstr s = s := by
  intro s
  induction s with
  | nil => intro _; rfl
  | cons c s ih =>
    intro h
    have hc : c ≠ NUL := fun e => h (by simp [e])
    have hs : NUL ∉ s := fun e => h (List.mem_cons_of_mem _ e)
    simp [cstr, hc, ih hs]

theorem html_quote_eq_flatMap : ∀ t : Bytes, html_quote t = (cstr t).flatMap html_quote_char := by
  intro t
  induction t with
  | nil => simp [html_quote, cstr]
  | cons c t ih =>
    by_cases h0 : c = NUL
    · simp [html_quote, cstr, h0]
    · have e : html_quote (c :: t) = html_quote_char c ++ html_quote t := by
        simp only [html_quote, h0, if_false, html_quote_char]
        split
        · rfl
        · split
          · rfl
          · split
            · rfl
            · split <;> rfl
      rw [e, ih]
      simp [cstr, h0]

theorem html_quote_char_clean (c x : Char) (hx : x = '<' ∨ x = '>' ∨ x = DQUOTE) :
    x ∉ html_quote_char c := by
  unfold html_quote_char
  split
  · rcases hx with h | h | h <;> subst h <;> decide
  · split
    · rcases hx with h | h | h <;> subst h <;> decide
    · split
      · rcases hx with h | h | h <;> subst h <;> decide
      · split
        · rcases hx with h | h | h <;> subst h <;> decide
        · rename_i ha hb hc hd
          simp only [List.mem_singleton]
          rcases hx with h | h | h
          · intro e; exact hb (e ▸ h)
          · intro e; exact hc (e ▸ h)
          · intro e; exact hd (e ▸ h)

/-- The status line as `httpd_http_header` writes it. -/
theorem header_text_starts (env : Env) (location : Option Bytes) (status_code : Int)
    (do_close : Bool) (content_type : Bytes) :
    ∃ rest, header_text env location status_code do_close content_type =
      crlf (cstr ("HTTP/1.1 ".toList ++ fmt_d status_code ++ " ".toList ++
        status_text status_code ++ ['\n'])) ++ rest :=
  ⟨_, rfl⟩

theorem status_line_200 :
    crlf (cstr ("HTTP/1.1 ".toList ++ fmt_d 200 ++ " ".toList ++ status_text 200 ++ ['\n'])) =
      "HTTP/1.1 200 OK\r\n".toList := by decide

theorem status_line_400 :
    crlf (cstr ("HTTP/1.1 ".toList ++ fmt_d 400 ++ " ".toList ++ status_text 400 ++ ['\n'])) =
      "HTTP/1.1 400 Bad Request\r\n".toList := by decide

theorem status_line_404 :
    crlf (cstr ("HTTP/1.1 ".toList ++ fmt_d 404 ++ " ".toList ++ status_text 404 ++ ['\n'])) =
      "HTTP/1.1 404 Not Found\r\n".toList := by decide

/-- The first buffer sent by an HTTP-framed `httpd_error`, and its result. -/
theorem httpd_error_spec (env : Env) (h : httpd_t) (mode : errmode_t) (status_code : Int)
    (text : Bytes) (hm : mode ≠ .ERRMODE_NON_HTTP) :
    ∃ (k : httpd_t) (rest : Bytes) (more : List Bytes), OutOnly h k ∧
      k.sent = h.sent ++ (h.request.print_buf ++
        crlf (cstr ("HTTP/1.1 ".toList ++ fmt_d status_code ++ " ".toList ++
          status_text status_code ++ ['\n'])) ++ rest) :: more ∧
      httpd_error env h mode status_code text =
        if mode.toNat ≤ errmode_t.ERRMODE_FATAL.toNat || !h.request.persistent then
          (.HS_ERROR_CLOSE, k)
        else (.HS_ERROR_OPEN, k.reinit) := by
  obtain ⟨k, ok, hs, he⟩ := httpd_verror_spec env h mode status_code h.request.verb text
  obtain ⟨more, hmore⟩ := hs hm
  obtain ⟨rest, hrest⟩ := header_text_starts env h.request.location status_code
    (mode.toNat ≤ errmode_t.ERRMODE_FATAL.toNat) "text/html; charset=iso8859-1".toList
  refine ⟨k, rest, more, ok, ?_, he⟩
  rw [hmore, hrest]
  simp only [List.append_assoc]

theorem reinit_sent (h : httpd_t) : h.reinit.sent = h.sent := rfl

theorem httpd_error_fatal (env : Env) (h : httpd_t) (status_code : Int) (text : Bytes) :
    (httpd_error env h .ERRMODE_FATAL status_code text).1 = .HS_ERROR_CLOSE := by
  obtain ⟨k, rest, more, _, _, he⟩ :=
    httpd_error_spec env h .ERRMODE_FATAL status_code text (by decide)
  rw [he]
  simp [errmode_t.toNat]

/-- What an HTTP-framed `httpd_error` puts on the wire first. -/
theorem httpd_error_sent (env : Env) (h : httpd_t) (mode : errmode_t) (status_code : Int)
    (text : Bytes) (hm : mode ≠ .ERRMODE_NON_HTTP) :
    ∃ (rest : Bytes) (more : List Bytes),
      (httpd_error env h mode status_code text).2.sent = h.sent ++ (h.request.print_buf ++
        crlf (cstr ("HTTP/1.1 ".toList ++ fmt_d status_code ++ " ".toList ++
          status_text status_code ++ ['\n'])) ++ rest) :: more := by
  obtain ⟨k, rest, more, _, hs, he⟩ := httpd_error_spec env h mode status_code text hm
  refine ⟨rest, more, ?_⟩
  rw [he]
  split <;> simp [hs, reinit_sent]

theorem finish_success_spec (h : httpd_t) :
    ((finish_success h).1 = .HS_SUCCESS_OPEN ∨ (finish_success h).1 = .HS_SUCCESS_CLOSE) ∧
      (finish_success h).2.sent = h.sent := by
  unfold finish_success
  split <;> simp [reinit_sent]

theorem OutOnly.ite {h a b : httpd_t} (c : Prop) [Decidable c] (ha : OutOnly h a)
    (hb : OutOnly h b) : OutOnly h (if c then a else b) := by
  split
  · exact ha
  · exact hb

theorem OutOnly.html_open (h : httpd_t) (reg : httpd_reg_t) : OutOnly h (html_open h reg) := by
  unfold Httpd.html_open
  exact OutOnly.ite _ ((OutOnly.print _ _ _).trans (OutOnly.print _ _ _)) (OutOnly.refl h)

theorem OutOnly.html_close (env : Env) (h : httpd_t) (reg : httpd_reg_t) :
    OutOnly h (html_close env h reg) := by
  unfold Httpd.html_close
  exact OutOnly.ite _
    ((OutOnly.ite _ (OutOnly.html_trailer _ _ _) (OutOnly.refl h)).trans (OutOnly.print _ _ _))
    (OutOnly.refl h)

theorem OutOnly.reply_content (h : httpd_t) (reg : httpd_reg_t) :
    OutOnly h (reply_content h reg) := by
  unfold Httpd.reply_content
  exact OutOnly.ite _ (OutOnly.print _ _ _)
    (OutOnly.ite _ ((OutOnly.content_len _ _).trans (OutOnly.send _ _)) (OutOnly.refl h))

theorem OutOnly.dirlist_pad : ∀ (n : Nat) (h : httpd_t), OutOnly h (dirlist_pad h n) := by
  intro n
  induction n with
  | zero => intro h; exact OutOnly.refl h
  | succ n ih => intro h; exact (OutOnly.print _ _ _).trans (ih _)

theorem OutOnly.dirlist_row (h : httpd_t) (uri : Bytes) (reg : httpd_reg_t) :
    OutOnly h (dirlist_row h uri reg) := by
  unfold Httpd.dirlist_row
  exact OutOnly.ite _
    ((OutOnly.print _ _ _).trans ((OutOnly.dirlist_pad _ _).trans (OutOnly.print _ _ _)))
    (OutOnly.refl h)

theorem OutOnly.dirlist_rows (uri : Bytes) :
    ∀ (regs : List httpd_reg_t) (h : httpd_t),
      OutOnly h (regs.foldl (fun acc reg => Httpd.dirlist_row acc uri reg) h) := by
  intro regs
  induction regs with
  | nil => intro h; exact OutOnly.refl h
  | cons reg regs ih => intro h; exact (OutOnly.dirlist_row h uri reg).trans (ih _)

/-- A reply that starts with `httpd_http_header` and then only writes output
has sent the header block first. -/
theorem sent_after_header (env : Env) (h k : httpd_t) (status_code : Int) (do_close : Bool)
    (content_type : Bytes)
    (o : OutOnly (httpd_http_header env h status_code do_close content_type) k) :
    OutOnly h k ∧ ∃ rest more, k.sent = h.sent ++ (h.request.print_buf ++
      crlf (cstr ("HTTP/1.1 ".toList ++ fmt_d status_code ++ " ".toList ++
        status_text status_code ++ ['\n'])) ++ rest) :: more := by
  refine ⟨(OutOnly.of_header _ _ _ _ _).trans o, ?_⟩
  obtain ⟨more, hmore⟩ := o.sent
  obtain ⟨rest, hrest⟩ := header_text_starts env h.request.location status_code do_close
    content_type
  refine ⟨rest, more, ?_⟩
  rw [hmore, httpd_http_header_eq, with_output_sent, hrest]
  simp

theorem reply_output_spec (env : Env) (h : httpd_t) (reg : httpd_reg_t) :
    OutOnly h (reply_output env h reg) ∧ ∃ rest more, (reply_output env h reg).sent =
      h.sent ++ (h.request.print_buf ++ "HTTP/1.1 200 OK\r\n".toList ++ rest) :: more := by
  rw [← status_line_200]
  apply sent_after_header env h _ 200 (!h.request.persistent) reg.content_str
  unfold reply_output
  exact (OutOnly.print _ _ _).trans (OutOnly.ite _ (OutOnly.print _ _ _)
    ((OutOnly.html_open _ _).trans ((OutOnly.reply_content _ _).trans
      ((OutOnly.html_close _ _ _).trans
        (OutOnly.ite _ (OutOnly.print_dump _ _) (OutOnly.refl _))))))

theorem dyn_complete_output_spec (env : Env) (h : httpd_t) (reg : httpd_reg_t) (text : Bytes) :
    OutOnly h (dyn_complete_output env h reg text) ∧
      ∃ rest more, (dyn_complete_output env h reg text).sent =
        h.sent ++ (h.request.print_buf ++ "HTTP/1.1 200 OK\r\n".toList ++ rest) :: more := by
  rw [← status_line_200]
  apply sent_after_header env h _ 200 (!h.request.persistent) reg.content_str
  unfold dyn_complete_output
  exact (OutOnly.print _ _ _).trans (OutOnly.ite _ (OutOnly.print _ _ _)
    ((OutOnly.html_open _ _).trans ((OutOnly.vprint _ _ _).trans
      ((OutOnly.html_close _ _ _).trans (OutOnly.print_dump _ _)))))

theorem dirlist_output_spec (env : Env) (h : httpd_t) (regs : registry) (uri : Bytes) :
    OutOnly h (dirlist_output env h regs uri) ∧
      ∃ rest more, (dirlist_output env h regs uri).sent =
        h.sent ++ (h.request.print_buf ++ "HTTP/1.1 200 OK\r\n".toList ++ rest) :: more := by
  rw [← status_line_200]
  apply sent_after_header env h _ 200 (!h.request.persistent)
    "text/html; charset=iso8859-1".toList
  unfold dirlist_output
  exact OutOnly.ite _ (OutOnly.print _ _ _)
    ((OutOnly.print _ _ _).trans ((OutOnly.print _ _ _).trans ((OutOnly.print _ _ _).trans
      ((OutOnly.print _ _ _).trans ((OutOnly.print _ _ _).trans
        ((OutOnly.print _ _ _).trans ((OutOnly.print _ _ _).trans
          ((OutOnly.dirlist_rows _ _ _).trans ((OutOnly.html_trailer _ _ _).trans
            ((OutOnly.print _ _ _).trans (OutOnly.print_dump _ _)))))))))))

theorem OutOnly.async_node {h k : httpd_t} (o : OutOnly h k) :
    k.request.async_node = h.request.async_node := by
  obtain ⟨m, p, ot, e⟩ := o
  rw [e]; rfl

theorem finish_success_async_node (h : httpd_t) :
    (finish_success h).2.request.async_node = h.request.async_node := by
  unfold finish_success
  split <;> rfl

theorem reg_deref_store (regs : registry) (p : Nat) (reg e : httpd_reg_t)
    (hreg : reg_deref regs p = some reg) : reg_deref (reg_store regs p e) p = some e := by
  unfold reg_deref at hreg ⊢
  unfold reg_store
  by_cases hp : p < regs.length
  · simp only [hp, if_true, List.length_set, List.get?_eq_getElem?]
    rw [List.getElem?_set_self]
    omega
  · simp [hp] at hreg

theorem httpd_error_ne_continue (env : Env) (h : httpd_t) (mode : errmode_t) (status_code : Int)
    (text : Bytes) : (httpd_error env h mode status_code text).1 ≠ .HS_CONTINUE := by
  obtain ⟨k, _, _, he⟩ := httpd_verror_spec env h mode status_code h.request.verb text
  unfold httpd_error
  rw [he]
  split <;> simp

/-- What `httpd_digest_request_line` leaves in the flags when it lets the
request continue. -/
theorem httpd_digest_request_line_continue (env : Env) (h h1 : httpd_t)
    (hc : httpd_digest_request_line env h = (.HS_CONTINUE, h1)) :
    h1.request.persistent = version_default env.erange h.request.request_buf ∧
      h1.request.http_1_0 = !version_default env.erange h.request.request_buf ∧
      (h1.request.verb = .VERB_GET ∨ h1.request.verb = .VERB_HEAD) := by
  unfold httpd_digest_request_line at hc
  unfold version_default
  split at hc
  · exact absurd (congrArg Prod.fst hc) (httpd_error_ne_continue _ _ _ _ _)
  · generalize request_line_tokens h.request.request_buf = toks at hc ⊢
    obtain ⟨verb, uri, protocol, junk, buf⟩ := toks
    simp only at hc ⊢
    have bad : ∀ {x : httpd_status_t × httpd_t} {k : httpd_t} {m : errmode_t} {c : Int}
        {t : Bytes}, x = httpd_error env k m c t → x = (.HS_CONTINUE, h1) → False := by
      intro x k m c t e1 e2
      exact httpd_error_ne_continue env k m c t (by rw [← e1, e2])
    cases verb with
    | none => exact (bad rfl hc).elim
    | some v =>
      cases uri with
      | none => exact (bad rfl hc).elim
      | some u =>
        cases junk with
        | some j => exact (bad rfl hc).elim
        | none =>
          cases protocol with
          | none =>
            simp only at hc ⊢
            split at hc
            · exact (bad rfl hc).elim
            · split at hc
              · cases hc; simp
              · split at hc
                · cases hc; simp
                · exact (bad rfl hc).elim
          | some pr =>
            simp only at hc ⊢
            cases hv : protocol_version env.erange (cstr (buf.drop pr)) with
            | none =>
              rw [hv] at hc
              exact (bad rfl hc).elim
            | some mm =>
              obtain ⟨major, minor⟩ := mm
              rw [hv] at hc
              simp only at hc ⊢
              split at hc
              · exact (bad rfl hc).elim
              · split at hc
                · cases hc; simp
                · split at hc
                  · cases hc; simp
                  · exact (bad rfl hc).elim

theorem split_uri_frame (r : request_t) (u : Nat) :
    (split_uri r u).persistent = r.persistent ∧ (split_uri r u).fields = r.fields ∧
      (split_uri r u).http_1_0 = r.http_1_0 ∧ (split_uri r u).verb = r.verb := by
  unfold split_uri
  simp only
  split
  · simp
  · split <;> simp
  · simp
  · simp

theorem digest_uri_dispatch (env : Env) (h h2 : httpd_t) (uri : Bytes)
    (hd : digest_uri env h = some (.dispatch h2 uri)) :
    h2.request.persistent = h.request.persistent ∧ h2.request.fields = h.request.fields ∧
      h2.request.http_1_0 = h.request.http_1_0 ∧ h2.request.verb = h.request.verb := by
  unfold digest_uri at hd
  have hf := split_uri_frame h.request
  cases hu : h.request.uri with
  | none => rw [hu] at hd; simp at hd
  | some u =>
    rw [hu] at hd
    simp only at hd
    split at hd
    · simp at hd
    · split at hd
      · simp at hd
      · split at hd
        · simp at hd
        · split at hd
          · simp only [Option.some.injEq, head_result.dispatch.injEq] at hd
            rw [← hd.1]
            exact hf u
          · split at hd
            · simp at hd
            · simp only [Option.some.injEq, head_result.dispatch.injEq] at hd
              rw [← hd.1]
              exact hf u

/-- The flags with which `httpd_digest_request` calls `httpd_lookup_uri`. -/
theorem httpd_digest_request_head_dispatch (env : Env) (h h2 : httpd_t) (uri : Bytes)
    (hd : httpd_digest_request_head env h = some (.dispatch h2 uri)) :
    h2.request.persistent = (h.request.persistent && !connection_close h2.request.fields) ∧
      h2.request.http_1_0 = h.request.http_1_0 ∧
      ∃ s, h.request.fields_start = some s ∧
        httpd_digest_fields env h.request.request_buf (h.request.request_buf.length + 1) s
          h.request.fields = some (none, h2.request.fields) := by
  unfold httpd_digest_request_head at hd
  cases hs : h.request.fields_start with
  | none => rw [hs] at hd; simp at hd
  | some s =>
    rw [hs] at hd
    simp only at hd
    cases hf : httpd_digest_fields env h.request.request_buf (h.request.request_buf.length + 1) s
        h.request.fields with
    | none => rw [hf] at hd; simp at hd
    | some res =>
      obtain ⟨err, fields⟩ := res
      rw [hf] at hd
      cases err with
      | some msg => simp at hd
      | none =>
        simp only at hd
        split at hd
        · simp at hd
        · split at hd
          · rename_i hcc
            obtain ⟨h1, h2', h3, _⟩ := digest_uri_dispatch env _ h2 uri hd
            simp only at h1 h2' h3
            refine ⟨?_, h3, s, rfl, ?_⟩
            · rw [h1, h2', hcc]; simp
            · rw [h2']; exact hf
          · rename_i hcc
            obtain ⟨h1, h2', h3, _⟩ := digest_uri_dispatch env _ h2 uri hd
            simp only at h1 h2' h3
            refine ⟨?_, h3, s, rfl, ?_⟩
            · rw [h1, h2']
              simp only [Bool.not_eq_true] at hcc
              rw [hcc]; simp
            · rw [h2']; exact hf

/-- Between the request line and the blank line `httpd_input_char` leaves
the flags of the request alone: a byte is skipped or stored, or the request is
too big, or `httpd_digest_request` is called with the flags unchanged. -/
theorem httpd_input_char_header (env : Env) (h : httpd_t) (regs : registry) (c : Char)
    (hsf : h.request.saw_first = true) :
    (∃ h1, httpd_input_char env h regs c = some (.HS_CONTINUE, h1, regs) ∧
        h1.request.persistent = h.request.persistent ∧
        h1.request.http_1_0 = h.request.http_1_0 ∧
        h1.request.verb = h.request.verb ∧ h1.request.saw_first = true) ∨
    (∃ k, httpd_input_char env h regs c =
        some ((httpd_error env k .ERRMODE_FATAL 400 "The request is too big.".toList).1,
          (httpd_error env k .ERRMODE_FATAL 400 "The request is too big.".toList).2, regs)) ∨
    (∃ h2, httpd_input_char env h regs c = httpd_digest_request env h2 regs ∧
        h2.request.persistent = h.request.persistent ∧
        h2.request.http_1_0 = h.request.http_1_0 ∧
        h2.request.verb = h.request.verb) := by
  unfold httpd_input_char
  simp only [hsf, Bool.not_true, Bool.false_eq_true, if_false, if_true]
  split_ifs
  all_goals first
    | exact Or.inl ⟨_, rfl, rfl, rfl, rfl, hsf⟩
    | exact Or.inl ⟨_, rfl, rfl, rfl, rfl, rfl⟩
    | exact Or.inr (Or.inl ⟨_, rfl⟩)
    | exact Or.inr (Or.inr ⟨_, rfl, rfl, rfl, rfl⟩)

theorem lt_length_of_drop (buf : Bytes) (x : Nat) (c : Char) (t : Bytes)
    (h : buf.drop x = c :: t) : x < buf.length := by
  by_contra hx
  rw [List.drop_of_length_le (by omega)] at h
  cases h

theorem InLine.next {buf : Bytes} {x : Nat} {c : Char} {a rest : Bytes}
    (hl : InLine buf x (c :: a) rest) : InLine buf (x + 1) a rest := by
  obtain ⟨hd, hn⟩ := hl
  refine ⟨?_, fun hm => hn (List.mem_cons_of_mem _ hm)⟩
  rw [← List.drop_drop, hd]
  rfl

theorem cstr_no_nul (s : Bytes) : NUL ∉ cstr s := by
  induction s with
  | nil => simp [cstr]
  | cons c s ih =>
    by_cases hc : c = NUL
    · simp [cstr, hc]
    · simp only [cstr, hc, if_false, List.mem_cons, not_or]
      exact ⟨fun e => hc e.symm, ih⟩

theorem cstr_idem (s : Bytes) : cstr (cstr s) = cstr s :=
  cstr_of_no_nul _ (cstr_no_nul s)

theorem httpd_lookup_loop_skip (env : Env) (h : httpd_t) (regs : registry) (uri : Bytes) :
    ∀ (before rest : List httpd_reg_t), (∀ e ∈ before, entry_matches e uri = false) →
      httpd_lookup_loop env h regs uri (before ++ rest) = httpd_lookup_loop env h regs uri rest := by
  intro before
  induction before with
  | nil => intro rest _; rfl
  | cons e before ih =>
    intro rest hno
    have he := hno e (List.mem_cons_self _ _)
    have ih' := ih rest (fun x hx => hno x (List.mem_cons_of_mem _ hx))
    unfold entry_matches at he
    simp only [List.cons_append]
    rw [httpd_lookup_loop]
    cases ht : e.type <;> rw [ht] at he <;> simp only at he ⊢
    · simp only [Bool.or_eq_false_iff] at he
      simp [he.1, he.2, ih']
    all_goals simp [he, ih']

theorem strcmp_eq_cstr_self (p : Bytes) : strcmp_eq (cstr p) p = true := by
  simp [strcmp_eq, cstr_idem]

theorem cstr_append_slash (p : Bytes) : cstr (cstr p ++ ['/']) = cstr p ++ ['/'] := by
  apply cstr_of_no_nul
  intro hm
  rcases List.mem_append.mp hm with hm | hm
  · exact cstr_no_nul p hm
  · simp [NUL] at hm

theorem dir_slash_match_self (reg : httpd_reg_t) :
    dir_slash_match reg (cstr reg.path ++ ['/']) = true := by
  unfold dir_slash_match strncmp_eq strlen
  rw [cstr_append_slash]
  simp [List.getD_eq_getElem?_getD]

theorem strcmp_eq_slash_self (p : Bytes) : strcmp_eq (cstr p ++ ['/']) p = false := by
  unfold strcmp_eq
  rw [cstr_append_slash]
  simp

theorem status_line_501 :
    crlf (cstr ("HTTP/1.1 ".toList ++ fmt_d 501 ++ " ".toList ++ status_text 501 ++ ['\n'])) =
      "HTTP/1.1 501 Not implemented\r\n".toList := by
  decide

/-- The request line with a verb token, a URI token and a version token that
passes the version test: what is left is the check of the verb. -/
theorem httpd_digest_request_line_versioned (env : Env) (h : httpd_t) (v u p : Nat) (b : Bytes)
    (major minor : Nat)
    (hsp : isspace (buf_get h.request.request_buf 0) = false)
    (htok : request_line_tokens h.request.request_buf = (some v, some u, some p, none, b))
    (hver : protocol_version env.erange (cstr (b.drop p)) = some (major, minor)) :
    httpd_digest_request_line env h =
      if !known_verbs.any (fun k => strcmp_eq (cstr (b.drop v)) k) then
        httpd_error env { h with request := { h.request with
            request_buf := b, uri := some u, http_1_0 := (major = 1 && minor = 0),
            persistent := !(major = 1 && minor = 0) } } .ERRMODE_FATAL 400
          ("Unknown verb '".toList ++ cstr (b.drop v) ++ "'.".toList)
      else if strcmp_eq (cstr (b.drop v)) "GET".toList then
        (.HS_CONTINUE, { h with request := { h.request with
            request_buf := b, uri := some u, http_1_0 := (major = 1 && minor = 0),
            persistent := !(major = 1 && minor = 0), verb := .VERB_GET } })
      else if strcmp_eq (cstr (b.drop v)) "HEAD".toList then
        (.HS_CONTINUE, { h with request := { h.request with
            request_buf := b, uri := some u, http_1_0 := (major = 1 && minor = 0),
            persistent := !(major = 1 && minor = 0), verb := .VERB_HEAD } })
      else
        httpd_error env { h with request := { h.request with
            request_buf := b, uri := some u, http_1_0 := (major = 1 && minor = 0),
            persistent := !(major = 1 && minor = 0) } } .ERRMODE_FATAL 501
          ("Unsupported verb '".toList ++ cstr (b.drop v) ++ "'.".toList) := by
  unfold httpd_digest_request_line
  rw [if_neg (by simp [hsp])]
  rw [htok]
  simp only [hver]

/-- The C string `s` is one of the known verbs when it is found in the table
by `strcmp`. -/
theorem known_verbs_any (s : Bytes) :
    known_verbs.any (fun k => strcmp_eq (cstr s) k) = decide (cstr s ∈ known_verbs) := by
  have hk : ∀ k ∈ known_verbs, cstr k = k := by decide
  rw [Bool.eq_iff_iff]
  simp only [List.any_eq_true, decide_eq_true_eq, strcmp_eq, cstr_idem, beq_iff_eq]
  constructor
  · rintro ⟨k, hkm, e⟩
    rw [hk k hkm] at e
    rw [e]; exact hkm
  · intro hm
    exact ⟨cstr s, hm, (hk _ hm).symm⟩

/-- Comparison by `strcmp` of a C string with a text free of NUL. -/
theorem strcmp_eq_lit (x k : Bytes) (hk : cstr k = k) :
    strcmp_eq (cstr x) k = decide (cstr x = k) := by
  unfold strcmp_eq
  rw [cstr_idem, hk, Bool.eq_iff_iff]
  simp only [beq_iff_eq, decide_eq_true_eq]

/-- The request line is let through only when `strtok` finds a first token
and that token is `GET` or `HEAD`. -/
theorem httpd_digest_request_line_continue_verb (env : Env) (h : httpd_t)
    (hc : (httpd_digest_request_line env h).1 = .HS_CONTINUE) :
    ∃ v, (request_line_tokens h.request.request_buf).1 = some v ∧
      (cstr ((request_line_tokens h.request.request_buf).2.2.2.2.drop v) = "GET".toList ∨
        cstr ((request_line_tokens h.request.request_buf).2.2.2.2.drop v) = "HEAD".toList) := by
  unfold httpd_digest_request_line at hc
  have hget : cstr "GET".toList = "GET".toList := by decide
  have hhead : cstr "HEAD".toList = "HEAD".toList := by decide
  split at hc
  · exact absurd hc (httpd_error_ne_continue _ _ _ _ _)
  · generalize request_line_tokens h.request.request_buf = toks at hc ⊢
    obtain ⟨verb, uri, protocol, junk, buf⟩ := toks
    simp only at hc ⊢
    cases verb with
    | none => exact absurd hc (httpd_error_ne_continue _ _ _ _ _)
    | some v =>
      cases uri with
      | none => exact absurd hc (httpd_error_ne_continue _ _ _ _ _)
      | some u =>
        cases junk with
        | some j => exact absurd hc (httpd_error_ne_continue _ _ _ _ _)
        | none =>
          refine ⟨v, rfl, ?_⟩
          cases protocol with
          | none =>
            simp only at hc
            split at hc
            · exact absurd hc (httpd_error_ne_continue _ _ _ _ _)
            · split at hc
              · rename_i hg
                left; simpa [strcmp_eq, cstr_idem, hget] using hg
              · split at hc
                · rename_i hg
                  right; simpa [strcmp_eq, cstr_idem, hhead] using hg
                · exact absurd hc (httpd_error_ne_continue _ _ _ _ _)
          | some pr =>
            simp only at hc
            cases hv : protocol_version env.erange (cstr (buf.drop pr)) with
            | none =>
              rw [hv] at hc
              exact absurd hc (httpd_error_ne_continue _ _ _ _ _)
            | some mm =>
              obtain ⟨major, minor⟩ := mm
              rw [hv] at hc
              simp only at hc
              split at hc
              · exact absurd hc (httpd_error_ne_continue _ _ _ _ _)
              · split at hc
                · rename_i hg
                  left; simpa [strcmp_eq, cstr_idem, hget] using hg
                · split at hc
                  · rename_i hg
                    right; simpa [strcmp_eq, cstr_idem, hhead] using hg
                  · exact absurd hc (httpd_error_ne_continue _ _ _ _ _)

/-- An error reply that is not wrapped in HTTP: one buffer is sent, which
starts with the blank line and the document type line, and the result is
`HS_ERROR_CLOSE`. -/
theorem httpd_verror_non_http (env : Env) (h : httpd_t) (status_code : Int) (verb : verb_t)
    (text : Bytes) (hv : verb ≠ .VERB_HEAD) :
    ∃ (rest : Bytes) (ot : Nat),
      httpd_verror env h .ERRMODE_NON_HTTP status_code verb text =
        (.HS_ERROR_CLOSE, with_output h
          (h.sent ++ [h.request.print_buf ++ ("\r\n".toList ++ (crlf (cstr doctype_line) ++ rest))])
          [] ot) := by
  have h0 : crlf (cstr ['\n']) = "\r\n".toList := by decide
  unfold httpd_verror
  simp only [ne_eq, not_true_eq_false, if_false, if_true, hv, not_false_eq_true,
    httpd_print_buffer, httpd_vprint_buffer, httpd_html_trailer, append_buf_append, h0]
  have h1 : (errmode_t.ERRMODE_NON_HTTP.toNat < errmode_t.ERRMODE_NON_HTTP.toNat) = False := by
    simp
  have h2 : (decide (errmode_t.ERRMODE_NON_HTTP.toNat ≤ errmode_t.ERRMODE_FATAL.toNat)) = true := by
    decide
  simp only [h1, if_false, h2, Bool.true_or, if_true]
  rw [httpd_print_dump_append_buf _ _ (by simp)]
  simp only [List.append_assoc]
  exact ⟨_, _, rfl⟩

theorem finish_success_ne_continue (h : httpd_t) : (finish_success h).1 ≠ .HS_CONTINUE := by
  rcases (finish_success_spec h).1 with e | e <;> rw [e] <;> decide

/-- With callbacks that never return `HS_CONTINUE`, `httpd_reply` does not
return it either. -/
theorem httpd_reply_ne_continue (env : Env)
    (hdyn : ∀ d s x r, (env.dyn d s x r).1 ≠ .HS_CONTINUE)
    (h : httpd_t) (regs : registry) (p : Nat) (uri : Bytes)
    (st : httpd_status_t) (k : httpd_t) (regs1 : registry)
    (hr : httpd_reply env h regs p uri = some (st, k, regs1)) : st ≠ .HS_CONTINUE := by
  unfold httpd_reply at hr
  split at hr
  · simp at hr
  · split at hr
    · simp only [Option.some.injEq, Prod.mk.injEq] at hr
      rw [← hr.1]; decide
    · split at hr
      · simp only [Option.some.injEq] at hr
        intro e
        exact hdyn _ _ _ _ ((congrArg Prod.fst hr).trans e)
      · simp only [Option.some.injEq, Prod.mk.injEq] at hr
        rw [← hr.1]
        exact finish_success_ne_continue _

theorem httpd_redirect_ne_continue (env : Env) (h : httpd_t) (uri : Bytes)
    (r : httpd_status_t × httpd_t) (hr : httpd_redirect env h uri = some r) :
    r.1 ≠ .HS_CONTINUE := by
  unfold httpd_redirect at hr
  split at hr
  · simp only [Option.some.injEq] at hr
    rw [← hr]
    exact httpd_error_ne_continue _ _ _ _ _
  · split at hr
    · simp at hr
    · simp only [Option.some.injEq] at hr
      rw [← hr]
      exact finish_success_ne_continue _

theorem httpd_lookup_loop_ne_continue (env : Env)
    (hdyn : ∀ d s x r, (env.dyn d s x r).1 ≠ .HS_CONTINUE)
    (h : httpd_t) (regs : registry) (uri : Bytes) :
    ∀ (l : List httpd_reg_t) (st : httpd_status_t) (k : httpd_t) (regs1 : registry),
      httpd_lookup_loop env h regs uri l = some (st, k, regs1) → st ≠ .HS_CONTINUE := by
  intro l
  induction l with
  | nil =>
    intro st k regs1 hr
    simp only [httpd_lookup_loop, Option.some.injEq, Prod.mk.injEq] at hr
    rw [← hr.1]
    exact finish_success_ne_continue _
  | cons reg rest ih =>
    intro st k regs1 hr
    unfold httpd_lookup_loop at hr
    split at hr
    · split at hr
      · cases hred : httpd_redirect env h uri with
        | none => rw [hred] at hr; simp at hr
        | some r =>
          rw [hred] at hr
          simp only [Option.map_some', Option.some.injEq, Prod.mk.injEq] at hr
          rw [← hr.1]
          exact httpd_redirect_ne_continue env h uri r hred
      · split at hr
        · simp only [Option.some.injEq, Prod.mk.injEq] at hr
          rw [← hr.1]
          exact finish_success_ne_continue _
        · exact ih _ _ _ hr
    · split at hr
      · exact httpd_reply_ne_continue env hdyn _ _ _ _ _ _ _ hr
      · exact ih _ _ _ hr
    · split at hr
      · exact httpd_reply_ne_continue env hdyn _ _ _ _ _ _ _ hr
      · exact ih _ _ _ hr

theorem httpd_lookup_uri_ne_continue (env : Env)
    (hdyn : ∀ d s x r, (env.dyn d s x r).1 ≠ .HS_CONTINUE)
    (h : httpd_t) (regs : registry) (uri : Bytes)
    (st : httpd_status_t) (k : httpd_t) (regs1 : registry)
    (hr : httpd_lookup_uri env h regs uri = some (st, k, regs1)) : st ≠ .HS_CONTINUE := by
  unfold httpd_lookup_uri at hr
  split at hr
  · simp only [Option.some.injEq, Prod.mk.injEq] at hr
    rw [← hr.1]
    exact finish_success_ne_continue _
  · exact httpd_lookup_loop_ne_continue env hdyn h regs uri _ _ _ _ hr

theorem digest_uri_reply_ne_continue (env : Env) (h k : httpd_t) (st : httpd_status_t)
    (hd : digest_uri env h = some (.reply st k)) : st ≠ .HS_CONTINUE := by
  unfold digest_uri at hd
  split at hd
  · simp at hd
  · simp only at hd
    split at hd
    · simp only [Option.some.injEq, head_result.reply.injEq] at hd
      rw [← hd.1]; exact httpd_error_ne_continue _ _ _ _ _
    · split at hd
      · simp only [Option.some.injEq, head_result.reply.injEq] at hd
        rw [← hd.1]; exact httpd_error_ne_continue _ _ _ _ _
      · split at hd
        · simp only [Option.some.injEq, head_result.reply.injEq] at hd
          rw [← hd.1]; exact httpd_error_ne_continue _ _ _ _ _
        · split at hd
          · simp at hd
          · split at hd <;> simp at hd

theorem httpd_digest_request_head_reply_ne_continue (env : Env) (h k : httpd_t)
    (st : httpd_status_t)
    (hd : httpd_digest_request_head env h = some (.reply st k)) : st ≠ .HS_CONTINUE := by
  unfold httpd_digest_request_head at hd
  split at hd
  · simp at hd
  · split at hd
    · simp at hd
    · simp only [Option.some.injEq, head_result.reply.injEq] at hd
      rw [← hd.1]; exact httpd_error_ne_continue _ _ _ _ _
    · simp only at hd
      split at hd
      · simp only [Option.some.injEq, head_result.reply.injEq] at hd
        rw [← hd.1]; exact httpd_error_ne_continue _ _ _ _ _
      · split at hd <;> exact digest_uri_reply_ne_continue env _ _ _ hd

/-- With callbacks that never return `HS_CONTINUE`, `httpd_digest_request`
does not return it either. -/
theorem httpd_digest_request_ne_continue (env : Env)
    (hdyn : ∀ d s x r, (env.dyn d s x r).1 ≠ .HS_CONTINUE)
    (h : httpd_t) (regs : registry)
    (st : httpd_status_t) (k : httpd_t) (regs1 : registry)
    (hr : httpd_digest_request env h regs = some (st, k, regs1)) : st ≠ .HS_CONTINUE := by
  unfold httpd_digest_request at hr
  split at hr
  · simp at hr
  · rename_i status h1 hh
    simp only [Option.some.injEq, Prod.mk.injEq] at hr
    rw [← hr.1]
    exact httpd_digest_request_head_reply_ne_continue env h h1 status hh
  · exact httpd_lookup_uri_ne_continue env hdyn _ _ _ _ _ _ hr

/-- What `httpd_digest_request_line` leaves untouched when it lets the
request continue. -/
theorem httpd_digest_request_line_frame (env : Env) (h h1 : httpd_t)
    (hc : httpd_digest_request_line env h = (.HS_CONTINUE, h1)) :
    h1.request.nr = h.request.nr ∧ h1.cr = h.cr ∧ h1.request.saw_first = h.request.saw_first ∧
      h1.request.rll = h.request.rll ∧ h1.sent = h.sent := by
  unfold httpd_digest_request_line at hc
  split at hc
  · exact absurd (congrArg Prod.fst hc) (httpd_error_ne_continue _ _ _ _ _)
  · generalize request_line_tokens h.request.request_buf = toks at hc ⊢
    obtain ⟨verb, uri, protocol, junk, buf⟩ := toks
    simp only at hc ⊢
    have bad : ∀ {x : httpd_status_t × httpd_t} {k : httpd_t} {m : errmode_t} {c : Int}
        {t : Bytes}, x = httpd_error env k m c t → x = (.HS_CONTINUE, h1) → False := by
      intro x k m c t e1 e2
      exact httpd_error_ne_continue env k m c t (by rw [← e1, e2])
    cases verb with
    | none => exact (bad rfl hc).elim
    | some v =>
      cases uri with
      | none => exact (bad rfl hc).elim
      | some u =>
        cases junk with
        | some j => exact (bad rfl hc).elim
        | none =>
          cases protocol with
          | none =>
            simp only at hc ⊢
            split at hc
            · exact (bad rfl hc).elim
            · split at hc
              · cases hc; simp
              · split at hc
                · cases hc; simp
                · exact (bad rfl hc).elim
          | some pr =>
            simp only at hc ⊢
            cases hv : protocol_version env.erange (cstr (buf.drop pr)) with
            | none =>
              rw [hv] at hc
              exact (bad rfl hc).elim
            | some mm =>
              obtain ⟨major, minor⟩ := mm
              rw [hv] at hc
              simp only at hc ⊢
              split at hc
              · exact (bad rfl hc).elim
              · split at hc
                · cases hc; simp
                · split at hc
                  · cases hc; simp
                  · exact (bad rfl hc).elim

/-- The byte is stored when the buffer has room: what `httpd_input_char`
does in that case, by the place where it returns. -/
theorem httpd_input_char_store (env : Env) (h : httpd_t) (regs : registry) (c : Char)
    (hsw : ¬(h.cr = true ∧ c = '\n')) (hnr : h.request.nr < MAX_HTTPD_REQUEST) :
    (∃ rll, httpd_input_char env h regs c = some (.HS_CONTINUE,
        { stored h c with request := { (stored h c).request with rll := rll } }, regs)) ∨
    httpd_input_char env h regs c =
      some ((httpd_digest_request_line env { stored h c with request := { (stored h c).request with
          rll := 0, request_buf := buf_set (stored h c).request.request_buf h.request.nr NUL,
          fields_start := some (h.request.nr + 1), saw_first := true } }).1,
        (httpd_digest_request_line env { stored h c with request := { (stored h c).request with
          rll := 0, request_buf := buf_set (stored h c).request.request_buf h.request.nr NUL,
          fields_start := some (h.request.nr + 1), saw_first := true } }).2, regs) ∨
    httpd_input_char env h regs c =
      some ((httpd_error env (stored h c) .ERRMODE_FATAL 400 "Missing request.".toList).1,
        (httpd_error env (stored h c) .ERRMODE_FATAL 400 "Missing request.".toList).2, regs) ∨
    httpd_input_char env h regs c =
      httpd_digest_request env { stored h c with request := { (stored h c).request with
        request_buf := buf_set (stored h c).request.request_buf (h.request.nr + 1) NUL } }
        regs := by
  have h1 : ¬ (h.cr && decide (c = '\n')) = true := by
    cases hcr : h.cr
    · simp
    · simp only [Bool.true_and, decide_eq_true_eq]
      exact fun e => hsw ⟨hcr, e⟩
  have h2 : ¬ MAX_HTTPD_REQUEST ≤ h.request.nr := by omega
  unfold httpd_input_char
  rw [if_neg h1]
  simp only []
  rw [if_neg h2]
  by_cases hc : (if c = '\r' then '\n' else c) = '\n'
  · rw [if_pos hc]
    by_cases hr : h.request.rll = 0
    · rw [if_pos hr]
      by_cases hs : (!h.request.saw_first) = true
      · rw [if_pos hs]
        right; right; left; rfl
      · rw [if_neg hs]
        right; right; right; rfl
    · rw [if_neg hr]
      by_cases hs : (!h.request.saw_first) = true
      · rw [if_pos hs]
        right; left
        simp only [stored, Nat.add_sub_cancel]
      · rw [if_neg hs]
        left; exact ⟨0, rfl⟩
  · rw [if_neg hc]
    left; exact ⟨h.request.rll + 1, rfl⟩

theorem normalize_append : ∀ (a b : Bytes) (cr : Bool),
    normalize cr (a ++ b) = normalize cr a ++ normalize (cr_after cr a) b := by
  intro a
  induction a with
  | nil => intro b cr; simp [normalize, cr_after]
  | cons c a ih =>
    intro b cr
    simp only [List.cons_append, normalize, cr_after]
    split
    · exact ih b false
    · have := ih b (decide (c = '\r'))
      simp only [List.cons_append]
      exact congrArg _ this

/-- The reply of `httpd_input_char` when the buffer is full and the byte has
to be stored. -/
theorem httpd_input_char_too_big (env : Env) (h : httpd_t) (regs : registry) (c : Char)
    (hsw : ¬(h.cr = true ∧ c = '\n')) (hnr : MAX_HTTPD_REQUEST ≤ h.request.nr) :
    httpd_input_char env h regs c =
      some ((httpd_error env { h with cr := (c = '\r') }
          (if h.request.saw_first then .ERRMODE_FATAL else .ERRMODE_NON_HTTP) 400
          "The request is too big.".toList).1,
        (httpd_error env { h with cr := (c = '\r') }
          (if h.request.saw_first then .ERRMODE_FATAL else .ERRMODE_NON_HTTP) 400
          "The request is too big.".toList).2, regs) := by
  have hn : ¬ (h.cr && decide (c = '\n')) = true := by
    cases hcr : h.cr
    · simp
    · simp only [Bool.true_and, decide_eq_true_eq]
      exact fun e => hsw ⟨hcr, e⟩
  unfold httpd_input_char
  rw [if_neg hn]
  simp only []
  rw [if_pos hnr]

/-- One byte that `httpd_input_char` answers with `HS_CONTINUE`: the byte
count grows by the number of bytes to store. -/
theorem httpd_input_char_continue (env : Env)
    (hdyn : ∀ d s x r, (env.dyn d s x r).1 ≠ .HS_CONTINUE)
    (h : httpd_t) (regs : registry) (c : Char) (h1 : httpd_t) (regs1 : registry)
    (hr : httpd_input_char env h regs c = some (.HS_CONTINUE, h1, regs1)) :
    h1.request.nr = h.request.nr + (normalize h.cr [c]).length ∧
      h1.cr = cr_after h.cr [c] ∧ regs1 = regs ∧ h1.sent = h.sent ∧
      (h.request.nr ≤ MAX_HTTPD_REQUEST → h1.request.nr ≤ MAX_HTTPD_REQUEST) := by
  by_cases hsw : h.cr = true ∧ c = '\n'
  · have e : httpd_input_char env h regs c = some (.HS_CONTINUE, { h with cr := false }, regs) := by
      unfold httpd_input_char
      rw [if_pos (by simp [hsw.1, hsw.2])]
    rw [e] at hr
    simp only [Option.some.injEq, Prod.mk.injEq, true_and] at hr
    rw [← hr.1, ← hr.2]
    simp [normalize, cr_after, hsw.1, hsw.2]
  · have hn : (h.cr && decide (c = '\n')) = false := by
      cases hcr : h.cr
      · simp
      · simp only [Bool.true_and, decide_eq_false_iff_not]
        exact fun e => hsw ⟨hcr, e⟩
    have hnorm : (normalize h.cr [c]).length = 1 ∧ cr_after h.cr [c] = decide (c = '\r') := by
      simp [normalize, cr_after, hn]
    rw [hnorm.1, hnorm.2]
    by_cases hnr : h.request.nr < MAX_HTTPD_REQUEST
    · rcases httpd_input_char_store env h regs c hsw hnr with ⟨rll, e⟩ | e | e | e
      · rw [e] at hr
        simp only [Option.some.injEq, Prod.mk.injEq, true_and] at hr
        rw [← hr.1, ← hr.2]
        simp only [stored, and_self, true_and]
        intro _; omega
      · rw [e] at hr
        simp only [Option.some.injEq, Prod.mk.injEq] at hr
        have hf := httpd_digest_request_line_frame env _ h1 (Prod.ext hr.1 hr.2.1)
        rw [hf.1, hf.2.1, hf.2.2.2.2, ← hr.2.2]
        simp only [stored, and_self, true_and]
        intro _; omega
      · rw [e] at hr
        simp only [Option.some.injEq, Prod.mk.injEq] at hr
        exact absurd hr.1 (httpd_error_ne_continue _ _ _ _ _)
      · rw [e] at hr
        exact absurd rfl (httpd_digest_request_ne_continue env hdyn _ _ _ _ _ hr)
    · rw [httpd_input_char_too_big env h regs c hsw (by omega)] at hr
      simp only [Option.some.injEq, Prod.mk.injEq] at hr
      exact absurd hr.1 (httpd_error_ne_continue _ _ _ _ _)

/-- A run of `httpd_input` that ends with `HS_CONTINUE`: the byte count has
grown by the number of bytes of the normalized input. -/
theorem httpd_input_loop_continue (env : Env)
    (hdyn : ∀ d s x r, (env.dyn d s x r).1 ≠ .HS_CONTINUE) :
    ∀ (data : Bytes) (h : httpd_t) (regs : registry) (h1 : httpd_t) (regs1 : registry),
      httpd_input_loop env h regs data = some (.HS_CONTINUE, h1, regs1) →
      h1.request.nr = h.request.nr + (normalize h.cr data).length ∧
        h1.cr = cr_after h.cr data ∧ regs1 = regs ∧ h1.sent = h.sent ∧
        (h.request.nr ≤ MAX_HTTPD_REQUEST → h1.request.nr ≤ MAX_HTTPD_REQUEST) := by
  intro data
  induction data with
  | nil =>
    intro h regs h1 regs1 hr
    simp only [httpd_input_loop, Option.some.injEq, Prod.mk.injEq, true_and] at hr
    rw [← hr.1, ← hr.2]
    simp [normalize, cr_after]
  | cons c data ih =>
    intro h regs h1 regs1 hr
    unfold httpd_input_loop at hr
    cases hres : httpd_input_char env h regs c with
    | none => rw [hres] at hr; simp at hr
    | some res =>
      obtain ⟨st, h2, regs2⟩ := res
      rw [hres] at hr
      cases st <;> simp only [Option.some.injEq, Prod.mk.injEq, reduceCtorEq, false_and] at hr
      obtain ⟨a, b, c2, d, e⟩ := httpd_input_char_continue env hdyn h regs c h2 regs2 hres
      obtain ⟨a2, b2, c3, d2, e2⟩ := ih h2 regs2 h1 regs1 hr
      have hn := normalize_append [c] data h.cr
      simp only [List.singleton_append] at hn
      refine ⟨?_, ?_, ?_, ?_, ?_⟩
      · rw [a2, a, hn, List.length_append, ← b]; omega
      · rw [b2, b]
        simp only [cr_after]
        split <;> rfl
      · rw [c3, c2]
      · rw [d2, d]
      · exact fun x => e2 (e x)

theorem httpd_error_non_http_status (env : Env) (h : httpd_t) (status_code : Int)
    (text : Bytes) :
    (httpd_error env h .ERRMODE_NON_HTTP status_code text).1 = .HS_ERROR_CLOSE := by
  obtain ⟨k, _, _, he⟩ := httpd_verror_spec env h .ERRMODE_NON_HTTP status_code h.request.verb text
  unfold httpd_error
  rw [he]
  rfl

theorem isdigit_not_space (c : Char) (h : isdigit c = true) :
    isspace c = false ∧ c ≠ '-' ∧ c ≠ '+' ∧ c ≠ NUL ∧ c ≠ '.' := by
  simp only [isdigit, Bool.and_eq_true, decide_eq_true_eq] at h
  refine ⟨?_, ?_, ?_, ?_, ?_⟩
  · simp only [isspace, Bool.or_eq_false_iff, decide_eq_false_iff_not, Bool.and_eq_false_iff]
    omega
  · intro e; rw [e] at h; revert h; decide
  · intro e; rw [e] at h; revert h; decide
  · intro e; rw [e] at h; revert h; decide
  · intro e; rw [e] at h; revert h; decide

theorem takeWhile_append_stop (q : Char → Bool) (a rest : Bytes) (ha : ∀ c ∈ a, q c = true)
    (hr : ∀ c, rest.head? = some c → q c = false) : (a ++ rest).takeWhile q = a := by
  induction a with
  | nil =>
    cases rest with
    | nil => rfl
    | cons c t => simp [List.takeWhile_cons, hr c rfl]
  | cons x a ih =>
    simp only [List.cons_append, List.takeWhile_cons, ha x (List.mem_cons_self _ _), if_true]
    rw [ih (fun c hc => ha c (List.mem_cons_of_mem _ hc))]

/-- Library `strtoul` on a run of digits followed by something that is not a
digit. -/
theorem strtoul10_digits (a rest : Bytes) (hne : a ≠ []) (ha : ∀ c ∈ a, isdigit c = true)
    (hr : ∀ c, rest.head? = some c → isdigit c = false) :
    strtoul10 (a ++ rest) =
      if ULONG_MAX < digits_value a then (ULONG_MAX, a.length, true)
      else (digits_value a, a.length, false) := by
  obtain ⟨x, t, rfl⟩ := List.exists_cons_of_ne_nil hne
  have hx := isdigit_not_space x (ha x (List.mem_cons_self _ _))
  have hws : ((x :: t ++ rest).takeWhile isspace) = [] := by
    simp [List.takeWhile_cons, hx.1]
  have hd : ((x :: t ++ rest).takeWhile isdigit) = x :: t :=
    takeWhile_append_stop isdigit (x :: t) rest ha hr
  have hh : (x :: t ++ rest).head? = some x := rfl
  unfold strtoul10
  simp only [hws, List.length_nil, List.drop_zero, hh, Option.some.injEq, hx.2.1, hx.2.2.1,
    or_self, if_false, decide_False, hd, List.length_cons, Nat.add_one_ne_zero, Nat.zero_add,
    Bool.false_eq_true]
  rfl

/-- Library `strtoul` where no number starts. -/
theorem strtoul10_none (s : Bytes) (hs : ∀ c, s.head? = some c → isspace c = false)
    (hn : starts_number s = false) : strtoul10 s = (0, 0, false) := by
  unfold strtoul10
  cases s with
  | nil => simp
  | cons c t =>
    have hc := hs c rfl
    have hws : ((c :: t).takeWhile isspace) = [] := by simp [List.takeWhile_cons, hc]
    simp only [hws, List.length_nil, List.drop_zero, List.head?_cons, Option.some.injEq]
    by_cases hsign : c = '-' ∨ c = '+'
    · simp only [hsign, if_true, List.drop_one, List.tail_cons]
      have hnd : ¬ isdigit c = true := by
        rcases hsign with e | e <;> rw [e] <;> decide
      cases t with
      | nil => simp
      | cons d t2 =>
        have : isdigit d = false := by
          simp only [starts_number, Bool.or_eq_false_iff, Bool.and_eq_false_iff] at hn
          rcases hn.2 with e | e
          · rcases hsign with e2 | e2 <;> simp [e2] at e
          · exact e
        simp [List.takeWhile_cons, this]
    · simp only [hsign, if_false, List.drop_zero]
      have : isdigit c = false := by
        cases t with
        | nil => simpa [starts_number] using hn
        | cons d t2 =>
          simp only [starts_number, Bool.or_eq_false_iff] at hn
          exact hn.1
      simp [List.takeWhile_cons, this]

theorem cstr_append_of_no_nul : ∀ (p r : Bytes), NUL ∉ p → cstr (p ++ r) = p ++ cstr r := by
  intro p
  induction p with
  | nil => intro r _; rfl
  | cons c p ih =>
    intro r h
    have hc : c ≠ NUL := fun e => h (by rw [e]; exact List.mem_cons_self _ _)
    simp only [List.cons_append, cstr, hc, if_false]
    exact congrArg _ (ih r (fun hm => h (List.mem_cons_of_mem _ hm)))

/-- A text that reads `http/` when put in lower case: five bytes, none NUL,
accepted by the `strncasecmp` test of the version check. -/
theorem http_token_ok (p r : Bytes) (hp : p.map tolower = "http/".toList) :
    p.length = 5 ∧ strncasecmp_eq (p ++ r) "HTTP/".toList 5 = true := by
  have hl : p.length = 5 := by
    have := congrArg List.length hp
    simpa using this
  have hn : NUL ∉ p := by
    intro hm
    have : tolower NUL ∈ p.map tolower := List.mem_map_of_mem _ hm
    rw [hp] at this
    revert this; decide
  refine ⟨hl, ?_⟩
  unfold strncasecmp_eq
  rw [cstr_append_of_no_nul p r hn, List.take_left' hl, hp]
  decide

theorem httpd_parse_number_digits (er : Bool) (a rest : Bytes) (hne : a ≠ [])
    (ha : ∀ c ∈ a, isdigit c = true) (hr : ∀ c, rest.head? = some c → isdigit c = false) :
    httpd_parse_number er (a ++ rest) =
      if ULONG_MAX < digits_value a ∨ (er = true ∧ digits_value a = ULONG_MAX) then (false, 0, 0)
      else (true, a.length, digits_value a) := by
  unfold httpd_parse_number
  rw [strtoul10_digits a rest hne ha hr]
  have hl : a.length ≠ 0 := fun e => hne (List.length_eq_zero.mp e)
  by_cases hov : ULONG_MAX < digits_value a
  · rw [if_pos hov, if_pos (Or.inl hov)]; simp
  · rw [if_neg hov]
    by_cases hst : er = true ∧ digits_value a = ULONG_MAX
    · rw [if_pos (Or.inr hst)]; simp [hst.1, hst.2]
    · rw [if_neg (by tauto)]
      cases er
      · simp [hl]
      · have : digits_value a ≠ ULONG_MAX := fun e => hst ⟨rfl, e⟩
        simp [hl, this]

theorem httpd_parse_number_none (s : Bytes) (hs : ∀ c, s.head? = some c → isspace c = false)
    (hn : starts_number s = false) (er : Bool) : httpd_parse_number er s = (false, 0, 0) := by
  unfold httpd_parse_number
  rw [strtoul10_none s hs hn]
  simp

/-- The version test once the token is known to start with `HTTP/`. -/
theorem protocol_version_eq (er : Bool) (tok : Bytes)
    (hpre : strncasecmp_eq tok "HTTP/".toList 5 = true) :
    protocol_version er tok =
      if (httpd_parse_number er (tok.drop 5)).1 = false then none
      else if tok.getD (5 + (httpd_parse_number er (tok.drop 5)).2.1) NUL ≠ '.' then none
      else if (httpd_parse_number er
          (tok.drop (5 + (httpd_parse_number er (tok.drop 5)).2.1 + 1))).1 = false then none
      else some ((httpd_parse_number er (tok.drop 5)).2.2,
        (httpd_parse_number er
          (tok.drop (5 + (httpd_parse_number er (tok.drop 5)).2.1 + 1))).2.2) := by
  unfold protocol_version
  rw [hpre]
  generalize httpd_parse_number er (tok.drop 5) = r1
  obtain ⟨ok1, ml, major⟩ := r1
  cases ok1
  · simp
  · dsimp only
    simp only [Bool.not_true, Bool.false_eq_true, if_false, Bool.true_eq_false]
    by_cases hd : tok.getD (5 + ml) NUL ≠ '.'
    · rw [if_pos hd, if_pos hd]
    · rw [if_neg hd, if_neg hd]
      generalize httpd_parse_number er (tok.drop (5 + ml + 1)) = r2
      obtain ⟨ok2, nl, minor⟩ := r2
      cases ok2 <;> simp

/-- The version test accepts `HTTP/` in any letter case followed by two runs
of digits separated by a dot, each number being below `ULONG_MAX`, or equal
to it while `errno` does not read `ERANGE`. -/
theorem protocol_version_accept (er : Bool) (p a b : Bytes)
    (hp : p.map tolower = "http/".toList)
    (hane : a ≠ []) (ha : ∀ c ∈ a, isdigit c = true) (hva : digits_value a ≤ ULONG_MAX)
    (hea : er = true → digits_value a ≠ ULONG_MAX)
    (hbne : b ≠ []) (hb : ∀ c ∈ b, isdigit c = true) (hvb : digits_value b ≤ ULONG_MAX)
    (heb : er = true → digits_value b ≠ ULONG_MAX) :
    protocol_version er (p ++ a ++ '.' :: b) = some (digits_value a, digits_value b) := by
  obtain ⟨hl, hpre⟩ := http_token_ok p (a ++ '.' :: b) hp
  have hdot : isdigit '.' = false := by decide
  have h1 : (p ++ (a ++ '.' :: b)).drop 5 = a ++ '.' :: b := List.drop_left' hl
  have h2 : httpd_parse_number er (a ++ '.' :: b) = (true, a.length, digits_value a) := by
    rw [httpd_parse_number_digits er a _ hane ha (by
      intro c hc
      simp only [List.head?_cons, Option.some.injEq] at hc
      rw [← hc]; exact hdot)]
    rw [if_neg (by
      rintro (h | ⟨h1, h2⟩)
      · omega
      · exact hea h1 h2)]
  have h3 : (p ++ (a ++ '.' :: b)).getD (5 + a.length) NUL = '.' := by
    rw [← List.append_assoc, List.getD_eq_getElem?_getD,
      List.getElem?_append_right (by simp [hl])]
    simp [hl]
  have h4 : (p ++ (a ++ '.' :: b)).drop (5 + a.length + 1) = b := by
    have : (p ++ a ++ ['.']).length = 5 + a.length + 1 := by simp [hl]; omega
    rw [show p ++ (a ++ '.' :: b) = (p ++ a ++ ['.']) ++ b by simp, List.drop_left' this]
  have h5 : httpd_parse_number er b = (true, b.length, digits_value b) := by
    have := httpd_parse_number_digits er b [] hbne hb (by intro c hc; simp at hc)
    rw [List.append_nil] at this
    rw [this, if_neg (by
      rintro (h | ⟨h1, h2⟩)
      · omega
      · exact heb h1 h2)]
  rw [List.append_assoc, protocol_version_eq er _ hpre, h1, h2]
  rw [if_neg (by simp), if_neg (by rw [h3]; simp), h4, h5, if_neg (by simp)]

/-- The version test rejects a first number that `strtoul` reports as
`ULONG_MAX` while `errno` reads `ERANGE`: a number above `ULONG_MAX`, or
`ULONG_MAX` itself when `errno` read `ERANGE` before the call. -/
theorem protocol_version_reject_range (er : Bool) (p a r : Bytes)
    (hp : p.map tolower = "http/".toList)
    (hane : a ≠ []) (ha : ∀ c ∈ a, isdigit c = true)
    (hr : ∀ c, r.head? = some c → isdigit c = false)
    (hv : ULONG_MAX < digits_value a ∨ (er = true ∧ digits_value a = ULONG_MAX)) :
    protocol_version er (p ++ a ++ r) = none := by
  obtain ⟨hl, hpre⟩ := http_token_ok p (a ++ r) hp
  rw [List.append_assoc, protocol_version_eq er _ hpre, List.drop_left' hl,
    httpd_parse_number_digits er a r hane ha hr, if_pos hv]
  rfl

/-- The version test rejects a token that does not start with `HTTP/` in
some letter case. -/
theorem protocol_version_reject_token (er : Bool) (tok : Bytes)
    (h : ((cstr tok).take 5).map tolower ≠ "http/".toList) : protocol_version er tok = none := by
  unfold protocol_version
  have : strncasecmp_eq tok "HTTP/".toList 5 = false := by
    unfold strncasecmp_eq
    have e : ((cstr "HTTP/".toList).take 5).map tolower = "http/".toList := by decide
    rw [e]
    exact beq_false_of_ne h
  rw [this]
  rfl

/-- The version test rejects a token in which no number follows `HTTP/`. -/
theorem protocol_version_reject_major (er : Bool) (p r : Bytes)
    (hp : p.map tolower = "http/".toList)
    (hs : ∀ c, r.head? = some c → isspace c = false) (hn : starts_number r = false) :
    protocol_version er (p ++ r) = none := by
  obtain ⟨hl, hpre⟩ := http_token_ok p r hp
  rw [protocol_version_eq er _ hpre, List.drop_left' hl, httpd_parse_number_none r hs hn er]
  rfl

/-- The version test rejects a token in which the first number is not
followed by a dot. -/
theorem protocol_version_reject_dot (er : Bool) (p a r : Bytes)
    (hp : p.map tolower = "http/".toList)
    (hane : a ≠ []) (ha : ∀ c ∈ a, isdigit c = true)
    (hr : ∀ c, r.head? = some c → isdigit c = false ∧ c ≠ '.') :
    protocol_version er (p ++ a ++ r) = none := by
  obtain ⟨hl, hpre⟩ := http_token_ok p (a ++ r) hp
  have h2 := httpd_parse_number_digits er a r hane ha (fun c hc => (hr c hc).1)
  have h3 : (p ++ (a ++ r)).getD (5 + a.length) NUL ≠ '.' := by
    rw [← List.append_assoc, List.getD_eq_getElem?_getD,
      List.getElem?_append_right (by simp [hl])]
    simp only [List.length_append, hl, Nat.sub_self]
    cases r with
    | nil =>
      simp only [List.getElem?_nil, Option.getD_none]
      decide
    | cons c t =>
      simp only [List.getElem?_cons_zero, Option.getD_some]
      exact (hr c rfl).2
  rw [List.append_assoc, protocol_version_eq er _ hpre, List.drop_left' hl, h2]
  by_cases hov : ULONG_MAX < digits_value a ∨ (er = true ∧ digits_value a = ULONG_MAX)
  · rw [if_pos hov]; rfl
  · rw [if_neg hov, if_neg (by simp), if_pos h3]

/-- The version test rejects a token in which no number follows the dot. -/
theorem protocol_version_reject_minor (er : Bool) (p a r : Bytes)
    (hp : p.map tolower = "http/".toList)
    (hane : a ≠ []) (ha : ∀ c ∈ a, isdigit c = true)
    (hs : ∀ c, r.head? = some c → isspace c = false) (hn : starts_number r = false) :
    protocol_version er (p ++ a ++ '.' :: r) = none := by
  obtain ⟨hl, hpre⟩ := http_token_ok p (a ++ '.' :: r) hp
  have hdot : isdigit '.' = false := by decide
  have h2 := httpd_parse_number_digits er a ('.' :: r) hane ha (by
    intro c hc
    simp only [List.head?_cons, Option.some.injEq] at hc
    rw [← hc]; exact hdot)
  have h4 : (p ++ (a ++ '.' :: r)).drop (5 + a.length + 1) = r := by
    have : (p ++ a ++ ['.']).length = 5 + a.length + 1 := by simp [hl]; omega
    rw [show p ++ (a ++ '.' :: r) = (p ++ a ++ ['.']) ++ r by simp, List.drop_left' this]
  rw [List.append_assoc, protocol_version_eq er _ hpre, List.drop_left' hl, h2]
  by_cases hov : ULONG_MAX < digits_value a ∨ (er = true ∧ digits_value a = ULONG_MAX)
  · rw [if_pos hov]; rfl
  · rw [if_neg hov, if_neg (by simp)]
    by_cases hd : (p ++ (a ++ '.' :: r)).getD (5 + a.length) NUL ≠ '.'
    · rw [if_pos hd]
    · rw [if_neg hd, h4, httpd_parse_number_none r hs hn er]
      rfl

/-- The request line with three tokens the last of which fails the version
test. -/
theorem httpd_digest_request_line_bad_version (env : Env) (h : httpd_t) (v u p : Nat)
    (b : Bytes) (hsp : isspace (buf_get h.request.request_buf 0) = false)
    (htok : request_line_tokens h.request.request_buf = (some v, some u, some p, none, b))
    (hver : protocol_version env.erange (cstr (b.drop p)) = none) :
    httpd_digest_request_line env h =
      httpd_error env
        (if strcmp_eq (cstr (b.drop v)) "HEAD".toList then
          { h with request := { h.request with
            request_buf := b, uri := some u, verb := .VERB_HEAD } }
         else { h with request := { h.request with request_buf := b, uri := some u } })
        .ERRMODE_NON_HTTP 400
        ("Invalid protocol '".toList ++ cstr (b.drop p) ++ "'.".toList) := by
  unfold httpd_digest_request_line
  rw [if_neg (by simp [hsp])]
  rw [htok]
  simp only [hver, Option.getD_some]

set_option maxRecDepth 100000 in
/-- The version test does not look at what follows the second number: the
request line `GET /p HTTP/1.1x` is let through. -/
theorem version_token_trailing_garbage :
    (httpd_digest_request_line sample_env (line_state "GET /p HTTP/1.1x".toList)).1 =
      .HS_CONTINUE := by
  decide

/-- The loop of `httpd_valid_path` ends with `c` equal to NUL. -/
theorem httpd_valid_path_loop_nul : ∀ (s : Bytes) (first : Bool) (nsl : Nat) (c : Char),
    httpd_valid_path_loop s first nsl = some c → c = NUL := by
  intro s
  induction s with
  | nil =>
    intro first nsl c h
    simp only [httpd_valid_path_loop, Option.some.injEq] at h
    exact h.symm
  | cons x s ih =>
    intro first nsl c h
    unfold httpd_valid_path_loop at h
    split at h
    · split at h
      · simp at h
      · exact ih _ _ _ h
    · split at h
      · simp at h
      · exact ih _ _ _ h

/-- The loop of `httpd_valid_path` past the first byte: it runs to the end
exactly when no two slashes follow each other. -/
theorem httpd_valid_path_loop_isSome : ∀ (s : Bytes) (nsl : Nat),
    (httpd_valid_path_loop s false nsl).isSome =
      (no_double_slash s && !(decide (nsl ≠ 0) && s.head? = some '/')) := by
  intro s
  induction s with
  | nil => intro nsl; simp [httpd_valid_path_loop, no_double_slash]
  | cons c t ih =>
    intro nsl
    unfold httpd_valid_path_loop
    by_cases hc : c = '/'
    · rw [if_pos hc]
      by_cases hn : nsl ≠ 0
      · rw [if_pos hn]
        simp [hc, hn]
      · rw [if_neg hn, ih]
        simp only [no_double_slash, hc, hn]
        cases no_double_slash t <;> cases (t.head? == some '/') <;> simp
    · rw [if_neg hc]
      simp only [Bool.false_eq_true, if_false, ih, no_double_slash, hc]
      simp [hc]

/-- What `httpd_valid_path` accepts: a C string that begins with a slash and
has no two consecutive slashes. -/
theorem httpd_valid_path_iff (path : Bytes) :
    httpd_valid_path path =
      ((cstr path).head? = some '/' && no_double_slash (cstr path)) := by
  unfold httpd_valid_path
  cases hp : cstr path with
  | nil => simp [httpd_valid_path_loop]
  | cons c t =>
    by_cases hc : c = '/'
    · have hl : httpd_valid_path_loop (c :: t) true 0 = httpd_valid_path_loop t false 1 := by
        rw [httpd_valid_path_loop, if_pos hc, if_neg (by simp)]
      rw [hl]
      have hs := httpd_valid_path_loop_isSome t 1
      cases hr : httpd_valid_path_loop t false 1 with
      | none =>
        rw [hr] at hs
        simp only [Option.isSome_none] at hs
        simp only [List.head?_cons, hc, no_double_slash]
        simp only [ne_eq, one_ne_zero, not_false_eq_true, decide_True, Bool.true_and] at hs
        rw [Bool.and_comm] at hs
        simp [← hs]
      | some x =>
        have hx := httpd_valid_path_loop_nul t false 1 x hr
        rw [hr] at hs
        simp only [Option.isSome_some] at hs
        simp only [ne_eq, one_ne_zero, not_false_eq_true, decide_True, Bool.true_and] at hs
        rw [Bool.and_comm] at hs
        have hnul : ¬ NUL = '/' := by decide
        simp [hx, hnul, hc, no_double_slash, ← hs]
    · have hl : httpd_valid_path_loop (c :: t) true 0 = none := by
        rw [httpd_valid_path_loop, if_neg hc, if_pos rfl]
      rw [hl]
      simp [hc]

/-- The test of the terminal kinds: `strcmp` finds the URI equal to the
path. -/
theorem strcmp_eq_iff (u p : Bytes) : strcmp_eq u p = true ↔ cstr u = cstr p := by
  simp [strcmp_eq]

/-- The test of the nonterminal kind: the path is a prefix of the URI and
what follows is empty or starts with a slash. -/
theorem nonterm_match_iff (reg : httpd_reg_t) (u : Bytes) :
    nonterm_match reg u = true ↔
      ∃ rest : Bytes, cstr u = cstr reg.path ++ rest ∧ (rest = [] ∨ rest.head? = some '/') := by
  unfold nonterm_match strncmp_eq strlen
  generalize cstr u = U
  generalize cstr reg.path = P
  have hnul : NUL ≠ '/' := by decide
  simp only [List.take_length, Bool.and_eq_true, decide_eq_true_eq, beq_iff_eq,
    Bool.or_eq_true]
  constructor
  · rintro ⟨⟨hlen, htake⟩, hor⟩
    refine ⟨U.drop P.length, ?_, ?_⟩
    · conv_lhs => rw [← List.take_append_drop P.length U]
      rw [htake]
    · rcases hor with e | e
      · left
        exact List.drop_eq_nil_of_le (by omega)
      · right
        rw [List.getD_eq_getElem?_getD] at e
        cases hd : U.drop P.length with
        | nil =>
          have : U.length ≤ P.length := by
            have := congrArg List.length hd
            simp only [List.length_drop, List.length_nil] at this
            omega
          rw [List.getElem?_eq_none this] at e
          exact absurd e hnul
        | cons c t =>
          have hc : U[P.length]? = some c := by
            have := congrArg (fun l => l[0]?) hd
            simpa using this
          rw [hc] at e
          simp only [Option.getD_some] at e
          simp [e]
  · rintro ⟨rest, hU, hor⟩
    subst hU
    refine ⟨⟨by simp, by simp⟩, ?_⟩
    rcases hor with e | e
    · left; simp [e]
    · right
      cases rest with
      | nil => simp at e
      | cons c t =>
        simp only [List.head?_cons, Option.some.injEq] at e
        rw [List.getD_eq_getElem?_getD, List.getElem?_append_right (Nat.le_refl _)]
        simp [e]

/-- One round of the loop of `httpd_lookup_uri` at an entry that is not a
directory. -/
theorem httpd_lookup_loop_cons (env : Env) (h : httpd_t) (regs : registry) (uri : Bytes)
    (reg : httpd_reg_t) (rest : List httpd_reg_t) (hd : reg.type ≠ .OR_DIR) :
    httpd_lookup_loop env h regs uri (reg :: rest) =
      if entry_matches reg uri then httpd_reply env h regs rest.length uri
      else httpd_lookup_loop env h regs uri rest := by
  rw [httpd_lookup_loop]
  unfold entry_matches
  cases ht : reg.type with
  | OR_DIR => exact absurd ht hd
  | _ => simp only []

/-- Every registry has a first entry that matches the URI, or none. -/
theorem first_match_or_none (uri : Bytes) : ∀ regs : List httpd_reg_t,
    (∀ e ∈ regs, entry_matches e uri = false) ∨
    ∃ (before : List httpd_reg_t) (reg : httpd_reg_t) (after : List httpd_reg_t),
      regs = before ++ reg :: after ∧ (∀ e ∈ before, entry_matches e uri = false) ∧
        entry_matches reg uri = true := by
  intro regs
  induction regs with
  | nil => left; intro e he; cases he
  | cons r regs ih =>
    cases hm : entry_matches r uri with
    | true => right; exact ⟨[], r, regs, rfl, (fun e he => by cases he), hm⟩
    | false =>
      rcases ih with hno | ⟨before, reg, after, e1, e2, e3⟩
      · left
        intro e he
        rcases List.mem_cons.mp he with e4 | e4
        · rw [e4]; exact hm
        · exact hno e e4
      · right
        refine ⟨r :: before, reg, after, by rw [e1]; rfl, ?_, e3⟩
        intro e he
        rcases List.mem_cons.mp he with e4 | e4
        · rw [e4]; exact hm
        · exact e2 e e4

/-- The lookup of a URI other than the root goes through the loop. -/
theorem httpd_lookup_uri_loop (env : Env) (h : httpd_t) (regs : registry) (uri : Bytes)
    (h1 : cstr uri ≠ "/".toList) (h2 : cstr uri ≠ "//".toList) :
    httpd_lookup_uri env h regs uri = httpd_lookup_loop env h regs uri regs := by
  have e1 : strcmp_eq uri "/".toList = false := by
    have : cstr "/".toList = "/".toList := by decide
    unfold strcmp_eq
    rw [this]
    exact beq_false_of_ne h1
  have e2 : strcmp_eq uri "//".toList = false := by
    have : cstr "//".toList = "//".toList := by decide
    unfold strcmp_eq
    rw [this]
    exact beq_false_of_ne h2
  unfold httpd_lookup_uri
  rw [e1, e2]
  rfl

/-- The reply of `httpd_notfound`. -/
theorem httpd_notfound_spec (env : Env) (h : httpd_t) (uri : Bytes) :
    ((httpd_notfound env h uri).1 = .HS_SUCCESS_OPEN ∨
      (httpd_notfound env h uri).1 = .HS_SUCCESS_CLOSE) ∧
    ∃ (rest : Bytes) (more : List Bytes), (httpd_notfound env h uri).2.sent = h.sent ++
      (h.request.print_buf ++ "HTTP/1.1 404 Not Found\r\n".toList ++ rest) :: more := by
  unfold httpd_notfound
  obtain ⟨rest, more, hs⟩ := httpd_error_sent env h .ERRMODE_NONFATAL 404
    ("The requested URL ".toList ++ cstr (html_quote uri) ++
      " was not found on this server.".toList) (by decide)
  rw [status_line_404] at hs
  have hf := finish_success_spec (httpd_error env h .ERRMODE_NONFATAL 404
    ("The requested URL ".toList ++ cstr (html_quote uri) ++
      " was not found on this server.".toList)).2
  exact ⟨hf.1, rest, more, by rw [hf.2, hs]⟩

/-- A store through a pointer to a registry entry leaves the entries behind
the other pointers as they are. -/
theorem reg_deref_store_ne (regs : registry) (p q : Nat) (e : httpd_reg_t) (hq : q ≠ p) :
    reg_deref (reg_store regs p e) q = reg_deref regs q := by
  unfold reg_deref reg_store
  by_cases hp : p < regs.length
  · simp only [hp, if_true, List.length_set, List.get?_eq_getElem?]
    by_cases hql : q < regs.length
    · simp only [hql, if_true]
      rw [List.getElem?_set_ne (by omega)]
    · simp only [hql, if_false]
  · simp only [hp, if_false]

theorem reg_store_length (regs : registry) (p : Nat) (e : httpd_reg_t) :
    (reg_store regs p e).length = regs.length := by
  unfold reg_store
  split <;> simp

theorem httpd_print_send_cache (h : httpd_t) :
    httpd_print h .HP_SEND "Cache-Control: max-age=43200\n".toList =
      httpd_send (httpd_send h "Cache-Control: max-age=43200".toList) "\r\n".toList := by
  rfl

theorem httpd_print_send_no_store (h : httpd_t) :
    httpd_print h .HP_SEND "Cache-Control: no-store\n".toList =
      httpd_send (httpd_send h "Cache-Control: no-store".toList) "\r\n".toList := by
  rfl

theorem httpd_print_send_newline (h : httpd_t) :
    httpd_print h .HP_SEND ['\n'] = httpd_send h "\r\n".toList := by
  rfl

theorem html_open_eq (h : httpd_t) (reg : httpd_reg_t) :
    html_open h reg = append_buf h (crlf (html_open_text reg)) := by
  unfold html_open html_open_text
  split
  · simp only [httpd_print_buffer, append_buf_append, crlf_append]
  · exact (append_buf_nil h).symm

theorem httpd_html_trailer_eq (env : Env) (h : httpd_t) :
    httpd_html_trailer env h .HP_BUFFER = append_buf h (crlf (trailer_text env)) := by
  unfold httpd_html_trailer trailer_text
  simp only [httpd_print_buffer, append_buf_append, crlf_append, List.append_assoc]

theorem html_close_eq (env : Env) (h : httpd_t) (reg : httpd_reg_t) :
    html_close env h reg = append_buf h (crlf (html_close_text env reg)) := by
  unfold html_close html_close_text
  split
  · split
    · simp only [httpd_print_buffer, httpd_html_trailer_eq, append_buf_append, crlf_append]
    · simp only [httpd_print_buffer, List.nil_append]
  · exact (append_buf_nil h).symm

theorem reply_content_fixed (h : httpd_t) (reg : httpd_reg_t) (ht : reg.type = .OR_FIXED) :
    reply_content h reg = append_buf h (crlf (cstr reg.fixed)) := by
  unfold reply_content
  rw [if_pos ht, httpd_print_buffer, cstr_idem]

/-- What `httpd_print_dump` sends when it announces the length. -/
theorem httpd_print_dump_length_sent (k : httpd_t) :
    (httpd_print_dump k .DUMP_WITH_LENGTH).sent =
      k.sent ++ ("Content-Length: ".toList ++ fmt_u k.request.print_buf.length ++
        ['\r', '\n', '\r', '\n']) :: body_chunks k.request.print_buf := by
  unfold httpd_print_dump httpd_content_len httpd_send body_chunks
  simp only [if_true]
  split <;> simp

theorem fmt_u_small (n : Nat) (hn : n < 2 ^ 32) :
    "Content-Length: ".toList ++ fmt_u n ++ ['\r', '\n', '\r', '\n'] = length_line n := by
  unfold fmt_u length_line
  rw [Nat.mod_eq_of_lt hn]

theorem crlf_pad_text (n : Nat) : crlf (pad_text n) = pad_text n := by
  induction n with
  | zero => rfl
  | succ n ih =>
    have e : pad_text (n + 1) = "&nbsp;".toList ++ pad_text n := by
      simp [pad_text, List.replicate_succ]
    rw [e, crlf_append, ih]
    rfl

theorem dirlist_pad_eq (n : Nat) : ∀ h : httpd_t, dirlist_pad h n = append_buf h (pad_text n) := by
  induction n with
  | zero => intro h; exact (append_buf_nil h).symm
  | succ n ih =>
    intro h
    have e : pad_text (n + 1) = "&nbsp;".toList ++ pad_text n := by
      simp [pad_text, List.replicate_succ]
    rw [dirlist_pad, ih, httpd_print_buffer, append_buf_append, e]
    rfl

theorem dirlist_row_eq (h : httpd_t) (uri : Bytes) (reg : httpd_reg_t) :
    dirlist_row h uri reg =
      if row_shown uri reg then append_buf h (crlf (row_document uri reg)) else h := by
  unfold dirlist_row row_shown
  split
  · simp only [httpd_print_buffer, dirlist_pad_eq, append_buf_append, row_document,
      crlf_append, crlf_pad_text, row_pad]
    rw [List.append_assoc]
  · rfl

theorem dirlist_rows_eq (uri : Bytes) (regs : registry) : ∀ h : httpd_t,
    regs.foldl (fun acc reg => dirlist_row acc uri reg) h =
      append_buf h (crlf (rows_document uri regs)) := by
  induction regs with
  | nil => intro h; exact (append_buf_nil h).symm
  | cons reg regs ih =>
    intro h
    rw [List.foldl_cons, ih, dirlist_row_eq]
    unfold rows_document
    by_cases hs : row_shown uri reg = true
    · rw [if_pos hs, List.filter_cons_of_pos hs, List.map_cons, List.flatten_cons, crlf_append,
        append_buf_append]
    · rw [if_neg hs, List.filter_cons_of_neg hs]

theorem body_chunks_flatten (body : Bytes) : (body_chunks body).flatten = body := by
  unfold body_chunks
  cases body with
  | nil => rfl
  | cons c t => simp

theorem httpd_send_with_output (h : httpd_t) (s : List Bytes) (pb : Bytes) (ot : Nat)
    (b : Bytes) :
    httpd_send (with_output h s pb ot) b = with_output h (s ++ [b]) pb (ot + b.length) := rfl

theorem append_buf_with_output (h : httpd_t) (s : List Bytes) (pb : Bytes) (ot : Nat)
    (t : Bytes) :
    append_buf (with_output h s pb ot) t = with_output h s (pb ++ t) ot := rfl

theorem with_output_verb (h : httpd_t) (s : List Bytes) (pb : Bytes) (ot : Nat) :
    (with_output h s pb ot).request.verb = h.request.verb := rfl

theorem with_output_print_buf (h : httpd_t) (s : List Bytes) (pb : Bytes) (ot : Nat) :
    (with_output h s pb ot).request.print_buf = pb := rfl

/-- The buffers that `httpd_reply` sends for a fixed text object. -/
theorem reply_output_sent (env : Env) (h : httpd_t) (reg : httpd_reg_t)
    (hv : h.request.verb ≠ .VERB_HEAD) (ht : reg.type = .OR_FIXED) :
    (reply_output env h reg).sent =
      h.sent ++
        [h.request.print_buf ++
            header_text env h.request.location 200 (!h.request.persistent) reg.content_str,
          "Cache-Control: max-age=43200".toList, "\r\n".toList,
          "Content-Length: ".toList ++ fmt_u (crlf (fixed_document env reg)).length ++
            ['\r', '\n', '\r', '\n']] ++
        body_chunks (crlf (fixed_document env reg)) := by
  have hb : reg.type ≠ .OR_FIXED_BINARY := by rw [ht]; decide
  unfold reply_output
  simp only []
  rw [httpd_http_header_eq, httpd_print_send_cache, httpd_send_with_output,
    httpd_send_with_output, if_neg (by rw [with_output_verb]; exact hv), if_pos hb,
    html_open_eq, reply_content_fixed _ _ ht, html_close_eq, append_buf_append,
    append_buf_append, append_buf_with_output, httpd_print_dump_length_sent,
    with_output_sent, with_output_print_buf]
  simp only [fixed_document, crlf_append, List.nil_append, List.append_assoc,
    List.cons_append, List.singleton_append]

/-- The buffers that `httpd_dyn_complete` sends. -/
theorem dyn_complete_output_sent (env : Env) (h : httpd_t) (reg : httpd_reg_t) (text : Bytes)
    (hv : h.request.verb ≠ .VERB_HEAD) :
    (dyn_complete_output env h reg text).sent =
      h.sent ++
        [h.request.print_buf ++
            header_text env h.request.location 200 (!h.request.persistent) reg.content_str,
          "Cache-Control: no-store".toList, "\r\n".toList,
          "Content-Length: ".toList ++ fmt_u (crlf (dyn_document env reg text)).length ++
            ['\r', '\n', '\r', '\n']] ++
        body_chunks (crlf (dyn_document env reg text)) := by
  unfold dyn_complete_output
  simp only []
  rw [httpd_http_header_eq, httpd_print_send_no_store, httpd_send_with_output,
    httpd_send_with_output, if_neg (by rw [with_output_verb]; exact hv),
    html_open_eq, httpd_vprint_buffer, html_close_eq, append_buf_append,
    append_buf_append, append_buf_with_output, httpd_print_dump_length_sent,
    with_output_sent, with_output_print_buf]
  simp only [dyn_document, crlf_append, List.nil_append, List.append_assoc,
    List.cons_append, List.singleton_append]

/-- The buffers that `httpd_dirlist` sends. -/
theorem dirlist_output_sent (env : Env) (h : httpd_t) (regs : registry) (uri : Bytes)
    (hv : h.request.verb ≠ .VERB_HEAD) :
    (dirlist_output env h regs uri).sent =
      h.sent ++
        [h.request.print_buf ++
            header_text env h.request.location 200 (!h.request.persistent)
              "text/html; charset=iso8859-1".toList,
          "Content-Length: ".toList ++ fmt_u (crlf (dirlist_document env regs uri)).length ++
            ['\r', '\n', '\r', '\n']] ++
        body_chunks (crlf (dirlist_document env regs uri)) := by
  unfold dirlist_output
  simp only []
  rw [httpd_http_header_eq, if_neg (by rw [with_output_verb]; exact hv)]
  simp only [httpd_print_buffer, dirlist_rows_eq, httpd_html_trailer_eq, append_buf_append,
    append_buf_with_output, httpd_print_dump_length_sent, with_output_sent,
    with_output_print_buf]
  simp only [dirlist_document, crlf_append, List.nil_append, List.append_assoc,
    List.cons_append, List.singleton_append]

/-- The buffers that `httpd_verror` sends for an error with HTTP framing. -/
theorem httpd_verror_sent (env : Env) (h : httpd_t) (mode : errmode_t) (status_code : Int)
    (verb : verb_t) (text : Bytes) (hm : mode ≠ .ERRMODE_NON_HTTP) (hv : verb ≠ .VERB_HEAD) :
    (httpd_verror env h mode status_code verb text).2.sent =
      h.sent ++
        [h.request.print_buf ++
            header_text env h.request.location status_code
              (mode.toNat ≤ errmode_t.ERRMODE_FATAL.toNat) "text/html; charset=iso8859-1".toList,
          "Content-Length: ".toList ++
            fmt_u (crlf (error_document env status_code text)).length ++
            ['\r', '\n', '\r', '\n']] ++
        body_chunks (crlf (error_document env status_code text)) := by
  have hl : errmode_t.ERRMODE_NON_HTTP.toNat < mode.toNat := by
    cases mode
    · exact absurd rfl hm
    · decide
    · decide
  have key : ∀ k : httpd_t, (if (decide (mode.toNat ≤ errmode_t.ERRMODE_FATAL.toNat) ||
      !k.request.persistent) = true then (httpd_status_t.HS_ERROR_CLOSE, k)
      else (httpd_status_t.HS_ERROR_OPEN, k.reinit)).2.sent = k.sent := by
    intro k
    split <;> rfl
  unfold httpd_verror
  simp only []
  rw [key, if_pos hm, if_neg hm, if_pos hv, if_pos hl, httpd_http_header_eq]
  simp only [httpd_print_buffer, httpd_vprint_buffer, httpd_html_trailer_eq, append_buf_append,
    append_buf_with_output, httpd_print_dump_length_sent, with_output_sent,
    with_output_print_buf]
  simp only [error_document, crlf_append, List.nil_append, List.append_assoc,
    List.cons_append, List.singleton_append]

theorem cstr_replicate_a (n : Nat) : cstr (List.replicate n 'a') = List.replicate n 'a' := by
  induction n with
  | zero => rfl
  | succ n ih =>
    rw [List.replicate_succ, cstr, if_neg (by decide), ih]

theorem crlf_replicate_a (n : Nat) : crlf (List.replicate n 'a') = List.replicate n 'a' := by
  induction n with
  | zero => rfl
  | succ n ih =>
    rw [List.replicate_succ, crlf, if_neg (by decide), ih]

/-- What `httpd_reply` does for a fixed text object that is not busy. -/
theorem httpd_reply_fixed (env : Env) (h : httpd_t) (regs : registry) (p : Nat) (uri : Bytes)
    (reg : httpd_reg_t) (hr : reg_deref regs p = some reg) (ha : reg.async_session = none)
    (ht : reg.type = .OR_FIXED) :
    httpd_reply env h regs p uri =
      some ((finish_success (reply_output env h reg)).1,
        (finish_success (reply_output env h reg)).2, regs) := by
  unfold httpd_reply
  rw [hr]
  simp only []
  rw [if_neg (by simp [ha]), if_neg (by rw [ht]; decide)]

/-- What `httpd_dyn_complete` does for a pending request. -/
theorem httpd_dyn_complete_eq (env : Env) (h : httpd_t) (regs : registry) (p : Nat)
    (text : Bytes) (reg : httpd_reg_t) (hn : h.request.async_node = some p)
    (hr : reg_deref regs p = some reg) :
    httpd_dyn_complete env h regs text =
      some ((finish_success (dyn_complete_output env
          { h with request := { h.request with async_node := none } } reg text)).1,
        (finish_success (dyn_complete_output env
          { h with request := { h.request with async_node := none } } reg text)).2,
        reg_store regs p { reg with async_session := none }) := by
  unfold httpd_dyn_complete
  rw [hn]
  simp only []
  rw [hr]

theorem result_conn_some (st : httpd_status_t) (k : httpd_t) (regs : registry) :
    result_conn (some (st, k, regs)) = k := rfl

theorem strchr_from_isNone_iff (c : Char) (hc : c ≠ NUL) :
    ∀ (s : Bytes) (i : Nat), NUL ∉ s → ((strchr_from s c i).isNone = true ↔ c ∉ s) := by
  intro s
  induction s with
  | nil =>
    intro i _
    rw [strchr_from, if_neg hc]
    simp
  | cons x xs ih =>
    intro i hn
    have hx : x ≠ NUL := fun e => hn (e ▸ List.mem_cons_self _ _)
    have hxs : NUL ∉ xs := fun m => hn (List.mem_cons_of_mem _ m)
    rw [strchr_from]
    by_cases hxc : x = c
    · rw [if_pos hxc]
      simp [hxc]
    · rw [if_neg hxc, if_neg hx, ih (i + 1) hxs]
      simp [List.mem_cons, Ne.symm hxc]

/-- The row test of `httpd_dirlist`: the entry is not hidden and its path is
the listed URI followed by bytes without a slash. -/
theorem row_shown_iff (uri : Bytes) (reg : httpd_reg_t) :
    row_shown uri reg = true ↔
      reg.flags &&& HF_HIDDEN = 0 ∧ ∃ seg, cstr reg.path = cstr uri ++ seg ∧ '/' ∉ seg := by
  have hnul : NUL ∉ (cstr reg.path).drop (strlen uri) :=
    fun m => cstr_no_nul reg.path (List.mem_of_mem_drop m)
  have hs := strchr_from_isNone_iff '/' (by decide) _ 0 hnul
  unfold row_shown strncmp_eq strchr
  simp only [Bool.and_eq_true, beq_iff_eq, decide_eq_true_eq]
  rw [hs]
  unfold strlen
  rw [List.take_length]
  constructor
  · rintro ⟨⟨h1, h2⟩, h3⟩
    refine ⟨h3, (cstr reg.path).drop (cstr uri).length, ?_, h2⟩
    conv_lhs => rw [← List.take_append_drop (cstr uri).length (cstr reg.path)]
    rw [h1]
  · rintro ⟨h3, seg, e, hseg⟩
    rw [e]
    refine ⟨⟨List.take_left _ _, ?_⟩, h3⟩
    rw [List.drop_left]
    exact hseg

theorem crlf_ne_nil : ∀ s : Bytes, s ≠ [] → crlf s ≠ [] := by
  intro s hs
  cases s with
  | nil => exact absurd rfl hs
  | cons c t =>
    rw [crlf]
    split <;> exact List.cons_ne_nil _ _

theorem dirlist_document_ne_nil (env : Env) (regs : registry) (uri : Bytes) :
    crlf (dirlist_document env regs uri) ≠ [] := by
  apply crlf_ne_nil
  unfold dirlist_document
  have h : cstr doctype_line ≠ [] := by decide
  intro e
  exact h (List.append_eq_nil.mp e).1

/-- The last buffer that `httpd_dirlist` sends is the expanded document. -/
theorem httpd_dirlist_body (env : Env) (h : httpd_t) (regs : registry) (uri : Bytes)
    (hv : h.request.verb ≠ .VERB_HEAD) :
    (httpd_dirlist env h regs uri).2.sent.getLast? =
      some (crlf (dirlist_document env regs uri)) := by
  unfold httpd_dirlist
  rw [(finish_success_spec _).2, dirlist_output_sent env h regs uri hv]
  unfold body_chunks
  rw [if_pos (fun e => dirlist_document_ne_nil env regs uri (List.length_eq_zero.mp e))]
  simp

theorem dirlist_document_eq (env : Env) (regs : registry) (uri : Bytes) :
    dirlist_document env regs uri =
      dirlist_heading uri ++
        (((regs.filter (fun reg => row_shown uri reg)).map (row_document uri)).flatten ++
          (trailer_text env ++ "</HTML>\n".toList)) := by
  have e : cstr "</HTML>\n".toList = "</HTML>\n".toList := by decide
  unfold dirlist_document dirlist_heading rows_document
  rw [e]
  simp only [List.append_assoc]

theorem hex_digit_digitChar (q : Nat) (hq : q < 16) :
    hex_digit (Nat.digitChar q) = (q : Int) ∧ is_hex (Nat.digitChar q) = true := by
  interval_cases q <;> exact ⟨by decide, by decide⟩

theorem uri_quote_cons (c : Char) (s : Bytes) (hc : c ≠ NUL) (hb : c.toNat < 256) :
    uri_quote (c :: s) = quoted_byte c ++ uri_quote s := by
  rw [uri_quote, if_neg hc]
  unfold quoted_byte printable_nonspace fmt_02x
  rw [Nat.mod_eq_of_lt hb]
  by_cases hp : 32 < c.toNat ∧ c.toNat < 127 ∧ c ≠ '%'
  · have hq : (decide (33 ≤ c.toNat) && decide (c.toNat ≤ 126) && c != '%') = true := by
      simp only [Bool.and_eq_true, decide_eq_true_eq, bne_iff_ne, ne_eq]
      exact ⟨⟨by omega, by omega⟩, hp.2.2⟩
    simp only [if_pos hp, if_pos hq, List.singleton_append]
  · have hq : ¬ (decide (33 ≤ c.toNat) && decide (c.toNat ≤ 126) && c != '%') = true := by
      simp only [Bool.and_eq_true, decide_eq_true_eq, bne_iff_ne, ne_eq]
      intro h
      exact hp ⟨by omega, by omega, h.2⟩
    simp only [if_neg hp, if_neg hq, List.cons_append, List.nil_append]

theorem uri_quote_eq : ∀ s : Bytes, NUL ∉ s → (∀ c ∈ s, c.toNat < 256) →
    uri_quote s = (s.map quoted_byte).flatten := by
  intro s
  induction s with
  | nil => intro _ _; rfl
  | cons c s ih =>
    intro hn hb
    rw [uri_quote_cons c s (fun e => hn (by simp [e])) (hb c (List.mem_cons_self _ _)),
      ih (fun m => hn (List.mem_cons_of_mem _ m)) (fun x hx => hb x (List.mem_cons_of_mem _ hx)),
      List.map_cons, List.flatten_cons]

theorem percent_decode_quoted_byte (c : Char) (hb : c.toNat < 256) (h : Int) (r t : Bytes) :
    ∃ h2, percent_decode_loop false .PS_BASE h r (quoted_byte c ++ t) =
      percent_decode_loop false .PS_BASE h2 (r ++ [c]) t := by
  unfold quoted_byte
  by_cases hp : (printable_nonspace c && c != '%') = true
  · rw [if_pos hp]
    have hc : c ≠ '%' := by
      simp only [Bool.and_eq_true, bne_iff_ne, ne_eq] at hp
      exact hp.2
    refine ⟨h, ?_⟩
    rw [List.singleton_append, percent_decode_loop, if_neg hc]
    simp
  · rw [if_neg hp]
    have h1 := hex_digit_digitChar (c.toNat / 16) (by omega)
    have h2 := hex_digit_digitChar (c.toNat % 16) (by omega)
    refine ⟨(c.toNat / 16 : Nat), ?_⟩
    simp only [List.cons_append, List.nil_append]
    rw [percent_decode_loop, if_pos rfl, percent_decode_loop]
    simp only [h1.1]
    rw [if_neg (by omega), percent_decode_loop]
    simp only [h2.1]
    rw [if_neg (by omega)]
    simp only [Int.toNat_ofNat]
    rw [shift_or_eq _ _ (by omega) (by omega)]
    have e : 16 * (c.toNat / 16) + c.toNat % 16 = c.toNat := Nat.div_add_mod _ _
    rw [e, Char.ofNat_toNat]

theorem percent_decode_uri_quote : ∀ (s : Bytes), NUL ∉ s → (∀ c ∈ s, c.toNat < 256) →
    ∀ (h : Int) (r : Bytes),
      percent_decode_loop false .PS_BASE h r (uri_quote s) = some (r ++ s) := by
  intro s
  induction s with
  | nil => intro _ _ h r; simp [uri_quote, percent_decode_loop]
  | cons c s ih =>
    intro hn hb h r
    rw [uri_quote_cons c s (fun e => hn (by simp [e])) (hb c (List.mem_cons_self _ _))]
    obtain ⟨h2, e⟩ := percent_decode_quoted_byte c (hb c (List.mem_cons_self _ _)) h r
      (uri_quote s)
    rw [e, ih (fun m => hn (List.mem_cons_of_mem _ m))
      (fun x hx => hb x (List.mem_cons_of_mem _ hx))]
    simp

theorem httpd_print_buf_send (h : httpd_t) (t : Bytes) :
    httpd_print_buf h .HP_SEND t = httpd_send h t := by
  simp [httpd_print_buf]

theorem httpd_send_eq_with_output (h : httpd_t) (b : Bytes) :
    httpd_send h b =
      with_output h (h.sent ++ [b]) h.request.print_buf (h.request.ot_offset + b.length) := rfl

theorem with_output_with_output (h : httpd_t) (s s2 : List Bytes) (pb pb2 : Bytes)
    (ot ot2 : Nat) :
    with_output (with_output h s pb ot) s2 pb2 ot2 = with_output h s2 pb2 ot2 := rfl

theorem with_output_self (h : httpd_t) :
    with_output h h.sent h.request.print_buf h.request.ot_offset = h := rfl

/-- The `while` loop of `httpd_vprint` in the mode `HP_SEND`, with enough
rounds for the text: the buffers sent are not empty and make up the text with
every newline expanded. -/
theorem httpd_vprint_loop_send :
    ∀ (fuel : Nat) (sp : Bytes) (h : httpd_t), sp.length ≤ fuel →
      ∃ chunks : List Bytes, chunks.flatten = crlf sp ∧ [] ∉ chunks ∧
        httpd_vprint_loop .HP_SEND fuel h sp =
          with_output h (h.sent ++ chunks) h.request.print_buf
            (h.request.ot_offset + (crlf sp).length) := by
  intro fuel
  induction fuel with
  | zero =>
    intro sp h hs
    have : sp = [] := List.length_eq_zero.mp (Nat.le_zero.mp hs)
    subst this
    exact ⟨[], rfl, List.not_mem_nil _, by simp [httpd_vprint_loop, crlf, with_output]⟩
  | succ fuel ih =>
    intro sp h hs
    by_cases hnil : sp = []
    · subst hnil
      exact ⟨[], rfl, List.not_mem_nil _, by simp [httpd_vprint_loop, crlf, with_output]⟩
    · have hlen : sp.length ≠ 0 := fun e => hnil (List.length_eq_zero.mp e)
      obtain ⟨hsplit, hno, hnl⟩ := split_at_newline sp
      generalize hb : sp.takeWhile (fun c => c != '\n') = before at hsplit hno hnl
      have hble : before.length ≤ sp.length := by
        have := congrArg List.length hsplit
        simp only [List.length_append] at this
        omega
      rw [httpd_vprint_loop]
      simp only [hlen, if_false, hb, httpd_print_buf_send]
      by_cases hlt : before.length < sp.length
      · obtain ⟨rest, hrest⟩ := hnl hlt
        have hsp : sp = before ++ '\n' :: rest := by rw [← hrest]; exact hsplit
        have hfuel : rest.length ≤ fuel := by
          have : sp.length = before.length + (rest.length + 1) := by
            rw [hsp]; simp
          omega
        have hcr : crlf sp = before ++ ('\r' :: '\n' :: crlf rest) := by
          rw [hsp, crlf_append, crlf_of_no_newline before hno]
          simp [crlf]
        by_cases hw : before.length = 0
        · have hb0 : before = [] := List.length_eq_zero.mp hw
          subst hb0
          simp only [List.nil_append] at hsp hcr
          subst hsp
          obtain ⟨chunks, hc1, hc2, hc3⟩ := ih rest (httpd_send h ['\r', '\n']) hfuel
          refine ⟨['\r', '\n'] :: chunks, ?_, ?_, ?_⟩
          · rw [List.flatten_cons, hc1, hcr]
            rfl
          · intro hm
            rcases List.mem_cons.mp hm with hm | hm
            · exact absurd hm (by decide)
            · exact hc2 hm
          · simp only [List.length_nil, lt_self_iff_false, decide_False, List.length_cons,
              Nat.zero_lt_succ, decide_True, ne_eq, not_true_eq_false, if_false, if_true,
              List.drop_zero, List.drop_succ_cons]
            rw [hc3, hcr, httpd_send_eq_with_output, with_output_with_output]
            simp only [with_output, List.length_cons, List.append_assoc, List.singleton_append]
            congr 2
            omega
        · have hd : (sp.drop before.length).drop 1 = rest := by
            rw [hrest]; rfl
          obtain ⟨chunks, hc1, hc2, hc3⟩ :=
            ih rest (httpd_send (httpd_send h before) ['\r', '\n']) hfuel
          refine ⟨before :: ['\r', '\n'] :: chunks, ?_, ?_, ?_⟩
          · rw [List.flatten_cons, List.flatten_cons, hc1, hcr]
            rfl
          · intro hm
            rcases List.mem_cons.mp hm with hm | hm
            · exact hw (by rw [← hm]; rfl)
            · rcases List.mem_cons.mp hm with hm | hm
              · exact absurd hm (by decide)
              · exact hc2 hm
          · simp only [hlt, hw, decide_True, if_true, ne_eq, not_false_eq_true, hd]
            rw [hc3, hcr, httpd_send_eq_with_output, httpd_send_eq_with_output,
              with_output_with_output, with_output_with_output]
            simp only [with_output, List.length_cons, List.length_append, List.append_assoc,
              List.singleton_append, List.cons_append, List.nil_append, List.length_nil]
            congr 2
            omega
      · have hbe : before.length = sp.length := by omega
        have hsp : sp = before := by
          have := hsplit
          rw [List.drop_of_length_le (by omega)] at this
          simpa using this
        have hw : before.length ≠ 0 := by omega
        have hd : sp.drop before.length = [] := List.drop_of_length_le (by omega)
        refine ⟨[before], ?_, ?_, ?_⟩
        · rw [hsp, crlf_of_no_newline before hno]
          simp
        · intro hm
          exact hw (by rw [← List.mem_singleton.mp hm]; rfl)
        · simp only [hlt, hw, decide_False, if_true, ne_eq, not_false_eq_true, hd,
            Bool.false_eq_true, if_false, httpd_vprint_loop_nil]
          rw [httpd_send_eq_with_output]
          have e : crlf sp = before := by rw [hsp, crlf_of_no_newline before hno]
          rw [e]

theorem httpd_vprint_loop_succ (type : httpd_print_t) :
    ∀ (fuel : Nat) (sp : Bytes) (h : httpd_t), sp.length ≤ fuel →
      httpd_vprint_loop type (fuel + 1) h sp = httpd_vprint_loop type fuel h sp := by
  intro fuel
  induction fuel with
  | zero =>
    intro sp h hs
    have : sp = [] := List.length_eq_zero.mp (Nat.le_zero.mp hs)
    subst this
    simp [httpd_vprint_loop]
  | succ fuel ih =>
    intro sp h hs
    conv_lhs => rw [httpd_vprint_loop]
    conv_rhs => rw [httpd_vprint_loop]
    by_cases hlen : sp.length = 0
    · rw [if_pos hlen, if_pos hlen]
    · rw [if_neg hlen, if_neg hlen]
      simp only []
      have hble : (sp.takeWhile (fun c => c != '\n')).length ≤ sp.length :=
        (List.takeWhile_sublist _).length_le
      split
      · apply ih
        split
        · simp only [List.length_drop]
          omega
        · simp only [List.length_drop]
          omega
      · rename_i hc
        have hw : (sp.takeWhile (fun c => c != '\n')).length ≠ 0 := by
          simp only [decide_eq_true_eq, not_lt] at hc
          omega
        apply ih
        rw [if_pos hw]
        simp only [List.length_drop]
        simp only [decide_eq_true_eq, not_lt] at hc
        omega

/-- More rounds than the text has bytes change nothing. -/
theorem httpd_vprint_loop_fuel (type : httpd_print_t) (sp : Bytes) (h : httpd_t) :
    ∀ extra : Nat,
      httpd_vprint_loop type (sp.length + extra) h sp = httpd_vprint_loop type sp.length h sp := by
  intro extra
  induction extra with
  | zero => rfl
  | succ n ih =>
    rw [← Nat.add_assoc, httpd_vprint_loop_succ type _ sp h (by omega), ih]

/-- The four ways in which `httpd_input_char` treats a newline that has to be
stored, by the flag `saw_first` and the line length `rll`. -/
theorem httpd_input_char_newline (env : Env) (h : httpd_t) (regs : registry) (c : Char)
    (hnl : c = '\n' ∨ c = '\r') (hsw : ¬(h.cr = true ∧ c = '\n'))
    (hnr : h.request.nr < MAX_HTTPD_REQUEST) :
    httpd_input_char env h regs c =
      if h.request.rll = 0 then
        if h.request.saw_first = false then
          some ((httpd_error env (stored h c) .ERRMODE_FATAL 400 "Missing request.".toList).1,
            (httpd_error env (stored h c) .ERRMODE_FATAL 400 "Missing request.".toList).2, regs)
        else
          httpd_digest_request env { stored h c with request := { (stored h c).request with
            request_buf := buf_set (stored h c).request.request_buf (h.request.nr + 1) NUL } }
            regs
      else
        if h.request.saw_first = false then
          some ((httpd_digest_request_line env { stored h c with
              request := { (stored h c).request with
                rll := 0, request_buf := buf_set (stored h c).request.request_buf h.request.nr NUL,
                fields_start := some (h.request.nr + 1), saw_first := true } }).1,
            (httpd_digest_request_line env { stored h c with
              request := { (stored h c).request with
                rll := 0, request_buf := buf_set (stored h c).request.request_buf h.request.nr NUL,
                fields_start := some (h.request.nr + 1), saw_first := true } }).2, regs)
        else
          some (.HS_CONTINUE,
            { stored h c with request := { (stored h c).request with rll := 0 } }, regs) := by
  have h1 : ¬ (h.cr && decide (c = '\n')) = true := by
    cases hcr : h.cr
    · simp
    · simp only [Bool.true_and, decide_eq_true_eq]
      exact fun e => hsw ⟨hcr, e⟩
  have h2 : ¬ MAX_HTTPD_REQUEST ≤ h.request.nr := by omega
  have hc : (if c = '\r' then '\n' else c) = '\n' := by
    rcases hnl with e | e <;> subst e <;> decide
  unfold httpd_input_char
  rw [if_neg h1]
  simp only []
  rw [if_neg h2, if_pos hc]
  by_cases hr : h.request.rll = 0
  · rw [if_pos hr, if_pos hr]
    by_cases hs : h.request.saw_first = false
    · rw [if_pos (by rw [hs]; rfl), if_pos hs]
      rfl
    · rw [if_neg (by simpa using hs), if_neg hs]
      rfl
  · rw [if_neg hr, if_neg hr]
    by_cases hs : h.request.saw_first = false
    · rw [if_pos (by rw [hs]; rfl), if_pos hs]
      simp only [stored, Nat.add_sub_cancel]
    · rw [if_neg (by simpa using hs), if_neg hs]
      rfl

theorem is_sep_eq (c : Char) : whitespace.contains c = is_sep c := by
  simp only [whitespace, is_sep, List.contains_cons, List.contains_nil, Bool.or_false,
    beq_iff_eq, Bool.decide_eq_true]
  by_cases h1 : c = ' ' <;> by_cases h2 : c = '\t' <;> by_cases h3 : c = Char.ofNat 12 <;>
    by_cases h4 : c = Char.ofNat 11 <;> simp [h1, h2, h3, h4]

theorem line_tokens_nil : line_tokens [] = [] := by
  simp [line_tokens, List.splitOnP_nil]

theorem line_tokens_sep (c : Char) (s : Bytes) (hc : is_sep c = true) :
    line_tokens (c :: s) = line_tokens s := by
  unfold line_tokens
  rw [List.splitOnP_cons, if_pos hc, List.filter_cons_of_neg (by simp)]

theorem line_tokens_dropWhile (s : Bytes) : line_tokens (s.dropWhile is_sep) = line_tokens s := by
  induction s with
  | nil => rfl
  | cons c s ih =>
    by_cases hc : is_sep c = true
    · rw [List.dropWhile_cons_of_pos hc, ih, line_tokens_sep c s hc]
    · rw [List.dropWhile_cons_of_neg hc]

theorem line_tokens_token (t rest : Bytes) (ht : t ≠ []) (hno : ∀ c ∈ t, is_sep c = false)
    (c : Char) (hc : is_sep c = true) :
    line_tokens (t ++ c :: rest) = t :: line_tokens rest := by
  unfold line_tokens
  rw [List.splitOnP_first is_sep t (fun x hx => by simp [hno x hx]) c hc rest,
    List.filter_cons_of_pos]
  cases t with
  | nil => exact absurd rfl ht
  | cons _ _ => rfl

theorem line_tokens_single (t : Bytes) (ht : t ≠ []) (hno : ∀ c ∈ t, is_sep c = false) :
    line_tokens t = [t] := by
  unfold line_tokens
  rw [List.splitOnP_eq_single is_sep t (fun x hx => by simp [hno x hx]),
    List.filter_cons_of_pos, List.filter_nil]
  cases t with
  | nil => exact absurd rfl ht
  | cons _ _ => rfl

/-- The first token of a line and the tokens behind it. -/
theorem line_tokens_unfold (s : Bytes) :
    line_tokens s =
      if s.dropWhile is_sep = [] then []
      else (s.dropWhile is_sep).takeWhile (fun c => !is_sep c) ::
        line_tokens (((s.dropWhile is_sep).dropWhile (fun c => !is_sep c)).drop 1) := by
  rw [← line_tokens_dropWhile s]
  generalize hs1 : s.dropWhile is_sep = s1
  by_cases h1 : s1 = []
  · rw [if_pos h1, h1, line_tokens_nil]
  · rw [if_neg h1]
    have hsplit : s1 = s1.takeWhile (fun c => !is_sep c) ++ s1.dropWhile (fun c => !is_sep c) :=
      (List.takeWhile_append_dropWhile _ _).symm
    have hno : ∀ c ∈ s1.takeWhile (fun c => !is_sep c), is_sep c = false := by
      intro c hc
      have := List.mem_takeWhile_imp hc
      simpa using this
    have hne : s1.takeWhile (fun c => !is_sep c) ≠ [] := by
      cases s1 with
      | nil => exact absurd rfl h1
      | cons c t =>
        have hc : is_sep c = false := by
          by_contra hc'
          have hc'' : is_sep c = true := by simpa using hc'
          have : (c :: t).dropWhile is_sep = c :: t := by
            rw [← hs1]
            exact List.dropWhile_idempotent is_sep s
          rw [List.dropWhile_cons_of_pos hc''] at this
          have hl := congrArg List.length this
          have hle : (t.dropWhile is_sep).length ≤ t.length := (List.dropWhile_suffix _).length_le
          simp only [List.length_cons] at hl
          omega
        rw [List.takeWhile_cons_of_pos (by simp [hc])]
        exact List.cons_ne_nil _ _
    cases hd : s1.dropWhile (fun c => !is_sep c) with
    | nil =>
      rw [hd, List.append_nil] at hsplit
      rw [List.drop_nil, line_tokens_nil, ← hsplit]
      exact line_tokens_single s1 h1 (by rw [hsplit]; exact hno)
    | cons c rest =>
      have hc : is_sep c = true := by
        have := List.head_dropWhile_not (fun c => !is_sep c) s1 (by rw [hd]; exact List.cons_ne_nil _ _)
        simp only [hd, List.head_cons, Bool.not_eq_true', Bool.not_eq_false] at this
        simpa using this
      rw [hd] at hsplit
      conv_lhs => rw [hsplit]
      rw [line_tokens_token _ rest hne hno c hc]
      rfl

theorem buf_get_drop (buf : Bytes) (p k : Nat) : buf_get (buf.drop p) k = buf_get buf (p + k) := by
  unfold buf_get
  simp [List.getD_eq_getElem?_getD, List.getElem?_drop]

theorem cstr_drop_step (buf : Bytes) (u : Nat) :
    cstr (buf.drop u) =
      if buf_get buf u = NUL then [] else buf_get buf u :: cstr (buf.drop (u + 1)) := by
  induction buf generalizing u with
  | nil => simp [cstr, buf_get]
  | cons c t ih =>
    cases u with
    | zero =>
      simp only [List.drop_zero, List.drop_succ_cons, buf_get, List.getD_cons_zero]
      rw [cstr]
    | succ u =>
      simp only [List.drop_succ_cons]
      rw [ih u]
      simp [buf_get]

theorem takeWhile_cstr (q : Char → Bool) (hq : q NUL = false) (r : Bytes) :
    r.takeWhile q = (cstr r).takeWhile q := by
  induction r with
  | nil => rfl
  | cons c t ih =>
    by_cases hc : c = NUL
    · subst hc
      rw [List.takeWhile_cons_of_neg (by simp [hq]), cstr, if_pos rfl]
      rfl
    · rw [cstr, if_neg hc]
      by_cases hqc : q c = true
      · rw [List.takeWhile_cons_of_pos hqc, List.takeWhile_cons_of_pos hqc, ih]
      · rw [List.takeWhile_cons_of_neg hqc, List.takeWhile_cons_of_neg hqc]

theorem cstr_drop_takeWhile (q : Char → Bool) (hq : q NUL = false) (r : Bytes) :
    cstr (r.drop (r.takeWhile q).length) = (cstr r).dropWhile q := by
  induction r with
  | nil => rfl
  | cons c t ih =>
    by_cases hc : c = NUL
    · subst hc
      rw [List.takeWhile_cons_of_neg (by simp [hq])]
      simp only [List.length_nil, List.drop_zero]
      rw [cstr, if_pos rfl]
      rfl
    · by_cases hqc : q c = true
      · rw [List.takeWhile_cons_of_pos hqc]
        simp only [List.length_cons, List.drop_succ_cons]
        rw [ih]
        conv_rhs => rw [cstr, if_neg hc, List.dropWhile_cons_of_pos hqc]
      · rw [List.takeWhile_cons_of_neg hqc]
        simp only [List.length_nil, List.drop_zero]
        conv_rhs => rw [cstr, if_neg hc, List.dropWhile_cons_of_neg hqc]
        rw [cstr, if_neg hc]

theorem buf_get_nul_iff (r : Bytes) (k : Nat) : buf_get r k = NUL ↔ cstr (r.drop k) = [] := by
  rw [cstr_drop_step]
  constructor
  · intro h
    rw [if_pos h]
  · intro h
    by_contra hn
    rw [if_neg hn] at h
    exact List.cons_ne_nil _ _ h

theorem buf_get_buf_set (buf : Bytes) (i j : Nat) (c : Char) :
    buf_get (buf_set buf i c) j = if j = i then c else buf_get buf j := by
  induction buf generalizing i j with
  | nil =>
    induction i generalizing j with
    | zero =>
      cases j with
      | zero => simp [buf_set, buf_get]
      | succ j => simp [buf_set, buf_get]
    | succ i ihi =>
      cases j with
      | zero => simp [buf_set, buf_get]
      | succ j =>
        have := ihi j
        simp only [buf_get, List.getD_nil] at this
        simp only [buf_set, buf_get, List.getD_cons_succ, List.getD_nil, Nat.succ_inj']
        exact this
  | cons x xs ih =>
    cases i with
    | zero =>
      cases j with
      | zero => simp [buf_set, buf_get]
      | succ j => simp [buf_set, buf_get]
    | succ i =>
      cases j with
      | zero => simp [buf_set, buf_get]
      | succ j =>
        have := ih i j
        simp only [buf_get] at this
        simp only [buf_set, buf_get, List.getD_cons_succ, Nat.succ_inj']
        exact this

/-- The C string at `u` depends on the bytes from `u` to its terminator. -/
theorem cstr_drop_congr (b b2 : Bytes) :
    ∀ (n u : Nat), (cstr (b.drop u)).length = n →
      (∀ i, u ≤ i → i ≤ u + n → buf_get b2 i = buf_get b i) →
      cstr (b2.drop u) = cstr (b.drop u) := by
  intro n
  induction n with
  | zero =>
    intro u hl he
    have h0 : cstr (b.drop u) = [] := List.length_eq_zero.mp hl
    have := (buf_get_nul_iff b u).mpr h0
    rw [h0]
    apply (buf_get_nul_iff b2 u).mp
    rw [he u (Nat.le_refl _) (by omega), this]
  | succ n ih =>
    intro u hl he
    rw [cstr_drop_step b u] at hl ⊢
    rw [cstr_drop_step b2 u, he u (Nat.le_refl _) (by omega)]
    by_cases hz : buf_get b u = NUL
    · rw [if_pos hz, if_pos hz]
    · rw [if_neg hz] at hl ⊢
      rw [if_neg hz]
      simp only [List.length_cons, Nat.add_right_cancel_iff] at hl
      rw [ih (u + 1) hl (fun i h1 h2 => he i (by omega) (by omega))]

/-- A NUL written inside the C string at `v` cuts it there. -/
theorem cstr_drop_buf_set (b : Bytes) :
    ∀ (k v : Nat), k ≤ (cstr (b.drop v)).length →
      cstr ((buf_set b (v + k) NUL).drop v) = (cstr (b.drop v)).take k := by
  intro k
  induction k with
  | zero =>
    intro v _
    rw [List.take_zero]
    apply (buf_get_nul_iff _ v).mp
    rw [Nat.add_zero, buf_get_buf_set, if_pos rfl]
  | succ k ih =>
    intro v hk
    have hg : buf_get (buf_set b (v + (k + 1)) NUL) v = buf_get b v := by
      rw [buf_get_buf_set, if_neg (by omega)]
    rw [cstr_drop_step (buf_set b (v + (k + 1)) NUL) v, hg]
    rw [cstr_drop_step b v] at hk ⊢
    by_cases hz : buf_get b v = NUL
    · rw [if_pos hz] at hk
      simp at hk
    · rw [if_neg hz] at hk ⊢
      rw [if_neg hz, List.take_succ_cons]
      simp only [List.length_cons, Nat.add_le_add_iff_right] at hk
      have := ih (v + 1) hk
      rw [show v + 1 + k = v + (k + 1) by omega] at this
      rw [this]

theorem takeWhile_nonsep (l : Bytes) (hl : NUL ∉ l) :
    l.takeWhile (fun c => c != NUL && !whitespace.contains c) =
      l.takeWhile (fun c => !is_sep c) ∧
    l.dropWhile (fun c => c != NUL && !whitespace.contains c) =
      l.dropWhile (fun c => !is_sep c) := by
  induction l with
  | nil => exact ⟨rfl, rfl⟩
  | cons c t ih =>
    have hc : c ≠ NUL := fun e => hl (by simp [e])
    have ht := ih (fun m => hl (List.mem_cons_of_mem _ m))
    have e : (c != NUL && !whitespace.contains c) = !is_sep c := by
      rw [is_sep_eq]
      simp [hc]
    constructor
    · rw [List.takeWhile_cons, List.takeWhile_cons, e, ht.1]
    · rw [List.dropWhile_cons, List.dropWhile_cons, e, ht.2]

theorem whitespace_fun : (fun c => whitespace.contains c) = is_sep := funext is_sep_eq

/-- What one call of `strtok` does, in terms of the C string at the saved
pointer `p`: it skips the separators, returns NULL when nothing is left, and
otherwise returns the run up to the next separator, which it overwrites with
a NUL, leaving what follows for the next call. -/
theorem strtok_spec (buf : Bytes) (p : Nat) :
    ((cstr (buf.drop p)).dropWhile is_sep = [] →
      (strtok buf p).1 = none ∧ (strtok buf p).2.2 = buf) ∧
    ((cstr (buf.drop p)).dropWhile is_sep ≠ [] →
      ∃ v p2 b2, strtok buf p = (some v, p2, b2) ∧ p ≤ v ∧
        cstr (b2.drop v) =
          ((cstr (buf.drop p)).dropWhile is_sep).takeWhile (fun c => !is_sep c) ∧
        cstr (b2.drop p2) =
          (((cstr (buf.drop p)).dropWhile is_sep).dropWhile (fun c => !is_sep c)).drop 1 ∧
        (∀ i < v, buf_get b2 i = buf_get buf i) ∧
        ((((cstr (buf.drop p)).dropWhile is_sep).dropWhile (fun c => !is_sep c)) = [] ∨
          v + (cstr (b2.drop v)).length < p2)) := by
  generalize hs1 : (cstr (buf.drop p)).dropWhile is_sep = s1
  have hk1 : cstr ((buf.drop p).drop ((buf.drop p).takeWhile is_sep).length) = s1 := by
    rw [cstr_drop_takeWhile is_sep (by decide), hs1]
  have hnul1 : NUL ∉ s1 := by
    rw [← hk1]
    exact cstr_no_nul _
  generalize hp1 : p + ((buf.drop p).takeWhile is_sep).length = p1 at *
  have hr1 : cstr (buf.drop p1) = s1 := by
    rw [← hp1, ← List.drop_drop]
    exact hk1
  have hz1 : buf_get buf p1 = NUL ↔ s1 = [] := by
    rw [buf_get_nul_iff, hr1]
  have hst : strtok buf p =
      if buf_get buf p1 = NUL then (none, p1, buf)
      else
        if buf_get buf (p1 + ((buf.drop p1).takeWhile
            (fun c => c != NUL && !whitespace.contains c)).length) = NUL then
          (some p1, p1 + ((buf.drop p1).takeWhile
            (fun c => c != NUL && !whitespace.contains c)).length, buf)
        else (some p1, p1 + ((buf.drop p1).takeWhile
            (fun c => c != NUL && !whitespace.contains c)).length + 1,
          buf_set buf (p1 + ((buf.drop p1).takeWhile
            (fun c => c != NUL && !whitespace.contains c)).length) NUL) := by
    unfold strtok
    simp only [whitespace_fun, hp1]
  constructor
  · intro h1
    rw [hst, if_pos (hz1.mpr h1)]
    exact ⟨rfl, rfl⟩
  · intro h1
    rw [hst, if_neg (fun e => h1 (hz1.mp e))]
    have ht : (buf.drop p1).takeWhile (fun c => c != NUL && !whitespace.contains c) =
        s1.takeWhile (fun c => !is_sep c) := by
      rw [takeWhile_cstr _ (by decide) (buf.drop p1), hr1, (takeWhile_nonsep s1 hnul1).1]
    have hd : cstr ((buf.drop p1).drop ((buf.drop p1).takeWhile
        (fun c => c != NUL && !whitespace.contains c)).length) =
        s1.dropWhile (fun c => !is_sep c) := by
      rw [cstr_drop_takeWhile _ (by decide), hr1, (takeWhile_nonsep s1 hnul1).2]
    rw [ht] at hd ⊢
    generalize htok : s1.takeWhile (fun c => !is_sep c) = t at *
    generalize hrest : s1.dropWhile (fun c => !is_sep c) = s2 at *
    have hsplit : s1 = t ++ s2 := by
      rw [← htok, ← hrest]
      exact (List.takeWhile_append_dropWhile _ _).symm
    rw [List.drop_drop] at hd
    have hz2 : buf_get buf (p1 + t.length) = NUL ↔ s2 = [] := by
      rw [buf_get_nul_iff, hd]
    have hp : p ≤ p1 := by omega
    by_cases h2 : s2 = []
    · rw [if_pos (hz2.mpr h2)]
      refine ⟨p1, p1 + t.length, buf, rfl, hp, ?_, ?_, fun _ _ => rfl, Or.inl h2⟩
      · rw [hr1, hsplit, h2, List.append_nil]
      · rw [hd, h2]
        rfl
    · rw [if_neg (fun e => h2 (hz2.mp e))]
      refine ⟨p1, p1 + t.length + 1, buf_set buf (p1 + t.length) NUL, rfl, hp, ?_, ?_, ?_, ?_⟩
      · rw [cstr_drop_buf_set buf t.length p1 (by rw [hr1, hsplit]; simp), hr1, hsplit]
        simp
      · rw [cstr_drop_congr buf _ _ (p1 + t.length + 1) rfl
          (fun i h1 _ => by rw [buf_get_buf_set, if_neg (by omega)])]
        have hstep := cstr_drop_step buf (p1 + t.length)
        rw [hd, if_neg (fun e => h2 (hz2.mp e))] at hstep
        rw [hstep]
        rfl
      · intro i hi
        rw [buf_get_buf_set, if_neg (by omega)]
      · right
        rw [cstr_drop_buf_set buf t.length p1 (by rw [hr1, hsplit]; simp), hr1, hsplit]
        simp

/-- One call of `strtok` in terms of the tokens of the C string at the saved
pointer: NULL when there is none, else the first token, with the other tokens
left at the new saved pointer and the C strings that end before the old one
untouched. -/
theorem strtok_tokens (buf : Bytes) (p : Nat) :
    (line_tokens (cstr (buf.drop p)) = [] →
      (strtok buf p).1 = none ∧ (strtok buf p).2.2 = buf) ∧
    (∀ t rest, line_tokens (cstr (buf.drop p)) = t :: rest →
      ∃ v p2 b2, strtok buf p = (some v, p2, b2) ∧ p ≤ v ∧ cstr (b2.drop v) = t ∧
        line_tokens (cstr (b2.drop p2)) = rest ∧ (rest = [] ∨ v + t.length < p2) ∧
        (∀ u, u + (cstr (buf.drop u)).length < p → cstr (b2.drop u) = cstr (buf.drop u))) := by
  have hu := line_tokens_unfold (cstr (buf.drop p))
  obtain ⟨hs1, hs2⟩ := strtok_spec buf p
  constructor
  · intro h0
    apply hs1
    by_contra hne
    rw [if_neg hne, h0] at hu
    exact List.cons_ne_nil _ _ hu.symm
  · intro t rest hts
    have hne : (cstr (buf.drop p)).dropWhile is_sep ≠ [] := by
      intro h0
      rw [if_pos h0, hts] at hu
      exact List.cons_ne_nil _ _ hu
    rw [if_neg hne, hts] at hu
    obtain ⟨ht, hrest⟩ := List.cons.inj hu
    obtain ⟨v, p2, b2, he, hpv, hv, hp2, hlow, hseal⟩ := hs2 hne
    refine ⟨v, p2, b2, he, hpv, ?_, ?_, ?_, ?_⟩
    · rw [hv, ht]
    · rw [hp2, hrest]
    · rcases hseal with h0 | h1
      · left
        rw [hrest, h0]
        rfl
      · right
        rw [hv, ← ht] at h1
        exact h1
    · intro u hu2
      exact cstr_drop_congr buf b2 _ u rfl (fun i _ h2 => hlow i (by omega))

theorem strtok_none_eq (buf : Bytes) (p : Nat)
    (h : (strtok buf p).1 = none ∧ (strtok buf p).2.2 = buf) :
    ∃ x, strtok buf p = (none, x, buf) := by
  obtain ⟨h1, h2⟩ := h
  refine ⟨(strtok buf p).2.1, ?_⟩
  exact Prod.ext h1 (Prod.ext rfl h2)

theorem request_line_tokens_verb (buf : Bytes) :
    (request_line_tokens buf).1 = (strtok buf 0).1 ∧
    (request_line_tokens buf).2.1 = (strtok (strtok buf 0).2.2 (strtok buf 0).2.1).1 := by
  unfold request_line_tokens
  generalize strtok buf 0 = r1
  obtain ⟨verb, p1, b1⟩ := r1
  simp only []
  generalize strtok b1 p1 = r2
  obtain ⟨uri, p2, b2⟩ := r2
  simp only []
  generalize strtok b2 p2 = r3
  obtain ⟨protocol, p3, b3⟩ := r3
  cases protocol with
  | none => simp
  | some q =>
    simp only []
    generalize strtok b3 p3 = r4
    obtain ⟨junk, p4, b4⟩ := r4
    simp

/-- The four `strtok` calls of the request-line validator in terms of the
tokens of the line. -/
theorem request_line_tokens_spec (buf : Bytes) :
    ((request_tokens buf).length < 2 →
      (request_line_tokens buf).1 = none ∨ (request_line_tokens buf).2.1 = none) ∧
    (4 ≤ (request_tokens buf).length →
      ∃ v u j, (request_line_tokens buf).1 = some v ∧ (request_line_tokens buf).2.1 = some u ∧
        (request_line_tokens buf).2.2.2.1 = some j) ∧
    (∀ a b, request_tokens buf = [a, b] →
      ∃ v u bf, request_line_tokens buf = (some v, some u, none, none, bf) ∧
        cstr (bf.drop v) = a ∧ cstr (bf.drop u) = b) ∧
    (∀ a b c, request_tokens buf = [a, b, c] →
      ∃ v u p bf, request_line_tokens buf = (some v, some u, some p, none, bf) ∧
        cstr (bf.drop v) = a ∧ cstr (bf.drop u) = b ∧ cstr (bf.drop p) = c) := by
  have e0 : request_tokens buf = line_tokens (cstr (buf.drop 0)) := rfl
  obtain ⟨n1, s1⟩ := strtok_tokens buf 0
  cases hts : request_tokens buf with
  | nil =>
    obtain ⟨x, hx⟩ := strtok_none_eq buf 0 (n1 (by rw [← e0, hts]))
    refine ⟨fun _ => Or.inl ?_, (fun h => absurd h (by simp)), (fun a b h => by cases h),
      (fun a b c h => by cases h)⟩
    rw [(request_line_tokens_verb buf).1, hx]
  | cons t1 r1 =>
    obtain ⟨v1, p1, b1, h1, _, c1, hr1, seal1, _⟩ := s1 t1 r1 (by rw [← e0, hts])
    obtain ⟨n2, s2⟩ := strtok_tokens b1 p1
    cases hr1c : r1 with
    | nil =>
      obtain ⟨x, hx⟩ := strtok_none_eq b1 p1 (n2 (by rw [hr1, hr1c]))
      refine ⟨fun _ => Or.inr ?_, (fun h => absurd h (by simp)), (fun a b h => by cases h),
        (fun a b c h => by cases h)⟩
      rw [(request_line_tokens_verb buf).2, h1]
      simp only []
      rw [hx]
    | cons t2 r2 =>
      have sealed1 : v1 + (cstr (b1.drop v1)).length < p1 := by
        rcases seal1 with h0 | h0
        · rw [hr1c] at h0
          cases h0
        · rw [c1]
          exact h0
      obtain ⟨v2, p2, b2, h2, hp2, c2, hr2, seal2, keep2⟩ := s2 t2 r2 (by rw [hr1, hr1c])
      have k21 : cstr (b2.drop v1) = t1 := by rw [keep2 v1 sealed1, c1]
      obtain ⟨n3, s3⟩ := strtok_tokens b2 p2
      cases hr2c : r2 with
      | nil =>
        obtain ⟨x, hx⟩ := strtok_none_eq b2 p2 (n3 (by rw [hr2, hr2c]))
        have hres : request_line_tokens buf = (some v1, some v2, none, none, b2) := by
          unfold request_line_tokens
          rw [h1]
          simp only []
          rw [h2]
          simp only []
          rw [hx]
        refine ⟨(fun h => absurd h (by simp)), (fun h => absurd h (by simp)), ?_,
          (fun a b c h => by cases h)⟩
        intro a b hab
        obtain ⟨ha, hb⟩ := List.cons.inj hab
        obtain ⟨hb, _⟩ := List.cons.inj hb
        exact ⟨v1, v2, b2, hres, by rw [k21, ha], by rw [c2, hb]⟩
      | cons t3 r3 =>
        have sealed2 : v2 + (cstr (b2.drop v2)).length < p2 := by
          rcases seal2 with h0 | h0
          · rw [hr2c] at h0
            cases h0
          · rw [c2]
            exact h0
        have sealed21 : v1 + (cstr (b2.drop v1)).length < p2 := by
          rw [k21]
          rw [c1] at sealed1
          omega
        obtain ⟨v3, p3, b3, h3, hp3, c3, hr3, seal3, keep3⟩ := s3 t3 r3 (by rw [hr2, hr2c])
        have k31 : cstr (b3.drop v1) = t1 := by rw [keep3 v1 sealed21, k21]
        have k32 : cstr (b3.drop v2) = t2 := by rw [keep3 v2 sealed2, c2]
        obtain ⟨n4, s4⟩ := strtok_tokens b3 p3
        cases hr3c : r3 with
        | nil =>
          obtain ⟨x, hx⟩ := strtok_none_eq b3 p3 (n4 (by rw [hr3, hr3c]))
          have hres : request_line_tokens buf = (some v1, some v2, some v3, none, b3) := by
            unfold request_line_tokens
            rw [h1]
            simp only []
            rw [h2]
            simp only []
            rw [h3]
            simp only []
            rw [hx]
          refine ⟨(fun h => absurd h (by simp)), (fun h => absurd h (by simp)),
            (fun a b h => by cases h), ?_⟩
          intro a b c habc
          obtain ⟨ha, hb⟩ := List.cons.inj habc
          obtain ⟨hb, hc⟩ := List.cons.inj hb
          obtain ⟨hc, _⟩ := List.cons.inj hc
          exact ⟨v1, v2, v3, b3, hres, by rw [k31, ha], by rw [k32, hb], by rw [c3, hc]⟩
        | cons t4 r4 =>
          obtain ⟨v4, p4, b4, h4, _, _, _, _, _⟩ := s4 t4 r4 (by rw [hr3, hr3c])
          have hres : request_line_tokens buf = (some v1, some v2, some v3, some v4, b4) := by
            unfold request_line_tokens
            rw [h1]
            simp only []
            rw [h2]
            simp only []
            rw [h3]
            simp only []
            rw [h4]
          refine ⟨(fun h => absurd h (by simp)), fun _ => ⟨v1, v2, v4, ?_, ?_, ?_⟩,
            (fun a b h => by cases h), (fun a b c h => by cases h)⟩
          · rw [hres]
          · rw [hres]
          · rw [hres]

/-- The request line with a verb token and a URI token and no other: what is
left is the check of the verb, in the mode of a request without HTTP
framing. -/
theorem httpd_digest_request_line_two (env : Env) (h : httpd_t) (v u : Nat) (b : Bytes)
    (hsp : isspace (buf_get h.request.request_buf 0) = false)
    (htok : request_line_tokens h.request.request_buf = (some v, some u, none, none, b)) :
    httpd_digest_request_line env h =
      verb_check env { h with request := { h.request with
        request_buf := b, uri := some u, http_1_0 := true, persistent := false } }
        .ERRMODE_NON_HTTP (cstr (b.drop v)) := by
  unfold httpd_digest_request_line verb_check
  rw [if_neg (by simp [hsp])]
  rw [htok]

/-- The request line with three tokens: the version check, then the check of
the verb. -/
theorem httpd_digest_request_line_three (env : Env) (h : httpd_t) (v u p : Nat) (b : Bytes)
    (hsp : isspace (buf_get h.request.request_buf 0) = false)
    (htok : request_line_tokens h.request.request_buf = (some v, some u, some p, none, b)) :
    httpd_digest_request_line env h =
      match protocol_version env.erange (cstr (b.drop p)) with
      | none =>
        httpd_error env
          (if strcmp_eq (cstr (b.drop v)) "HEAD".toList then
            { h with request := { h.request with
              request_buf := b, uri := some u, verb := .VERB_HEAD } }
           else { h with request := { h.request with request_buf := b, uri := some u } })
          .ERRMODE_NON_HTTP 400
          ("Invalid protocol '".toList ++ cstr (b.drop p) ++ "'.".toList)
      | some (major, minor) =>
        verb_check env { h with request := { h.request with
          request_buf := b, uri := some u, http_1_0 := (major = 1 && minor = 0),
          persistent := !(major = 1 && minor = 0) } } .ERRMODE_FATAL (cstr (b.drop v)) := by
  cases hver : protocol_version env.erange (cstr (b.drop p)) with
  | none => exact httpd_digest_request_line_bad_version env h v u p b hsp htok hver
  | some mm =>
    obtain ⟨major, minor⟩ := mm
    exact httpd_digest_request_line_versioned env h v u p b major minor hsp htok hver

/-- The request line without a verb token, without a URI token or with a
fourth token. -/
theorem httpd_digest_request_line_count (env : Env) (h : httpd_t)
    (hsp : isspace (buf_get h.request.request_buf 0) = false)
    (hbad : (request_line_tokens h.request.request_buf).1 = none ∨
      (request_line_tokens h.request.request_buf).2.1 = none ∨
      (request_line_tokens h.request.request_buf).2.2.2.1 ≠ none) :
    httpd_digest_request_line env h =
      httpd_error env { h with request := { h.request with
        request_buf := (request_line_tokens h.request.request_buf).2.2.2.2,
        uri := (request_line_tokens h.request.request_buf).2.1 } } .ERRMODE_NON_HTTP 400
        "<P>Invalid request syntax.</P>\n<P>Invalid number of tokens.</P>".toList := by
  unfold httpd_digest_request_line
  rw [if_neg (by simp [hsp])]
  generalize request_line_tokens h.request.request_buf = toks at hbad ⊢
  obtain ⟨verb, uri, protocol, junk, buf⟩ := toks
  simp only [] at hbad ⊢
  cases verb with
  | none => rfl
  | some v =>
    cases uri with
    | none => rfl
    | some u =>
      cases junk with
      | some j => rfl
      | none => simp at hbad

theorem big_request_drop (n : Nat) :
    (big_request n).drop 15 = 'H' :: ':' :: (List.replicate n 'a' ++ ['\n', '\n', NUL]) := rfl

theorem big_request_drop16 (n : Nat) :
    (big_request n).drop 16 = ':' :: (List.replicate n 'a' ++ ['\n', '\n', NUL]) := rfl

theorem big_request_drop17 (n : Nat) :
    (big_request n).drop 17 = List.replicate n 'a' ++ ['\n', '\n', NUL] := rfl

theorem big_request_length (n : Nat) : (big_request n).length = n + 20 := by
  have e : big_request n = ((big_request n).take 17) ++ (big_request n).drop 17 :=
    (List.take_append_drop _ _).symm
  have h17 : ((big_request n).take 17).length = 17 := rfl
  rw [e, List.length_append, h17, big_request_drop17]
  simp
  omega

theorem takeWhile_replicate_a (q : Char → Bool) (hq : q 'a' = true) (c : Char)
    (hc : q c = false) (n : Nat) (rest : Bytes) :
    (List.replicate n 'a' ++ c :: rest).takeWhile q = List.replicate n 'a' := by
  apply takeWhile_append_stop
  · intro x hx
    rw [List.eq_of_mem_replicate hx, hq]
  · intro x hx
    simp only [List.head?_cons, Option.some.injEq] at hx
    rw [← hx, hc]

theorem trim_value_le (env : Env) (buf : Bytes) (s : Nat) :
    ∀ n, trim_value env buf s n ≤ n := by
  intro n
  induction n with
  | zero => simp [trim_value]
  | succ k ih =>
    rw [trim_value]
    split
    · omega
    · omega

/-- The header line of the big request: the field is accepted, and the
length of its value is what the trimming loop makes of the `m + 1` letters,
starting from the newline at index `m + 18`. -/
theorem digest_field_big (env : Env) (m : Nat) :
    digest_field env (big_request (m + 1)) 15 [] =
      if trim_value env (big_request (m + 1)) (m + 18) (m + 1) = 0 then
        .error "Malformed field (missing value) in request.".toList
      else
        .ok (m + 18) [field_t.mk "H".toList
          (List.replicate (trim_value env (big_request (m + 1)) (m + 18) (m + 1)) 'a')] := by
  have e0 : buf_get (big_request (m + 1)) 15 = 'H' := rfl
  have e1 : ((big_request (m + 1)).drop 15).takeWhile
      (fun c => c != '\n' && c != ':' && !isspace c) = ['H'] := rfl
  have e2 : ((big_request (m + 1)).drop 16).takeWhile (fun c => c != '\n' && isspace c) = [] := rfl
  have e3 : buf_get (big_request (m + 1)) 16 = ':' := rfl
  have e4 : ((big_request (m + 1)).drop 17).takeWhile (fun c => c != '\n' && isspace c) = [] := rfl
  have e5 : ((big_request (m + 1)).drop 17).takeWhile (fun c => c != '\n') =
      List.replicate (m + 1) 'a' := by
    rw [big_request_drop17]
    exact takeWhile_replicate_a _ (by decide) '\n' (by decide) (m + 1) _
  have hl := big_request_length (m + 1)
  have hv := trim_value_le env (big_request (m + 1)) (m + 18) (m + 1)
  unfold digest_field
  simp only [e0, e1, e2, e3, e4, e5, List.length_cons, List.length_nil, List.length_replicate,
    Nat.add_zero, Nat.zero_add, Nat.reduceAdd]
  have a1 : 17 + (m + 1) = m + 18 := by omega
  have a2 : m + 18 - 17 = m + 1 := by omega
  have e6 : (iscntrl 'H' || isspace 'H' || decide ('H' = ':')) = false := by decide
  have e7 : (['H'].any iscntrl || decide ((big_request (m + 1)).length ≤ 16)) = false := by
    have : ¬ (big_request (m + 1)).length ≤ 16 := by omega
    simp [this]
    decide
  have e8 : cstr (List.take 1 (List.drop 15 (big_request (m + 1)))) = "H".toList := rfl
  have e9 : lookup_field "H".toList [] = none := rfl
  have e10 : ∀ k, k ≤ m + 1 →
      cstr (List.take k (List.drop 17 (big_request (m + 1)))) = List.replicate k 'a' := by
    intro k hk
    rw [big_request_drop17, List.take_append_of_le_length (by simp; omega),
      List.take_replicate, Nat.min_eq_left hk, cstr_replicate_a]
  rw [a1, a2, e6, e7, e8, e9, e10 _ hv]
  simp

/-- The trimming loop on the header line of the big request of 4088 letters:
its first read is at index 8192, behind the array, and its second one, if
any, at index 8191, behind the request. -/
theorem trim_value_big (env : Env) (m : Nat) (hm : 2 * m + 18 = MAX_HTTPD_REQUEST + 1) :
    trim_value env (big_request (m + 1)) (m + 18) (m + 1) =
      if isspace (env.beyond 0) then m else m + 1 := by
  have hM : MAX_HTTPD_REQUEST = 8191 := rfl
  rw [hM] at hm
  have hl := big_request_length (m + 1)
  have r1 : rd env (big_request (m + 1)) (m + 18 + m) = env.beyond 0 := by
    unfold rd
    rw [hM, if_neg (by omega)]
    have e : m + 18 + m - (8191 + 1) = 0 := by omega
    rw [e]
  rw [trim_value, r1]
  by_cases hb : isspace (env.beyond 0) = true
  · rw [if_pos hb, if_pos hb]
    obtain ⟨k, rfl⟩ : ∃ k, m = k + 1 := ⟨m - 1, by omega⟩
    have r2 : rd env (big_request (k + 1 + 1)) (k + 1 + 18 + k) = NUL := by
      unfold rd
      rw [hM, if_pos (by omega)]
      unfold buf_get
      exact List.getD_eq_default _ _ (by omega)
    rw [trim_value, r2, if_neg (by decide)]
  · rw [if_neg hb, if_neg hb]

theorem verb_check_continue (env : Env) (K : httpd_t) (mode : errmode_t) (verb : Bytes)
    (hc : (verb_check env K mode verb).1 = .HS_CONTINUE) :
    ∃ v : verb_t, ∀ K2 : httpd_t, verb_check env K2 mode verb =
      (.HS_CONTINUE, { K2 with request := { K2.request with verb := v } }) := by
  unfold verb_check at hc
  by_cases h1 : (!known_verbs.any (fun x => strcmp_eq verb x)) = true
  · rw [if_pos h1] at hc
    exact absurd hc (httpd_error_ne_continue _ _ _ _ _)
  · rw [if_neg h1] at hc
    by_cases h2 : strcmp_eq verb "GET".toList = true
    · refine ⟨.VERB_GET, fun K2 => ?_⟩
      unfold verb_check
      rw [if_neg h1, if_pos h2]
    · rw [if_neg h2] at hc
      by_cases h3 : strcmp_eq verb "HEAD".toList = true
      · refine ⟨.VERB_HEAD, fun K2 => ?_⟩
        unfold verb_check
        rw [if_neg h1, if_neg h2, if_pos h3]
      · rw [if_neg h3] at hc
        exact absurd hc (httpd_error_ne_continue _ _ _ _ _)

/-- When `httpd_digest_request_line` lets the request continue, what it has
done is an update of the request that depends on the request buffer only. -/
theorem httpd_digest_request_line_continue_eq (env : Env) (h : httpd_t)
    (hc : (httpd_digest_request_line env h).1 = .HS_CONTINUE) :
    ∃ (b : Bytes) (u : Option Nat) (x y : Bool) (v : verb_t),
      ∀ h2 : httpd_t, h2.request.request_buf = h.request.request_buf →
        httpd_digest_request_line env h2 =
          (.HS_CONTINUE, { h2 with request := { h2.request with
            request_buf := b, uri := u, http_1_0 := x, persistent := y, verb := v } }) := by
  have hsp : isspace (buf_get h.request.request_buf 0) = false := by
    by_contra hn
    have hn2 : isspace (buf_get h.request.request_buf 0) = true := by simpa using hn
    unfold httpd_digest_request_line at hc
    rw [if_pos hn2] at hc
    exact httpd_error_ne_continue _ _ _ _ _ hc
  have hgood : ¬ ((request_line_tokens h.request.request_buf).1 = none ∨
      (request_line_tokens h.request.request_buf).2.1 = none ∨
      (request_line_tokens h.request.request_buf).2.2.2.1 ≠ none) := by
    intro hbad
    rw [httpd_digest_request_line_count env h hsp hbad] at hc
    exact httpd_error_ne_continue _ _ _ _ _ hc
  cases htok : request_line_tokens h.request.request_buf with
  | mk verb rest =>
    obtain ⟨uri, protocol, junk, b⟩ := rest
    rw [htok] at hgood
    simp only [not_or, ne_eq, not_not] at hgood
    obtain ⟨g1, g2, g3⟩ := hgood
    cases verb with
    | none => exact absurd rfl g1
    | some v =>
      cases uri with
      | none => exact absurd rfl g2
      | some u =>
        subst g3
        cases protocol with
        | none =>
          rw [httpd_digest_request_line_two env h v u b hsp htok] at hc
          obtain ⟨vb, hvb⟩ := verb_check_continue env _ _ _ hc
          refine ⟨b, some u, true, false, vb, fun h2 hb => ?_⟩
          rw [httpd_digest_request_line_two env h2 v u b (by rw [hb]; exact hsp)
            (by rw [hb]; exact htok), hvb]
        | some p =>
          rw [httpd_digest_request_line_three env h v u p b hsp htok] at hc
          cases hver : protocol_version env.erange (cstr (b.drop p)) with
          | none =>
            rw [hver] at hc
            exact absurd hc (httpd_error_ne_continue _ _ _ _ _)
          | some mm =>
            obtain ⟨major, minor⟩ := mm
            rw [hver] at hc
            obtain ⟨vb, hvb⟩ := verb_check_continue env _ _ _ hc
            refine ⟨b, some u, (major = 1 && minor = 0), !(major = 1 && minor = 0), vb,
              fun h2 hb => ?_⟩
            rw [httpd_digest_request_line_three env h2 v u p b (by rw [hb]; exact hsp)
              (by rw [hb]; exact htok), hver]
            exact hvb _

theorem httpd_input_char_swallow (env : Env) (h : httpd_t) (regs : registry) (c : Char)
    (hsw : h.cr = true ∧ c = '\n') :
    httpd_input_char env h regs c = some (.HS_CONTINUE, { h with cr := false }, regs) := by
  unfold httpd_input_char
  rw [if_pos (by simp [hsw.1, hsw.2])]

/-- A byte other than a newline that `httpd_input_char` has to store. -/
theorem httpd_input_char_other (env : Env) (h : httpd_t) (regs : registry) (c : Char)
    (h1 : c ≠ '\n') (h2 : c ≠ '\r') (hnr : h.request.nr < MAX_HTTPD_REQUEST) :
    httpd_input_char env h regs c =
      some (.HS_CONTINUE,
        { stored h c with request := { (stored h c).request with rll := h.request.rll + 1 } },
        regs) := by
  have hn : ¬ (h.cr && decide (c = '\n')) = true := by simp [h1]
  have hm : ¬ MAX_HTTPD_REQUEST ≤ h.request.nr := by omega
  have hc : ¬ (if c = '\r' then '\n' else c) = '\n' := by
    rw [if_neg h2]
    exact h1
  unfold httpd_input_char
  rw [if_neg hn]
  simp only []
  rw [if_neg hm, if_neg hc]
  rfl

/-- A byte that `httpd_input_char` answers with `HS_CONTINUE` is answered
alike, with the same changes, whatever the input trace offset. -/
theorem httpd_input_char_set_it (env : Env)
    (hdyn : ∀ d s x r, (env.dyn d s x r).1 ≠ .HS_CONTINUE)
    (h : httpd_t) (regs : registry) (c : Char) (k : httpd_t) (regs1 : registry)
    (hr : httpd_input_char env h regs c = some (.HS_CONTINUE, k, regs1)) (n : Nat) :
    httpd_input_char env (set_it n h) regs c = some (.HS_CONTINUE, set_it n k, regs1) := by
  by_cases hsw : h.cr = true ∧ c = '\n'
  · rw [httpd_input_char_swallow env h regs c hsw] at hr
    rw [httpd_input_char_swallow env (set_it n h) regs c hsw]
    simp only [Option.some.injEq, Prod.mk.injEq, true_and] at hr
    rw [← hr.1, ← hr.2]
    rfl
  · by_cases hnr : h.request.nr < MAX_HTTPD_REQUEST
    · by_cases hnl : c = '\n' ∨ c = '\r'
      · have e1 := httpd_input_char_newline env h regs c hnl hsw hnr
        have e2 := httpd_input_char_newline env (set_it n h) regs c hnl hsw hnr
        rw [e1] at hr
        rw [e2]
        have r1 : (set_it n h).request.rll = h.request.rll := rfl
        have r2 : (set_it n h).request.saw_first = h.request.saw_first := rfl
        rw [r1, r2]
        by_cases hr0 : h.request.rll = 0
        · rw [if_pos hr0] at hr
          by_cases hs : h.request.saw_first = false
          · rw [if_pos hs] at hr
            simp only [Option.some.injEq, Prod.mk.injEq] at hr
            exact absurd hr.1 (httpd_error_ne_continue _ _ _ _ _)
          · rw [if_neg hs] at hr
            exact absurd rfl (httpd_digest_request_ne_continue env hdyn _ _ _ _ _ hr)
        · rw [if_neg hr0] at hr ⊢
          by_cases hs : h.request.saw_first = false
          · rw [if_pos hs] at hr ⊢
            simp only [Option.some.injEq, Prod.mk.injEq] at hr
            obtain ⟨b, u, x, y, v, hall⟩ := httpd_digest_request_line_continue_eq env _ hr.1
            have q1 := hall _ rfl
            rw [q1] at hr
            have q2 := hall { stored (set_it n h) c with
              request := { (stored (set_it n h) c).request with
                rll := 0,
                request_buf := buf_set (stored (set_it n h) c).request.request_buf
                  (set_it n h).request.nr NUL,
                fields_start := some ((set_it n h).request.nr + 1), saw_first := true } } rfl
            rw [q2]
            simp only [Option.some.injEq, Prod.mk.injEq, true_and]
            rw [← hr.2.1, ← hr.2.2]
            exact ⟨rfl, rfl⟩
          · rw [if_neg hs] at hr ⊢
            simp only [Option.some.injEq, Prod.mk.injEq, true_and] at hr ⊢
            rw [← hr.1, ← hr.2]
            exact ⟨rfl, rfl⟩
      · have h1 : c ≠ '\n' := fun e => hnl (Or.inl e)
        have h2 : c ≠ '\r' := fun e => hnl (Or.inr e)
        rw [httpd_input_char_other env h regs c h1 h2 hnr] at hr
        rw [httpd_input_char_other env (set_it n h) regs c h1 h2 hnr]
        simp only [Option.some.injEq, Prod.mk.injEq, true_and] at hr ⊢
        rw [← hr.1, ← hr.2]
        exact ⟨rfl, rfl⟩
    · rw [httpd_input_char_too_big env h regs c hsw (by omega)] at hr
      simp only [Option.some.injEq, Prod.mk.injEq] at hr
      exact absurd hr.1 (httpd_error_ne_continue _ _ _ _ _)

theorem httpd_input_loop_set_it (env : Env)
    (hdyn : ∀ d s x r, (env.dyn d s x r).1 ≠ .HS_CONTINUE) :
    ∀ (a : Bytes) (h : httpd_t) (regs : registry) (k : httpd_t) (regs1 : registry),
      httpd_input_loop env h regs a = some (.HS_CONTINUE, k, regs1) → ∀ n : Nat,
      httpd_input_loop env (set_it n h) regs a = some (.HS_CONTINUE, set_it n k, regs1) := by
  intro a
  induction a with
  | nil =>
    intro h regs k regs1 hr n
    simp only [httpd_input_loop, Option.some.injEq, Prod.mk.injEq, true_and] at hr ⊢
    rw [← hr.1, ← hr.2]
    exact ⟨rfl, rfl⟩
  | cons c a ih =>
    intro h regs k regs1 hr n
    unfold httpd_input_loop at hr
    cases hres : httpd_input_char env h regs c with
    | none => rw [hres] at hr; simp at hr
    | some res =>
      obtain ⟨st, h2, regs2⟩ := res
      rw [hres] at hr
      cases st <;> simp only [Option.some.injEq, Prod.mk.injEq, reduceCtorEq, false_and] at hr
      have e := httpd_input_char_set_it env hdyn h regs c h2 regs2 hres n
      unfold httpd_input_loop
      rw [e]
      exact ih h2 regs2 k regs1 hr n

theorem httpd_input_loop_append (env : Env) :
    ∀ (a b : Bytes) (h : httpd_t) (regs : registry) (k : httpd_t) (regs1 : registry),
      httpd_input_loop env h regs a = some (.HS_CONTINUE, k, regs1) →
      httpd_input_loop env h regs (a ++ b) = httpd_input_loop env k regs1 b := by
  intro a
  induction a with
  | nil =>
    intro b h regs k regs1 hr
    simp only [httpd_input_loop, Option.some.injEq, Prod.mk.injEq, true_and] at hr
    rw [List.nil_append, hr.1, hr.2]
  | cons c a ih =>
    intro b h regs k regs1 hr
    unfold httpd_input_loop at hr
    rw [List.cons_append]
    cases hres : httpd_input_char env h regs c with
    | none => rw [hres] at hr; simp at hr
    | some res =>
      obtain ⟨st, h2, regs2⟩ := res
      rw [hres] at hr
      cases st <;> simp only [Option.some.injEq, Prod.mk.injEq, reduceCtorEq, false_and] at hr
      conv_lhs => rw [httpd_input_loop]
      rw [hres]
      exact ih b h2 regs2 k regs1 hr

theorem adj_request (b : Bool) (n : Nat) (h : httpd_t) :
    (adj b n h).request = { h.request with it_offset := n } := rfl

theorem adj_sent (b : Bool) (n : Nat) (h : httpd_t) : (adj b n h).sent = h.sent := rfl

theorem adj_adj (b b2 : Bool) (n n2 : Nat) (h : httpd_t) :
    adj b2 n2 (adj b n h) = adj b2 n2 h := rfl

theorem adj_with_output (b : Bool) (n : Nat) (h : httpd_t) (s : List Bytes) (pb : Bytes)
    (ot : Nat) : with_output (adj b n h) s pb ot = adj b n (with_output h s pb ot) := rfl

theorem adj_append_buf (b : Bool) (n : Nat) (h : httpd_t) (t : Bytes) :
    append_buf (adj b n h) t = adj b n (append_buf h t) := rfl

theorem adj_send (b : Bool) (n : Nat) (h : httpd_t) (t : Bytes) :
    httpd_send (adj b n h) t = adj b n (httpd_send h t) := rfl

theorem adj_reinit (b : Bool) (n : Nat) (h : httpd_t) :
    (adj b n h).reinit = adj b 0 h.reinit := rfl

theorem adj_print_buf (b : Bool) (n : Nat) (h : httpd_t) (type : httpd_print_t) (t : Bytes) :
    httpd_print_buf (adj b n h) type t = adj b n (httpd_print_buf h type t) := by
  unfold httpd_print_buf
  split <;> rfl

theorem adj_vprint_loop (b : Bool) (n : Nat) (type : httpd_print_t) :
    ∀ (fuel : Nat) (h : httpd_t) (sp : Bytes),
      httpd_vprint_loop type fuel (adj b n h) sp = adj b n (httpd_vprint_loop type fuel h sp) := by
  intro fuel
  induction fuel with
  | zero => intro h sp; rfl
  | succ fuel ih =>
    intro h sp
    rw [httpd_vprint_loop, httpd_vprint_loop]
    split
    · rfl
    · simp only []
      split <;> split <;> simp only [adj_print_buf, ih]

theorem adj_vprint (b : Bool) (n : Nat) (h : httpd_t) (type : httpd_print_t) (t : Bytes) :
    httpd_vprint (adj b n h) type t = adj b n (httpd_vprint h type t) :=
  adj_vprint_loop b n type _ h _

theorem adj_print (b : Bool) (n : Nat) (h : httpd_t) (type : httpd_print_t) (t : Bytes) :
    httpd_print (adj b n h) type t = adj b n (httpd_print h type t) :=
  adj_vprint_loop b n type _ h _

theorem adj_content_len (b : Bool) (n : Nat) (h : httpd_t) (len : Nat) :
    httpd_content_len (adj b n h) len = adj b n (httpd_content_len h len) := rfl

theorem adj_get_print_buf (b : Bool) (n : Nat) (h : httpd_t) :
    (adj b n h).request.print_buf = h.request.print_buf := rfl

theorem adj_get_verb (b : Bool) (n : Nat) (h : httpd_t) :
    (adj b n h).request.verb = h.request.verb := rfl

theorem adj_get_persistent (b : Bool) (n : Nat) (h : httpd_t) :
    (adj b n h).request.persistent = h.request.persistent := rfl

theorem adj_get_location (b : Bool) (n : Nat) (h : httpd_t) :
    (adj b n h).request.location = h.request.location := rfl

theorem adj_print_dump (b : Bool) (n : Nat) (h : httpd_t) (type : dump_t) :
    httpd_print_dump (adj b n h) type = adj b n (httpd_print_dump h type) := by
  unfold httpd_print_dump
  simp only [adj_content_len, adj_get_print_buf]
  by_cases ht : type = .DUMP_WITH_LENGTH
  · simp only [if_pos ht, adj_get_print_buf, adj_send]
    split <;> rfl
  · simp only [if_neg ht, adj_get_print_buf, adj_send]
    split <;> rfl

theorem adj_http_header (env : Env) (b : Bool) (n : Nat) (h : httpd_t) (code : Int)
    (do_close : Bool) (ct : Bytes) :
    httpd_http_header env (adj b n h) code do_close ct =
      adj b n (httpd_http_header env h code do_close ct) := by
  rw [httpd_http_header_eq, httpd_http_header_eq]
  rfl

theorem adj_html_trailer (env : Env) (b : Bool) (n : Nat) (h : httpd_t) (type : httpd_print_t) :
    httpd_html_trailer env (adj b n h) type = adj b n (httpd_html_trailer env h type) := by
  unfold httpd_html_trailer
  simp only [adj_print]

theorem adj_reinit_choice (c : Prop) [Decidable c] (b : Bool) (n : Nat) (x : httpd_t)
    (s1 s2 : httpd_status_t) :
    ∃ m, (if c then (s1, adj b n x) else (s2, (adj b n x).reinit)) =
      ((if c then (s1, x) else (s2, x.reinit)).1,
        adj b m (if c then (s1, x) else (s2, x.reinit)).2) := by
  by_cases hc : c
  · rw [if_pos hc, if_pos hc]
    exact ⟨n, rfl⟩
  · rw [if_neg hc, if_neg hc]
    exact ⟨0, rfl⟩

theorem adj_verror (env : Env) (b : Bool) (n : Nat) (h : httpd_t) (mode : errmode_t)
    (code : Int) (verb : verb_t) (text : Bytes) :
    ∃ m, httpd_verror env (adj b n h) mode code verb text =
      ((httpd_verror env h mode code verb text).1,
        adj b m (httpd_verror env h mode code verb text).2) := by
  unfold httpd_verror
  simp only [adj_http_header, adj_print, adj_vprint, adj_html_trailer, adj_print_dump,
    ← apply_ite (adj b n), adj_get_persistent]
  exact adj_reinit_choice _ b n _ _ _

theorem adj_error (env : Env) (b : Bool) (n : Nat) (h : httpd_t) (mode : errmode_t)
    (code : Int) (text : Bytes) :
    ∃ m, httpd_error env (adj b n h) mode code text =
      ((httpd_error env h mode code text).1, adj b m (httpd_error env h mode code text).2) :=
  adj_verror env b n h mode code h.request.verb text

theorem adj_finish_success (b : Bool) (n : Nat) (h : httpd_t) :
    ∃ m, finish_success (adj b n h) = ((finish_success h).1, adj b m (finish_success h).2) := by
  unfold finish_success
  simp only [adj_get_persistent]
  exact adj_reinit_choice _ b n _ _ _

theorem adj_html_open (b : Bool) (n : Nat) (h : httpd_t) (reg : httpd_reg_t) :
    html_open (adj b n h) reg = adj b n (html_open h reg) := by
  unfold html_open
  simp only [adj_print]
  split <;> rfl

theorem adj_html_close (env : Env) (b : Bool) (n : Nat) (h : httpd_t) (reg : httpd_reg_t) :
    html_close env (adj b n h) reg = adj b n (html_close env h reg) := by
  unfold html_close
  simp only [adj_html_trailer, ← apply_ite (adj b n), adj_print]

theorem adj_reply_content (b : Bool) (n : Nat) (h : httpd_t) (reg : httpd_reg_t) :
    reply_content (adj b n h) reg = adj b n (reply_content h reg) := by
  unfold reply_content
  simp only [adj_print, adj_content_len, adj_send, ← apply_ite (adj b n)]

theorem adj_reply_output (env : Env) (b : Bool) (n : Nat) (h : httpd_t) (reg : httpd_reg_t) :
    reply_output env (adj b n h) reg = adj b n (reply_output env h reg) := by
  unfold reply_output
  simp only [adj_get_persistent, adj_http_header, adj_print, adj_get_verb, adj_html_open,
    adj_reply_content, adj_html_close, adj_print_dump, ← apply_ite (adj b n)]

theorem adj_dirlist_pad (b : Bool) (n : Nat) : ∀ (k : Nat) (h : httpd_t),
    dirlist_pad (adj b n h) k = adj b n (dirlist_pad h k) := by
  intro k
  induction k with
  | zero => intro h; rfl
  | succ k ih =>
    intro h
    simp only [dirlist_pad, adj_print, ih]

theorem adj_dirlist_row (b : Bool) (n : Nat) (h : httpd_t) (uri : Bytes) (reg : httpd_reg_t) :
    dirlist_row (adj b n h) uri reg = adj b n (dirlist_row h uri reg) := by
  unfold dirlist_row
  simp only [adj_print, adj_dirlist_pad, ← apply_ite (adj b n)]

theorem adj_dirlist_rows (b : Bool) (n : Nat) (uri : Bytes) : ∀ (regs : registry) (h : httpd_t),
    regs.foldl (fun acc reg => dirlist_row acc uri reg) (adj b n h) =
      adj b n (regs.foldl (fun acc reg => dirlist_row acc uri reg) h) := by
  intro regs
  induction regs with
  | nil => intro h; rfl
  | cons reg regs ih =>
    intro h
    simp only [List.foldl_cons, adj_dirlist_row, ih]

theorem adj_dirlist_output (env : Env) (b : Bool) (n : Nat) (h : httpd_t) (regs : registry)
    (uri : Bytes) :
    dirlist_output env (adj b n h) regs uri = adj b n (dirlist_output env h regs uri) := by
  unfold dirlist_output
  simp only [adj_get_persistent, adj_http_header, adj_print, adj_get_verb, adj_dirlist_rows,
    adj_html_trailer, adj_print_dump, ← apply_ite (adj b n)]

theorem adj_dirlist (env : Env) (b : Bool) (n : Nat) (h : httpd_t) (regs : registry)
    (uri : Bytes) :
    ∃ m, httpd_dirlist env (adj b n h) regs uri =
      ((httpd_dirlist env h regs uri).1, adj b m (httpd_dirlist env h regs uri).2) := by
  unfold httpd_dirlist
  rw [adj_dirlist_output]
  exact adj_finish_success b n _

theorem adj_notfound (env : Env) (b : Bool) (n : Nat) (h : httpd_t) (uri : Bytes) :
    ∃ m, httpd_notfound env (adj b n h) uri =
      ((httpd_notfound env h uri).1, adj b m (httpd_notfound env h uri).2) := by
  unfold httpd_notfound
  obtain ⟨m, e⟩ := adj_error env b n h .ERRMODE_NONFATAL 404
    ("The requested URL ".toList ++ cstr (html_quote uri) ++
      " was not found on this server.".toList)
  simp only [e]
  exact adj_finish_success b m _

theorem adj_redirect (env : Env) (b : Bool) (n : Nat) (h : httpd_t) (uri : Bytes) :
    ∃ m, httpd_redirect env (adj b n h) uri =
      (httpd_redirect env h uri).map (fun r => (r.1, adj b m r.2)) := by
  unfold httpd_redirect
  have hf : (adj b n h).request.fields = h.request.fields := rfl
  rw [hf, adj_get_location]
  cases lookup_field "Host".toList h.request.fields with
  | none =>
    obtain ⟨m, e⟩ := adj_error env b n h .ERRMODE_NONFATAL 404 "Document not found.".toList
    exact ⟨m, by simp only [e, Option.map_some']⟩
  | some host =>
    simp only []
    cases env.xs_buffer h.request.location ["http://%s%s/".toList, host, uri] with
    | none => exact ⟨n, rfl⟩
    | some loc =>
      simp only [Option.map_some']
      obtain ⟨m, e⟩ := adj_error env b n
        { h with request := { h.request with location := some loc } } .ERRMODE_NONFATAL 301
        ("The document has moved <A HREF=".toList ++ [DQUOTE] ++ "http://".toList ++
          cstr host ++ cstr uri ++ "/".toList ++ [DQUOTE] ++ ">here.</A>.".toList)
      have e2 : httpd_error env
          { adj b n h with request := { (adj b n h).request with location := some loc } }
          .ERRMODE_NONFATAL 301
          ("The document has moved <A HREF=".toList ++ [DQUOTE] ++ "http://".toList ++
            cstr host ++ cstr uri ++ "/".toList ++ [DQUOTE] ++ ">here.</A>.".toList) = _ := e
      rw [e2]
      obtain ⟨m2, e3⟩ := adj_finish_success b m
        { (httpd_error env { h with request := { h.request with location := some loc } }
            .ERRMODE_NONFATAL 301
            ("The document has moved <A HREF=".toList ++ [DQUOTE] ++ "http://".toList ++
              cstr host ++ cstr uri ++ "/".toList ++ [DQUOTE] ++ ">here.</A>.".toList)).2 with
          request := { (httpd_error env
            { h with request := { h.request with location := some loc } }
            .ERRMODE_NONFATAL 301
            ("The document has moved <A HREF=".toList ++ [DQUOTE] ++ "http://".toList ++
              cstr host ++ cstr uri ++ "/".toList ++ [DQUOTE] ++ ">here.</A>.".toList)).2.request with
            location := none } }
      exact ⟨m2, congrArg some e3⟩

theorem adj_reply (env : Env)
    (hcb : ∀ d s h r b n, ∃ m, env.dyn d s (adj b n h) r = adj_res b m (env.dyn d s h r))
    (b : Bool) (n : Nat) (h : httpd_t) (regs : registry) (p : Nat) (uri : Bytes) :
    ∃ m, httpd_reply env (adj b n h) regs p uri =
      (httpd_reply env h regs p uri).map (adj_res b m) := by
  unfold httpd_reply
  cases reg_deref regs p with
  | none => exact ⟨n, rfl⟩
  | some reg =>
    simp only []
    by_cases hb : reg.async_session ≠ none
    · rw [if_pos hb, if_pos hb]
      obtain ⟨m, e⟩ := adj_error env b n h .ERRMODE_NONFATAL 409
        ("<P>Object is busy.</P><P>Only one client may access '".toList ++
          cstr (html_quote uri) ++ "' at a time.".toList)
      exact ⟨m, by simp only [e, Option.map_some', adj_res]⟩
    · rw [if_neg hb, if_neg hb]
      by_cases hd : reg.type = .OR_DYN_TERM ∨ reg.type = .OR_DYN_NONTERM
      · rw [if_pos hd, if_pos hd]
        obtain ⟨m, e⟩ := hcb reg.dyn
          (if ((cstr uri).drop (strlen reg.path)).head? = some '/' then
            ((cstr uri).drop (strlen reg.path)).drop 1 else (cstr uri).drop (strlen reg.path))
          { h with request := { h.request with async_node := some p } }
          (reg_store regs p { reg with async_session := some h.dhandle }) b n
        exact ⟨m, congrArg some e⟩
      · rw [if_neg hd, if_neg hd]
        simp only [adj_reply_output, Option.map_some', adj_res]
        obtain ⟨m, e⟩ := adj_finish_success b n (reply_output env h reg)
        exact ⟨m, by rw [e]⟩

theorem adj_lookup_loop (env : Env)
    (hcb : ∀ d s h r b n, ∃ m, env.dyn d s (adj b n h) r = adj_res b m (env.dyn d s h r))
    (b : Bool) (n : Nat) (h : httpd_t) (regs : registry) (uri : Bytes) :
    ∀ l : List httpd_reg_t, ∃ m, httpd_lookup_loop env (adj b n h) regs uri l =
      (httpd_lookup_loop env h regs uri l).map (adj_res b m) := by
  intro l
  induction l with
  | nil =>
    obtain ⟨m, e⟩ := adj_notfound env b n h uri
    exact ⟨m, by simp only [httpd_lookup_loop, e, Option.map_some', adj_res]⟩
  | cons reg rest ih =>
    have hr := adj_reply env hcb b n h regs rest.length uri
    have hdl : ∃ m, (let r := httpd_dirlist env (adj b n h) regs uri; some (r.1, r.2, regs)) =
        (let r := httpd_dirlist env h regs uri; some (r.1, r.2, regs)).map (adj_res b m) := by
      obtain ⟨m, e⟩ := adj_dirlist env b n h regs uri
      exact ⟨m, by simp only [e, Option.map_some', adj_res]⟩
    have hrd : ∃ m, (httpd_redirect env (adj b n h) uri).map (fun r => (r.1, r.2, regs)) =
        ((httpd_redirect env h uri).map (fun r => (r.1, r.2, regs))).map (adj_res b m) := by
      obtain ⟨m, e⟩ := adj_redirect env b n h uri
      refine ⟨m, ?_⟩
      rw [e]
      cases httpd_redirect env h uri <;> rfl
    unfold httpd_lookup_loop
    cases reg.type
    case OR_DIR =>
      simp only []
      split
      · exact hrd
      · split
        · exact hdl
        · exact ih
    case OR_DYN_NONTERM =>
      simp only []
      split
      · exact hr
      · exact ih
    all_goals
      simp only []
      split
      · exact hr
      · exact ih

theorem adj_lookup_uri (env : Env)
    (hcb : ∀ d s h r b n, ∃ m, env.dyn d s (adj b n h) r = adj_res b m (env.dyn d s h r))
    (b : Bool) (n : Nat) (h : httpd_t) (regs : registry) (uri : Bytes) :
    ∃ m, httpd_lookup_uri env (adj b n h) regs uri =
      (httpd_lookup_uri env h regs uri).map (adj_res b m) := by
  unfold httpd_lookup_uri
  split
  · obtain ⟨m, e⟩ := adj_dirlist env b n h regs "/".toList
    exact ⟨m, by simp only [e, Option.map_some', adj_res]⟩
  · exact adj_lookup_loop env hcb b n h regs uri regs

theorem adj_verb_check (env : Env) (b : Bool) (n : Nat) (k : httpd_t) (mode : errmode_t)
    (verb : Bytes) :
    ∃ m, verb_check env (adj b n k) mode verb =
      ((verb_check env k mode verb).1, adj b m (verb_check env k mode verb).2) := by
  unfold verb_check
  split
  · exact adj_error env b n k mode 400 _
  · split
    · exact ⟨n, rfl⟩
    · split
      · exact ⟨n, rfl⟩
      · exact adj_error env b n k mode 501 _

theorem adj_digest_request_line (env : Env) (b : Bool) (n : Nat) (h : httpd_t) :
    ∃ m, httpd_digest_request_line env (adj b n h) =
      ((httpd_digest_request_line env h).1, adj b m (httpd_digest_request_line env h).2) := by
  have hbuf : (adj b n h).request.request_buf = h.request.request_buf := rfl
  by_cases hsp : isspace (buf_get h.request.request_buf 0) = true
  · unfold httpd_digest_request_line
    rw [hbuf, if_pos hsp, if_pos hsp]
    exact adj_error env b n h _ _ _
  · have hsp2 : isspace (buf_get h.request.request_buf 0) = false := by simpa using hsp
    have hsp3 : isspace (buf_get (adj b n h).request.request_buf 0) = false := by
      rw [hbuf]
      exact hsp2
    by_cases hbad : (request_line_tokens h.request.request_buf).1 = none ∨
        (request_line_tokens h.request.request_buf).2.1 = none ∨
        (request_line_tokens h.request.request_buf).2.2.2.1 ≠ none
    · have hbad3 : (request_line_tokens (adj b n h).request.request_buf).1 = none ∨
          (request_line_tokens (adj b n h).request.request_buf).2.1 = none ∨
          (request_line_tokens (adj b n h).request.request_buf).2.2.2.1 ≠ none := by
        rw [hbuf]
        exact hbad
      rw [httpd_digest_request_line_count env h hsp2 hbad,
        httpd_digest_request_line_count env (adj b n h) hsp3 hbad3, hbuf]
      generalize request_line_tokens h.request.request_buf = toks
      obtain ⟨m, e⟩ := adj_error env b n { h with request := { h.request with
        request_buf := toks.2.2.2.2, uri := toks.2.1 } } .ERRMODE_NON_HTTP 400
        "<P>Invalid request syntax.</P>\n<P>Invalid number of tokens.</P>".toList
      exact ⟨m, e⟩
    · cases htok : request_line_tokens h.request.request_buf with
      | mk verb rest =>
        obtain ⟨uri, protocol, junk, buf⟩ := rest
        have htok3 : request_line_tokens (adj b n h).request.request_buf =
            (verb, uri, protocol, junk, buf) := by
          rw [hbuf]
          exact htok
        rw [htok] at hbad
        simp only [not_or, ne_eq, not_not] at hbad
        obtain ⟨g1, g2, g3⟩ := hbad
        cases verb with
        | none => exact absurd rfl g1
        | some v =>
          cases uri with
          | none => exact absurd rfl g2
          | some u =>
            subst g3
            cases protocol with
            | none =>
              rw [httpd_digest_request_line_two env h v u buf hsp2 htok,
                httpd_digest_request_line_two env (adj b n h) v u buf hsp3 htok3]
              obtain ⟨m, e⟩ := adj_verb_check env b n { h with request := { h.request with
                request_buf := buf, uri := some u, http_1_0 := true, persistent := false } }
                .ERRMODE_NON_HTTP (cstr (buf.drop v))
              exact ⟨m, e⟩
            | some p =>
              rw [httpd_digest_request_line_three env h v u p buf hsp2 htok,
                httpd_digest_request_line_three env (adj b n h) v u p buf hsp3 htok3]
              cases protocol_version env.erange (cstr (buf.drop p)) with
              | none =>
                simp only []
                by_cases hh : strcmp_eq (cstr (buf.drop v)) "HEAD".toList = true
                · rw [if_pos hh, if_pos hh]
                  obtain ⟨m, e⟩ := adj_error env b n { h with request := { h.request with
                    request_buf := buf, uri := some u, verb := .VERB_HEAD } }
                    .ERRMODE_NON_HTTP 400
                    ("Invalid protocol '".toList ++ cstr (buf.drop p) ++ "'.".toList)
                  exact ⟨m, e⟩
                · rw [if_neg hh, if_neg hh]
                  obtain ⟨m, e⟩ := adj_error env b n { h with request := { h.request with
                    request_buf := buf, uri := some u } }
                    .ERRMODE_NON_HTTP 400
                    ("Invalid protocol '".toList ++ cstr (buf.drop p) ++ "'.".toList)
                  exact ⟨m, e⟩
              | some mm =>
                obtain ⟨major, minor⟩ := mm
                obtain ⟨m, e⟩ := adj_verb_check env b n { h with request := { h.request with
                  request_buf := buf, uri := some u, http_1_0 := (major = 1 && minor = 0),
                  persistent := !(major = 1 && minor = 0) } } .ERRMODE_FATAL (cstr (buf.drop v))
                exact ⟨m, e⟩

theorem split_uri_it_offset (r : request_t) (u n : Nat) :
    split_uri { r with it_offset := n } u = { split_uri r u with it_offset := n } := by
  unfold split_uri
  simp only []
  split
  · rfl
  · split <;> rfl
  · rfl
  · rfl

theorem adj_split_uri (b : Bool) (n : Nat) (h : httpd_t) (u : Nat) :
    ({ adj b n h with request := split_uri (adj b n h).request u } : httpd_t) =
      adj b n { h with request := split_uri h.request u } := by
  rw [adj_request, split_uri_it_offset]
  rfl

theorem adj_digest_uri (env : Env) (b : Bool) (n : Nat) (h : httpd_t) :
    ∃ m, digest_uri env (adj b n h) = (digest_uri env h).map (adj_head b m) := by
  unfold digest_uri
  have hu : (adj b n h).request.uri = h.request.uri := rfl
  rw [hu]
  cases h.request.uri with
  | none => exact ⟨n, rfl⟩
  | some u =>
    have hs : split_uri (adj b n h).request u = { split_uri h.request u with it_offset := n } := by
      rw [adj_request, split_uri_it_offset]
    simp only [hs]
    generalize split_uri h.request u = R
    obtain ⟨pb, rb, nr, sf, rll, vb, h10, pers, uri, query, queries, frag, fs, fields, loc, an,
      it, ot⟩ := R
    simp only []
    have herr : ∀ (K : httpd_t) (text : Bytes), ∃ m,
        some (head_result.reply
          (httpd_error env (adj b n K) .ERRMODE_FATAL 400 text).1
          (httpd_error env (adj b n K) .ERRMODE_FATAL 400 text).2) =
        (some (head_result.reply
          (httpd_error env K .ERRMODE_FATAL 400 text).1
          (httpd_error env K .ERRMODE_FATAL 400 text).2)).map (adj_head b m) := by
      intro K text
      obtain ⟨m, e⟩ := adj_error env b n K .ERRMODE_FATAL 400 text
      exact ⟨m, by simp only [e, Option.map_some', adj_head]⟩
    cases percent_decode (cstr (rb.drop u)) false with
    | none =>
      obtain ⟨m, e⟩ := herr { h with request := ⟨pb, rb, nr, sf, rll, vb, h10, pers, uri, query,
        queries, frag, fs, fields, loc, an, it, ot⟩ } "Invalid URI (percent substution error).".toList
      exact ⟨m, e⟩
    | some cand =>
      simp only []
      split
      · obtain ⟨m, e⟩ := herr { h with request := ⟨pb, rb, nr, sf, rll, vb, h10, pers, uri, query,
          queries, frag, fs, fields, loc, an, it, ot⟩ } "Invalid URI syntax after http://.".toList
        exact ⟨m, e⟩
      · split
        · obtain ⟨m, e⟩ := herr { h with request := ⟨pb, rb, nr, sf, rll, vb, h10, pers, uri,
            query, queries, frag, fs, fields, loc, an, it, ot⟩ } "Invalid URI".toList
          exact ⟨m, e⟩
        · cases query with
          | none => exact ⟨n, rfl⟩
          | some q =>
            simp only []
            cases parse_queries queries (rb.drop q) with
            | none => exact ⟨n, rfl⟩
            | some qs => exact ⟨n, rfl⟩

theorem adj_error_reply (env : Env) (b : Bool) (n : Nat) (K : httpd_t) (mode : errmode_t)
    (code : Int) (text : Bytes) :
    ∃ m, some (head_result.reply (httpd_error env (adj b n K) mode code text).1
        (httpd_error env (adj b n K) mode code text).2) =
      (some (head_result.reply (httpd_error env K mode code text).1
        (httpd_error env K mode code text).2)).map (adj_head b m) := by
  obtain ⟨m, e⟩ := adj_error env b n K mode code text
  exact ⟨m, by simp only [e, Option.map_some', adj_head]⟩

theorem adj_digest_request_head (env : Env) (b : Bool) (n : Nat) (h : httpd_t) :
    ∃ m, httpd_digest_request_head env (adj b n h) =
      (httpd_digest_request_head env h).map (adj_head b m) := by
  unfold httpd_digest_request_head
  have h1 : (adj b n h).request.fields_start = h.request.fields_start := rfl
  have h2 : (adj b n h).request.request_buf = h.request.request_buf := rfl
  have h3 : (adj b n h).request.fields = h.request.fields := rfl
  have h4 : (adj b n h).request.http_1_0 = h.request.http_1_0 := rfl
  rw [h1, h2, h3]
  cases h.request.fields_start with
  | none => exact ⟨n, rfl⟩
  | some s =>
    simp only []
    cases httpd_digest_fields env h.request.request_buf (h.request.request_buf.length + 1) s
        h.request.fields with
    | none => exact ⟨n, rfl⟩
    | some res =>
      obtain ⟨msg, fields⟩ := res
      cases msg with
      | some msg =>
        obtain ⟨m, e⟩ := adj_error_reply env b n
          { h with request := { h.request with fields := fields } } .ERRMODE_FATAL 400 msg
        exact ⟨m, e⟩
      | none =>
        simp only [h4]
        by_cases hc : (!h.request.http_1_0 &&
            decide (lookup_field "Host".toList fields = none)) = true
        · simp only [if_pos hc]
          obtain ⟨m, e⟩ := adj_error_reply env b n
            { h with request := { h.request with fields := fields } } .ERRMODE_FATAL 400
            "Missing hostname.".toList
          exact ⟨m, e⟩
        · simp only [if_neg hc]
          by_cases hd : connection_close fields = true
          · simp only [if_pos hd]
            exact adj_digest_uri env b n
              { h with request := { h.request with fields := fields, persistent := false } }
          · simp only [if_neg hd]
            exact adj_digest_uri env b n { h with request := { h.request with fields := fields } }

theorem adj_digest_request (env : Env)
    (hcb : ∀ d s h r b n, ∃ m, env.dyn d s (adj b n h) r = adj_res b m (env.dyn d s h r))
    (b : Bool) (n : Nat) (h : httpd_t) (regs : registry) :
    ∃ m, httpd_digest_request env (adj b n h) regs =
      (httpd_digest_request env h regs).map (adj_res b m) := by
  unfold httpd_digest_request
  obtain ⟨m, e⟩ := adj_digest_request_head env b n h
  rw [e]
  cases httpd_digest_request_head env h with
  | none => exact ⟨n, rfl⟩
  | some hr =>
    cases hr with
    | reply st k => exact ⟨m, rfl⟩
    | dispatch k uri => exact adj_lookup_uri env hcb b m k regs uri

theorem httpd_input_char_eq (env : Env) (h : httpd_t) (regs : registry) (c : Char) :
    httpd_input_char env h regs c =
      if h.cr && c = '\n' then some (.HS_CONTINUE, { h with cr := false }, regs)
      else input_char_store env { h with cr := (c = '\r') } regs (if c = '\r' then '\n' else c) :=
  rfl

theorem adj_error_res (env : Env) (b : Bool) (n : Nat) (K : httpd_t) (mode : errmode_t)
    (code : Int) (text : Bytes) (regs : registry) :
    ∃ m, some ((httpd_error env (adj b n K) mode code text).1,
        (httpd_error env (adj b n K) mode code text).2, regs) =
      (some ((httpd_error env K mode code text).1,
        (httpd_error env K mode code text).2, regs)).map (adj_res b m) := by
  obtain ⟨m, e⟩ := adj_error env b n K mode code text
  exact ⟨m, by simp only [e, Option.map_some', adj_res]⟩

theorem adj_line_res (env : Env) (b : Bool) (n : Nat) (K : httpd_t) (regs : registry) :
    ∃ m, some ((httpd_digest_request_line env (adj b n K)).1,
        (httpd_digest_request_line env (adj b n K)).2, regs) =
      (some ((httpd_digest_request_line env K).1,
        (httpd_digest_request_line env K).2, regs)).map (adj_res b m) := by
  obtain ⟨m, e⟩ := adj_digest_request_line env b n K
  exact ⟨m, by simp only [e, Option.map_some', adj_res]⟩

theorem input_char_store_too_big (env : Env) (h : httpd_t) (regs : registry) (c : Char)
    (hm : MAX_HTTPD_REQUEST ≤ h.request.nr) :
    input_char_store env h regs c =
      some ((httpd_error env h
          (if h.request.saw_first then .ERRMODE_FATAL else .ERRMODE_NON_HTTP) 400
          "The request is too big.".toList).1,
        (httpd_error env h
          (if h.request.saw_first then .ERRMODE_FATAL else .ERRMODE_NON_HTTP) 400
          "The request is too big.".toList).2, regs) := by
  unfold input_char_store
  rw [if_pos hm]

theorem input_char_store_other (env : Env) (h : httpd_t) (regs : registry) (c : Char)
    (hm : ¬ MAX_HTTPD_REQUEST ≤ h.request.nr) (hn : c ≠ '\n') :
    input_char_store env h regs c =
      some (.HS_CONTINUE, { h with request := { h.request with
        request_buf := buf_set h.request.request_buf h.request.nr c
        nr := h.request.nr + 1
        rll := h.request.rll + 1 } }, regs) := by
  unfold input_char_store
  rw [if_neg hm]
  simp only []
  rw [if_neg hn]

theorem input_char_store_missing (env : Env) (h : httpd_t) (regs : registry)
    (hm : ¬ MAX_HTTPD_REQUEST ≤ h.request.nr) (hr : h.request.rll = 0)
    (hs : h.request.saw_first = false) :
    input_char_store env h regs '\n' =
      some ((httpd_error env { h with request := { h.request with
          request_buf := buf_set h.request.request_buf h.request.nr '\n'
          nr := h.request.nr + 1 } } .ERRMODE_FATAL 400 "Missing request.".toList).1,
        (httpd_error env { h with request := { h.request with
          request_buf := buf_set h.request.request_buf h.request.nr '\n'
          nr := h.request.nr + 1 } } .ERRMODE_FATAL 400 "Missing request.".toList).2, regs) := by
  unfold input_char_store
  rw [if_neg hm]
  simp only []
  rw [if_pos trivial, if_pos hr, if_pos (by rw [hs]; rfl)]

theorem input_char_store_digest (env : Env) (h : httpd_t) (regs : registry)
    (hm : ¬ MAX_HTTPD_REQUEST ≤ h.request.nr) (hr : h.request.rll = 0)
    (hs : h.request.saw_first = true) :
    input_char_store env h regs '\n' =
      httpd_digest_request env { h with request := { h.request with
        request_buf := buf_set (buf_set h.request.request_buf h.request.nr '\n')
          (h.request.nr + 1) NUL
        nr := h.request.nr + 1 } } regs := by
  unfold input_char_store
  rw [if_neg hm]
  simp only []
  rw [if_pos trivial, if_pos hr, if_neg (by rw [hs]; decide)]

theorem input_char_store_first (env : Env) (h : httpd_t) (regs : registry)
    (hm : ¬ MAX_HTTPD_REQUEST ≤ h.request.nr) (hr : h.request.rll ≠ 0)
    (hs : h.request.saw_first = false) :
    input_char_store env h regs '\n' =
      some ((httpd_digest_request_line env { h with request := { h.request with
          request_buf := buf_set (buf_set h.request.request_buf h.request.nr '\n')
            h.request.nr NUL
          nr := h.request.nr + 1
          rll := 0
          fields_start := some (h.request.nr + 1)
          saw_first := true } }).1,
        (httpd_digest_request_line env { h with request := { h.request with
          request_buf := buf_set (buf_set h.request.request_buf h.request.nr '\n')
            h.request.nr NUL
          nr := h.request.nr + 1
          rll := 0
          fields_start := some (h.request.nr + 1)
          saw_first := true } }).2, regs) := by
  unfold input_char_store
  rw [if_neg hm]
  simp only []
  rw [if_pos trivial, if_neg hr, if_pos (by rw [hs]; rfl)]
  rfl

theorem input_char_store_next (env : Env) (h : httpd_t) (regs : registry)
    (hm : ¬ MAX_HTTPD_REQUEST ≤ h.request.nr) (hr : h.request.rll ≠ 0)
    (hs : h.request.saw_first = true) :
    input_char_store env h regs '\n' =
      some (.HS_CONTINUE, { h with request := { h.request with
        request_buf := buf_set h.request.request_buf h.request.nr '\n'
        nr := h.request.nr + 1
        rll := 0 } }, regs) := by
  unfold input_char_store
  rw [if_neg hm]
  simp only []
  rw [if_pos trivial, if_neg hr, if_neg (by rw [hs]; decide)]

theorem adj_input_char_store (env : Env)
    (hcb : ∀ d s h r b n, ∃ m, env.dyn d s (adj b n h) r = adj_res b m (env.dyn d s h r))
    (b : Bool) (n : Nat) (h : httpd_t) (regs : registry) (c : Char) :
    ∃ m, input_char_store env (adj b n h) regs c =
      (input_char_store env h regs c).map (adj_res b m) := by
  by_cases hm : MAX_HTTPD_REQUEST ≤ h.request.nr
  · rw [input_char_store_too_big env h regs c hm,
      input_char_store_too_big env (adj b n h) regs c hm]
    obtain ⟨m, e⟩ := adj_error_res env b n h
      (if h.request.saw_first then .ERRMODE_FATAL else .ERRMODE_NON_HTTP) 400
      "The request is too big.".toList regs
    exact ⟨m, e⟩
  · by_cases hn : c = '\n'
    · subst hn
      by_cases hr : h.request.rll = 0
      · by_cases hs : h.request.saw_first = false
        · rw [input_char_store_missing env h regs hm hr hs,
            input_char_store_missing env (adj b n h) regs hm hr hs]
          obtain ⟨m, e⟩ := adj_error_res env b n
            { h with request := { h.request with
              request_buf := buf_set h.request.request_buf h.request.nr '\n'
              nr := h.request.nr + 1 } } .ERRMODE_FATAL 400 "Missing request.".toList regs
          exact ⟨m, e⟩
        · have hs2 : h.request.saw_first = true := by simpa using hs
          rw [input_char_store_digest env h regs hm hr hs2,
            input_char_store_digest env (adj b n h) regs hm hr hs2]
          obtain ⟨m, e⟩ := adj_digest_request env hcb b n
            { h with request := { h.request with
              request_buf := buf_set (buf_set h.request.request_buf h.request.nr '\n')
                (h.request.nr + 1) NUL
              nr := h.request.nr + 1 } } regs
          exact ⟨m, e⟩
      · by_cases hs : h.request.saw_first = false
        · rw [input_char_store_first env h regs hm hr hs,
            input_char_store_first env (adj b n h) regs hm hr hs]
          obtain ⟨m, e⟩ := adj_line_res env b n
            { h with request := { h.request with
              request_buf := buf_set (buf_set h.request.request_buf h.request.nr '\n')
                h.request.nr NUL
              nr := h.request.nr + 1
              rll := 0
              fields_start := some (h.request.nr + 1)
              saw_first := true } } regs
          exact ⟨m, e⟩
        · have hs2 : h.request.saw_first = true := by simpa using hs
          rw [input_char_store_next env h regs hm hr hs2,
            input_char_store_next env (adj b n h) regs hm hr hs2]
          exact ⟨n, rfl⟩
    · rw [input_char_store_other env h regs c hm hn,
        input_char_store_other env (adj b n h) regs c hm hn]
      exact ⟨n, rfl⟩

theorem adj_self (h : httpd_t) : adj h.cr h.request.it_offset h = h := rfl

theorem input_char_store_cr (env : Env)
    (hcb : ∀ d s h r b n, ∃ m, env.dyn d s (adj b n h) r = adj_res b m (env.dyn d s h r))
    (h : httpd_t) (regs : registry) (c : Char) (st : httpd_status_t) (k : httpd_t)
    (regs1 : registry) (hr : input_char_store env h regs c = some (st, k, regs1)) :
    k.cr = h.cr := by
  obtain ⟨m, e⟩ := adj_input_char_store env hcb h.cr h.request.it_offset h regs c
  rw [adj_self, hr] at e
  simp only [Option.map_some', Option.some.injEq, adj_res, Prod.mk.injEq, true_and,
    and_true] at e
  rw [e]
  rfl

theorem normal_byte_ne_cr (c : Char) : decide ((if c = '\r' then '\n' else c) = '\r') = false := by
  by_cases hc : c = '\r'
  · rw [if_pos hc]
    decide
  · rw [if_neg hc]
    simpa using hc

/-- One byte that is not swallowed: `httpd_input_char` does with it what it
does with the normalized byte on the connection whose flag `cr` is off. -/
theorem input_char_normal (env : Env)
    (hcb : ∀ d s h r b n, ∃ m, env.dyn d s (adj b n h) r = adj_res b m (env.dyn d s h r))
    (h : httpd_t) (regs : registry) (c : Char) (hsw : ¬(h.cr = true ∧ c = '\n')) (n : Nat) :
    ∃ m, httpd_input_char env (adj false n h) regs (if c = '\r' then '\n' else c) =
      (httpd_input_char env h regs c).map (adj_res false m) := by
  have hn : ¬ (h.cr && decide (c = '\n')) = true := by
    cases hcr : h.cr
    · simp
    · simp only [Bool.true_and, decide_eq_true_eq]
      exact fun e => hsw ⟨hcr, e⟩
  have hn2 : ¬ ((adj false n h).cr && decide ((if c = '\r' then '\n' else c) = '\n')) = true := by
    have : (adj false n h).cr = false := rfl
    rw [this]
    simp
  rw [httpd_input_char_eq env h regs c, httpd_input_char_eq env (adj false n h) regs _,
    if_neg hn, if_neg hn2]
  have hc := normal_byte_ne_cr c
  have hc2 : ¬ (if c = '\r' then '\n' else c) = '\r' := by simpa using hc
  rw [if_neg hc2]
  have hst : ({ adj false n h with cr := decide ((if c = '\r' then '\n' else c) = '\r') } :
      httpd_t) = adj false n { h with cr := decide (c = '\r') } := by
    rw [hc]
    rfl
  rw [hst]
  exact adj_input_char_store env hcb false n _ regs _

theorem httpd_input_char_cr (env : Env)
    (hcb : ∀ d s h r b n, ∃ m, env.dyn d s (adj b n h) r = adj_res b m (env.dyn d s h r))
    (h : httpd_t) (regs : registry) (c : Char) (hsw : ¬(h.cr = true ∧ c = '\n'))
    (st : httpd_status_t) (k : httpd_t) (regs1 : registry)
    (hr : httpd_input_char env h regs c = some (st, k, regs1)) :
    k.cr = decide (c = '\r') := by
  have hn : ¬ (h.cr && decide (c = '\n')) = true := by
    cases hcr : h.cr
    · simp
    · simp only [Bool.true_and, decide_eq_true_eq]
      exact fun e => hsw ⟨hcr, e⟩
  rw [httpd_input_char_eq, if_neg hn] at hr
  exact input_char_store_cr env hcb _ regs _ st k regs1 hr

/-- The loop of `httpd_input` does with the input what it does with the
normalized input on the connection whose flag `cr` is off: the results differ
in the flag `cr` and in the input trace offset at most. -/
theorem input_loop_normal (env : Env)
    (hcb : ∀ d s h r b n, ∃ m, env.dyn d s (adj b n h) r = adj_res b m (env.dyn d s h r)) :
    ∀ (data : Bytes) (h : httpd_t) (regs : registry) (n : Nat),
      (httpd_input_loop env (adj false n h) regs (normalize h.cr data)).map (adj_res false 0) =
        (httpd_input_loop env h regs data).map (adj_res false 0) := by
  intro data
  induction data with
  | nil => intro h regs n; rfl
  | cons c s ih =>
    intro h regs n
    by_cases hsw : h.cr = true ∧ c = '\n'
    · have e1 : normalize h.cr (c :: s) = normalize false s := by
        simp [normalize, hsw.1, hsw.2]
      have e2 : httpd_input_loop env h regs (c :: s) =
          httpd_input_loop env { h with cr := false } regs s := by
        conv_lhs => rw [httpd_input_loop]
        rw [httpd_input_char_swallow env h regs c hsw]
      rw [e1, e2]
      exact ih { h with cr := false } regs n
    · have hn : (h.cr && decide (c = '\n')) = false := by
        cases hcr : h.cr
        · simp
        · simp only [Bool.true_and, decide_eq_false_iff_not]
          exact fun e => hsw ⟨hcr, e⟩
      have e1 : normalize h.cr (c :: s) =
          (if c = '\r' then '\n' else c) :: normalize (decide (c = '\r')) s := by
        simp [normalize, hn]
      rw [e1]
      obtain ⟨m, e⟩ := input_char_normal env hcb h regs c hsw n
      conv_lhs => rw [httpd_input_loop]
      conv_rhs => rw [httpd_input_loop]
      rw [e]
      cases hres : httpd_input_char env h regs c with
      | none => rfl
      | some res =>
        obtain ⟨st, k, regs2⟩ := res
        have hk := httpd_input_char_cr env hcb h regs c hsw st k regs2 hres
        cases st with
        | HS_CONTINUE =>
          simp only [Option.map_some', adj_res]
          rw [← hk]
          exact ih k regs2 m
        | _ => rfl

/-- Function `httpd_input` does with the input what it does with the
normalized input on the connection whose flag `cr` is off. -/
theorem httpd_input_normal (env : Env)
    (hcb : ∀ d s h r b n, ∃ m, env.dyn d s (adj b n h) r = adj_res b m (env.dyn d s h r))
    (h : httpd_t) (regs : registry) (data : Bytes) :
    (httpd_input env { h with cr := false } regs (normalize h.cr data)).map (adj_res false 0) =
      (httpd_input env h regs data).map (adj_res false 0) :=
  input_loop_normal env hcb data
    { h with request := { h.request with it_offset := h.request.it_offset + data.length } } regs
    (h.request.it_offset + (normalize h.cr data).length)

theorem takeWhile_stop (q : Char → Bool) (l : Bytes) :
    buf_get l (l.takeWhile q).length = NUL ∨ q (buf_get l (l.takeWhile q).length) = false := by
  induction l with
  | nil => left; rfl
  | cons c t ih =>
    by_cases hc : q c = true
    · rw [List.takeWhile_cons_of_pos hc]
      simpa [buf_get] using ih
    · rw [List.takeWhile_cons_of_neg hc]
      right
      simpa [buf_get] using hc

/-- What `strtok` changes in the buffer: at most one separator, which
becomes a NUL. -/
theorem strtok_frame (buf : Bytes) (p i : Nat) :
    buf_get (strtok buf p).2.2 i = buf_get buf i ∨
      (buf_get (strtok buf p).2.2 i = NUL ∧ is_sep (buf_get buf i) = true) := by
  unfold strtok
  simp only []
  split
  · left; rfl
  · split
    · left; rfl
    · rename_i h1 h2
      simp only []
      rw [buf_get_buf_set]
      by_cases hi : i = p + ((buf.drop p).takeWhile (fun c => whitespace.contains c)).length +
          ((buf.drop (p + ((buf.drop p).takeWhile (fun c => whitespace.contains c)).length)).takeWhile
            (fun c => c != NUL && !whitespace.contains c)).length
      · right
        rw [if_pos hi]
        refine ⟨rfl, ?_⟩
        have hs := takeWhile_stop (fun c => c != NUL && !whitespace.contains c)
          (buf.drop (p + ((buf.drop p).takeWhile (fun c => whitespace.contains c)).length))
        rw [buf_get_drop, ← hi] at hs
        rw [← hi] at h2
        rcases hs with hs | hs
        · exact absurd hs h2
        · rw [← is_sep_eq]
          simp only [Bool.and_eq_false_imp, bne_iff_ne, ne_eq, Bool.not_eq_false'] at hs
          exact hs h2
      · left
        rw [if_neg hi]

theorem is_sep_nul : is_sep NUL = false := by decide

/-- What the tokenizing of the request line changes in the buffer: separators
become NULs, nothing else changes. -/
theorem request_line_tokens_frame (buf : Bytes) (i : Nat) :
    buf_get (request_line_tokens buf).2.2.2.2 i = buf_get buf i ∨
      (buf_get (request_line_tokens buf).2.2.2.2 i = NUL ∧ is_sep (buf_get buf i) = true) := by
  have step : ∀ (b : Bytes) (q : Nat),
      (buf_get b i = buf_get buf i ∨ (buf_get b i = NUL ∧ is_sep (buf_get buf i) = true)) →
      (buf_get (strtok b q).2.2 i = buf_get buf i ∨
        (buf_get (strtok b q).2.2 i = NUL ∧ is_sep (buf_get buf i) = true)) := by
    intro b q hb
    rcases strtok_frame b q i with e | ⟨e1, e2⟩
    · rw [e]
      exact hb
    · rcases hb with hb | ⟨hb1, hb2⟩
      · right
        rw [← hb]
        exact ⟨e1, e2⟩
      · right
        exact ⟨e1, hb2⟩
  unfold request_line_tokens
  have s1 := step buf 0 (Or.inl rfl)
  generalize strtok buf 0 = r1 at s1
  obtain ⟨verb, p1, b1⟩ := r1
  simp only [] at s1 ⊢
  have s2 := step b1 p1 s1
  generalize strtok b1 p1 = r2 at s2
  obtain ⟨uri, p2, b2⟩ := r2
  simp only [] at s2 ⊢
  have s3 := step b2 p2 s2
  generalize strtok b2 p2 = r3 at s3
  obtain ⟨protocol, p3, b3⟩ := r3
  simp only [] at s3 ⊢
  cases protocol with
  | none => exact s3
  | some q =>
    simp only []
    have s4 := step b3 p3 s3
    generalize strtok b3 p3 = r4 at s4
    obtain ⟨junk, p4, b4⟩ := r4
    exact s4

/-- When `httpd_digest_request_line` lets the request continue, the request
buffer it leaves is the tokenized one, and the request line counts as seen
where it did before. -/
theorem httpd_digest_request_line_buf (env : Env) (h : httpd_t)
    (hc : (httpd_digest_request_line env h).1 = .HS_CONTINUE) :
    (httpd_digest_request_line env h).2.request.request_buf =
      (request_line_tokens h.request.request_buf).2.2.2.2 := by
  obtain ⟨b, u, x, y, v, hall⟩ := httpd_digest_request_line_continue_eq env h hc
  have hsp : isspace (buf_get h.request.request_buf 0) = false := by
    by_contra hn
    have hn2 : isspace (buf_get h.request.request_buf 0) = true := by simpa using hn
    unfold httpd_digest_request_line at hc
    rw [if_pos hn2] at hc
    exact httpd_error_ne_continue _ _ _ _ _ hc
  have hgood : ¬ ((request_line_tokens h.request.request_buf).1 = none ∨
      (request_line_tokens h.request.request_buf).2.1 = none ∨
      (request_line_tokens h.request.request_buf).2.2.2.1 ≠ none) := by
    intro hbad
    rw [httpd_digest_request_line_count env h hsp hbad] at hc
    exact httpd_error_ne_continue _ _ _ _ _ hc
  cases htok : request_line_tokens h.request.request_buf with
  | mk verb rest =>
    obtain ⟨uri, protocol, junk, buf⟩ := rest
    rw [htok] at hgood
    simp only [not_or, ne_eq, not_not] at hgood
    obtain ⟨g1, g2, g3⟩ := hgood
    cases verb with
    | none => exact absurd rfl g1
    | some vv =>
      cases uri with
      | none => exact absurd rfl g2
      | some uu =>
        subst g3
        cases protocol with
        | none =>
          rw [httpd_digest_request_line_two env h vv uu buf hsp htok] at hc ⊢
          obtain ⟨vb, hvb⟩ := verb_check_continue env _ _ _ hc
          rw [hvb]
        | some p =>
          rw [httpd_digest_request_line_three env h vv uu p buf hsp htok] at hc ⊢
          cases hver : protocol_version env.erange (cstr (buf.drop p)) with
          | none =>
            rw [hver] at hc
            exact absurd hc (httpd_error_ne_continue _ _ _ _ _)
          | some mm =>
            obtain ⟨major, minor⟩ := mm
            rw [hver] at hc
            simp only []
            obtain ⟨vb, hvb⟩ := verb_check_continue env _ _ _ hc
            rw [hvb]

theorem kept_refl (s : Bool) (a : Char) : kept s a a := Or.inl rfl

theorem kept_trans (s s2 : Bool) (a b c : Char) (hm : s = true → s2 = true)
    (h1 : kept s a b) (h2 : kept s2 b c) : kept s a c := by
  rcases h2 with e | ⟨e1, e2, e3⟩
  · rw [e]
    exact h1
  · have hs : s = false := by
      cases s
      · rfl
      · rw [hm rfl] at e1
        exact absurd e1 (by decide)
    rcases h1 with f | ⟨_, f2, _⟩
    · rw [f] at e3
      exact Or.inr ⟨hs, e2, e3⟩
    · rw [f2] at e3
      rcases e3 with e3 | e3
      · exact absurd e3 (by decide)
      · exact absurd e3 (by decide)

theorem kept_mono (s s2 : Bool) (a b : Char) (hm : s = true → s2 = true) (h : kept s2 a b) :
    kept s a b :=
  kept_trans s s2 a a b hm (kept_refl s a) h

/-- A byte that `httpd_input_char` stores and answers with `HS_CONTINUE`:
the buffer afterwards is the buffer with the byte stored, up to the NULs that
the validation of the request line puts in. -/
theorem httpd_input_char_kept (env : Env)
    (hdyn : ∀ d s x r, (env.dyn d s x r).1 ≠ .HS_CONTINUE)
    (h : httpd_t) (regs : registry) (c : Char) (hsw : ¬(h.cr = true ∧ c = '\n'))
    (k : httpd_t) (regs1 : registry)
    (hr : httpd_input_char env h regs c = some (.HS_CONTINUE, k, regs1)) :
    k.request.nr = h.request.nr + 1 ∧
      (h.request.saw_first = true → k.request.saw_first = true) ∧
      ((if c = '\r' then '\n' else c) = '\n' → k.request.saw_first = true) ∧
      ∀ j, kept h.request.saw_first
        (buf_get (buf_set h.request.request_buf h.request.nr (if c = '\r' then '\n' else c)) j)
        (buf_get k.request.request_buf j) := by
  have hn : ¬ (h.cr && decide (c = '\n')) = true := by
    cases hcr : h.cr
    · simp
    · simp only [Bool.true_and, decide_eq_true_eq]
      exact fun e => hsw ⟨hcr, e⟩
  rw [httpd_input_char_eq, if_neg hn] at hr
  generalize (if c = '\r' then '\n' else c) = c2 at hr ⊢
  have q1 : ({ h with cr := decide (c = '\r') } : httpd_t).request = h.request := rfl
  generalize ({ h with cr := decide (c = '\r') } : httpd_t) = H at hr q1
  rw [← q1]
  by_cases hm : MAX_HTTPD_REQUEST ≤ H.request.nr
  · rw [input_char_store_too_big env H regs c2 hm] at hr
    simp only [Option.some.injEq, Prod.mk.injEq] at hr
    exact absurd hr.1 (httpd_error_ne_continue _ _ _ _ _)
  · by_cases hnl : c2 = '\n'
    · subst hnl
      by_cases hr0 : H.request.rll = 0
      · by_cases hs : H.request.saw_first = false
        · rw [input_char_store_missing env H regs hm hr0 hs] at hr
          simp only [Option.some.injEq, Prod.mk.injEq] at hr
          exact absurd hr.1 (httpd_error_ne_continue _ _ _ _ _)
        · have hs2 : H.request.saw_first = true := by simpa using hs
          rw [input_char_store_digest env H regs hm hr0 hs2] at hr
          exact absurd rfl (httpd_digest_request_ne_continue env hdyn _ _ _ _ _ hr)
      · by_cases hs : H.request.saw_first = false
        · rw [input_char_store_first env H regs hm hr0 hs] at hr
          simp only [Option.some.injEq, Prod.mk.injEq] at hr
          obtain ⟨hr1, hr2, _⟩ := hr
          have hb := httpd_digest_request_line_buf env _ hr1
          have hf := httpd_digest_request_line_frame env _ k (Prod.ext hr1 hr2)
          rw [hr2] at hb
          refine ⟨hf.1, fun _ => hf.2.2.1, fun _ => hf.2.2.1, fun j => ?_⟩
          rw [hb]
          have hfr := request_line_tokens_frame
            (buf_set (buf_set H.request.request_buf H.request.nr '\n') H.request.nr NUL) j
          simp only [] at hfr ⊢
          rw [buf_get_buf_set (buf_set H.request.request_buf H.request.nr '\n')] at hfr
          by_cases hj : j = H.request.nr
          · rw [if_pos hj] at hfr
            have e1 : buf_get (buf_set H.request.request_buf H.request.nr '\n') j = '\n' := by
              rw [buf_get_buf_set, if_pos hj]
            rw [e1]
            right
            refine ⟨hs, ?_, Or.inr rfl⟩
            rcases hfr with e | ⟨e, _⟩
            · exact e
            · exact e
          · rw [if_neg hj] at hfr
            rcases hfr with e | ⟨e, e2⟩
            · exact Or.inl e
            · exact Or.inr ⟨hs, e, Or.inl e2⟩
        · have hs2 : H.request.saw_first = true := by simpa using hs
          rw [input_char_store_next env H regs hm hr0 hs2] at hr
          simp only [Option.some.injEq, Prod.mk.injEq, true_and] at hr
          rw [← hr.1]
          exact ⟨rfl, fun e => e, fun _ => hs2, fun j => Or.inl rfl⟩
    · rw [input_char_store_other env H regs c2 hm hnl] at hr
      simp only [Option.some.injEq, Prod.mk.injEq, true_and] at hr
      rw [← hr.1]
      exact ⟨rfl, fun e => e, fun e => absurd e hnl, fun j => Or.inl rfl⟩

/-- A run of the loop of `httpd_input` that ends with `HS_CONTINUE`: the
bytes found in the buffer behind the old ones are the normalized input, up to
the NULs that the validation of the request line puts in; the bytes that were
there stay, up to those NULs. -/
theorem httpd_input_loop_kept (env : Env)
    (hdyn : ∀ d s x r, (env.dyn d s x r).1 ≠ .HS_CONTINUE) :
    ∀ (data : Bytes) (h : httpd_t) (regs : registry) (k : httpd_t) (regs1 : registry),
      httpd_input_loop env h regs data = some (.HS_CONTINUE, k, regs1) →
      k.request.nr = h.request.nr + (normalize h.cr data).length ∧
        (h.request.saw_first = true → k.request.saw_first = true) ∧
        (∀ j, j < h.request.nr → kept h.request.saw_first (buf_get h.request.request_buf j)
          (buf_get k.request.request_buf j)) ∧
        (∀ i, i < (normalize h.cr data).length →
          buf_get k.request.request_buf (h.request.nr + i) = (normalize h.cr data).getD i NUL ∨
          (h.request.saw_first = false ∧
            buf_get k.request.request_buf (h.request.nr + i) = NUL ∧
            (is_sep ((normalize h.cr data).getD i NUL) = true ∨
              (normalize h.cr data).getD i NUL = '\n') ∧
            '\n' ∉ (normalize h.cr data).take i)) := by
  intro data
  induction data with
  | nil =>
    intro h regs k regs1 hr
    simp only [httpd_input_loop, Option.some.injEq, Prod.mk.injEq, true_and] at hr
    rw [← hr.1]
    refine ⟨by simp [normalize], fun e => e, fun j _ => kept_refl _ _, fun i hi => ?_⟩
    simp [normalize] at hi
  | cons c s ih =>
    intro h regs k regs1 hr
    by_cases hsw : h.cr = true ∧ c = '\n'
    · have e1 : normalize h.cr (c :: s) = normalize false s := by
        simp [normalize, hsw.1, hsw.2]
      have e2 : httpd_input_loop env h regs (c :: s) =
          httpd_input_loop env { h with cr := false } regs s := by
        conv_lhs => rw [httpd_input_loop]
        rw [httpd_input_char_swallow env h regs c hsw]
      rw [e2] at hr
      rw [e1]
      exact ih { h with cr := false } regs k regs1 hr
    · have hn : (h.cr && decide (c = '\n')) = false := by
        cases hcr : h.cr
        · simp
        · simp only [Bool.true_and, decide_eq_false_iff_not]
          exact fun e => hsw ⟨hcr, e⟩
      have e1 : normalize h.cr (c :: s) =
          (if c = '\r' then '\n' else c) :: normalize (decide (c = '\r')) s := by
        simp [normalize, hn]
      rw [e1]
      rw [httpd_input_loop] at hr
      cases hres : httpd_input_char env h regs c with
      | none => rw [hres] at hr; simp at hr
      | some res =>
        obtain ⟨st, h2, regs2⟩ := res
        rw [hres] at hr
        cases st <;> simp only [Option.some.injEq, Prod.mk.injEq, reduceCtorEq, false_and] at hr
        obtain ⟨a1, a2, a3, a4⟩ := httpd_input_char_kept env hdyn h regs c hsw h2 regs2 hres
        have hcr := (httpd_input_char_continue env hdyn h regs c h2 regs2 hres).2.1
        have hcr2 : h2.cr = decide (c = '\r') := by
          rw [hcr]
          simp [cr_after, hn]
        obtain ⟨b1, b2, b3, b4⟩ := ih h2 regs2 k regs1 hr
        rw [hcr2] at b1 b4
        refine ⟨?_, fun e => b2 (a2 e), fun j hj => ?_, fun i hi => ?_⟩
        · rw [b1, a1, List.length_cons]
          omega
        · have t1 := a4 j
          rw [buf_get_buf_set, if_neg (by omega)] at t1
          exact kept_trans _ _ _ _ _ a2 t1 (b3 j (by omega))
        · cases i with
          | zero =>
            have t1 := a4 h.request.nr
            rw [buf_get_buf_set, if_pos rfl] at t1
            have t2 := kept_trans _ _ _ _ _ a2 t1 (b3 h.request.nr (by omega))
            simp only [Nat.add_zero, List.getD_cons_zero, List.take_zero, List.not_mem_nil,
              not_false_eq_true, and_true]
            exact t2
          | succ i =>
            rw [List.length_cons] at hi
            have t := b4 i (by omega)
            have e3 : h.request.nr + (i + 1) = h2.request.nr + i := by omega
            rw [e3]
            simp only [List.getD_cons_succ, List.take_succ_cons, List.mem_cons, not_or]
            rcases t with t | ⟨t1, t2, t3, t4⟩
            · exact Or.inl t
            · right
              have hsf : h.request.saw_first = false := by
                cases hq : h.request.saw_first
                · rfl
                · rw [a2 hq] at t1
                  exact absurd t1 (by decide)
              refine ⟨hsf, t2, t3, ?_, t4⟩
              intro e
              rw [a3 e.symm] at t1
              exact absurd t1 (by decide)

theorem normalize_clean : ∀ (l : Bytes), '\r' ∉ l → '\n' ∉ l → ∀ (cr : Bool) (x : Bytes),
    normalize cr (l ++ x) = l ++ normalize (cr && l.isEmpty) x := by
  intro l
  induction l with
  | nil => intro _ _ cr x; simp
  | cons c t ih =>
    intro h1 h2 cr x
    have c1 : c ≠ '\r' := fun e => h1 (by simp [e])
    have c2 : c ≠ '\n' := fun e => h2 (by simp [e])
    have t1 : '\r' ∉ t := fun e => h1 (List.mem_cons_of_mem _ e)
    have t2 : '\n' ∉ t := fun e => h2 (List.mem_cons_of_mem _ e)
    rw [List.cons_append, normalize, if_neg (by simp [c2]), if_neg c1, ih t1 t2]
    simp [c1]

theorem normalize_cr_eol : ∀ (lines : List Bytes), (∀ l ∈ lines, '\r' ∉ l ∧ '\n' ∉ l) →
    ∀ cr : Bool, normalize cr (with_eol ['\r'] lines) = with_eol ['\n'] lines := by
  intro lines
  induction lines with
  | nil => intro _ cr; cases cr <;> rfl
  | cons l ls ih =>
    intro hl cr
    have h1 := hl l (List.mem_cons_self _ _)
    have h2 : ∀ x ∈ ls, '\r' ∉ x ∧ '\n' ∉ x := fun x hx => hl x (List.mem_cons_of_mem _ hx)
    simp only [with_eol, List.append_assoc, List.singleton_append]
    rw [normalize_clean l h1.1 h1.2, normalize, if_neg (by simp), if_pos rfl]
    simp only [decide_True]
    rw [ih h2 true]

theorem normalize_crlf_eol : ∀ (lines : List Bytes), (∀ l ∈ lines, '\r' ∉ l ∧ '\n' ∉ l) →
    ∀ cr : Bool, normalize cr (with_eol ['\r', '\n'] lines) = with_eol ['\n'] lines := by
  intro lines
  induction lines with
  | nil => intro _ cr; cases cr <;> rfl
  | cons l ls ih =>
    intro hl cr
    have h1 := hl l (List.mem_cons_self _ _)
    have h2 : ∀ x ∈ ls, '\r' ∉ x ∧ '\n' ∉ x := fun x hx => hl x (List.mem_cons_of_mem _ hx)
    simp only [with_eol, List.append_assoc, List.singleton_append, List.cons_append,
      List.nil_append]
    rw [normalize_clean l h1.1 h1.2, normalize, if_neg (by simp), if_pos rfl]
    simp only [decide_True]
    rw [normalize, if_pos (by simp), ih h2 false]

theorem normalize_lf_eol : ∀ (lines : List Bytes), (∀ l ∈ lines, '\r' ∉ l ∧ '\n' ∉ l) →
    normalize false (with_eol ['\n'] lines) = with_eol ['\n'] lines := by
  intro lines
  induction lines with
  | nil => intro _; rfl
  | cons l ls ih =>
    intro hl
    have h1 := hl l (List.mem_cons_self _ _)
    have h2 : ∀ x ∈ ls, '\r' ∉ x ∧ '\n' ∉ x := fun x hx => hl x (List.mem_cons_of_mem _ hx)
    simp only [with_eol, List.append_assoc, List.singleton_append]
    rw [normalize_clean l h1.1 h1.2, Bool.false_and, normalize, if_neg (by simp),
      if_neg (by decide)]
    have e : decide ('\n' = '\r') = false := by decide
    rw [e, ih h2]

theorem crlf_collapse_other (c : Char) (s : Bytes) (hc : c ≠ '\r') :
    crlf_collapse (c :: s) = c :: crlf_collapse s := by
  conv_lhs => unfold crlf_collapse
  rw [if_neg hc]

theorem crlf_collapse_cr (d : Char) (t : Bytes) (hd : d ≠ '\n') :
    crlf_collapse ('\r' :: d :: t) = '\n' :: crlf_collapse (d :: t) := by
  conv_lhs => unfold crlf_collapse
  rw [if_pos rfl]
  simp only []
  rw [if_neg hd]

/-- The bytes that `httpd_input_char` stores are the input with the CR LF
pairs collapsed and the other CRs turned into LF. -/
theorem normalize_eq_collapse : ∀ s : Bytes,
    normalize false s = crlf_collapse s ∧
      '\n' :: normalize true s = crlf_collapse ('\r' :: s) := by
  intro s
  induction s with
  | nil => exact ⟨rfl, rfl⟩
  | cons c t ih =>
    have p1 : normalize false (c :: t) = crlf_collapse (c :: t) := by
      rw [normalize, if_neg (by simp)]
      by_cases hc : c = '\r'
      · rw [if_pos hc]
        simp only [hc, decide_True]
        exact ih.2
      · rw [if_neg hc]
        have e : decide (c = '\r') = false := by simpa using hc
        rw [e, ih.1, crlf_collapse_other c t hc]
    refine ⟨p1, ?_⟩
    by_cases hn : c = '\n'
    · subst hn
      rw [normalize, if_pos (by simp), ih.1]
      rfl
    · have e : normalize true (c :: t) = normalize false (c :: t) := by
        simp [normalize, hn]
      rw [crlf_collapse_cr c t hn, ← p1, e]

theorem httpd_input_cont (env : Env) (h : httpd_t) (regs : registry) (data : Bytes) :
    httpd_input env h regs data =
      httpd_input_loop env
        { h with request := { h.request with it_offset := h.request.it_offset + data.length } }
        regs data := rfl

theorem cr_off_eq (h : httpd_t) (hcr : h.cr = false) : ({ h with cr := false } : httpd_t) = h := by
  obtain ⟨a, b, c, d, e, f⟩ := h
  simp only [] at hcr
  rw [hcr]

theorem buf_set_length (b : Bytes) (i : Nat) (c : Char) :
    (buf_set b i c).length = max b.length (i + 1) := by
  induction b generalizing i with
  | nil =>
    induction i with
    | zero => rfl
    | succ i ih =>
      simp only [buf_set, List.length_cons, ih, List.length_nil]
      omega
  | cons x xs ih =>
    cases i with
    | zero =>
      simp only [buf_set, List.length_cons]
      omega
    | succ i =>
      simp only [buf_set, List.length_cons, ih]
      omega

theorem lt_length_of_buf_get_ne (b : Bytes) (i : Nat) (h : buf_get b i ≠ NUL) : i < b.length := by
  by_contra hn
  exact h (List.getD_eq_default _ _ (by omega))

theorem same_lines_refl (a : Bytes) : same_lines a a := ⟨rfl, fun _ => Iff.rfl⟩

theorem same_lines_trans (a b c : Bytes) (h1 : same_lines a b) (h2 : same_lines b c) :
    same_lines a c :=
  ⟨h2.1.trans h1.1, fun j => (h2.2 j).trans (h1.2 j)⟩

/-- A NUL stored over a byte of the buffer that is no newline. -/
theorem same_lines_buf_set (b : Bytes) (i : Nat) (hi : i < b.length)
    (hc : buf_get b i ≠ '\n') : same_lines b (buf_set b i NUL) := by
  refine ⟨?_, fun j => ?_⟩
  · rw [buf_set_length]
    omega
  · rw [buf_get_buf_set]
    by_cases hj : j = i
    · rw [if_pos hj, hj]
      constructor
      · intro e
        exact absurd e (by decide)
      · intro e
        exact absurd e hc
    · rw [if_neg hj]

theorem same_lines_strtok (buf : Bytes) (p : Nat) : same_lines buf (strtok buf p).2.2 := by
  refine ⟨?_, fun j => ?_⟩
  · unfold strtok
    simp only []
    split
    · rfl
    · split
      · rfl
      · rename_i h1 h2
        simp only []
        rw [buf_set_length]
        have := lt_length_of_buf_get_ne _ _ h2
        omega
  · rcases strtok_frame buf p j with e | ⟨e1, e2⟩
    · rw [e]
    · rw [e1]
      constructor
      · intro e
        exact absurd e (by decide)
      · intro e
        rw [e] at e2
        exact absurd e2 (by decide)

theorem same_lines_request_line_tokens (buf : Bytes) :
    same_lines buf (request_line_tokens buf).2.2.2.2 := by
  unfold request_line_tokens
  have s1 := same_lines_strtok buf 0
  generalize strtok buf 0 = r1 at s1
  obtain ⟨verb, p1, b1⟩ := r1
  simp only [] at s1 ⊢
  have s2 := same_lines_trans _ _ _ s1 (same_lines_strtok b1 p1)
  generalize strtok b1 p1 = r2 at s2
  obtain ⟨uri, p2, b2⟩ := r2
  simp only [] at s2 ⊢
  have s3 := same_lines_trans _ _ _ s2 (same_lines_strtok b2 p2)
  generalize strtok b2 p2 = r3 at s3
  obtain ⟨protocol, p3, b3⟩ := r3
  simp only [] at s3 ⊢
  cases protocol with
  | none => exact s3
  | some q =>
    simp only []
    have s4 := same_lines_trans _ _ _ s3 (same_lines_strtok b3 p3)
    generalize strtok b3 p3 = r4 at s4
    obtain ⟨junk, p4, b4⟩ := r4
    exact s4

theorem strchr_from_some (c : Char) (hc : c ≠ NUL) :
    ∀ (s : Bytes) (i q : Nat), strchr_from s c i = some q → i ≤ q ∧ buf_get s (q - i) = c := by
  intro s
  induction s with
  | nil =>
    intro i q h
    simp only [strchr_from, if_neg hc] at h
    exact absurd h (by simp)
  | cons x xs ih =>
    intro i q h
    unfold strchr_from at h
    by_cases hx : x = c
    · rw [if_pos hx] at h
      simp only [Option.some.injEq] at h
      subst h
      simp [buf_get, hx]
    · rw [if_neg hx] at h
      by_cases hn : x = NUL
      · rw [if_pos hn] at h
        exact absurd h (by simp)
      · rw [if_neg hn] at h
        obtain ⟨a1, a2⟩ := ih (i + 1) q h
        refine ⟨by omega, ?_⟩
        have e : q - i = (q - (i + 1)) + 1 := by omega
        rw [e]
        simpa [buf_get] using a2

theorem buf_get_cstr (r : Bytes) : ∀ j, buf_get (cstr r) j ≠ NUL →
    buf_get r j = buf_get (cstr r) j := by
  induction r with
  | nil => intro j _; rfl
  | cons x xs ih =>
    intro j hj
    by_cases hx : x = NUL
    · simp only [cstr, if_pos hx] at hj
      exact absurd rfl hj
    · simp only [cstr, if_neg hx] at hj ⊢
      cases j with
      | zero => rfl
      | succ j =>
        simp only [buf_get, List.getD_cons_succ] at hj ⊢
        exact ih j hj

/-- The byte that `strchr` finds in the C string at index `u` of the buffer. -/
theorem strchr_in_buffer (buf : Bytes) (u q : Nat) (c : Char) (hc : c ≠ NUL)
    (h : strchr (cstr (buf.drop u)) c = some q) : buf_get buf (u + q) = c := by
  obtain ⟨_, e⟩ := strchr_from_some c hc _ 0 q h
  rw [Nat.sub_zero] at e
  have e2 := buf_get_cstr (buf.drop u) q (by rw [e]; exact hc)
  rw [buf_get_drop, e] at e2
  exact e2

theorem same_lines_mark (buf : Bytes) (i : Nat) (c : Char) (hc : c ≠ NUL) (hn : c ≠ '\n')
    (h : buf_get buf i = c) : same_lines buf (buf_set buf i NUL) :=
  same_lines_buf_set buf i (lt_length_of_buf_get_ne buf i (by rw [h]; exact hc))
    (by rw [h]; exact hn)

/-- What `split_uri` changes for the byte ingestion: NULs over the `?` and the
`#` of the URI. -/
theorem split_uri_ingest (r : request_t) (u : Nat) :
    same_lines r.request_buf (split_uri r u).request_buf ∧ (split_uri r u).nr = r.nr ∧
      (split_uri r u).rll = r.rll ∧ (split_uri r u).fields_start = r.fields_start := by
  unfold split_uri
  simp only []
  cases hq : strchr (cstr (r.request_buf.drop u)) '?' with
  | none =>
    cases hf : strchr (cstr (r.request_buf.drop u)) '#' with
    | none => exact ⟨same_lines_refl _, rfl, rfl, rfl⟩
    | some f =>
      exact ⟨same_lines_mark _ _ '#' (by decide) (by decide)
        (strchr_in_buffer _ _ _ _ (by decide) hf), rfl, rfl, rfl⟩
  | some q =>
    have eq := strchr_in_buffer _ _ _ _ (by decide) hq
    cases hf : strchr (cstr (r.request_buf.drop u)) '#' with
    | none => exact ⟨same_lines_mark _ _ '?' (by decide) (by decide) eq, rfl, rfl, rfl⟩
    | some f =>
      have ef := strchr_in_buffer _ _ _ _ (by decide) hf
      simp only []
      split
      · refine ⟨?_, rfl, rfl, rfl⟩
        simp only []
        have hne : u + f ≠ u + q := by
          intro e
          rw [e, eq] at ef
          exact absurd ef (by decide)
        refine same_lines_trans _ _ _ (same_lines_mark _ _ '?' (by decide) (by decide) eq)
          (same_lines_mark _ _ '#' (by decide) (by decide) ?_)
        rw [buf_get_buf_set, if_neg hne]
        exact ef
      · exact ⟨same_lines_mark _ _ '#' (by decide) (by decide) ef, rfl, rfl, rfl⟩

theorem ingest_frame_refl (h : httpd_t) : ingest_frame h h :=
  ⟨same_lines_refl _, Or.inl ⟨rfl, rfl, rfl⟩⟩

theorem ingest_frame_trans (a b c : httpd_t) (h1 : ingest_frame a b) (h2 : ingest_frame b c) :
    ingest_frame a c := by
  refine ⟨same_lines_trans _ _ _ h1.1 h2.1, ?_⟩
  rcases h2.2 with ⟨e1, e2, e3⟩ | e
  · rcases h1.2 with ⟨f1, f2, f3⟩ | ⟨f1, f2, f3⟩
    · exact Or.inl ⟨e1.trans f1, e2.trans f2, e3.trans f3⟩
    · exact Or.inr ⟨e1.trans f1, e2.trans f2, e3.trans f3⟩
  · exact Or.inr e

theorem ingest_frame_of_fields (h k : httpd_t)
    (e1 : k.request.request_buf = h.request.request_buf) (e2 : k.request.nr = h.request.nr)
    (e3 : k.request.rll = h.request.rll)
    (e4 : k.request.fields_start = h.request.fields_start) : ingest_frame h k := by
  refine ⟨?_, Or.inl ⟨e2, e3, e4⟩⟩
  rw [e1]
  exact same_lines_refl _

theorem ingest_frame_out (h k : httpd_t) (ho : OutOnly h k) : ingest_frame h k := by
  obtain ⟨more, pb, ot, rfl⟩ := ho
  exact ingest_frame_of_fields _ _ rfl rfl rfl rfl

theorem ingest_frame_reinit (h : httpd_t) : ingest_frame h h.reinit :=
  ⟨same_lines_refl _, Or.inr ⟨rfl, rfl, rfl⟩⟩

theorem ingest_frame_verror (env : Env) (h : httpd_t) (mode : errmode_t) (code : Int)
    (verb : verb_t) (text : Bytes) :
    ingest_frame h (httpd_verror env h mode code verb text).2 := by
  obtain ⟨k, ho, _, e⟩ := httpd_verror_spec env h mode code verb text
  rw [e]
  split
  · exact ingest_frame_out h k ho
  · exact ingest_frame_trans _ _ _ (ingest_frame_out h k ho) (ingest_frame_reinit k)

theorem ingest_frame_error (env : Env) (h : httpd_t) (mode : errmode_t) (code : Int)
    (text : Bytes) : ingest_frame h (httpd_error env h mode code text).2 :=
  ingest_frame_verror env h mode code h.request.verb text

theorem ingest_frame_finish (h : httpd_t) : ingest_frame h (finish_success h).2 := by
  unfold finish_success
  split
  · exact ingest_frame_refl h
  · exact ingest_frame_reinit h

theorem ingest_frame_dirlist (env : Env) (h : httpd_t) (regs : registry) (uri : Bytes) :
    ingest_frame h (httpd_dirlist env h regs uri).2 :=
  ingest_frame_trans _ _ _ (ingest_frame_out _ _ (dirlist_output_spec env h regs uri).1)
    (ingest_frame_finish _)

theorem ingest_frame_notfound (env : Env) (h : httpd_t) (uri : Bytes) :
    ingest_frame h (httpd_notfound env h uri).2 :=
  ingest_frame_trans _ _ _ (ingest_frame_error env h _ _ _) (ingest_frame_finish _)

theorem ingest_frame_redirect (env : Env) (h : httpd_t) (uri : Bytes) (st : httpd_status_t)
    (k : httpd_t) (hr : httpd_redirect env h uri = some (st, k)) : ingest_frame h k := by
  unfold httpd_redirect at hr
  cases hf : lookup_field "Host".toList h.request.fields with
  | none =>
    rw [hf] at hr
    simp only [Option.some.injEq] at hr
    rw [show k = (st, k).2 from rfl, ← hr]
    exact ingest_frame_error env h _ _ _
  | some host =>
    rw [hf] at hr
    simp only [] at hr
    cases hx : env.xs_buffer h.request.location ["http://%s%s/".toList, host, uri] with
    | none => rw [hx] at hr; simp at hr
    | some loc =>
      rw [hx] at hr
      simp only [Option.some.injEq] at hr
      rw [show k = (st, k).2 from rfl, ← hr]
      refine ingest_frame_trans _ _ _ ?_ (ingest_frame_finish _)
      refine ingest_frame_trans _ _ _ ?_
        (ingest_frame_of_fields _ _ rfl rfl rfl rfl)
      exact ingest_frame_trans _ _ _
        (ingest_frame_of_fields h { h with request := { h.request with location := some loc } }
          rfl rfl rfl rfl)
        (ingest_frame_error env _ _ _ _)

theorem ingest_frame_reply (env : Env)
    (hfr : ∀ d s h r, ingest_frame h (env.dyn d s h r).2.1)
    (h : httpd_t) (regs : registry) (p : Nat) (uri : Bytes) (st : httpd_status_t)
    (k : httpd_t) (regs1 : registry)
    (hr : httpd_reply env h regs p uri = some (st, k, regs1)) : ingest_frame h k := by
  unfold httpd_reply at hr
  cases hd : reg_deref regs p with
  | none => rw [hd] at hr; simp at hr
  | some reg =>
    rw [hd] at hr
    simp only [] at hr
    by_cases hb : reg.async_session ≠ none
    · rw [if_pos hb] at hr
      simp only [Option.some.injEq, Prod.mk.injEq] at hr
      rw [← hr.2.1]
      exact ingest_frame_error env h _ _ _
    · rw [if_neg hb] at hr
      by_cases hy : reg.type = .OR_DYN_TERM ∨ reg.type = .OR_DYN_NONTERM
      · rw [if_pos hy] at hr
        simp only [Option.some.injEq] at hr
        have e : k = (env.dyn reg.dyn
            (if ((cstr uri).drop (strlen reg.path)).head? = some '/' then
              ((cstr uri).drop (strlen reg.path)).drop 1 else (cstr uri).drop (strlen reg.path))
            { h with request := { h.request with async_node := some p } }
            (reg_store regs p { reg with async_session := some h.dhandle })).2.1 := by
          rw [hr]
        rw [e]
        exact ingest_frame_trans _ _ _
          (ingest_frame_of_fields h { h with request := { h.request with async_node := some p } }
            rfl rfl rfl rfl)
          (hfr _ _ _ _)
      · rw [if_neg hy] at hr
        simp only [Option.some.injEq, Prod.mk.injEq] at hr
        rw [← hr.2.1]
        exact ingest_frame_trans _ _ _ (ingest_frame_out _ _ (reply_output_spec env h reg).1)
          (ingest_frame_finish _)

theorem ingest_frame_lookup_loop (env : Env)
    (hfr : ∀ d s h r, ingest_frame h (env.dyn d s h r).2.1)
    (h : httpd_t) (regs : registry) (uri : Bytes) :
    ∀ (l : List httpd_reg_t) (st : httpd_status_t) (k : httpd_t) (regs1 : registry),
      httpd_lookup_loop env h regs uri l = some (st, k, regs1) → ingest_frame h k := by
  intro l
  induction l with
  | nil =>
    intro st k regs1 hr
    simp only [httpd_lookup_loop, Option.some.injEq, Prod.mk.injEq] at hr
    rw [← hr.2.1]
    exact ingest_frame_notfound env h uri
  | cons reg rest ih =>
    intro st k regs1 hr
    have hrep := ingest_frame_reply env hfr h regs rest.length uri st k regs1
    have hdl : (let r := httpd_dirlist env h regs uri; some (r.1, r.2, regs)) =
        some (st, k, regs1) → ingest_frame h k := by
      intro e
      simp only [Option.some.injEq, Prod.mk.injEq] at e
      rw [← e.2.1]
      exact ingest_frame_dirlist env h regs uri
    have hrd : (httpd_redirect env h uri).map (fun r => (r.1, r.2, regs)) =
        some (st, k, regs1) → ingest_frame h k := by
      intro e
      cases hx : httpd_redirect env h uri with
      | none => rw [hx] at e; simp at e
      | some r =>
        obtain ⟨s2, k2⟩ := r
        rw [hx] at e
        simp only [Option.map_some', Option.some.injEq, Prod.mk.injEq] at e
        rw [← e.2.1]
        exact ingest_frame_redirect env h uri s2 k2 hx
    unfold httpd_lookup_loop at hr
    cases ht : reg.type <;> rw [ht] at hr <;> simp only [] at hr
    case OR_DIR =>
      split at hr
      · exact hrd hr
      · split at hr
        · exact hdl hr
        · exact ih st k regs1 hr
    all_goals
      split at hr
      · exact hrep hr
      · exact ih st k regs1 hr

theorem ingest_frame_lookup_uri (env : Env)
    (hfr : ∀ d s h r, ingest_frame h (env.dyn d s h r).2.1)
    (h : httpd_t) (regs : registry) (uri : Bytes) (st : httpd_status_t) (k : httpd_t)
    (regs1 : registry) (hr : httpd_lookup_uri env h regs uri = some (st, k, regs1)) :
    ingest_frame h k := by
  unfold httpd_lookup_uri at hr
  split at hr
  · simp only [Option.some.injEq, Prod.mk.injEq] at hr
    rw [← hr.2.1]
    exact ingest_frame_dirlist env h regs _
  · exact ingest_frame_lookup_loop env hfr h regs uri regs st k regs1 hr

theorem ingest_frame_verb_check (env : Env) (k : httpd_t) (mode : errmode_t) (verb : Bytes) :
    ingest_frame k (verb_check env k mode verb).2 := by
  unfold verb_check
  split
  · exact ingest_frame_error env k _ _ _
  · split
    · exact ingest_frame_of_fields _ _ rfl rfl rfl rfl
    · split
      · exact ingest_frame_of_fields _ _ rfl rfl rfl rfl
      · exact ingest_frame_error env k _ _ _

theorem ingest_frame_of_buf (h k : httpd_t)
    (e1 : same_lines h.request.request_buf k.request.request_buf)
    (e2 : k.request.nr = h.request.nr) (e3 : k.request.rll = h.request.rll)
    (e4 : k.request.fields_start = h.request.fields_start) : ingest_frame h k :=
  ⟨e1, Or.inl ⟨e2, e3, e4⟩⟩

theorem ingest_frame_digest_request_line (env : Env) (h : httpd_t) :
    ingest_frame h (httpd_digest_request_line env h).2 := by
  by_cases hsp : isspace (buf_get h.request.request_buf 0) = true
  · unfold httpd_digest_request_line
    rw [if_pos hsp]
    exact ingest_frame_error env h _ _ _
  · have hsp2 : isspace (buf_get h.request.request_buf 0) = false := by simpa using hsp
    have hsl := same_lines_request_line_tokens h.request.request_buf
    by_cases hbad : (request_line_tokens h.request.request_buf).1 = none ∨
        (request_line_tokens h.request.request_buf).2.1 = none ∨
        (request_line_tokens h.request.request_buf).2.2.2.1 ≠ none
    · rw [httpd_digest_request_line_count env h hsp2 hbad]
      generalize request_line_tokens h.request.request_buf = toks at hsl
      exact ingest_frame_trans _ _ _
        (ingest_frame_of_buf h { h with request := { h.request with
          request_buf := toks.2.2.2.2, uri := toks.2.1 } } hsl rfl rfl rfl)
        (ingest_frame_error env _ _ _ _)
    · cases htok : request_line_tokens h.request.request_buf with
      | mk verb rest =>
        obtain ⟨uri, protocol, junk, buf⟩ := rest
        rw [htok] at hbad hsl
        simp only [not_or, ne_eq, not_not] at hbad hsl
        obtain ⟨g1, g2, g3⟩ := hbad
        cases verb with
        | none => exact absurd rfl g1
        | some v =>
          cases uri with
          | none => exact absurd rfl g2
          | some u =>
            subst g3
            cases protocol with
            | none =>
              rw [httpd_digest_request_line_two env h v u buf hsp2 htok]
              exact ingest_frame_trans _ _ _
                (ingest_frame_of_buf h { h with request := { h.request with
                  request_buf := buf, uri := some u, http_1_0 := true, persistent := false } }
                  hsl rfl rfl rfl)
                (ingest_frame_verb_check env _ _ _)
            | some p =>
              rw [httpd_digest_request_line_three env h v u p buf hsp2 htok]
              cases protocol_version env.erange (cstr (buf.drop p)) with
              | none =>
                simp only []
                split
                · exact ingest_frame_trans _ _ _
                    (ingest_frame_of_buf h { h with request := { h.request with
                      request_buf := buf, uri := some u, verb := .VERB_HEAD } } hsl rfl rfl rfl)
                    (ingest_frame_error env _ _ _ _)
                · exact ingest_frame_trans _ _ _
                    (ingest_frame_of_buf h { h with request := { h.request with
                      request_buf := buf, uri := some u } } hsl rfl rfl rfl)
                    (ingest_frame_error env _ _ _ _)
              | some mm =>
                obtain ⟨major, minor⟩ := mm
                exact ingest_frame_trans _ _ _
                  (ingest_frame_of_buf h { h with request := { h.request with
                    request_buf := buf, uri := some u, http_1_0 := (major = 1 && minor = 0),
                    persistent := !(major = 1 && minor = 0) } } hsl rfl rfl rfl)
                  (ingest_frame_verb_check env _ _ _)

/-- The connection of a result of `httpd_digest_request_head`. -/
theorem ingest_frame_digest_uri (env : Env) (h : httpd_t) (r : head_result)
    (hr : digest_uri env h = some r) :
    (∀ st k, r = .reply st k → ingest_frame h k) ∧
      (∀ k uri, r = .dispatch k uri → ingest_frame h k) := by
  unfold digest_uri at hr
  cases hu : h.request.uri with
  | none => rw [hu] at hr; simp at hr
  | some u =>
    rw [hu] at hr
    simp only [] at hr
    obtain ⟨s1, s2, s3, s4⟩ := split_uri_ingest h.request u
    have hsplit : ingest_frame h { h with request := split_uri h.request u } :=
      ingest_frame_of_buf _ _ s1 s2 s3 s4
    have herr : ∀ text, some (head_result.reply
        (httpd_error env { h with request := split_uri h.request u } .ERRMODE_FATAL 400 text).1
        (httpd_error env { h with request := split_uri h.request u } .ERRMODE_FATAL 400 text).2) =
        some r →
        (∀ st k, r = .reply st k → ingest_frame h k) ∧
          (∀ k uri, r = .dispatch k uri → ingest_frame h k) := by
      intro text e
      simp only [Option.some.injEq] at e
      subst e
      refine ⟨fun st k e2 => ?_, fun k uri e2 => by cases e2⟩
      simp only [head_result.reply.injEq] at e2
      rw [← e2.2]
      exact ingest_frame_trans _ _ _ hsplit (ingest_frame_error env _ _ _ _)
    cases hp : percent_decode (cstr ((split_uri h.request u).request_buf.drop u)) false with
    | none =>
      rw [hp] at hr
      exact herr _ hr
    | some cand =>
      rw [hp] at hr
      simp only [] at hr
      split at hr
      · exact herr _ hr
      · split at hr
        · exact herr _ hr
        · cases hq : (split_uri h.request u).query with
          | none =>
            rw [hq] at hr
            simp only [Option.some.injEq] at hr
            subst hr
            refine ⟨(fun st k e2 => by cases e2), fun k uri e2 => ?_⟩
            simp only [head_result.dispatch.injEq] at e2
            rw [← e2.1]
            exact hsplit
          | some q =>
            rw [hq] at hr
            simp only [] at hr
            cases hpq : parse_queries (split_uri h.request u).queries
                ((split_uri h.request u).request_buf.drop q) with
            | none => rw [hpq] at hr; simp at hr
            | some qs =>
              rw [hpq] at hr
              simp only [Option.some.injEq] at hr
              subst hr
              refine ⟨(fun st k e2 => by cases e2), fun k uri e2 => ?_⟩
              simp only [head_result.dispatch.injEq] at e2
              rw [← e2.1]
              exact ingest_frame_trans _ _ _ hsplit
                (ingest_frame_of_fields { h with request := split_uri h.request u } _
                  rfl rfl rfl rfl)

theorem ingest_frame_digest_request_head (env : Env) (h : httpd_t) (r : head_result)
    (hr : httpd_digest_request_head env h = some r) :
    (∀ st k, r = .reply st k → ingest_frame h k) ∧
      (∀ k uri, r = .dispatch k uri → ingest_frame h k) := by
  unfold httpd_digest_request_head at hr
  cases hs : h.request.fields_start with
  | none => rw [hs] at hr; simp at hr
  | some s =>
    rw [hs] at hr
    simp only [] at hr
    cases hf : httpd_digest_fields env h.request.request_buf (h.request.request_buf.length + 1) s
        h.request.fields with
    | none => rw [hf] at hr; simp at hr
    | some res =>
      obtain ⟨msg, fields⟩ := res
      rw [hf] at hr
      have herr : ∀ text, some (head_result.reply
          (httpd_error env { h with request := { h.request with fields := fields } }
            .ERRMODE_FATAL 400 text).1
          (httpd_error env { h with request := { h.request with fields := fields } }
            .ERRMODE_FATAL 400 text).2) = some r →
          (∀ st k, r = .reply st k → ingest_frame h k) ∧
            (∀ k uri, r = .dispatch k uri → ingest_frame h k) := by
        intro text e
        simp only [Option.some.injEq] at e
        subst e
        refine ⟨fun st k e2 => ?_, fun k uri e2 => by cases e2⟩
        simp only [head_result.reply.injEq] at e2
        rw [← e2.2]
        exact ingest_frame_trans _ _ _
          (ingest_frame_of_fields h { h with request := { h.request with fields := fields } }
            rfl rfl rfl rfl)
          (ingest_frame_error env _ _ _ _)
      cases msg with
      | some msg => exact herr msg hr
      | none =>
        simp only [] at hr
        split at hr
        · exact herr _ hr
        · split at hr
          · obtain ⟨a, b⟩ := ingest_frame_digest_uri env
              { h with request := { h.request with fields := fields, persistent := false } } r hr
            have hm : ingest_frame h
                { h with request := { h.request with fields := fields, persistent := false } } :=
              ingest_frame_of_fields _ _ rfl rfl rfl rfl
            exact ⟨fun st k e => ingest_frame_trans _ _ _ hm (a st k e),
              fun k uri e => ingest_frame_trans _ _ _ hm (b k uri e)⟩
          · obtain ⟨a, b⟩ := ingest_frame_digest_uri env
              { h with request := { h.request with fields := fields } } r hr
            have hm : ingest_frame h { h with request := { h.request with fields := fields } } :=
              ingest_frame_of_fields _ _ rfl rfl rfl rfl
            exact ⟨fun st k e => ingest_frame_trans _ _ _ hm (a st k e),
              fun k uri e => ingest_frame_trans _ _ _ hm (b k uri e)⟩

/-- What `httpd_digest_request` does to the fields of the byte ingestion. -/
theorem ingest_frame_digest_request (env : Env)
    (hfr : ∀ d s h r, ingest_frame h (env.dyn d s h r).2.1)
    (h : httpd_t) (regs : registry) (st : httpd_status_t) (k : httpd_t) (regs1 : registry)
    (hr : httpd_digest_request env h regs = some (st, k, regs1)) : ingest_frame h k := by
  unfold httpd_digest_request at hr
  cases hh : httpd_digest_request_head env h with
  | none => rw [hh] at hr; simp at hr
  | some r =>
    obtain ⟨a, b⟩ := ingest_frame_digest_request_head env h r hh
    rw [hh] at hr
    cases r with
    | reply s2 k2 =>
      simp only [Option.some.injEq, Prod.mk.injEq] at hr
      rw [← hr.2.1]
      exact a s2 k2 rfl
    | dispatch k2 uri =>
      simp only [] at hr
      exact ingest_frame_trans _ _ _ (b k2 uri rfl)
        (ingest_frame_lookup_uri env hfr k2 regs uri st k regs1 hr)

theorem ingest_inv_of_frame (h k : httpd_t) (hi : ingest_inv h) (hf : ingest_frame h k) :
    ingest_inv k := by
  obtain ⟨i1, i2, i3, i4⟩ := hi
  obtain ⟨⟨f1, f2⟩, f3⟩ := hf
  rcases f3 with ⟨e1, e2, e3⟩ | ⟨e1, e2, e3⟩
  · refine ⟨by rw [e1]; exact i1, by rw [f1]; exact i2, ?_, ?_⟩
    · unfold at_line_start at i3 ⊢
      rw [e1, e2, e3, f2]
      exact i3
    · intro f hf
      rw [e3] at hf
      rw [e1]
      exact i4 f hf
  · refine ⟨by rw [e1]; exact Nat.zero_le _, by rw [f1]; exact i2, ?_, ?_⟩
    · unfold at_line_start
      rw [e1, e2]
      simp
    · intro f hf
      rw [e3] at hf
      exact absurd hf (by simp)

theorem ingest_inv_of_request (h k : httpd_t) (hi : ingest_inv h) (e : k.request = h.request) :
    ingest_inv k := by
  unfold ingest_inv at_line_start at hi ⊢
  rw [e]
  exact hi

theorem ingest_inv_new (dhandle mhandle seq : Nat) : ingest_inv (httpd_new dhandle mhandle seq) := by
  refine ⟨Nat.zero_le _, Nat.zero_le _, ?_, ?_⟩
  · unfold at_line_start
    exact ⟨fun _ => Or.inl rfl, fun _ => rfl⟩
  · intro f hf
    exact absurd hf (by simp [httpd_new, httpd_init_request, httpd_reinit_request])

/-- The connection after the store of a newline that ends a line: the
invariant holds when the line length has been set to zero. -/
theorem ingest_inv_newline (h k : httpd_t) (hi : ingest_inv h)
    (hm : ¬ MAX_HTTPD_REQUEST ≤ h.request.nr)
    (e1 : k.request.nr = h.request.nr + 1) (e2 : k.request.rll = 0)
    (e3 : k.request.request_buf.length ≤ max h.request.request_buf.length (h.request.nr + 2))
    (e4 : buf_get k.request.request_buf h.request.nr = '\n' ∨
      k.request.fields_start = some (h.request.nr + 1))
    (e5 : k.request.fields_start = h.request.fields_start ∨
      k.request.fields_start = some (h.request.nr + 1)) : ingest_inv k := by
  obtain ⟨i1, i2, i3, i4⟩ := hi
  refine ⟨by rw [e1]; omega, by omega, ?_, ?_⟩
  · unfold at_line_start
    rw [e1, e2, Nat.add_sub_cancel]
    refine ⟨fun _ => Or.inr e4, fun _ => rfl⟩
  · intro f hf
    rw [e1]
    rcases e5 with e5 | e5
    · rw [e5] at hf
      have := i4 f hf
      omega
    · rw [e5] at hf
      simp only [Option.some.injEq] at hf
      omega

/-- The part of `httpd_input_char` behind the CR/LF processing keeps the
invariant of the byte ingestion. -/
theorem ingest_inv_input_char_store (env : Env)
    (hfr : ∀ d s h r, ingest_frame h (env.dyn d s h r).2.1)
    (h : httpd_t) (regs : registry) (c : Char) (hi : ingest_inv h)
    (st : httpd_status_t) (k : httpd_t) (regs1 : registry)
    (hr : input_char_store env h regs c = some (st, k, regs1)) : ingest_inv k := by
  by_cases hm : MAX_HTTPD_REQUEST ≤ h.request.nr
  · rw [input_char_store_too_big env h regs c hm] at hr
    simp only [Option.some.injEq, Prod.mk.injEq] at hr
    rw [← hr.2.1]
    exact ingest_inv_of_frame _ _ hi (ingest_frame_error env h _ _ _)
  · by_cases hn : c = '\n'
    · subst hn
      by_cases hr0 : h.request.rll = 0
      · by_cases hs : h.request.saw_first = false
        · rw [input_char_store_missing env h regs hm hr0 hs] at hr
          simp only [Option.some.injEq, Prod.mk.injEq] at hr
          rw [← hr.2.1]
          refine ingest_inv_of_frame _ _ ?_ (ingest_frame_error env _ _ _ _)
          refine ingest_inv_newline h _ hi hm rfl hr0 ?_ (Or.inl ?_) (Or.inl rfl)
          · simp only [buf_set_length]
            omega
          · rw [buf_get_buf_set, if_pos rfl]
        · have hs2 : h.request.saw_first = true := by simpa using hs
          rw [input_char_store_digest env h regs hm hr0 hs2] at hr
          refine ingest_inv_of_frame _ _ ?_ (ingest_frame_digest_request env hfr _ regs st k regs1 hr)
          refine ingest_inv_newline h _ hi hm rfl hr0 ?_ (Or.inl ?_) (Or.inl rfl)
          · simp only [buf_set_length]
            omega
          · rw [buf_get_buf_set, if_neg (by omega), buf_get_buf_set, if_pos rfl]
      · by_cases hs : h.request.saw_first = false
        · rw [input_char_store_first env h regs hm hr0 hs] at hr
          simp only [Option.some.injEq, Prod.mk.injEq] at hr
          rw [← hr.2.1]
          refine ingest_inv_of_frame _ _ ?_ (ingest_frame_digest_request_line env _)
          refine ingest_inv_newline h _ hi hm rfl rfl ?_ (Or.inr rfl) (Or.inr rfl)
          simp only [buf_set_length]
          omega
        · have hs2 : h.request.saw_first = true := by simpa using hs
          rw [input_char_store_next env h regs hm hr0 hs2] at hr
          simp only [Option.some.injEq, Prod.mk.injEq] at hr
          rw [← hr.2.1]
          refine ingest_inv_newline h _ hi hm rfl rfl ?_ (Or.inl ?_) (Or.inl rfl)
          · simp only [buf_set_length]
            omega
          · rw [buf_get_buf_set, if_pos rfl]
    · rw [input_char_store_other env h regs c hm hn] at hr
      simp only [Option.some.injEq, Prod.mk.injEq] at hr
      rw [← hr.2.1]
      obtain ⟨i1, i2, i3, i4⟩ := hi
      refine ⟨by simp only []; omega, ?_, ?_, ?_⟩
      · simp only [buf_set_length]
        omega
      · unfold at_line_start
        simp only [Nat.add_sub_cancel, buf_get_buf_set, if_pos]
        constructor
        · intro e
          omega
        · intro e
          rcases e with e | e | e
          · omega
          · exact absurd e hn
          · have := i4 _ e
            omega
      · intro f hf
        have := i4 f hf
        simp only []
        omega

theorem ingest_inv_input_char (env : Env)
    (hfr : ∀ d s h r, ingest_frame h (env.dyn d s h r).2.1)
    (h : httpd_t) (regs : registry) (c : Char) (hi : ingest_inv h)
    (st : httpd_status_t) (k : httpd_t) (regs1 : registry)
    (hr : httpd_input_char env h regs c = some (st, k, regs1)) : ingest_inv k := by
  rw [httpd_input_char_eq] at hr
  by_cases hc : (h.cr && decide (c = '\n')) = true
  · rw [if_pos hc] at hr
    simp only [Option.some.injEq, Prod.mk.injEq] at hr
    rw [← hr.2.1]
    exact ingest_inv_of_request h { h with cr := false } hi rfl
  · rw [if_neg hc] at hr
    exact ingest_inv_input_char_store env hfr { h with cr := decide (c = '\r') } regs
      (if c = '\r' then '\n' else c)
      (ingest_inv_of_request h { h with cr := decide (c = '\r') } hi rfl) st k regs1 hr

theorem ingest_inv_input_loop (env : Env)
    (hfr : ∀ d s h r, ingest_frame h (env.dyn d s h r).2.1) :
    ∀ (data : Bytes) (h : httpd_t) (regs : registry), ingest_inv h →
      ∀ (st : httpd_status_t) (k : httpd_t) (regs1 : registry),
      httpd_input_loop env h regs data = some (st, k, regs1) → ingest_inv k := by
  intro data
  induction data with
  | nil =>
    intro h regs hi st k regs1 hr
    simp only [httpd_input_loop, Option.some.injEq, Prod.mk.injEq] at hr
    rw [← hr.2.1]
    exact hi
  | cons c s ih =>
    intro h regs hi st k regs1 hr
    rw [httpd_input_loop] at hr
    cases hres : httpd_input_char env h regs c with
    | none => rw [hres] at hr; simp at hr
    | some res =>
      obtain ⟨s2, h2, regs2⟩ := res
      have hi2 := ingest_inv_input_char env hfr h regs c hi s2 h2 regs2 hres
      rw [hres] at hr
      cases s2 with
      | HS_CONTINUE => exact ih h2 regs2 hi2 st k regs1 hr
      | HS_SUCCESS_OPEN =>
        simp only [Option.some.injEq, Prod.mk.injEq] at hr
        rw [← hr.2.1]
        exact ingest_inv_of_frame _ _ hi2 (ingest_frame_reinit h2)
      | HS_ERROR_OPEN =>
        simp only [Option.some.injEq, Prod.mk.injEq] at hr
        rw [← hr.2.1]
        exact ingest_inv_of_frame _ _ hi2 (ingest_frame_reinit h2)
      | _ =>
        simp only [Option.some.injEq, Prod.mk.injEq] at hr
        rw [← hr.2.1]
        exact hi2

/-- A call of `httpd_input` keeps the invariant of the byte ingestion. -/
theorem ingest_inv_input (env : Env)
    (hfr : ∀ d s h r, ingest_frame h (env.dyn d s h r).2.1)
    (h : httpd_t) (regs : registry) (data : Bytes) (hi : ingest_inv h)
    (st : httpd_status_t) (k : httpd_t) (regs1 : registry)
    (hr : httpd_input env h regs data = some (st, k, regs1)) : ingest_inv k := by
  rw [httpd_input_cont] at hr
  exact ingest_inv_input_loop env hfr data
    { h with request := { h.request with it_offset := h.request.it_offset + data.length } } regs
    (ingest_inv_of_frame h
      { h with request := { h.request with it_offset := h.request.it_offset + data.length } } hi
      (ingest_frame_of_fields _ _ rfl rfl rfl rfl)) st k regs1 hr

theorem node_frame_refl (h : httpd_t) : node_frame h h := ⟨rfl, rfl⟩

theorem node_frame_trans (a b c : httpd_t) (h1 : node_frame a b) (h2 : node_frame b c) :
    node_frame a c :=
  ⟨h2.1.trans h1.1, h2.2.trans h1.2⟩

theorem node_frame_out (h k : httpd_t) (ho : OutOnly h k) : node_frame h k := by
  obtain ⟨more, pb, ot, rfl⟩ := ho
  exact ⟨rfl, rfl⟩

theorem node_frame_reinit (h : httpd_t) : node_frame h h.reinit := ⟨rfl, rfl⟩

theorem node_frame_verror (env : Env) (h : httpd_t) (mode : errmode_t) (code : Int)
    (verb : verb_t) (text : Bytes) :
    node_frame h (httpd_verror env h mode code verb text).2 := by
  obtain ⟨k, ho, _, e⟩ := httpd_verror_spec env h mode code verb text
  rw [e]
  split
  · exact node_frame_out h k ho
  · exact node_frame_trans _ _ _ (node_frame_out h k ho) (node_frame_reinit k)

theorem node_frame_error (env : Env) (h : httpd_t) (mode : errmode_t) (code : Int)
    (text : Bytes) : node_frame h (httpd_error env h mode code text).2 :=
  node_frame_verror env h mode code h.request.verb text

theorem node_frame_finish (h : httpd_t) : node_frame h (finish_success h).2 := by
  unfold finish_success
  split
  · exact node_frame_refl h
  · exact node_frame_reinit h

theorem node_frame_dirlist (env : Env) (h : httpd_t) (regs : registry) (uri : Bytes) :
    node_frame h (httpd_dirlist env h regs uri).2 :=
  node_frame_trans _ _ _ (node_frame_out _ _ (dirlist_output_spec env h regs uri).1)
    (node_frame_finish _)

theorem node_frame_notfound (env : Env) (h : httpd_t) (uri : Bytes) :
    node_frame h (httpd_notfound env h uri).2 :=
  node_frame_trans _ _ _ (node_frame_error env h _ _ _) (node_frame_finish _)

theorem node_frame_redirect (env : Env) (h : httpd_t) (uri : Bytes) (st : httpd_status_t)
    (k : httpd_t) (hr : httpd_redirect env h uri = some (st, k)) : node_frame h k := by
  unfold httpd_redirect at hr
  cases hf : lookup_field "Host".toList h.request.fields with
  | none =>
    rw [hf] at hr
    simp only [Option.some.injEq] at hr
    rw [show k = (st, k).2 from rfl, ← hr]
    exact node_frame_error env h _ _ _
  | some host =>
    rw [hf] at hr
    simp only [] at hr
    cases hx : env.xs_buffer h.request.location ["http://%s%s/".toList, host, uri] with
    | none => rw [hx] at hr; simp at hr
    | some loc =>
      rw [hx] at hr
      simp only [Option.some.injEq] at hr
      rw [show k = (st, k).2 from rfl, ← hr]
      refine node_frame_trans _ _ _ ?_ (node_frame_finish _)
      have e1 : node_frame h { h with request := { h.request with location := some loc } } :=
        ⟨rfl, rfl⟩
      have e2 := node_frame_error env
        { h with request := { h.request with location := some loc } } .ERRMODE_NONFATAL 301
        ("The document has moved <A HREF=".toList ++ [DQUOTE] ++ "http://".toList ++
          cstr host ++ cstr uri ++ "/".toList ++ [DQUOTE] ++ ">here.</A>.".toList)
      exact ⟨e2.1.trans e1.1, e2.2.trans e1.2⟩

theorem node_frame_verb_check (env : Env) (k : httpd_t) (mode : errmode_t) (verb : Bytes) :
    node_frame k (verb_check env k mode verb).2 := by
  unfold verb_check
  split
  · exact node_frame_error env k _ _ _
  · split
    · exact ⟨rfl, rfl⟩
    · split
      · exact ⟨rfl, rfl⟩
      · exact node_frame_error env k _ _ _

theorem node_frame_digest_request_line (env : Env) (h : httpd_t) :
    node_frame h (httpd_digest_request_line env h).2 := by
  by_cases hsp : isspace (buf_get h.request.request_buf 0) = true
  · unfold httpd_digest_request_line
    rw [if_pos hsp]
    exact node_frame_error env h _ _ _
  · have hsp2 : isspace (buf_get h.request.request_buf 0) = false := by simpa using hsp
    by_cases hbad : (request_line_tokens h.request.request_buf).1 = none ∨
        (request_line_tokens h.request.request_buf).2.1 = none ∨
        (request_line_tokens h.request.request_buf).2.2.2.1 ≠ none
    · rw [httpd_digest_request_line_count env h hsp2 hbad]
      generalize request_line_tokens h.request.request_buf = toks
      exact node_frame_trans h { h with request := { h.request with
          request_buf := toks.2.2.2.2, uri := toks.2.1 } } _ ⟨rfl, rfl⟩
        (node_frame_error env _ _ _ _)
    · cases htok : request_line_tokens h.request.request_buf with
      | mk verb rest =>
        obtain ⟨uri, protocol, junk, buf⟩ := rest
        rw [htok] at hbad
        simp only [not_or, ne_eq, not_not] at hbad
        obtain ⟨g1, g2, g3⟩ := hbad
        cases verb with
        | none => exact absurd rfl g1
        | some v =>
          cases uri with
          | none => exact absurd rfl g2
          | some u =>
            subst g3
            cases protocol with
            | none =>
              rw [httpd_digest_request_line_two env h v u buf hsp2 htok]
              exact node_frame_trans h { h with request := { h.request with
                  request_buf := buf, uri := some u, http_1_0 := true, persistent := false } } _
                ⟨rfl, rfl⟩ (node_frame_verb_check env _ _ _)
            | some p =>
              rw [httpd_digest_request_line_three env h v u p buf hsp2 htok]
              cases protocol_version env.erange (cstr (buf.drop p)) with
              | none =>
                simp only []
                split
                · exact node_frame_trans h { h with request := { h.request with
                      request_buf := buf, uri := some u, verb := .VERB_HEAD } } _ ⟨rfl, rfl⟩
                    (node_frame_error env _ _ _ _)
                · exact node_frame_trans h { h with request := { h.request with
                      request_buf := buf, uri := some u } } _ ⟨rfl, rfl⟩
                    (node_frame_error env _ _ _ _)
              | some mm =>
                obtain ⟨major, minor⟩ := mm
                exact node_frame_trans h { h with request := { h.request with
                    request_buf := buf, uri := some u, http_1_0 := (major = 1 && minor = 0),
                    persistent := !(major = 1 && minor = 0) } } _ ⟨rfl, rfl⟩
                  (node_frame_verb_check env _ _ _)

theorem split_uri_async_node (r : request_t) (u : Nat) :
    (split_uri r u).async_node = r.async_node := by
  unfold split_uri
  simp only []
  split
  · rfl
  · split <;> rfl
  · rfl
  · rfl

theorem node_frame_digest_uri (env : Env) (h : httpd_t) (r : head_result)
    (hr : digest_uri env h = some r) :
    (∀ st k, r = .reply st k → node_frame h k) ∧
      (∀ k uri, r = .dispatch k uri → node_frame h k) := by
  unfold digest_uri at hr
  cases hu : h.request.uri with
  | none => rw [hu] at hr; simp at hr
  | some u =>
    rw [hu] at hr
    simp only [] at hr
    have hsplit : node_frame h { h with request := split_uri h.request u } :=
      ⟨split_uri_async_node h.request u, rfl⟩
    have herr : ∀ text, some (head_result.reply
        (httpd_error env { h with request := split_uri h.request u } .ERRMODE_FATAL 400 text).1
        (httpd_error env { h with request := split_uri h.request u } .ERRMODE_FATAL 400 text).2) =
        some r →
        (∀ st k, r = .reply st k → node_frame h k) ∧
          (∀ k uri, r = .dispatch k uri → node_frame h k) := by
      intro text e
      simp only [Option.some.injEq] at e
      subst e
      refine ⟨fun st k e2 => ?_, fun k uri e2 => by cases e2⟩
      simp only [head_result.reply.injEq] at e2
      rw [← e2.2]
      exact node_frame_trans _ _ _ hsplit (node_frame_error env _ _ _ _)
    cases hp : percent_decode (cstr ((split_uri h.request u).request_buf.drop u)) false with
    | none =>
      rw [hp] at hr
      exact herr _ hr
    | some cand =>
      rw [hp] at hr
      simp only [] at hr
      split at hr
      · exact herr _ hr
      · split at hr
        · exact herr _ hr
        · cases hq : (split_uri h.request u).query with
          | none =>
            rw [hq] at hr
            simp only [Option.some.injEq] at hr
            subst hr
            refine ⟨(fun st k e2 => by cases e2), fun k uri e2 => ?_⟩
            simp only [head_result.dispatch.injEq] at e2
            rw [← e2.1]
            exact hsplit
          | some q =>
            rw [hq] at hr
            simp only [] at hr
            cases hpq : parse_queries (split_uri h.request u).queries
                ((split_uri h.request u).request_buf.drop q) with
            | none => rw [hpq] at hr; simp at hr
            | some qs =>
              rw [hpq] at hr
              simp only [Option.some.injEq] at hr
              subst hr
              refine ⟨(fun st k e2 => by cases e2), fun k uri e2 => ?_⟩
              simp only [head_result.dispatch.injEq] at e2
              rw [← e2.1]
              exact ⟨hsplit.1, rfl⟩

theorem node_frame_digest_request_head (env : Env) (h : httpd_t) (r : head_result)
    (hr : httpd_digest_request_head env h = some r) :
    (∀ st k, r = .reply st k → node_frame h k) ∧
      (∀ k uri, r = .dispatch k uri → node_frame h k) := by
  unfold httpd_digest_request_head at hr
  cases hs : h.request.fields_start with
  | none => rw [hs] at hr; simp at hr
  | some s =>
    rw [hs] at hr
    simp only [] at hr
    cases hf : httpd_digest_fields env h.request.request_buf (h.request.request_buf.length + 1) s
        h.request.fields with
    | none => rw [hf] at hr; simp at hr
    | some res =>
      obtain ⟨msg, fields⟩ := res
      rw [hf] at hr
      have herr : ∀ text, some (head_result.reply
          (httpd_error env { h with request := { h.request with fields := fields } }
            .ERRMODE_FATAL 400 text).1
          (httpd_error env { h with request := { h.request with fields := fields } }
            .ERRMODE_FATAL 400 text).2) = some r →
          (∀ st k, r = .reply st k → node_frame h k) ∧
            (∀ k uri, r = .dispatch k uri → node_frame h k) := by
        intro text e
        simp only [Option.some.injEq] at e
        subst e
        refine ⟨fun st k e2 => ?_, fun k uri e2 => by cases e2⟩
        simp only [head_result.reply.injEq] at e2
        rw [← e2.2]
        exact node_frame_trans h { h with request := { h.request with fields := fields } } _
          ⟨rfl, rfl⟩ (node_frame_error env _ _ _ _)
      cases msg with
      | some msg => exact herr msg hr
      | none =>
        simp only [] at hr
        split at hr
        · exact herr _ hr
        · split at hr
          · obtain ⟨a, b⟩ := node_frame_digest_uri env
              { h with request := { h.request with fields := fields, persistent := false } } r hr
            have hm : node_frame h
                { h with request := { h.request with fields := fields, persistent := false } } :=
              ⟨rfl, rfl⟩
            exact ⟨fun st k e => node_frame_trans _ _ _ hm (a st k e),
              fun k uri e => node_frame_trans _ _ _ hm (b k uri e)⟩
          · obtain ⟨a, b⟩ := node_frame_digest_uri env
              { h with request := { h.request with fields := fields } } r hr
            have hm : node_frame h { h with request := { h.request with fields := fields } } :=
              ⟨rfl, rfl⟩
            exact ⟨fun st k e => node_frame_trans _ _ _ hm (a st k e),
              fun k uri e => node_frame_trans _ _ _ hm (b k uri e)⟩

theorem bound_of_frame (h k : httpd_t) (regs : registry) (hf : node_frame h k)
    (hb : bound h regs) : bound k regs := by
  intro p reg hp
  rw [hf.1, hf.2]
  exact hb p reg hp

theorem keeps_bound_of_frame (h k : httpd_t) (regs : registry) (hf : node_frame h k) :
    keeps_bound h regs k regs :=
  ⟨hf.2, bound_of_frame h k regs hf, fun _ _ _ hg => hg, fun hd => hd⟩

theorem keeps_bound_trans (a b c : httpd_t) (r1 r2 r3 : registry)
    (h1 : keeps_bound a r1 b r2) (h2 : keeps_bound b r2 c r3) : keeps_bound a r1 c r3 := by
  obtain ⟨a1, a2, a3, a4⟩ := h1
  obtain ⟨b1, b2, b3, b4⟩ := h2
  refine ⟨b1.trans a1, fun hb => b2 (a2 hb), fun g hg hb hgb => ?_, fun hd => b4 (a4 hd)⟩
  exact b3 g (by rw [a1]; exact hg) (a2 hb) (a3 g hg hb hgb)

theorem reg_deref_store_cases (regs : registry) (p q : Nat) (reg e reg2 : httpd_reg_t)
    (hreg : reg_deref regs p = some reg) (h2 : reg_deref (reg_store regs p e) q = some reg2) :
    (q = p ∧ reg2 = e) ∨ (q ≠ p ∧ reg_deref regs q = some reg2) := by
  by_cases hq : q = p
  · left
    subst hq
    rw [reg_deref_store regs q reg e hreg] at h2
    simp only [Option.some.injEq] at h2
    exact ⟨rfl, h2.symm⟩
  · right
    rw [reg_deref_store_ne regs p q e hq] at h2
    exact ⟨hq, h2⟩

/-- The dispatch: an idle dynamic entry becomes busy with a connection that
has no request in flight, and becomes its in-flight node. -/
theorem keeps_bound_take (h : httpd_t) (regs : registry) (p : Nat) (reg : httpd_reg_t)
    (hn : h.request.async_node = none) (hreg : reg_deref regs p = some reg)
    (hidle : reg.async_session = none)
    (hdyn : reg.type = .OR_DYN_TERM ∨ reg.type = .OR_DYN_NONTERM) :
    keeps_bound h regs { h with request := { h.request with async_node := some p } }
      (reg_store regs p { reg with async_session := some h.dhandle }) := by
  refine ⟨rfl, fun hb q reg2 hq => ?_, fun g hg hb hgb q reg2 hq => ?_, fun hd q reg2 hq hbusy => ?_⟩
  · rcases reg_deref_store_cases regs p q reg _ reg2 hreg hq with ⟨e1, e2⟩ | ⟨e1, e2⟩
    · subst e1 e2
      exact ⟨fun _ => rfl, fun _ => rfl⟩
    · have := hb q reg2 e2
      rw [hn] at this
      constructor
      · intro e
        exact absurd (this.mp e) (by simp)
      · intro e
        simp only [Option.some.injEq] at e
        exact absurd e.symm e1
  · rcases reg_deref_store_cases regs p q reg _ reg2 hreg hq with ⟨e1, e2⟩ | ⟨e1, e2⟩
    · subst e1 e2
      have := hgb q reg hreg
      rw [hidle] at this
      constructor
      · intro e
        simp only [Option.some.injEq] at e
        exact absurd e.symm hg
      · intro e
        exact absurd (this.mpr e) (by simp)
    · exact hgb q reg2 e2
  · rcases reg_deref_store_cases regs p q reg _ reg2 hreg hq with ⟨e1, e2⟩ | ⟨e1, e2⟩
    · subst e2
      exact hdyn
    · exact hd q reg2 e2 hbusy

/-- The completion: the in-flight node of a connection becomes idle and the
connection has no request in flight any more. -/
theorem keeps_bound_release (h k : httpd_t) (regs : registry) (p : Nat) (reg : httpd_reg_t)
    (hn : h.request.async_node = some p) (hreg : reg_deref regs p = some reg)
    (hk : k.request.async_node = none) (hd : k.dhandle = h.dhandle) :
    keeps_bound h regs k (reg_store regs p { reg with async_session := none }) := by
  refine ⟨hd, fun hb q reg2 hq => ?_, fun g hg hb hgb q reg2 hq => ?_, fun hdb q reg2 hq hbusy => ?_⟩
  · rw [hk, hd]
    rcases reg_deref_store_cases regs p q reg _ reg2 hreg hq with ⟨e1, e2⟩ | ⟨e1, e2⟩
    · subst e2
      simp
    · have := hb q reg2 e2
      rw [hn] at this
      constructor
      · intro e
        have := this.mp e
        simp only [Option.some.injEq] at this
        exact absurd this.symm e1
      · intro e
        exact absurd e (by simp)
  · rcases reg_deref_store_cases regs p q reg _ reg2 hreg hq with ⟨e1, e2⟩ | ⟨e1, e2⟩
    · subst e1 e2
      have h1 := (hb q reg hreg).mpr hn
      have h2 := hgb q reg hreg
      constructor
      · intro e
        exact absurd e (by simp)
      · intro e
        have := h2.mpr e
        rw [h1] at this
        simp only [Option.some.injEq] at this
        exact absurd this.symm hg
    · exact hgb q reg2 e2
  · rcases reg_deref_store_cases regs p q reg _ reg2 hreg hq with ⟨e1, e2⟩ | ⟨e1, e2⟩
    · subst e2
      exact absurd rfl hbusy
    · exact hdb q reg2 e2 hbusy

theorem keeps_bound_dyn_complete (env : Env) (h : httpd_t) (regs : registry) (text : Bytes)
    (st : httpd_status_t) (k : httpd_t) (regs1 : registry)
    (hr : httpd_dyn_complete env h regs text = some (st, k, regs1)) :
    keeps_bound h regs k regs1 ∧ k.request.async_node = none := by
  unfold httpd_dyn_complete at hr
  cases hn : h.request.async_node with
  | none => rw [hn] at hr; simp at hr
  | some p =>
    rw [hn] at hr
    simp only [] at hr
    cases hreg : reg_deref regs p with
    | none => rw [hreg] at hr; simp at hr
    | some reg =>
      rw [hreg] at hr
      simp only [Option.some.injEq, Prod.mk.injEq] at hr
      obtain ⟨_, hk, hregs⟩ := hr
      have hf : node_frame { h with request := { h.request with async_node := none } } k := by
        rw [← hk]
        exact node_frame_trans _ _ _
          (node_frame_out _ _ (dyn_complete_output_spec env _ reg text).1) (node_frame_finish _)
      rw [← hregs]
      exact ⟨keeps_bound_release h k regs p reg hn hreg hf.1 hf.2, hf.1⟩

theorem keeps_bound_dyn_error (env : Env) (h : httpd_t) (regs : registry) (code : Int)
    (text : Bytes) (st : httpd_status_t) (k : httpd_t) (regs1 : registry)
    (hr : httpd_dyn_error env h regs code text = some (st, k, regs1)) :
    keeps_bound h regs k regs1 ∧ k.request.async_node = none := by
  unfold httpd_dyn_error at hr
  cases hn : h.request.async_node with
  | none => rw [hn] at hr; simp at hr
  | some p =>
    rw [hn] at hr
    simp only [] at hr
    cases hreg : reg_deref regs p with
    | none => rw [hreg] at hr; simp at hr
    | some reg =>
      rw [hreg] at hr
      simp only [Option.some.injEq, Prod.mk.injEq] at hr
      obtain ⟨_, hk, hregs⟩ := hr
      have hf : node_frame { h with request := { h.request with async_node := none } } k := by
        rw [← hk]
        exact node_frame_verror env _ _ _ _ _
      rw [← hregs]
      exact ⟨keeps_bound_release h k regs p reg hn hreg hf.1 hf.2, hf.1⟩

theorem keeps_bound_reply (env : Env)
    (hcb : ∀ d s h r, (node_frame h (env.dyn d s h r).2.1 ∧ (env.dyn d s h r).2.2 = r) ∨
      (∃ text, httpd_dyn_complete env h r text = some (env.dyn d s h r)) ∨
      (∃ code text, httpd_dyn_error env h r code text = some (env.dyn d s h r)))
    (h : httpd_t) (regs : registry) (p : Nat) (uri : Bytes) (hn : h.request.async_node = none)
    (st : httpd_status_t) (k : httpd_t) (regs1 : registry)
    (hr : httpd_reply env h regs p uri = some (st, k, regs1)) : keeps_bound h regs k regs1 := by
  unfold httpd_reply at hr
  cases hd : reg_deref regs p with
  | none => rw [hd] at hr; simp at hr
  | some reg =>
    rw [hd] at hr
    simp only [] at hr
    by_cases hb : reg.async_session ≠ none
    · rw [if_pos hb] at hr
      simp only [Option.some.injEq, Prod.mk.injEq] at hr
      rw [← hr.2.1, ← hr.2.2]
      exact keeps_bound_of_frame _ _ regs (node_frame_error env h _ _ _)
    · rw [if_neg hb] at hr
      have hidle : reg.async_session = none := by simpa using hb
      by_cases hy : reg.type = .OR_DYN_TERM ∨ reg.type = .OR_DYN_NONTERM
      · rw [if_pos hy] at hr
        simp only [Option.some.injEq] at hr
        have htake := keeps_bound_take h regs p reg hn hd hidle hy
        refine keeps_bound_trans _ _ _ _ _ _ htake ?_
        generalize hsub : (if ((cstr uri).drop (strlen reg.path)).head? = some '/' then
          ((cstr uri).drop (strlen reg.path)).drop 1 else (cstr uri).drop (strlen reg.path)) = sub
            at hr
        rcases hcb reg.dyn sub { h with request := { h.request with async_node := some p } }
          (reg_store regs p { reg with async_session := some h.dhandle }) with
          ⟨e1, e2⟩ | ⟨text, e⟩ | ⟨code, text, e⟩
        · rw [hr] at e1 e2
          simp only [] at e1 e2
          rw [e2]
          exact keeps_bound_of_frame _ _ _ e1
        · rw [hr] at e
          exact (keeps_bound_dyn_complete env _ _ text st k regs1 e).1
        · rw [hr] at e
          exact (keeps_bound_dyn_error env _ _ code text st k regs1 e).1
      · rw [if_neg hy] at hr
        simp only [Option.some.injEq, Prod.mk.injEq] at hr
        rw [← hr.2.1, ← hr.2.2]
        exact keeps_bound_of_frame _ _ regs
          (node_frame_trans _ _ _ (node_frame_out _ _ (reply_output_spec env h reg).1)
            (node_frame_finish _))

theorem keeps_bound_lookup_loop (env : Env)
    (hcb : ∀ d s h r, (node_frame h (env.dyn d s h r).2.1 ∧ (env.dyn d s h r).2.2 = r) ∨
      (∃ text, httpd_dyn_complete env h r text = some (env.dyn d s h r)) ∨
      (∃ code text, httpd_dyn_error env h r code text = some (env.dyn d s h r)))
    (h : httpd_t) (regs : registry) (uri : Bytes) (hn : h.request.async_node = none) :
    ∀ (l : List httpd_reg_t) (st : httpd_status_t) (k : httpd_t) (regs1 : registry),
      httpd_lookup_loop env h regs uri l = some (st, k, regs1) → keeps_bound h regs k regs1 := by
  intro l
  induction l with
  | nil =>
    intro st k regs1 hr
    simp only [httpd_lookup_loop, Option.some.injEq, Prod.mk.injEq] at hr
    rw [← hr.2.1, ← hr.2.2]
    exact keeps_bound_of_frame _ _ regs (node_frame_notfound env h uri)
  | cons reg rest ih =>
    intro st k regs1 hr
    have hrep := keeps_bound_reply env hcb h regs rest.length uri hn st k regs1
    have hdl : (let r := httpd_dirlist env h regs uri; some (r.1, r.2, regs)) =
        some (st, k, regs1) → keeps_bound h regs k regs1 := by
      intro e
      simp only [Option.some.injEq, Prod.mk.injEq] at e
      rw [← e.2.1, ← e.2.2]
      exact keeps_bound_of_frame _ _ regs (node_frame_dirlist env h regs uri)
    have hrd : (httpd_redirect env h uri).map (fun r => (r.1, r.2, regs)) =
        some (st, k, regs1) → keeps_bound h regs k regs1 := by
      intro e
      cases hx : httpd_redirect env h uri with
      | none => rw [hx] at e; simp at e
      | some r =>
        obtain ⟨s2, k2⟩ := r
        rw [hx] at e
        simp only [Option.map_some', Option.some.injEq, Prod.mk.injEq] at e
        rw [← e.2.1, ← e.2.2]
        exact keeps_bound_of_frame _ _ regs (node_frame_redirect env h uri s2 k2 hx)
    unfold httpd_lookup_loop at hr
    cases ht : reg.type <;> rw [ht] at hr <;> simp only [] at hr
    case OR_DIR =>
      split at hr
      · exact hrd hr
      · split at hr
        · exact hdl hr
        · exact ih st k regs1 hr
    all_goals
      split at hr
      · exact hrep hr
      · exact ih st k regs1 hr

theorem keeps_bound_lookup_uri (env : Env)
    (hcb : ∀ d s h r, (node_frame h (env.dyn d s h r).2.1 ∧ (env.dyn d s h r).2.2 = r) ∨
      (∃ text, httpd_dyn_complete env h r text = some (env.dyn d s h r)) ∨
      (∃ code text, httpd_dyn_error env h r code text = some (env.dyn d s h r)))
    (h : httpd_t) (regs : registry) (uri : Bytes) (hn : h.request.async_node = none)
    (st : httpd_status_t) (k : httpd_t) (regs1 : registry)
    (hr : httpd_lookup_uri env h regs uri = some (st, k, regs1)) : keeps_bound h regs k regs1 := by
  unfold httpd_lookup_uri at hr
  split at hr
  · simp only [Option.some.injEq, Prod.mk.injEq] at hr
    rw [← hr.2.1, ← hr.2.2]
    exact keeps_bound_of_frame _ _ regs (node_frame_dirlist env h regs _)
  · exact keeps_bound_lookup_loop env hcb h regs uri hn regs st k regs1 hr

theorem keeps_bound_digest_request (env : Env)
    (hcb : ∀ d s h r, (node_frame h (env.dyn d s h r).2.1 ∧ (env.dyn d s h r).2.2 = r) ∨
      (∃ text, httpd_dyn_complete env h r text = some (env.dyn d s h r)) ∨
      (∃ code text, httpd_dyn_error env h r code text = some (env.dyn d s h r)))
    (h : httpd_t) (regs : registry) (hn : h.request.async_node = none)
    (st : httpd_status_t) (k : httpd_t) (regs1 : registry)
    (hr : httpd_digest_request env h regs = some (st, k, regs1)) : keeps_bound h regs k regs1 := by
  unfold httpd_digest_request at hr
  cases hh : httpd_digest_request_head env h with
  | none => rw [hh] at hr; simp at hr
  | some r =>
    obtain ⟨a, b⟩ := node_frame_digest_request_head env h r hh
    rw [hh] at hr
    cases r with
    | reply s2 k2 =>
      simp only [Option.some.injEq, Prod.mk.injEq] at hr
      rw [← hr.2.1, ← hr.2.2]
      exact keeps_bound_of_frame _ _ regs (a s2 k2 rfl)
    | dispatch k2 uri =>
      simp only [] at hr
      have hf := b k2 uri rfl
      exact keeps_bound_trans _ _ _ _ _ _ (keeps_bound_of_frame _ _ regs hf)
        (keeps_bound_lookup_uri env hcb k2 regs uri (by rw [hf.1]; exact hn) st k regs1 hr)

/-- The part of `httpd_input_char` behind the CR/LF processing, on a
connection without a request in flight: the busy markers stay in agreement
with the connections, and the connection has no request in flight when more
input is awaited. -/
theorem keeps_bound_input_char_store (env : Env)
    (hdyn : ∀ d s x r, (env.dyn d s x r).1 ≠ .HS_CONTINUE)
    (hcb : ∀ d s h r, (node_frame h (env.dyn d s h r).2.1 ∧ (env.dyn d s h r).2.2 = r) ∨
      (∃ text, httpd_dyn_complete env h r text = some (env.dyn d s h r)) ∨
      (∃ code text, httpd_dyn_error env h r code text = some (env.dyn d s h r)))
    (h : httpd_t) (regs : registry) (c : Char) (hn : h.request.async_node = none)
    (st : httpd_status_t) (k : httpd_t) (regs1 : registry)
    (hr : input_char_store env h regs c = some (st, k, regs1)) :
    keeps_bound h regs k regs1 ∧ (st = .HS_CONTINUE → k.request.async_node = none) := by
  have of_frame : ∀ k2 : httpd_t, node_frame h k2 →
      keeps_bound h regs k2 regs ∧ (st = .HS_CONTINUE → k2.request.async_node = none) :=
    fun k2 hf => ⟨keeps_bound_of_frame _ _ regs hf, fun _ => hf.1.trans hn⟩
  by_cases hm : MAX_HTTPD_REQUEST ≤ h.request.nr
  · rw [input_char_store_too_big env h regs c hm] at hr
    simp only [Option.some.injEq, Prod.mk.injEq] at hr
    rw [← hr.2.1, ← hr.2.2]
    exact of_frame _ (node_frame_error env h _ _ _)
  · by_cases hnl : c = '\n'
    · subst hnl
      by_cases hr0 : h.request.rll = 0
      · by_cases hs : h.request.saw_first = false
        · rw [input_char_store_missing env h regs hm hr0 hs] at hr
          simp only [Option.some.injEq, Prod.mk.injEq] at hr
          rw [← hr.2.1, ← hr.2.2]
          exact of_frame _ (node_frame_trans h { h with request := { h.request with
            request_buf := buf_set h.request.request_buf h.request.nr '\n'
            nr := h.request.nr + 1 } } _ ⟨rfl, rfl⟩ (node_frame_error env _ _ _ _))
        · have hs2 : h.request.saw_first = true := by simpa using hs
          rw [input_char_store_digest env h regs hm hr0 hs2] at hr
          exact ⟨keeps_bound_trans _ _ _ _ _ _
              (keeps_bound_of_frame h { h with request := { h.request with
                request_buf := buf_set (buf_set h.request.request_buf h.request.nr '\n')
                  (h.request.nr + 1) NUL
                nr := h.request.nr + 1 } } regs ⟨rfl, rfl⟩)
              (keeps_bound_digest_request env hcb { h with request := { h.request with
                request_buf := buf_set (buf_set h.request.request_buf h.request.nr '\n')
                  (h.request.nr + 1) NUL
                nr := h.request.nr + 1 } } regs hn st k regs1 hr),
            fun e => absurd e (httpd_digest_request_ne_continue env hdyn _ _ _ _ _ hr)⟩
      · by_cases hs : h.request.saw_first = false
        · rw [input_char_store_first env h regs hm hr0 hs] at hr
          simp only [Option.some.injEq, Prod.mk.injEq] at hr
          rw [← hr.2.1, ← hr.2.2]
          exact of_frame _ (node_frame_trans h { h with request := { h.request with
            request_buf := buf_set (buf_set h.request.request_buf h.request.nr '\n')
              h.request.nr NUL
            nr := h.request.nr + 1
            rll := 0
            fields_start := some (h.request.nr + 1)
            saw_first := true } } _ ⟨rfl, rfl⟩ (node_frame_digest_request_line env _))
        · have hs2 : h.request.saw_first = true := by simpa using hs
          rw [input_char_store_next env h regs hm hr0 hs2] at hr
          simp only [Option.some.injEq, Prod.mk.injEq] at hr
          rw [← hr.2.1, ← hr.2.2]
          exact of_frame _ ⟨rfl, rfl⟩
    · rw [input_char_store_other env h regs c hm hnl] at hr
      simp only [Option.some.injEq, Prod.mk.injEq] at hr
      rw [← hr.2.1, ← hr.2.2]
      exact of_frame _ ⟨rfl, rfl⟩

theorem keeps_bound_input_char (env : Env)
    (hdyn : ∀ d s x r, (env.dyn d s x r).1 ≠ .HS_CONTINUE)
    (hcb : ∀ d s h r, (node_frame h (env.dyn d s h r).2.1 ∧ (env.dyn d s h r).2.2 = r) ∨
      (∃ text, httpd_dyn_complete env h r text = some (env.dyn d s h r)) ∨
      (∃ code text, httpd_dyn_error env h r code text = some (env.dyn d s h r)))
    (h : httpd_t) (regs : registry) (c : Char) (hn : h.request.async_node = none)
    (st : httpd_status_t) (k : httpd_t) (regs1 : registry)
    (hr : httpd_input_char env h regs c = some (st, k, regs1)) :
    keeps_bound h regs k regs1 ∧ (st = .HS_CONTINUE → k.request.async_node = none) := by
  rw [httpd_input_char_eq] at hr
  by_cases hc : (h.cr && decide (c = '\n')) = true
  · rw [if_pos hc] at hr
    simp only [Option.some.injEq, Prod.mk.injEq] at hr
    rw [← hr.2.1, ← hr.2.2]
    exact ⟨keeps_bound_of_frame h { h with cr := false } regs ⟨rfl, rfl⟩, fun _ => hn⟩
  · rw [if_neg hc] at hr
    obtain ⟨a, b⟩ := keeps_bound_input_char_store env hdyn hcb { h with cr := decide (c = '\r') }
      regs (if c = '\r' then '\n' else c) hn st k regs1 hr
    exact ⟨keeps_bound_trans _ _ _ _ _ _
      (keeps_bound_of_frame h { h with cr := decide (c = '\r') } regs ⟨rfl, rfl⟩) a, b⟩

theorem keeps_bound_input_loop (env : Env)
    (hdyn : ∀ d s x r, (env.dyn d s x r).1 ≠ .HS_CONTINUE)
    (hcb : ∀ d s h r, (node_frame h (env.dyn d s h r).2.1 ∧ (env.dyn d s h r).2.2 = r) ∨
      (∃ text, httpd_dyn_complete env h r text = some (env.dyn d s h r)) ∨
      (∃ code text, httpd_dyn_error env h r code text = some (env.dyn d s h r))) :
    ∀ (data : Bytes) (h : httpd_t) (regs : registry), h.request.async_node = none →
      ∀ (st : httpd_status_t) (k : httpd_t) (regs1 : registry),
      httpd_input_loop env h regs data = some (st, k, regs1) → keeps_bound h regs k regs1 := by
  intro data
  induction data with
  | nil =>
    intro h regs _ st k regs1 hr
    simp only [httpd_input_loop, Option.some.injEq, Prod.mk.injEq] at hr
    rw [← hr.2.1, ← hr.2.2]
    exact keeps_bound_of_frame h h regs (node_frame_refl h)
  | cons c s ih =>
    intro h regs hn st k regs1 hr
    rw [httpd_input_loop] at hr
    cases hres : httpd_input_char env h regs c with
    | none => rw [hres] at hr; simp at hr
    | some res =>
      obtain ⟨s2, h2, regs2⟩ := res
      obtain ⟨a, b⟩ := keeps_bound_input_char env hdyn hcb h regs c hn s2 h2 regs2 hres
      rw [hres] at hr
      cases s2 with
      | HS_CONTINUE =>
        exact keeps_bound_trans _ _ _ _ _ _ a (ih h2 regs2 (b rfl) st k regs1 hr)
      | HS_SUCCESS_OPEN =>
        simp only [Option.some.injEq, Prod.mk.injEq] at hr
        rw [← hr.2.1, ← hr.2.2]
        exact keeps_bound_trans _ _ _ _ _ _ a
          (keeps_bound_of_frame h2 h2.reinit regs2 (node_frame_reinit h2))
      | HS_ERROR_OPEN =>
        simp only [Option.some.injEq, Prod.mk.injEq] at hr
        rw [← hr.2.1, ← hr.2.2]
        exact keeps_bound_trans _ _ _ _ _ _ a
          (keeps_bound_of_frame h2 h2.reinit regs2 (node_frame_reinit h2))
      | _ =>
        simp only [Option.some.injEq, Prod.mk.injEq] at hr
        rw [← hr.2.1, ← hr.2.2]
        exact a

/-- A call of `httpd_input` on a connection without a request in flight
keeps the busy markers in agreement with the connections. -/
theorem keeps_bound_input (env : Env)
    (hdyn : ∀ d s x r, (env.dyn d s x r).1 ≠ .HS_CONTINUE)
    (hcb : ∀ d s h r, (node_frame h (env.dyn d s h r).2.1 ∧ (env.dyn d s h r).2.2 = r) ∨
      (∃ text, httpd_dyn_complete env h r text = some (env.dyn d s h r)) ∨
      (∃ code text, httpd_dyn_error env h r code text = some (env.dyn d s h r)))
    (h : httpd_t) (regs : registry) (data : Bytes) (hn : h.request.async_node = none)
    (st : httpd_status_t) (k : httpd_t) (regs1 : registry)
    (hr : httpd_input env h regs data = some (st, k, regs1)) : keeps_bound h regs k regs1 := by
  rw [httpd_input_cont] at hr
  exact keeps_bound_trans _ _ _ _ _ _
    (keeps_bound_of_frame h
      { h with request := { h.request with it_offset := h.request.it_offset + data.length } }
      regs ⟨rfl, rfl⟩)
    (keeps_bound_input_loop env hdyn hcb data
      { h with request := { h.request with it_offset := h.request.it_offset + data.length } }
      regs hn st k regs1 hr)

theorem reg_deref_mem (regs : registry) (p : Nat) (reg : httpd_reg_t)
    (h : reg_deref regs p = some reg) : reg ∈ regs := by
  unfold reg_deref at h
  split at h
  · rw [List.get?_eq_getElem?, List.getElem?_eq_some] at h
    obtain ⟨hl, e⟩ := h
    rw [← e]
    exact List.getElem_mem _
  · exact absurd h (by simp)

theorem consistent_init (conns : List httpd_t) (regs : registry)
    (h1 : ∀ h ∈ conns, h.request.async_node = none)
    (h3 : ∀ reg ∈ regs, reg.async_session = none) :
    (∀ h ∈ conns, bound h regs) ∧ dyn_busy_only regs := by
  refine ⟨fun h hh p reg hp => ?_, fun p reg hp hb => ?_⟩
  · rw [h3 reg (reg_deref_mem regs p reg hp), h1 h hh]
    simp
  · exact absurd (h3 reg (reg_deref_mem regs p reg hp)) hb

/-- A step of one connection that keeps the busy markers in agreement keeps
the registry consistent with all the connections. -/
theorem consistent_step (pre post : List httpd_t) (h k : httpd_t) (regs regs1 : registry)
    (hk : keeps_bound h regs k regs1)
    (hi : (∀ g ∈ pre ++ h :: post, bound g regs) ∧
      ((pre ++ h :: post).map (fun g => g.dhandle)).Nodup ∧ dyn_busy_only regs) :
    (∀ g ∈ pre ++ k :: post, bound g regs1) ∧
      ((pre ++ k :: post).map (fun g => g.dhandle)).Nodup ∧ dyn_busy_only regs1 := by
  obtain ⟨i1, i2, i3⟩ := hi
  obtain ⟨k1, k2, k3, k4⟩ := hk
  have hb : bound h regs := i1 h (by simp)
  have hmap : (pre ++ k :: post).map (fun g => g.dhandle) =
      (pre ++ h :: post).map (fun g => g.dhandle) := by
    simp only [List.map_append, List.map_cons, k1]
  have hne : ∀ g, g ∈ pre ∨ g ∈ post → g.dhandle ≠ h.dhandle := by
    intro g hg e
    simp only [List.map_append, List.map_cons] at i2
    rw [List.nodup_middle, List.nodup_cons] at i2
    apply i2.1
    rw [← e, List.mem_append]
    rcases hg with hg | hg
    · exact Or.inl (List.mem_map_of_mem _ hg)
    · exact Or.inr (List.mem_map_of_mem _ hg)
  refine ⟨fun g hg => ?_, by rw [hmap]; exact i2, k4 i3⟩
  simp only [List.mem_append, List.mem_cons] at hg
  rcases hg with hg | hg | hg
  · exact k3 g (hne g (Or.inl hg)) hb (i1 g (by simp [hg]))
  · rw [hg]
    exact k2 hb
  · exact k3 g (hne g (Or.inr hg)) hb (i1 g (by simp [hg]))

/-- In every state of the server the busy markers agree with the
connections, the connections have distinct handles and only dynamic entries
are busy. -/
theorem served_consistent (env : Env)
    (hdyn : ∀ d s x r, (env.dyn d s x r).1 ≠ .HS_CONTINUE)
    (hcb : ∀ d s h r, (node_frame h (env.dyn d s h r).2.1 ∧ (env.dyn d s h r).2.2 = r) ∨
      (∃ text, httpd_dyn_complete env h r text = some (env.dyn d s h r)) ∨
      (∃ code text, httpd_dyn_error env h r code text = some (env.dyn d s h r)))
    (conns : List httpd_t) (regs : registry) (hs : served env conns regs) :
    (∀ g ∈ conns, bound g regs) ∧ (conns.map (fun g => g.dhandle)).Nodup ∧
      dyn_busy_only regs := by
  induction hs with
  | init conns regs h1 h2 h3 =>
    obtain ⟨a, b⟩ := consistent_init conns regs h1 h3
    exact ⟨a, List.pairwise_map.mpr h2, b⟩
  | input pre post h k regs regs1 data st _ hn hr ih =>
    exact consistent_step pre post h k regs regs1
      (keeps_bound_input env hdyn hcb h regs data hn st k regs1 hr) ih
  | complete pre post h k regs regs1 text st _ hr ih =>
    exact consistent_step pre post h k regs regs1
      (keeps_bound_dyn_complete env h regs text st k regs1 hr).1 ih
  | error pre post h k regs regs1 code text st _ hr ih =>
    exact consistent_step pre post h k regs regs1
      (keeps_bound_dyn_error env h regs code text st k regs1 hr).1 ih

/-- The request-line validator, when it lets the request continue, sets
the persistence flag exactly when a version token is present and its version
is not 1.0 (`version_default`), and `http_1_0` to the opposite. While the
header lines are read `httpd_input_char` leaves the flag as it is, up to the
call of `httpd_digest_request`. When that function calls `httpd_lookup_uri`,
the flag of the connection it passes is the flag it found and no
`Connection` field with value `close` (ignoring case) is stored: such a field
forces the flag off whatever the version, and a flag that is off stays off
whatever the fields. -/
theorem persistence_of_stored_fields (env : Env) :
    (∀ h h1 : httpd_t, httpd_digest_request_line env h = (.HS_CONTINUE, h1) →
      h1.request.persistent = version_default env.erange h.request.request_buf ∧
      h1.request.http_1_0 = !version_default env.erange h.request.request_buf) ∧
    (∀ (h : httpd_t) (regs : registry) (c : Char), h.request.saw_first = true →
      (∃ h1, httpd_input_char env h regs c = some (.HS_CONTINUE, h1, regs) ∧
        h1.request.persistent = h.request.persistent ∧ h1.request.saw_first = true) ∨
      (∃ k, httpd_input_char env h regs c =
        some ((httpd_error env k .ERRMODE_FATAL 400 "The request is too big.".toList).1,
          (httpd_error env k .ERRMODE_FATAL 400 "The request is too big.".toList).2, regs)) ∨
      (∃ h2, httpd_input_char env h regs c = httpd_digest_request env h2 regs ∧
        h2.request.persistent = h.request.persistent)) ∧
    (∀ (h h2 : httpd_t) (uri : Bytes),
      httpd_digest_request_head env h = some (.dispatch h2 uri) →
      h2.request.persistent =
        (h.request.persistent && !connection_close h2.request.fields) ∧
      (connection_close h2.request.fields = true → h2.request.persistent = false) ∧
      (h.request.persistent = false → h2.request.persistent = false)) := by
  refine ⟨?_, ?_, ?_⟩
  · intro h h1 hc
    obtain ⟨a, b, _⟩ := httpd_digest_request_line_continue env h h1 hc
    exact ⟨a, b⟩
  · intro h regs c hsf
    rcases httpd_input_char_header env h regs c hsf with ⟨h1, e, p, _, _, s⟩ | ⟨k, e⟩ | ⟨h2, e, p, _⟩
    · exact Or.inl ⟨h1, e, p, s⟩
    · exact Or.inr (Or.inl ⟨k, e⟩)
    · exact Or.inr (Or.inr ⟨h2, e, p⟩)
  · intro h h2 uri hd
    obtain ⟨a, _, _⟩ := httpd_digest_request_head_dispatch env h h2 uri hd
    refine ⟨a, ?_, ?_⟩
    · intro hc; rw [a, hc]; simp
    · intro hp; rw [a, hp]; simp

theorem crlf_length_le : ∀ s : Bytes, (crlf s).length ≤ 2 * s.length := by
  intro s
  induction s with
  | nil => simp [crlf]
  | cons c s ih =>
    unfold crlf
    split
    · simp only [List.length_cons]; omega
    · simp only [List.length_cons]; omega

theorem crlf_length_int_max (s : Bytes) (h : s.length ≤ INT_MAX) :
    (crlf s).length < 2 ^ 32 := by
  have := crlf_length_le s
  unfold INT_MAX at h
  omega

theorem crlf_replicate_newline (n : Nat) : (crlf (List.replicate n '\n')).length = 2 * n := by
  induction n with
  | zero => rfl
  | succ n ih =>
    rw [List.replicate_succ, crlf, if_pos rfl]
    simp only [List.length_cons, ih]
    omega

theorem cstr_replicate_newline (n : Nat) :
    cstr (List.replicate n '\n') = List.replicate n '\n' :=
  cstr_of_no_nul _ (fun hm => by
    have := List.eq_of_mem_replicate hm
    revert this
    decide)

set_option maxRecDepth 100000 in
theorem root_request_read (regs : registry) :
    httpd_input_loop sample_env
        { fresh with request := { fresh.request with it_offset := 16 } } regs
        "GET / HTTP/1.0\n".toList = some (.HS_CONTINUE, root_request, regs) := by
  rfl

set_option maxRecDepth 100000 in
theorem root_request_dispatch (regs : registry) :
    httpd_input_char sample_env root_request regs '\n' =
      some ((httpd_dirlist sample_env listing_conn regs "/".toList).1,
        (httpd_dirlist sample_env listing_conn regs "/".toList).2, regs) := by
  rfl

set_option maxRecDepth 100000 in
theorem listing_conn_fields :
    listing_conn.request.verb = .VERB_GET ∧ listing_conn.request.persistent = false ∧
    listing_conn.sent = [] ∧ listing_conn.request.print_buf = [] ∧
    listing_conn.request.location = none := by
  refine ⟨?_, ?_, ?_, ?_, ?_⟩ <;> decide

/-- The request `GET / HTTP/1.0` is answered with the listing of `/`,
whatever the registry. -/
theorem root_listing (regs : registry) :
    httpd_input sample_env fresh regs "GET / HTTP/1.0\n\n".toList =
      some (.HS_SUCCESS_CLOSE, (dirlist_output sample_env listing_conn regs "/".toList), regs) := by
  have e1 : httpd_input sample_env fresh regs "GET / HTTP/1.0\n\n".toList =
      httpd_input_loop sample_env
        { fresh with request := { fresh.request with it_offset := 16 } } regs
        ("GET / HTTP/1.0\n".toList ++ ['\n']) := rfl
  have hp : (dirlist_output sample_env listing_conn regs "/".toList).request.persistent =
      false := by
    rw [(dirlist_output_spec sample_env listing_conn regs "/".toList).1.persistent]
    exact listing_conn_fields.2.1
  have hd : httpd_dirlist sample_env listing_conn regs "/".toList =
      (.HS_SUCCESS_CLOSE, dirlist_output sample_env listing_conn regs "/".toList) := by
    unfold httpd_dirlist finish_success
    rw [hp]
    rfl
  rw [e1, httpd_input_loop_append sample_env _ _ _ _ _ _ (root_request_read regs)]
  unfold httpd_input_loop
  rw [root_request_dispatch, hd]

theorem rows_document_nil (uri : Bytes) : rows_document uri [] = [] := rfl

theorem crlf_nil : crlf [] = [] := rfl

theorem cstr_nil : cstr [] = [] := rfl

/-- The length of a listing: what the listing of an empty registry has, and
the rows. -/
theorem dirlist_document_length (env : Env) (regs : registry) (uri : Bytes) :
    (crlf (dirlist_document env regs uri)).length =
      (crlf (dirlist_document env [] uri)).length + (crlf (rows_document uri regs)).length := by
  simp only [dirlist_document, crlf_append, List.length_append, rows_document_nil, crlf_nil,
    List.length_nil]
  omega

theorem cstr_desc_line (d : Bytes) (hd : NUL ∉ d) :
    cstr ("</TT>".toList ++ d ++ "</P>\n".toList) =
      "</TT>".toList ++ (d ++ "</P>\n".toList) := by
  rw [List.append_assoc]
  apply cstr_of_no_nul
  intro hm
  rw [List.mem_append, List.mem_append] at hm
  rcases hm with hm | hm | hm
  · revert hm; decide
  · exact hd hm
  · revert hm; decide

/-- The length of a row: what the row has without the description, and the
description. -/
theorem row_document_length (uri : Bytes) (reg : httpd_reg_t) :
    (crlf (row_document uri reg)).length =
      (crlf (row_document uri { reg with desc := [] })).length +
        (crlf (cstr reg.desc)).length := by
  have hp : row_pad uri { reg with desc := [] } = row_pad uri reg := rfl
  unfold row_document
  dsimp only
  rw [cstr_desc_line _ (cstr_no_nul reg.desc), cstr_nil,
    cstr_desc_line [] (List.not_mem_nil _), hp]
  simp only [crlf_append, List.length_append, crlf_nil, List.length_nil]
  omega

theorem tall_registry_eq (n : Nat) :
    tall_registry n = [tall_entry "/b".toList n, tall_entry "/a".toList n] := rfl

set_option maxRecDepth 100000 in
theorem tall_entry_shown (n : Nat) :
    row_shown "/".toList (tall_entry "/b".toList n) = true ∧
      row_shown "/".toList (tall_entry "/a".toList n) = true := by
  have hf : ∀ p, (tall_entry p n).flags &&& HF_HIDDEN = 0 := by
    intro p
    rw [show (tall_entry p n).flags = 0 from rfl]
    decide
  constructor
  · rw [row_shown_iff]
    refine ⟨hf _, "b".toList, ?_, by decide⟩
    rw [show (tall_entry "/b".toList n).path = "/b".toList from rfl]
    decide
  · rw [row_shown_iff]
    refine ⟨hf _, "a".toList, ?_, by decide⟩
    rw [show (tall_entry "/a".toList n).path = "/a".toList from rfl]
    decide

set_option maxRecDepth 100000 in
/-- The length of the listing of the registry with two descriptions of `n`
newlines. -/
theorem tall_listing_length (n : Nat) :
    (crlf (dirlist_document sample_env (tall_registry n) "/".toList)).length = 492 + 4 * n := by
  have hrows : rows_document "/".toList (tall_registry n) =
      row_document "/".toList (tall_entry "/b".toList n) ++
        (row_document "/".toList (tall_entry "/a".toList n) ++ []) := by
    rw [tall_registry_eq]
    unfold rows_document
    rw [List.filter_cons_of_pos (tall_entry_shown n).1,
      List.filter_cons_of_pos (tall_entry_shown n).2]
    rfl
  have h0 : (crlf (dirlist_document sample_env [] "/".toList)).length +
      ((crlf (row_document "/".toList (tall_entry "/b".toList 0))).length +
        (crlf (row_document "/".toList (tall_entry "/a".toList 0))).length) = 492 := by
    decide
  have hb := row_document_length "/".toList (tall_entry "/b".toList n)
  have ha := row_document_length "/".toList (tall_entry "/a".toList n)
  have hdb : (tall_entry "/b".toList n).desc = List.replicate n '\n' := rfl
  have hda : (tall_entry "/a".toList n).desc = List.replicate n '\n' := rfl
  have hzb : ({ tall_entry "/b".toList n with desc := [] } : httpd_reg_t) =
      tall_entry "/b".toList 0 := rfl
  have hza : ({ tall_entry "/a".toList n with desc := [] } : httpd_reg_t) =
      tall_entry "/a".toList 0 := rfl
  rw [hdb, hzb, cstr_replicate_newline, crlf_replicate_newline] at hb
  rw [hda, hza, cstr_replicate_newline, crlf_replicate_newline] at ha
  rw [dirlist_document_length, hrows, crlf_append, crlf_append, List.length_append,
    List.length_append, hb, ha]
  simp only [crlf_nil, List.length_nil]
  omega

set_option maxRecDepth 100000 in
/-- The reply to `GET / HTTP/1.0` on the registry with two descriptions of `n`
newlines. -/
theorem tall_listing_sent (n : Nat) :
    (httpd_input sample_env fresh (tall_registry n) "GET / HTTP/1.0\n\n".toList).map
        (fun r => (r.1, r.2.1.sent)) =
      some (.HS_SUCCESS_CLOSE,
        [("HTTP/1.1 200 OK\r\nDate: Thu Jan  1 00:00:00 1970 UTC\r\nServer: x3270\r\n" ++
            "Connection: close\r\nContent-Type: text/html; charset=iso8859-1\r\n").toList,
          "Content-Length: ".toList ++ fmt_u (492 + 4 * n) ++ ['\r', '\n', '\r', '\n'],
          crlf (dirlist_document sample_env (tall_registry n) "/".toList)]) := by
  have hs := dirlist_output_sent sample_env listing_conn (tall_registry n) "/".toList
    (by rw [listing_conn_fields.1]; decide)
  have hb : body_chunks (crlf (dirlist_document sample_env (tall_registry n) "/".toList)) =
      [crlf (dirlist_document sample_env (tall_registry n) "/".toList)] := by
    unfold body_chunks
    rw [tall_listing_length, if_pos (by omega)]
  have hh : header_text sample_env none 200 (!false) "text/html; charset=iso8859-1".toList =
      ("HTTP/1.1 200 OK\r\nDate: Thu Jan  1 00:00:00 1970 UTC\r\nServer: x3270\r\n" ++
          "Connection: close\r\nContent-Type: text/html; charset=iso8859-1\r\n").toList := by
    decide
  rw [hb, tall_listing_length, listing_conn_fields.2.2.1, listing_conn_fields.2.2.2.1,
    listing_conn_fields.2.2.2.2, listing_conn_fields.2.1, hh] at hs
  rw [root_listing, Option.map_some']
  simp only [hs, List.nil_append, List.cons_append]

theorem tall_registry_descs (n : Nat) :
    (tall_registry n).map (fun reg => (reg.path, reg.type, (cstr reg.desc).length)) =
      [("/b".toList, .OR_FIXED, n), ("/a".toList, .OR_FIXED, n)] := by
  have hb : (cstr (tall_entry "/b".toList n).desc).length = n := by
    rw [show (tall_entry "/b".toList n).desc = List.replicate n '\n' from rfl,
      cstr_replicate_newline, List.length_replicate]
  have ha : (cstr (tall_entry "/a".toList n).desc).length = n := by
    rw [show (tall_entry "/a".toList n).desc = List.replicate n '\n' from rfl,
      cstr_replicate_newline, List.length_replicate]
  rw [tall_registry_eq]
  simp only [List.map, ha, hb]
  rfl

/-! ## The properties -/

set_option maxRecDepth 100000 in
/-- C1 (defect in the code). On the sample registry, where `/p` resolves to
the fixed text `hello`, a fresh connection fed exactly
`GET /p HTTP/1.1\r\nHost: h\r\n\r\n` is answered `400 Bad Request` with a Close
result, not `200 OK`: the loop that trims the header value reads
`s[value_len - 1]` (from the newline on) instead of `value[value_len - 1]`,
so the one-character value `h` is cut to nothing. The same request with the
value `abc` is answered `200 OK` with the body `hello`. -/
theorem C1_get_fixed_text_one_char_host :
    (httpd_input sample_env fresh sample_registry
        "GET /p HTTP/1.1\r\nHost: h\r\n\r\n".toList).map
      (fun r => (r.1, r.2.1.sent.head?.map (List.take 26))) =
        some (.HS_ERROR_CLOSE, some "HTTP/1.1 400 Bad Request\r\n".toList) ∧
    (httpd_input sample_env fresh sample_registry
        "GET /p HTTP/1.1\r\nHost: abc\r\n\r\n".toList).map
      (fun r => (r.1, r.2.1.sent.head?.map (List.take 17), r.2.1.sent.getLast?)) =
        some (.HS_SUCCESS_OPEN, some "HTTP/1.1 200 OK\r\n".toList, some "hello".toList) := by
  constructor <;> decide

set_option maxRecDepth 100000 in
/-- C2 (defect in the code). The trimming loop of `httpd_digest_request` tests
`s[value_len - 1]`, the bytes from the newline that ends the line on, instead
of the last bytes of the value. A header line `X: v` with a one-character
value is rejected with 400 (missing value); so is a last header line `X: ab`
with a two-character value (the two bytes read are the two newlines); and a
value followed by trailing spaces, `X: ab  `, is stored with its spaces. -/
theorem C2_header_value_not_trimmed :
    (httpd_input sample_env fresh sample_registry
        "GET /p HTTP/1.0\r\nX: v\r\nHost: abc\r\n\r\n".toList).map
      (fun r => (r.1, r.2.1.sent.head?.map (List.take 26),
        r.2.1.sent.getLast?.map (fun b => (b.drop 149).take 43))) =
        some (.HS_ERROR_CLOSE, some "HTTP/1.1 400 Bad Request\r\n".toList,
          some "Malformed field (missing value) in request.".toList) ∧
    (httpd_input sample_env fresh sample_registry
        "GET /p HTTP/1.0\r\nHost: abc\r\nX: ab\r\n\r\n".toList).map
      (fun r => (r.1, r.2.1.sent.head?.map (List.take 26),
        r.2.1.sent.getLast?.map (fun b => (b.drop 149).take 43))) =
        some (.HS_ERROR_CLOSE, some "HTTP/1.1 400 Bad Request\r\n".toList,
          some "Malformed field (missing value) in request.".toList) ∧
    (httpd_input sample_env fresh sample_registry
        "GET /p HTTP/1.0\r\nX: ab  \r\nHost: abc\r\n\r\n".toList).map
      (fun r => (r.1, r.2.1.request.fields)) =
        some (.HS_SUCCESS_CLOSE,
          [{ name := "Host".toList, value := "abc".toList },
           { name := "X".toList, value := "ab  ".toList }]) := by
  refine ⟨?_, ?_, ?_⟩ <;> decide

/-- C4. The request-line validator lets only GET and HEAD continue and leaves
`http_1_0` false exactly when a version token is present and its version is
not 1.0. When `http_1_0` is false and the header block parses without error
into fields none of which is named Host (ignoring case),
`httpd_digest_request` answers 400 through a Fatal error: the status line is
`HTTP/1.1 400 Bad Request` and the result is `HS_ERROR_CLOSE` for every
registry, the function ending before `httpd_lookup_uri` is called. -/
theorem C4_missing_host_rejected (env : Env) :
    (∀ h h1 : httpd_t, httpd_digest_request_line env h = (.HS_CONTINUE, h1) →
      (h1.request.verb = .VERB_GET ∨ h1.request.verb = .VERB_HEAD) ∧
      h1.request.http_1_0 = !version_default env.erange h.request.request_buf) ∧
    (∀ (h : httpd_t) (s : Nat) (fields : List field_t),
      h.request.fields_start = some s →
      httpd_digest_fields env h.request.request_buf
        (h.request.request_buf.length + 1) s h.request.fields = some (none, fields) →
      h.request.http_1_0 = false →
      lookup_field "Host".toList fields = none →
      ∃ (k : httpd_t) (rest : Bytes) (more : List Bytes),
        httpd_digest_request_head env h = some (.reply .HS_ERROR_CLOSE k) ∧
        (∀ regs : registry,
          httpd_digest_request env h regs = some (.HS_ERROR_CLOSE, k, regs)) ∧
        k.sent = h.sent ++
          (h.request.print_buf ++ "HTTP/1.1 400 Bad Request\r\n".toList ++ rest) :: more) := by
  constructor
  · intro h h1 hc
    obtain ⟨_, b, c⟩ := httpd_digest_request_line_continue env h h1 hc
    exact ⟨c, b⟩
  · intro h s fields hs hparse hver hhost
    obtain ⟨rest, more, hsent⟩ := httpd_error_sent env
      { h with request := { h.request with fields := fields } } .ERRMODE_FATAL 400
      "Missing hostname.".toList (by decide)
    rw [status_line_400] at hsent
    have hhead : httpd_digest_request_head env h = some (.reply .HS_ERROR_CLOSE
        (httpd_error env { h with request := { h.request with fields := fields } }
          .ERRMODE_FATAL 400 "Missing hostname.".toList).2) := by
      simp only [httpd_digest_request_head, hs, hparse, hver, hhost]
      simp [httpd_error_fatal]
    refine ⟨_, rest, more, hhead, ?_, hsent⟩
    intro regs
    simp only [httpd_digest_request, hhead]

set_option maxRecDepth 100000 in
/-- C4, witness: the property at a concrete input. -/
theorem C4_missing_host_rejected_witness :
    (httpd_digest_request_line sample_env (line_state "HEAD /p HTTP/1.1".toList) =
        (.HS_CONTINUE, (httpd_digest_request_line sample_env
          (line_state "HEAD /p HTTP/1.1".toList)).2) ∧
      (httpd_digest_request_line sample_env
        (line_state "HEAD /p HTTP/1.1".toList)).2.request.http_1_0 = false) ∧
    ∃ (k : httpd_t) (rest : Bytes) (more : List Bytes),
      httpd_digest_request_head sample_env
        (digest_state ("GET".toList ++ [NUL] ++ "/p".toList ++ [NUL] ++ "HTTP/1.1".toList ++
          [NUL] ++ "Accept: text\n\n".toList ++ [NUL]) 4 16 false true) =
        some (.reply .HS_ERROR_CLOSE k) ∧
      (∀ regs : registry, httpd_digest_request sample_env
        (digest_state ("GET".toList ++ [NUL] ++ "/p".toList ++ [NUL] ++ "HTTP/1.1".toList ++
          [NUL] ++ "Accept: text\n\n".toList ++ [NUL]) 4 16 false true) regs =
        some (.HS_ERROR_CLOSE, k, regs)) ∧
      k.sent = [] ++ ([] ++ "HTTP/1.1 400 Bad Request\r\n".toList ++ rest) :: more :=
  ⟨⟨by decide,
      (((C4_missing_host_rejected sample_env).1 (line_state "HEAD /p HTTP/1.1".toList)
        (httpd_digest_request_line sample_env (line_state "HEAD /p HTTP/1.1".toList)).2
        (by decide)).2).trans (by decide)⟩,
    (C4_missing_host_rejected sample_env).2
      (digest_state ("GET".toList ++ [NUL] ++ "/p".toList ++ [NUL] ++ "HTTP/1.1".toList ++
        [NUL] ++ "Accept: text\n\n".toList ++ [NUL]) 4 16 false true) 16
      [{ name := "Accept".toList, value := "text".toList }] (by decide) (by decide) (by decide)
      (by decide)⟩

set_option maxRecDepth 100000 in
/-- C5 (defect in the code). The request `GET /p HTTP/1.1` with the header
lines `Host: abc`, `Connection: close` and `A:  bcd` is dispatched as
persistent: the result is `HS_SUCCESS_OPEN` and the reply carries no
`Connection: close` line. The loop that trims the value of a header line
tests `s[value_len - 1]`, with `s` at the newline that ends the line, so it
looks at the bytes of the next line; here it finds the two spaces of
`A:  bcd` and stores the value `clo`, which does not compare equal to
`close`. The same request without the line `A:  bcd`, or with that line put
before `Connection: close`, is answered `HS_SUCCESS_CLOSE` with the line
`Connection: close`; there the value is stored whole (`Close` in
`close_request`) and the flag is cleared. In the other direction the header `Connection: closed`
followed by the line `Abcd : xyz` is stored as `close` and the request is
dispatched as not persistent, while `Connection: closed` alone leaves it
persistent. -/
theorem C5_connection_close_truncated :
    (httpd_input sample_env fresh sample_registry
        "GET /p HTTP/1.1\r\nHost: abc\r\nConnection: close\r\nA:  bcd\r\n\r\n".toList).map
      (fun r => (r.1, r.2.1.sent.head?)) =
        some (.HS_SUCCESS_OPEN,
          some ("HTTP/1.1 200 OK\r\nDate: Thu Jan  1 00:00:00 1970 UTC\r\nServer: x3270\r\n" ++
            "Content-Type: text/plain\r\n").toList) ∧
    (dispatched_conn (httpd_digest_request_head sample_env truncated_close_request)
        fresh).request.fields =
      [{ name := "A".toList, value := "bcd".toList },
        { name := "Connection".toList, value := "clo".toList },
        { name := "Host".toList, value := "abc".toList }] ∧
    (dispatched_conn (httpd_digest_request_head sample_env truncated_close_request)
        fresh).request.persistent = true ∧
    (dispatched_conn (httpd_digest_request_head sample_env close_request)
        fresh).request.fields =
      [{ name := "Connection".toList, value := "Close".toList },
        { name := "Host".toList, value := "abc".toList }] ∧
    (dispatched_conn (httpd_digest_request_head sample_env close_request)
        fresh).request.persistent = false ∧
    (httpd_input sample_env fresh sample_registry
        "GET /p HTTP/1.1\r\nHost: abc\r\nConnection: close\r\n\r\n".toList).map
      (fun r => (r.1, r.2.1.sent.head?)) =
        some (.HS_SUCCESS_CLOSE,
          some ("HTTP/1.1 200 OK\r\nDate: Thu Jan  1 00:00:00 1970 UTC\r\nServer: x3270\r\n" ++
            "Connection: close\r\nContent-Type: text/plain\r\n").toList) ∧
    (httpd_input sample_env fresh sample_registry
        "GET /p HTTP/1.1\r\nHost: abc\r\nA:  bcd\r\nConnection: close\r\n\r\n".toList).map
      (fun r => (r.1, r.2.1.sent.head?)) =
        some (.HS_SUCCESS_CLOSE,
          some ("HTTP/1.1 200 OK\r\nDate: Thu Jan  1 00:00:00 1970 UTC\r\nServer: x3270\r\n" ++
            "Connection: close\r\nContent-Type: text/plain\r\n").toList) ∧
    (httpd_input sample_env fresh sample_registry
        "GET /p HTTP/1.1\r\nHost: abc\r\nConnection: closed\r\nAbcd : xyz\r\n\r\n".toList).map
      (fun r => r.1) = some .HS_SUCCESS_CLOSE ∧
    (httpd_input sample_env fresh sample_registry
        "GET /p HTTP/1.1\r\nHost: abc\r\nConnection: closed\r\n\r\n".toList).map
      (fun r => r.1) = some .HS_SUCCESS_OPEN := by
  refine ⟨?_, ?_, ?_, ?_, ?_, ?_, ?_, ?_, ?_⟩ <;> decide

set_option maxRecDepth 100000 in
/-- C6, counterexample. On the sample registry, where `/dir` is a Directory
entry, the request `GET /dir HTTP/1.0` without a Host header is answered
`404 Not Found`, not 301. -/
theorem C6_directory_without_host_is_404 :
    (httpd_input sample_env fresh sample_registry "GET /dir HTTP/1.0\r\n\r\n".toList).map
      (fun r => (r.1, r.2.1.sent.head?.map (List.take 24))) =
        some (.HS_ERROR_CLOSE, some "HTTP/1.1 404 Not Found\r\n".toList) := by
  decide

/-- C6 (as amended). For a Directory entry registered at a path `P` other
than `/` and `//`, which no entry registered later matches for `P` or `P/`:
a request for `P` on a connection that stored no Host field is answered
`404 Not Found` (no redirect can be built), and a request for `P/` is
answered `200 OK` with the directory listing of `P/` (the result of
`httpd_dirlist`). What a request for `P` with a Host field gets is left
out: it depends on `xs_buffer` being handed `r->location` as its format. -/
theorem C6_directory_lookup (env : Env) (h : httpd_t) (before : List httpd_reg_t)
    (reg : httpd_reg_t) (after : List httpd_reg_t)
    (hdir : reg.type = .OR_DIR)
    (hp0 : cstr reg.path ≠ []) (hp1 : cstr reg.path ≠ ['/']) (hp2 : cstr reg.path ≠ ['/', '/'])
    (hshadow : ∀ e ∈ before, entry_matches e (cstr reg.path) = false ∧
      entry_matches e (cstr reg.path ++ ['/']) = false) :
    (lookup_field "Host".toList h.request.fields = none →
      ∃ (st : httpd_status_t) (k : httpd_t) (rest : Bytes) (more : List Bytes),
        httpd_lookup_uri env h (before ++ reg :: after) (cstr reg.path) =
          some (st, k, before ++ reg :: after) ∧
        (st, k) = httpd_error env h .ERRMODE_NONFATAL 404 "Document not found.".toList ∧
        k.sent = h.sent ++
          (h.request.print_buf ++ "HTTP/1.1 404 Not Found\r\n".toList ++ rest) :: more) ∧
    (∃ (st : httpd_status_t) (k : httpd_t) (rest : Bytes) (more : List Bytes),
      httpd_lookup_uri env h (before ++ reg :: after) (cstr reg.path ++ ['/']) =
        some (st, k, before ++ reg :: after) ∧
      (st, k) = httpd_dirlist env h (before ++ reg :: after) (cstr reg.path ++ ['/']) ∧
      (st = .HS_SUCCESS_OPEN ∨ st = .HS_SUCCESS_CLOSE) ∧
      k.sent = h.sent ++
        (h.request.print_buf ++ "HTTP/1.1 200 OK\r\n".toList ++ rest) :: more) := by
  have hroot1 : strcmp_eq (cstr reg.path) "/".toList = false := by
    simp only [strcmp_eq, cstr_idem]
    have : cstr "/".toList = ['/'] := by decide
    rw [this]
    simpa using hp1
  have hroot2 : strcmp_eq (cstr reg.path) "//".toList = false := by
    simp only [strcmp_eq, cstr_idem]
    have : cstr "//".toList = ['/', '/'] := by decide
    rw [this]
    simpa using hp2
  have hroot3 : strcmp_eq (cstr reg.path ++ ['/']) "/".toList = false := by
    simp only [strcmp_eq, cstr_append_slash]
    have : cstr "/".toList = ['/'] := by decide
    rw [this]
    simpa using hp0
  have hroot4 : strcmp_eq (cstr reg.path ++ ['/']) "//".toList = false := by
    simp only [strcmp_eq, cstr_append_slash]
    have : cstr "//".toList = ['/', '/'] := by decide
    rw [this]
    cases hc : cstr reg.path with
    | nil => simp
    | cons c t =>
      cases t with
      | nil =>
        have : c ≠ '/' := fun e => hp1 (by rw [hc, e])
        simp [this]
      | cons d t => simp
  constructor
  · intro hhost
    obtain ⟨rest, more, hs⟩ := httpd_error_sent env h .ERRMODE_NONFATAL 404
      "Document not found.".toList (by decide)
    rw [status_line_404] at hs
    refine ⟨(httpd_error env h .ERRMODE_NONFATAL 404 "Document not found.".toList).1,
      (httpd_error env h .ERRMODE_NONFATAL 404 "Document not found.".toList).2,
      rest, more, ?_, rfl, hs⟩
    unfold httpd_lookup_uri
    simp only [hroot1, hroot2, Bool.or_self, Bool.false_eq_true, if_false]
    rw [httpd_lookup_loop_skip env h _ _ before _ (fun e he => (hshadow e he).1)]
    rw [httpd_lookup_loop]
    simp only [hdir, strcmp_eq_cstr_self, if_true, httpd_redirect, hhost, Option.map_some']
  · obtain ⟨_, rest, more, hs⟩ := dirlist_output_spec env h (before ++ reg :: after)
      (cstr reg.path ++ ['/'])
    have hfin := finish_success_spec (dirlist_output env h (before ++ reg :: after)
      (cstr reg.path ++ ['/']))
    refine ⟨(httpd_dirlist env h (before ++ reg :: after) (cstr reg.path ++ ['/'])).1,
      (httpd_dirlist env h (before ++ reg :: after) (cstr reg.path ++ ['/'])).2,
      rest, more, ?_, rfl, hfin.1, ?_⟩
    · unfold httpd_lookup_uri
      simp only [hroot3, hroot4, Bool.or_self, Bool.false_eq_true, if_false]
      rw [httpd_lookup_loop_skip env h _ _ before _ (fun e he => (hshadow e he).2)]
      rw [httpd_lookup_loop]
      simp only [hdir, strcmp_eq_slash_self, dir_slash_match_self, if_true, if_false,
        Bool.false_eq_true]
    · unfold httpd_dirlist
      rw [hfin.2, hs]

set_option maxRecDepth 100000 in
/-- C6, witness: the property at a concrete input. -/
theorem C6_directory_lookup_witness :
    sample_registry = [page_entry] ++ dir_entry :: [] ∧
    cstr dir_entry.path = "/dir".toList ∧
    (∃ (st : httpd_status_t) (k : httpd_t) (rest : Bytes) (more : List Bytes),
      httpd_lookup_uri sample_env fresh ([page_entry] ++ dir_entry :: []) (cstr dir_entry.path) =
        some (st, k, [page_entry] ++ dir_entry :: []) ∧
      (st, k) = httpd_error sample_env fresh .ERRMODE_NONFATAL 404
        "Document not found.".toList ∧
      k.sent = fresh.sent ++
        (fresh.request.print_buf ++ "HTTP/1.1 404 Not Found\r\n".toList ++ rest) :: more) ∧
    (∃ (st : httpd_status_t) (k : httpd_t) (rest : Bytes) (more : List Bytes),
      httpd_lookup_uri sample_env fresh ([page_entry] ++ dir_entry :: [])
          (cstr dir_entry.path ++ ['/']) =
        some (st, k, [page_entry] ++ dir_entry :: []) ∧
      (st, k) = httpd_dirlist sample_env fresh ([page_entry] ++ dir_entry :: [])
        (cstr dir_entry.path ++ ['/']) ∧
      (st = .HS_SUCCESS_OPEN ∨ st = .HS_SUCCESS_CLOSE) ∧
      k.sent = fresh.sent ++
        (fresh.request.print_buf ++ "HTTP/1.1 200 OK\r\n".toList ++ rest) :: more) :=
  ⟨by decide, by decide,
    (C6_directory_lookup sample_env fresh [page_entry] dir_entry [] (by decide) (by decide)
      (by decide) (by decide) (by decide)).1 (by decide),
    (C6_directory_lookup sample_env fresh [page_entry] dir_entry [] (by decide) (by decide)
      (by decide) (by decide) (by decide)).2⟩

/-- C8. For an input without NUL bytes (every call of `percent_decode` passes
a piece of a C string), decoding succeeds, with or without `+` translation,
exactly when every `%` met outside an escape is followed within the input by
two characters of `0-9a-fA-F`; on success, without `+` translation, each such
`%XY` is replaced by the byte `16 * X + Y` (both cases of a digit alike) and
the other bytes are copied in order. `%41%42` decodes to `AB`; `%4`, `%4G`
and `%G1` fail. -/
theorem C8_percent_decode_spec :
    (∀ s : Bytes, NUL ∉ s →
      (∀ plus : Bool, (percent_decode s plus).isSome = well_escaped s) ∧
      (well_escaped s = true → percent_decode s false = some (unescape false s))) ∧
    percent_decode "%41%42".toList false = some "AB".toList ∧
    percent_decode "%4".toList false = none ∧
    percent_decode "%4G".toList false = none ∧
    percent_decode "%G1".toList false = none := by
  refine ⟨?_, by decide, by decide, by decide, by decide⟩
  intro s hs
  constructor
  · intro plus
    unfold percent_decode
    rw [percent_decode_loop_base plus s.length s (Nat.le_refl _) hs]
    split <;> simp_all
  · intro hw
    unfold percent_decode
    rw [percent_decode_loop_base false s.length s (Nat.le_refl _) hs]
    simp [hw]

/-- C8, witness: the property at a concrete input. -/
theorem C8_percent_decode_spec_witness :
    NUL ∉ "a%2Fb%7e".toList ∧ well_escaped "a%2Fb%7e".toList = true ∧
      percent_decode "a%2Fb%7e".toList false = some "a/b~".toList :=
  ⟨by decide, by decide,
    ((C8_percent_decode_spec.1 "a%2Fb%7e".toList (by decide)).2 (by decide)).trans (by decide)⟩

/-- C9. For every input the two modes fail on the same inputs; decoding with
`+` translation is decoding without it after every `+` of the input has been
turned into a space (a `+` inside an escape makes both fail, so these are the
literal ones); on a well-escaped input the two results are `unescape true`
and `unescape false`, which differ by the literal `+` only; an escaped `%2B`
between two decodable pieces yields `+` in both modes; without translation an
input free of `%` is returned unchanged; `a+b` gives `a b` with translation
and `a+b` without. -/
theorem C9_percent_decode_plus :
    (∀ s : Bytes, (percent_decode s true).isSome = (percent_decode s false).isSome) ∧
    (∀ s : Bytes, percent_decode s true = percent_decode (s.map plus_to_space) false) ∧
    (∀ s : Bytes, NUL ∉ s → well_escaped s = true →
      percent_decode s true = some (unescape true s) ∧
      percent_decode s false = some (unescape false s)) ∧
    (∀ (plus : Bool) (a b x y : Bytes),
      percent_decode a plus = some x → percent_decode b plus = some y →
      percent_decode (a ++ "%2B".toList ++ b) plus = some (x ++ ['+'] ++ y)) ∧
    (∀ s : Bytes, '%' ∉ s → percent_decode s false = some s) ∧
    percent_decode "a+b".toList true = some "a b".toList ∧
    percent_decode "a+b".toList false = some "a+b".toList := by
  refine ⟨?_, ?_, ?_, ?_, ?_, by decide, by decide⟩
  · intro s
    exact percent_decode_loop_isSome true false s _ _ _ _
  · intro s
    exact percent_decode_loop_plus s _ _ _
  · intro s hs hw
    unfold percent_decode
    rw [percent_decode_loop_base true s.length s (Nat.le_refl _) hs,
      percent_decode_loop_base false s.length s (Nat.le_refl _) hs]
    simp [hw]
  · intro plus a b x y ha hb
    unfold percent_decode at ha hb ⊢
    rw [List.append_assoc, percent_decode_loop_append plus a _ _ _ _ ha]
    have h3 : percent_decode_loop plus .PS_BASE 0 x ("%2B".toList ++ b) =
        percent_decode_loop plus .PS_BASE 2 (x ++ ['+']) b := by
      have e1 : hex_digit '2' = 2 := by decide
      have e2 : hex_digit 'B' = 11 := by decide
      have e3 : Char.ofNat (((2 : Int).toNat <<< 4 ||| (11 : Int).toNat) % 256) = '+' := by decide
      simp only [String.toList, List.cons_append, List.nil_append, percent_decode_loop, e1, e2]
      simp [e3]
    rw [h3, (percent_decode_loop_hex1 plus 2 0 b _).1, percent_decode_loop_acc, hb]
    simp
  · intro s hs
    simpa [percent_decode] using percent_decode_loop_plain s [] 0 hs

/-- C9, witness: the property at a concrete input. -/
theorem C9_percent_decode_plus_witness :
    (NUL ∉ "a+b%2Bc".toList ∧ well_escaped "a+b%2Bc".toList = true ∧
      percent_decode "a+b%2Bc".toList true = some "a b+c".toList ∧
      percent_decode "a+b%2Bc".toList false = some "a+b+c".toList) ∧
    (percent_decode "x+".toList true = some "x ".toList ∧
      percent_decode "+y".toList true = some " y".toList ∧
      percent_decode "x+%2B+y".toList true = some "x + y".toList) ∧
    ('%' ∉ "a+b".toList ∧ percent_decode "a+b".toList false = some "a+b".toList) :=
  ⟨⟨by decide, by decide,
      (C9_percent_decode_plus.2.2.1 "a+b%2Bc".toList (by decide) (by decide)).1.trans (by decide),
      (C9_percent_decode_plus.2.2.1 "a+b%2Bc".toList (by decide) (by decide)).2.trans (by decide)⟩,
    ⟨by decide, by decide,
      C9_percent_decode_plus.2.2.2.1 true "x+".toList "+y".toList "x ".toList " y".toList
        (by decide) (by decide)⟩,
    ⟨by decide, C9_percent_decode_plus.2.2.2.2.1 "a+b".toList (by decide)⟩⟩

/-- C10. `html_quote` of the C string `t` is `t` with `&`, `<`, `>` and the
double quote replaced by `&amp;`, `&lt;`, `&gt;` and `&quot;`, every other
character unchanged in order; the result contains no `<`, `>` or double
quote; and the quoted form of `<a&b>` followed by a double quote is
`&lt;a&amp;b&gt;&quot;`. -/
theorem C10_html_quote :
    (∀ t : Bytes, html_quote t = (cstr t).flatMap html_quote_char) ∧
    (∀ t : Bytes, NUL ∉ t → html_quote t = t.flatMap html_quote_char) ∧
    (∀ t : Bytes, '<' ∉ html_quote t ∧ '>' ∉ html_quote t ∧ DQUOTE ∉ html_quote t) ∧
    html_quote ("<a&b>".toList ++ [DQUOTE]) = "&lt;a&amp;b&gt;&quot;".toList := by
  refine ⟨html_quote_eq_flatMap, ?_, ?_, by decide⟩
  · intro t ht
    rw [html_quote_eq_flatMap, cstr_of_no_nul t ht]
  · intro t
    rw [html_quote_eq_flatMap]
    simp only [List.mem_flatMap, not_exists, not_and]
    exact ⟨fun c _ => html_quote_char_clean c _ (Or.inl rfl),
      fun c _ => html_quote_char_clean c _ (Or.inr (Or.inl rfl)),
      fun c _ => html_quote_char_clean c _ (Or.inr (Or.inr rfl))⟩

/-- C10, witness: the property at a concrete input. -/
theorem C10_html_quote_witness :
    NUL ∉ "a<b".toList ∧ html_quote "a<b".toList = "a&lt;b".toList :=
  ⟨by decide, (C10_html_quote.2.1 "a<b".toList (by decide)).trans (by decide)⟩

/-- C11. A byte that has to be stored (it is not the newline after a CR)
when `nr` has reached 8191 is answered with the error `The request is too
big.`: the result is `HS_ERROR_CLOSE`, the reply starts with the status line
`HTTP/1.1 400 Bad Request` when the request line has been seen and is sent
without HTTP header (one buffer that starts with a blank line and the
document) when it has not. While `nr` is below 8191 the byte is stored and
the function goes on to one of its other four returns. With callbacks that do
not return `HS_CONTINUE`, input that `httpd_input` answers with
`HS_CONTINUE` raises `nr` by the number of its bytes after CR/LF
normalization; so, on a new connection, the byte that follows such input is
refused as too big exactly when the normalized input up to and including
that byte is longer than 8191 bytes, and a request of at most 8191
normalized bytes is never refused as too big. -/
theorem C11_request_too_big (env : Env) :
    (∀ (h : httpd_t) (regs : registry) (c : Char),
      ¬(h.cr = true ∧ c = '\n') → MAX_HTTPD_REQUEST ≤ h.request.nr →
      ∃ k : httpd_t, httpd_input_char env h regs c = some (.HS_ERROR_CLOSE, k, regs) ∧
        (h.request.saw_first = true → ∃ (rest : Bytes) (more : List Bytes),
          k = (httpd_error env { h with cr := (c = '\r') } .ERRMODE_FATAL 400
            "The request is too big.".toList).2 ∧
          k.sent = h.sent ++
            (h.request.print_buf ++ "HTTP/1.1 400 Bad Request\r\n".toList ++ rest) :: more) ∧
        (h.request.saw_first = false →
          k = (httpd_error env { h with cr := (c = '\r') } .ERRMODE_NON_HTTP 400
            "The request is too big.".toList).2 ∧
          (h.request.verb ≠ .VERB_HEAD → ∃ rest : Bytes, k.sent = h.sent ++
            [h.request.print_buf ++ ("\r\n".toList ++ (crlf (cstr doctype_line) ++ rest))]))) ∧
    (∀ (h : httpd_t) (regs : registry) (c : Char),
      ¬(h.cr = true ∧ c = '\n') → h.request.nr < MAX_HTTPD_REQUEST →
      (∃ rll, httpd_input_char env h regs c = some (.HS_CONTINUE,
          { stored h c with request := { (stored h c).request with rll := rll } }, regs)) ∨
      (∃ h2, h2.request.nr = h.request.nr + 1 ∧
        httpd_input_char env h regs c =
          some ((httpd_digest_request_line env h2).1, (httpd_digest_request_line env h2).2,
            regs)) ∨
      httpd_input_char env h regs c =
        some ((httpd_error env (stored h c) .ERRMODE_FATAL 400 "Missing request.".toList).1,
          (httpd_error env (stored h c) .ERRMODE_FATAL 400 "Missing request.".toList).2, regs) ∨
      (∃ h2, h2.request.nr = h.request.nr + 1 ∧
        httpd_input_char env h regs c = httpd_digest_request env h2 regs)) ∧
    ((∀ d s x r, (env.dyn d s x r).1 ≠ .HS_CONTINUE) →
      (∀ (data : Bytes) (h : httpd_t) (regs : registry) (h1 : httpd_t) (regs1 : registry),
        httpd_input env h regs data = some (.HS_CONTINUE, h1, regs1) →
        h1.request.nr = h.request.nr + (normalize h.cr data).length) ∧
      (∀ (dhandle mhandle seq : Nat) (regs : registry) (pre : Bytes) (c : Char) (h1 : httpd_t)
          (regs1 : registry),
        httpd_input env (httpd_new dhandle mhandle seq) regs pre =
          some (.HS_CONTINUE, h1, regs1) →
        ((¬(h1.cr = true ∧ c = '\n') ∧ MAX_HTTPD_REQUEST ≤ h1.request.nr) ↔
          MAX_HTTPD_REQUEST < (normalize false (pre ++ [c])).length))) := by
  refine ⟨?_, ?_, ?_⟩
  · intro h regs c hsw hnr
    rw [httpd_input_char_too_big env h regs c hsw hnr]
    cases hsf : h.request.saw_first
    · simp only [Bool.false_eq_true, if_false]
      refine ⟨(httpd_error env { h with cr := (c = '\r') } .ERRMODE_NON_HTTP 400
        "The request is too big.".toList).2, ?_, ?_, ?_⟩
      · rw [httpd_error_non_http_status]
      · intro hx; cases hx
      · intro _
        refine ⟨rfl, ?_⟩
        intro hv
        obtain ⟨rest, ot, e⟩ := httpd_verror_non_http env { h with cr := (c = '\r') } 400
          h.request.verb "The request is too big.".toList hv
        refine ⟨rest, ?_⟩
        unfold httpd_error
        simp only [e, with_output_sent]
    · simp only [if_true]
      refine ⟨(httpd_error env { h with cr := (c = '\r') } .ERRMODE_FATAL 400
        "The request is too big.".toList).2, ?_, ?_, ?_⟩
      · rw [httpd_error_fatal]
      · intro _
        obtain ⟨rest, more, hs⟩ := httpd_error_sent env { h with cr := (c = '\r') }
          .ERRMODE_FATAL 400 "The request is too big.".toList (by decide)
        rw [status_line_400] at hs
        exact ⟨rest, more, rfl, hs⟩
      · intro hx; cases hx
  · intro h regs c hsw hnr
    rcases httpd_input_char_store env h regs c hsw hnr with e | e | e | e
    · exact Or.inl e
    · exact Or.inr (Or.inl ⟨_, rfl, e⟩)
    · exact Or.inr (Or.inr (Or.inl e))
    · exact Or.inr (Or.inr (Or.inr ⟨_, rfl, e⟩))
  · intro hdyn
    constructor
    · intro data h regs h1 regs1 hr
      exact (httpd_input_loop_continue env hdyn data _ regs h1 regs1 hr).1
    · intro dhandle mhandle seq regs pre c h1 regs1 hr
      obtain ⟨a, b, _, _, e⟩ := httpd_input_loop_continue env hdyn pre _ regs h1 regs1 hr
      have a' : h1.request.nr = (normalize false pre).length := by
        rw [a]
        show 0 + (normalize false pre).length = _
        omega
      have b' : h1.cr = cr_after false pre := b
      have e' : h1.request.nr ≤ MAX_HTTPD_REQUEST :=
        e (show 0 ≤ MAX_HTTPD_REQUEST from Nat.zero_le _)
      rw [normalize_append, List.length_append, ← a', ← b']
      by_cases hsw : h1.cr = true ∧ c = '\n'
      · have : (normalize h1.cr [c]).length = 0 := by simp [normalize, hsw.1, hsw.2]
        rw [this]
        constructor
        · intro hx; exact absurd hsw hx.1
        · intro hx; omega
      · have hn : (h1.cr && decide (c = '\n')) = false := by
          cases hcr : h1.cr
          · simp
          · simp only [Bool.true_and, decide_eq_false_iff_not]
            exact fun e => hsw ⟨hcr, e⟩
        have : (normalize h1.cr [c]).length = 1 := by simp [normalize, hn]
        rw [this]
        constructor
        · intro hx; omega
        · intro hx; exact ⟨hsw, by omega⟩

set_option maxRecDepth 100000 in
/-- C11, witness: a full buffer before and after the request line, a byte
stored in a new connection, and the count after the first two lines of a
request. -/
theorem C11_request_too_big_witness :
    (∃ k : httpd_t, httpd_input_char sample_env (full_conn true) sample_registry 'x' =
        some (.HS_ERROR_CLOSE, k, sample_registry) ∧
      ((full_conn true).request.saw_first = true → ∃ (rest : Bytes) (more : List Bytes),
        k = (httpd_error sample_env { full_conn true with cr := ('x' = '\r') } .ERRMODE_FATAL 400
          "The request is too big.".toList).2 ∧
        k.sent = (full_conn true).sent ++
          ((full_conn true).request.print_buf ++ "HTTP/1.1 400 Bad Request\r\n".toList ++
            rest) :: more) ∧
      ((full_conn true).request.saw_first = false →
        k = (httpd_error sample_env { full_conn true with cr := ('x' = '\r') }
          .ERRMODE_NON_HTTP 400 "The request is too big.".toList).2 ∧
        ((full_conn true).request.verb ≠ .VERB_HEAD → ∃ rest : Bytes,
          k.sent = (full_conn true).sent ++
            [(full_conn true).request.print_buf ++
              ("\r\n".toList ++ (crlf (cstr doctype_line) ++ rest))]))) ∧
    (httpd_input_char sample_env (full_conn false) sample_registry 'x').map
      (fun r => (r.1, r.2.1.sent.map (List.take 11))) =
        some (.HS_ERROR_CLOSE, ["\r\n<!DOCTYPE".toList]) ∧
    (httpd_input_char sample_env (full_conn true) sample_registry 'x').map
      (fun r => (r.1, r.2.1.sent.head?.map (List.take 26))) =
        some (.HS_ERROR_CLOSE, some "HTTP/1.1 400 Bad Request\r\n".toList) ∧
    (result_conn (httpd_input sample_env fresh sample_registry
        "GET /p HTTP/1.1\r\nHost: abc\r\n".toList)).request.nr =
      fresh.request.nr + (normalize fresh.cr "GET /p HTTP/1.1\r\nHost: abc\r\n".toList).length ∧
    (normalize fresh.cr "GET /p HTTP/1.1\r\nHost: abc\r\n".toList).length = 26 ∧
    ((∃ rll, httpd_input_char sample_env fresh sample_registry 'G' = some (.HS_CONTINUE,
        { stored fresh 'G' with request := { (stored fresh 'G').request with rll := rll } },
        sample_registry)) ∨
      (∃ h2, h2.request.nr = fresh.request.nr + 1 ∧
        httpd_input_char sample_env fresh sample_registry 'G' =
          some ((httpd_digest_request_line sample_env h2).1,
            (httpd_digest_request_line sample_env h2).2, sample_registry)) ∨
      httpd_input_char sample_env fresh sample_registry 'G' =
        some ((httpd_error sample_env (stored fresh 'G') .ERRMODE_FATAL 400
            "Missing request.".toList).1,
          (httpd_error sample_env (stored fresh 'G') .ERRMODE_FATAL 400
            "Missing request.".toList).2, sample_registry) ∨
      (∃ h2, h2.request.nr = fresh.request.nr + 1 ∧
        httpd_input_char sample_env fresh sample_registry 'G' =
          httpd_digest_request sample_env h2 sample_registry)) ∧
    (((¬((result_conn (httpd_input sample_env (httpd_new 1 1 0) sample_registry
            "GET /p\r".toList)).cr = true ∧ '\n' = '\n') ∧
        MAX_HTTPD_REQUEST ≤ (result_conn (httpd_input sample_env (httpd_new 1 1 0)
          sample_registry "GET /p\r".toList)).request.nr) ↔
      MAX_HTTPD_REQUEST < (normalize false ("GET /p\r".toList ++ ['\n'])).length) ∧
      (normalize false ("GET /p\r".toList ++ ['\n'])).length = 7) :=
  ⟨(C11_request_too_big sample_env).1 (full_conn true) sample_registry 'x' (by decide)
      (by decide),
    by decide, by decide,
    ((C11_request_too_big sample_env).2.2 (fun _ _ _ _ => by simp [sample_env])).1
      "GET /p HTTP/1.1\r\nHost: abc\r\n".toList fresh sample_registry
      (result_conn (httpd_input sample_env fresh sample_registry
        "GET /p HTTP/1.1\r\nHost: abc\r\n".toList)) sample_registry (by decide),
    by decide,
    (C11_request_too_big sample_env).2.1 fresh sample_registry 'G' (by decide) (by decide),
    ((C11_request_too_big sample_env).2.2 (fun _ _ _ _ => by simp [sample_env])).2
      1 1 0 sample_registry "GET /p\r".toList '\n'
      (result_conn (httpd_input sample_env (httpd_new 1 1 0) sample_registry
        "GET /p\r".toList)) sample_registry (by decide),
    by decide⟩

/-- C12. For a request line in which `strtok` finds a verb token, a URI
token and a version token that passes the version test (and nothing more):
when the verb token is one of POST, PUT, DELETE, CONNECT, OPTIONS, TRACE the
request is rejected with the status line `HTTP/1.1 501 ...` (Fatal, result
`HS_ERROR_CLOSE`); when it is none of the eight known verbs, compared
exactly, it is rejected with `HTTP/1.1 400 Bad Request`; and the validator
returns `HS_CONTINUE` exactly when the verb token is `GET` or `HEAD`. For
every request line whatever, `HS_CONTINUE` is returned only when the first
token is `GET` or `HEAD`. -/
theorem C12_method_check (env : Env) :
    (∀ (h : httpd_t) (v u p : Nat) (b : Bytes) (major minor : Nat),
      isspace (buf_get h.request.request_buf 0) = false →
      request_line_tokens h.request.request_buf = (some v, some u, some p, none, b) →
      protocol_version env.erange (cstr (b.drop p)) = some (major, minor) →
      (cstr (b.drop v) ∈ ["POST".toList, "PUT".toList, "DELETE".toList, "CONNECT".toList,
          "OPTIONS".toList, "TRACE".toList] →
        ∃ (k : httpd_t) (rest : Bytes) (more : List Bytes),
          httpd_digest_request_line env h = (.HS_ERROR_CLOSE, k) ∧
          k.sent = h.sent ++
            (h.request.print_buf ++ "HTTP/1.1 501 Not implemented\r\n".toList ++ rest) ::
              more) ∧
      (cstr (b.drop v) ∉ known_verbs →
        ∃ (k : httpd_t) (rest : Bytes) (more : List Bytes),
          httpd_digest_request_line env h = (.HS_ERROR_CLOSE, k) ∧
          k.sent = h.sent ++
            (h.request.print_buf ++ "HTTP/1.1 400 Bad Request\r\n".toList ++ rest) :: more) ∧
      ((httpd_digest_request_line env h).1 = .HS_CONTINUE ↔
        (cstr (b.drop v) = "GET".toList ∨ cstr (b.drop v) = "HEAD".toList))) ∧
    (∀ h : httpd_t, (httpd_digest_request_line env h).1 = .HS_CONTINUE →
      ∃ v, (request_line_tokens h.request.request_buf).1 = some v ∧
        (cstr ((request_line_tokens h.request.request_buf).2.2.2.2.drop v) = "GET".toList ∨
          cstr ((request_line_tokens h.request.request_buf).2.2.2.2.drop v) =
            "HEAD".toList)) := by
  refine ⟨?_, httpd_digest_request_line_continue_verb env⟩
  intro h v u p b major minor hsp htok hver
  have heq := httpd_digest_request_line_versioned env h v u p b major minor hsp htok hver
  have hget : cstr "GET".toList = "GET".toList := by decide
  have hhead : cstr "HEAD".toList = "HEAD".toList := by decide
  have hg := strcmp_eq_lit (b.drop v) "GET".toList hget
  have hh := strcmp_eq_lit (b.drop v) "HEAD".toList hhead
  rw [known_verbs_any, hg, hh] at heq
  refine ⟨?_, ?_, ?_⟩
  · intro hm
    have hk : cstr (b.drop v) ∈ known_verbs := by
      revert hm; generalize cstr (b.drop v) = s; intro hm
      simp only [List.mem_cons, List.mem_singleton, List.not_mem_nil, or_false] at hm
      rcases hm with e | e | e | e | e | e <;> (rw [e]; decide)
    have hng : cstr (b.drop v) ≠ "GET".toList := by
      revert hm; generalize cstr (b.drop v) = s; intro hm e
      rw [e] at hm; revert hm; decide
    have hnh : cstr (b.drop v) ≠ "HEAD".toList := by
      revert hm; generalize cstr (b.drop v) = s; intro hm e
      rw [e] at hm; revert hm; decide
    simp only [hk, hng, hnh, decide_True, decide_False, Bool.not_true, Bool.false_eq_true,
      if_false] at heq
    obtain ⟨rest, more, hs⟩ := httpd_error_sent env { h with request := { h.request with
        request_buf := b, uri := some u, http_1_0 := (major = 1 && minor = 0),
        persistent := !(major = 1 && minor = 0) } } .ERRMODE_FATAL 501
      ("Unsupported verb '".toList ++ cstr (b.drop v) ++ "'.".toList) (by decide)
    rw [status_line_501] at hs
    refine ⟨_, rest, more, ?_, hs⟩
    rw [heq]
    exact Prod.ext (httpd_error_fatal _ _ _ _) rfl
  · intro hk
    simp only [hk, decide_False, Bool.not_false, if_true] at heq
    obtain ⟨rest, more, hs⟩ := httpd_error_sent env { h with request := { h.request with
        request_buf := b, uri := some u, http_1_0 := (major = 1 && minor = 0),
        persistent := !(major = 1 && minor = 0) } } .ERRMODE_FATAL 400
      ("Unknown verb '".toList ++ cstr (b.drop v) ++ "'.".toList) (by decide)
    rw [status_line_400] at hs
    refine ⟨_, rest, more, ?_, hs⟩
    rw [heq]
    exact Prod.ext (httpd_error_fatal _ _ _ _) rfl
  · constructor
    · intro hc
      obtain ⟨v2, hv2, hor⟩ := httpd_digest_request_line_continue_verb env h hc
      rw [htok] at hv2 hor
      simp only [Option.some.injEq] at hv2
      rw [← hv2] at hor
      exact hor
    · intro hor
      rw [heq]
      rcases hor with e | e
      · have hk : cstr (b.drop v) ∈ known_verbs := by rw [e]; decide
        rw [if_neg (by simp only [hk, decide_True]; decide),
          if_pos (by simp only [e, decide_True])]
      · have hk : cstr (b.drop v) ∈ known_verbs := by rw [e]; decide
        have hne : ¬ cstr (b.drop v) = "GET".toList := by rw [e]; decide
        rw [if_neg (by simp only [hk, decide_True]; decide),
          if_neg (by simp only [hne, decide_False]; decide),
          if_pos (by simp only [e, decide_True])]

set_option maxRecDepth 100000 in
/-- C12, witness: the request lines `POST /x HTTP/1.1`, `FOO /x HTTP/1.1` and
`HEAD /x HTTP/1.1`, and the first two fed to a fresh connection. -/
theorem C12_method_check_witness :
    (∃ (k : httpd_t) (rest : Bytes) (more : List Bytes),
      httpd_digest_request_line sample_env (line_state "POST /x HTTP/1.1".toList) =
        (.HS_ERROR_CLOSE, k) ∧
      k.sent = (line_state "POST /x HTTP/1.1".toList).sent ++
        ((line_state "POST /x HTTP/1.1".toList).request.print_buf ++
          "HTTP/1.1 501 Not implemented\r\n".toList ++ rest) :: more) ∧
    (∃ (k : httpd_t) (rest : Bytes) (more : List Bytes),
      httpd_digest_request_line sample_env (line_state "FOO /x HTTP/1.1".toList) =
        (.HS_ERROR_CLOSE, k) ∧
      k.sent = (line_state "FOO /x HTTP/1.1".toList).sent ++
        ((line_state "FOO /x HTTP/1.1".toList).request.print_buf ++
          "HTTP/1.1 400 Bad Request\r\n".toList ++ rest) :: more) ∧
    (httpd_digest_request_line sample_env (line_state "HEAD /x HTTP/1.1".toList)).1 =
      .HS_CONTINUE ∧
    (httpd_input sample_env fresh sample_registry
        "POST /x HTTP/1.1\r\nHost: h\r\n\r\n".toList).map
      (fun r => (r.1, r.2.1.sent.head?.map (List.take 30))) =
        some (.HS_ERROR_CLOSE, some "HTTP/1.1 501 Not implemented\r\n".toList) ∧
    (httpd_input sample_env fresh sample_registry
        "FOO /x HTTP/1.1\r\nHost: h\r\n\r\n".toList).map
      (fun r => (r.1, r.2.1.sent.head?.map (List.take 26))) =
        some (.HS_ERROR_CLOSE, some "HTTP/1.1 400 Bad Request\r\n".toList) :=
  ⟨((C12_method_check sample_env).1 (line_state "POST /x HTTP/1.1".toList) 0 5 8
      ("POST".toList ++ [NUL] ++ "/x".toList ++ [NUL] ++ "HTTP/1.1".toList ++ [NUL]) 1 1
      (by decide) (by decide) (by decide)).1 (by decide),
    ((C12_method_check sample_env).1 (line_state "FOO /x HTTP/1.1".toList) 0 4 7
      ("FOO".toList ++ [NUL] ++ "/x".toList ++ [NUL] ++ "HTTP/1.1".toList ++ [NUL]) 1 1
      (by decide) (by decide) (by decide)).2.1 (by decide),
    ((C12_method_check sample_env).1 (line_state "HEAD /x HTTP/1.1".toList) 0 5 8
      ("HEAD".toList ++ [NUL] ++ "/x".toList ++ [NUL] ++ "HTTP/1.1".toList ++ [NUL]) 1 1
      (by decide) (by decide) (by decide)).2.2.2 (Or.inr (by decide)),
    by decide, by decide⟩

set_option maxRecDepth 100000 in
/-- C13 (defect in the code). A request line of two tokens, `GET /x`, is
taken as HTTP/1.0 and leaves the persistence flag off, and the requests
`GET /p` (also with a header `Connection: keep-alive`) and `GET /x` on the
sample registry end with a Close result. But the request `GET /dyn` for an
entry that is busy with another connection is answered `409 Conflict` with
the result `HS_ERROR_OPEN`: `httpd_reply` returns that constant on its busy
path instead of the result of `httpd_error`, so the connection stays open
although the request is not persistent. -/
theorem C13_no_version_busy_stays_open :
    ((httpd_digest_request_line sample_env (line_state "GET /x".toList)).1 = .HS_CONTINUE ∧
      (httpd_digest_request_line sample_env (line_state "GET /x".toList)).2.request.http_1_0 =
        true ∧
      (httpd_digest_request_line sample_env (line_state "GET /x".toList)).2.request.persistent =
        false) ∧
    (httpd_input sample_env fresh sample_registry "GET /p\r\n\r\n".toList).map
      (fun r => (r.1, r.2.1.sent.head?.map (List.take 17))) =
        some (.HS_SUCCESS_CLOSE, some "HTTP/1.1 200 OK\r\n".toList) ∧
    (httpd_input sample_env fresh sample_registry
        "GET /p\r\nConnection: keep-alive\r\n\r\n".toList).map
      (fun r => (r.1, r.2.1.sent.head?.map (List.take 17))) =
        some (.HS_SUCCESS_CLOSE, some "HTTP/1.1 200 OK\r\n".toList) ∧
    (httpd_input sample_env fresh sample_registry "GET /x\r\n\r\n".toList).map
      (fun r => (r.1, r.2.1.sent.head?.map (List.take 24))) =
        some (.HS_SUCCESS_CLOSE, some "HTTP/1.1 404 Not Found\r\n".toList) ∧
    (httpd_input sample_env fresh [busy_entry] "GET /dyn\r\n\r\n".toList).map
      (fun r => (r.1, r.2.1.sent.head?.map (List.take 23), r.2.2)) =
        some (.HS_ERROR_OPEN, some "HTTP/1.1 409 Conflict\r\n".toList, [busy_entry]) ∧
    (httpd_input sample_env fresh [busy_entry]
        "GET /dyn\r\nConnection: close\r\n\r\n".toList).map
      (fun r => (r.1, r.2.1.sent.head?.map (List.take 23))) =
        some (.HS_ERROR_OPEN, some "HTTP/1.1 409 Conflict\r\n".toList) := by
  refine ⟨⟨?_, ?_, ?_⟩, ?_, ?_, ?_, ?_, ?_⟩ <;> decide

set_option maxRecDepth 100000 in
/-- C14, counterexample. The third tokens `http/1.1` (lower case) and
`HTTP/+1.1` (a sign before the number) are accepted although they are not
`HTTP/` followed by digits, a dot and digits, and the token
`HTTP/99999999999999999999.1`, which has that shape, is rejected because
its first number does not fit an `unsigned long`. The token
`HTTP/18446744073709551615.1`, whose first number is `ULONG_MAX`, is
accepted while `errno` does not read `ERANGE` and rejected when it does. -/
theorem C14_version_token_not_exact :
    (httpd_digest_request_line sample_env (line_state "GET /p http/1.1".toList)).1 =
      .HS_CONTINUE ∧
    (httpd_digest_request_line sample_env (line_state "GET /p HTTP/+1.1".toList)).1 =
      .HS_CONTINUE ∧
    (httpd_digest_request_line sample_env
      (line_state "GET /p HTTP/99999999999999999999.1".toList)).1 = .HS_ERROR_CLOSE ∧
    (httpd_digest_request_line sample_env
      (line_state "GET /p HTTP/18446744073709551615.1".toList)).1 = .HS_CONTINUE ∧
    (httpd_digest_request_line { sample_env with erange := true }
      (line_state "GET /p HTTP/18446744073709551615.1".toList)).1 = .HS_ERROR_CLOSE := by
  refine ⟨?_, ?_, ?_, ?_, ?_⟩ <;> decide

/-- C14 (as amended). For a request line in which `strtok` finds three
tokens: when the third token fails the version test the line is rejected
with the 400 error `Invalid protocol`, not wrapped in HTTP, result
`HS_ERROR_CLOSE`; when it passes, a line whose first token is `GET` or `HEAD`
is let through with the HTTP/1.0 flag set exactly for version 1.0. The
version test accepts `HTTP/` in any letter case followed by a non-empty run
of digits, a dot and a non-empty run of digits, both numbers at most
`ULONG_MAX` and, when `errno` reads `ERANGE` on entry (the code tests `errno`
without clearing it), both below `ULONG_MAX`. It rejects a token that does
not begin with `HTTP/` in some letter case, a token in which no number
follows `HTTP/`, a token whose first number is followed by something other
than a dot, a token in which no number follows the dot, and a token whose
first number is above `ULONG_MAX`, or equal to it while `errno` reads
`ERANGE`. -/
theorem C14_version_token (env : Env) :
    (∀ (h : httpd_t) (v u p : Nat) (b : Bytes),
      isspace (buf_get h.request.request_buf 0) = false →
      request_line_tokens h.request.request_buf = (some v, some u, some p, none, b) →
      (protocol_version env.erange (cstr (b.drop p)) = none →
        (∃ h2 : httpd_t, h2.sent = h.sent ∧
          httpd_digest_request_line env h = httpd_error env h2 .ERRMODE_NON_HTTP 400
            ("Invalid protocol '".toList ++ cstr (b.drop p) ++ "'.".toList)) ∧
        (httpd_digest_request_line env h).1 = .HS_ERROR_CLOSE ∧
        (cstr (b.drop v) ≠ "HEAD".toList → h.request.verb ≠ .VERB_HEAD →
          ∃ rest : Bytes, (httpd_digest_request_line env h).2.sent = h.sent ++
            [h.request.print_buf ++ ("\r\n".toList ++ (crlf (cstr doctype_line) ++ rest))])) ∧
      (∀ major minor : Nat, protocol_version env.erange (cstr (b.drop p)) = some (major, minor) →
        (cstr (b.drop v) = "GET".toList ∨ cstr (b.drop v) = "HEAD".toList) →
        ∃ h1 : httpd_t, httpd_digest_request_line env h = (.HS_CONTINUE, h1) ∧
          h1.request.http_1_0 = (major = 1 && minor = 0) ∧
          h1.request.persistent = !(major = 1 && minor = 0))) ∧
    (∀ p a b : Bytes, p.map tolower = "http/".toList →
      a ≠ [] → (∀ c ∈ a, isdigit c = true) → digits_value a ≤ ULONG_MAX →
      (env.erange = true → digits_value a ≠ ULONG_MAX) →
      b ≠ [] → (∀ c ∈ b, isdigit c = true) → digits_value b ≤ ULONG_MAX →
      (env.erange = true → digits_value b ≠ ULONG_MAX) →
      protocol_version env.erange (p ++ a ++ '.' :: b) =
        some (digits_value a, digits_value b)) ∧
    (∀ tok : Bytes, ((cstr tok).take 5).map tolower ≠ "http/".toList →
      protocol_version env.erange tok = none) ∧
    (∀ p r : Bytes, p.map tolower = "http/".toList →
      (∀ c, r.head? = some c → isspace c = false) → starts_number r = false →
      protocol_version env.erange (p ++ r) = none) ∧
    (∀ p a r : Bytes, p.map tolower = "http/".toList →
      a ≠ [] → (∀ c ∈ a, isdigit c = true) →
      (∀ c, r.head? = some c → isdigit c = false ∧ c ≠ '.') →
      protocol_version env.erange (p ++ a ++ r) = none) ∧
    (∀ p a r : Bytes, p.map tolower = "http/".toList →
      a ≠ [] → (∀ c ∈ a, isdigit c = true) →
      (∀ c, r.head? = some c → isspace c = false) → starts_number r = false →
      protocol_version env.erange (p ++ a ++ '.' :: r) = none) ∧
    (∀ p a r : Bytes, p.map tolower = "http/".toList →
      a ≠ [] → (∀ c ∈ a, isdigit c = true) →
      (∀ c, r.head? = some c → isdigit c = false) →
      (ULONG_MAX < digits_value a ∨ (env.erange = true ∧ digits_value a = ULONG_MAX)) →
      protocol_version env.erange (p ++ a ++ r) = none) := by
  refine ⟨?_, protocol_version_accept env.erange, protocol_version_reject_token env.erange,
    protocol_version_reject_major env.erange, protocol_version_reject_dot env.erange,
    protocol_version_reject_minor env.erange, protocol_version_reject_range env.erange⟩
  intro h v u p b hsp htok
  have hhead : cstr "HEAD".toList = "HEAD".toList := by decide
  have hget : cstr "GET".toList = "GET".toList := by decide
  constructor
  · intro hver
    have heq := httpd_digest_request_line_bad_version env h v u p b hsp htok hver
    refine ⟨⟨_, ?_, heq⟩, ?_, ?_⟩
    · split <;> rfl
    · rw [heq, httpd_error_non_http_status]
    · intro hnh hv
      rw [strcmp_eq_lit _ _ hhead] at heq
      simp only [hnh, decide_False, Bool.false_eq_true, if_false] at heq
      obtain ⟨rest, ot, e⟩ := httpd_verror_non_http env
        { h with request := { h.request with request_buf := b, uri := some u } } 400
        h.request.verb ("Invalid protocol '".toList ++ cstr (b.drop p) ++ "'.".toList) hv
      refine ⟨rest, ?_⟩
      rw [heq]
      unfold httpd_error
      simp only [e, with_output_sent]
  · intro major minor hver hor
    have heq := httpd_digest_request_line_versioned env h v u p b major minor hsp htok hver
    rw [known_verbs_any, strcmp_eq_lit _ _ hget, strcmp_eq_lit _ _ hhead] at heq
    rcases hor with e | e
    · have hk : cstr (b.drop v) ∈ known_verbs := by rw [e]; decide
      rw [if_neg (by simp only [hk, decide_True]; decide),
        if_pos (by simp only [e, decide_True])] at heq
      exact ⟨_, heq, rfl, rfl⟩
    · have hk : cstr (b.drop v) ∈ known_verbs := by rw [e]; decide
      have hne : ¬ cstr (b.drop v) = "GET".toList := by rw [e]; decide
      rw [if_neg (by simp only [hk, decide_True]; decide),
        if_neg (by simp only [hne, decide_False]; decide),
        if_pos (by simp only [e, decide_True])] at heq
      exact ⟨_, heq, rfl, rfl⟩

set_option maxRecDepth 100000 in
/-- C14, witness: the request lines `GET /p HTTX/1.1` and `GET /p HTTP/1.0`,
and the tokens `hTTp/1.1`, `HTTX/1.1`, `HTTP/x.1`, `HTTP/1x1`, `HTTP/1.` and
`HTTP/99999999999999999999.1`. -/
theorem C14_version_token_witness :
    ((∃ h2 : httpd_t, h2.sent = (line_state "GET /p HTTX/1.1".toList).sent ∧
        httpd_digest_request_line sample_env (line_state "GET /p HTTX/1.1".toList) =
          httpd_error sample_env h2 .ERRMODE_NON_HTTP 400
            ("Invalid protocol '".toList ++
              cstr (("GET".toList ++ [NUL] ++ "/p".toList ++ [NUL] ++ "HTTX/1.1".toList ++
                [NUL]).drop 7) ++ "'.".toList)) ∧
      (httpd_digest_request_line sample_env (line_state "GET /p HTTX/1.1".toList)).1 =
        .HS_ERROR_CLOSE) ∧
    (∃ h1 : httpd_t,
      httpd_digest_request_line sample_env (line_state "GET /p HTTP/1.0".toList) =
        (.HS_CONTINUE, h1) ∧
      h1.request.http_1_0 = ((1 : Nat) = 1 && (0 : Nat) = 0) ∧
      h1.request.persistent = !((1 : Nat) = 1 && (0 : Nat) = 0)) ∧
    protocol_version sample_env.erange ("hTTp/".toList ++ "1".toList ++ '.' :: "1".toList) =
      some (digits_value "1".toList, digits_value "1".toList) ∧
    protocol_version sample_env.erange "HTTX/1.1".toList = none ∧
    protocol_version sample_env.erange ("HTTP/".toList ++ "x.1".toList) = none ∧
    protocol_version sample_env.erange ("HTTP/".toList ++ "1".toList ++ "x1".toList) = none ∧
    protocol_version sample_env.erange ("HTTP/".toList ++ "1".toList ++ '.' :: []) = none ∧
    protocol_version sample_env.erange
      ("HTTP/".toList ++ "99999999999999999999".toList ++ ".1".toList) = none :=
  ⟨⟨(((C14_version_token sample_env).1 (line_state "GET /p HTTX/1.1".toList) 0 4 7
        ("GET".toList ++ [NUL] ++ "/p".toList ++ [NUL] ++ "HTTX/1.1".toList ++ [NUL])
        (by decide) (by decide)).1 (by decide)).1,
      (((C14_version_token sample_env).1 (line_state "GET /p HTTX/1.1".toList) 0 4 7
        ("GET".toList ++ [NUL] ++ "/p".toList ++ [NUL] ++ "HTTX/1.1".toList ++ [NUL])
        (by decide) (by decide)).1 (by decide)).2.1⟩,
    ((C14_version_token sample_env).1 (line_state "GET /p HTTP/1.0".toList) 0 4 7
      ("GET".toList ++ [NUL] ++ "/p".toList ++ [NUL] ++ "HTTP/1.0".toList ++ [NUL])
      (by decide) (by decide)).2 1 0 (by decide) (Or.inl (by decide)),
    (C14_version_token sample_env).2.1 "hTTp/".toList "1".toList "1".toList (by decide)
      (by decide) (by decide) (by decide) (by decide) (by decide) (by decide) (by decide)
      (by decide),
    (C14_version_token sample_env).2.2.1 "HTTX/1.1".toList (by decide),
    (C14_version_token sample_env).2.2.2.1 "HTTP/".toList "x.1".toList (by decide)
      (fun c hc => by cases hc; decide) (by decide),
    (C14_version_token sample_env).2.2.2.2.1 "HTTP/".toList "1".toList "x1".toList (by decide)
      (by decide) (by decide) (fun c hc => by cases hc; decide),
    (C14_version_token sample_env).2.2.2.2.2.1 "HTTP/".toList "1".toList [] (by decide)
      (by decide) (by decide) (fun c hc => by cases hc) (by decide),
    (C14_version_token sample_env).2.2.2.2.2.2 "HTTP/".toList "99999999999999999999".toList
      ".1".toList (by decide) (by decide) (by decide) (fun c hc => by cases hc; decide)
      (Or.inl (by decide))⟩

set_option maxRecDepth 100000 in
/-- C15 (defect in the code). On the sample registry the request for the
origin form `/p` is answered `200 OK` with the body `hello`, but the request
for the absolute form `http://abc/p` is answered `404 Not Found`:
`httpd_digest_request` finds the path behind the authority (`uri = slash`)
and then calls `httpd_lookup_uri` with `cand_uri`, the whole decoded URI, so
the authority is not ignored and no entry can match. A URI that is neither
of the two forms (`p`, `ftp://abc/p`) and an absolute form without a path
(`http://abc`) are rejected with 400. -/
theorem C15_absolute_uri_not_found :
    (httpd_input sample_env fresh sample_registry "GET /p HTTP/1.0\r\n\r\n".toList).map
      (fun r => (r.1, r.2.1.sent.head?.map (List.take 17), r.2.1.sent.getLast?)) =
        some (.HS_SUCCESS_CLOSE, some "HTTP/1.1 200 OK\r\n".toList, some "hello".toList) ∧
    (httpd_input sample_env fresh sample_registry
        "GET http://abc/p HTTP/1.0\r\n\r\n".toList).map
      (fun r => (r.1, r.2.1.sent.head?.map (List.take 24))) =
        some (.HS_SUCCESS_CLOSE, some "HTTP/1.1 404 Not Found\r\n".toList) ∧
    (httpd_digest_request_head sample_env
        (digest_state ("GET".toList ++ [NUL] ++ "http://abc/p".toList ++ [NUL] ++
          "HTTP/1.0".toList ++ [NUL] ++ "\n".toList ++ [NUL]) 4 26 true false)).map
      (fun r => dispatched_uri (some r)) = some "http://abc/p".toList ∧
    (httpd_input sample_env fresh sample_registry "GET p HTTP/1.0\r\n\r\n".toList).map
      (fun r => (r.1, r.2.1.sent.head?.map (List.take 26))) =
        some (.HS_ERROR_CLOSE, some "HTTP/1.1 400 Bad Request\r\n".toList) ∧
    (httpd_input sample_env fresh sample_registry
        "GET ftp://abc/p HTTP/1.0\r\n\r\n".toList).map
      (fun r => (r.1, r.2.1.sent.head?.map (List.take 26))) =
        some (.HS_ERROR_CLOSE, some "HTTP/1.1 400 Bad Request\r\n".toList) ∧
    (httpd_input sample_env fresh sample_registry
        "GET http://abc HTTP/1.0\r\n\r\n".toList).map
      (fun r => (r.1, r.2.1.sent.head?.map (List.take 26))) =
        some (.HS_ERROR_CLOSE, some "HTTP/1.1 400 Bad Request\r\n".toList) := by
  refine ⟨?_, ?_, ?_, ?_, ?_, ?_⟩ <;> decide

/-- C16 (defect in the code). `httpd_valid_path` accepts exactly the paths
that begin with a slash and have no two consecutive slashes: the test `c ==
'/'` after the loop, meant to refuse a trailing slash, reads the NUL that
ended the loop and never holds, so `/a/` and `/dir/sub/` are accepted and
`httpd_register_fixed` registers an entry at `/a/`. The rest holds: every
registration function returns a null handle and the registry unchanged for
a refused path, and puts one new entry in front of the unchanged entries for
an accepted one. -/
theorem C16_trailing_slash_accepted :
    (∀ path : Bytes, httpd_valid_path path =
      ((cstr path).head? = some '/' && no_double_slash (cstr path))) ∧
    httpd_valid_path "/a/".toList = true ∧
    httpd_valid_path "/dir/sub/".toList = true ∧
    httpd_valid_path "/".toList = true ∧
    httpd_valid_path "/a".toList = true ∧
    httpd_valid_path "/a/b".toList = true ∧
    httpd_valid_path "".toList = false ∧
    httpd_valid_path "a".toList = false ∧
    httpd_valid_path "//".toList = false ∧
    httpd_valid_path "/a//b".toList = false ∧
    (httpd_register_fixed sample_registry "/a/".toList "d".toList .CT_TEXT "text/plain".toList 0
        "x".toList).1 = some 2 ∧
    (httpd_register_fixed sample_registry "/a/".toList "d".toList .CT_TEXT "text/plain".toList 0
        "x".toList).2.map (fun e => e.path) = ["/a/".toList, "/p".toList, "/dir".toList] ∧
    (∀ (regs : registry) (path desc : Bytes) (ct : content_t) (cs : Bytes) (fl : Nat)
        (fixed : Bytes),
      httpd_register_fixed regs path desc ct cs fl fixed =
        if httpd_valid_path path then
          (some regs.length, { httpd_reg_zero with
            path := path, desc := desc, type := .OR_FIXED, content_type := ct,
            content_str := cs, flags := fl, fixed := fixed } :: regs)
        else (none, regs)) ∧
    (∀ (regs : registry) (path desc : Bytes) (ct : content_t) (cs : Bytes) (fl : Nat)
        (fixed : Bytes) (len : Nat),
      httpd_register_fixed_binary regs path desc ct cs fl fixed len =
        if httpd_valid_path path then
          (some regs.length, { httpd_reg_zero with
            path := path, desc := desc, type := .OR_FIXED_BINARY, content_type := ct,
            content_str := cs, flags := fl, fixed_binary := fixed,
            fixed_binary_length := len } :: regs)
        else (none, regs)) ∧
    (∀ (regs : registry) (path desc : Bytes),
      httpd_register_dir regs path desc =
        if httpd_valid_path path then
          (some regs.length,
            { httpd_reg_zero with path := path, desc := desc, type := .OR_DIR } :: regs)
        else (none, regs)) ∧
    (∀ (regs : registry) (path desc : Bytes) (ct : content_t) (cs : Bytes) (fl : Nat)
        (dyn : Nat),
      httpd_register_dyn_term regs path desc ct cs fl dyn =
        if httpd_valid_path path then
          (some regs.length, { httpd_reg_zero with
            path := path, desc := desc, type := .OR_DYN_TERM, content_type := ct,
            content_str := cs, flags := fl, dyn := dyn } :: regs)
        else (none, regs)) ∧
    (∀ (regs : registry) (path desc : Bytes) (ct : content_t) (cs : Bytes) (fl : Nat)
        (dyn : Nat),
      httpd_register_dyn_nonterm regs path desc ct cs fl dyn =
        if httpd_valid_path path then
          (some regs.length, { httpd_reg_zero with
            path := path, desc := desc, type := .OR_DYN_NONTERM, content_type := ct,
            content_str := cs, flags := fl, dyn := dyn } :: regs)
        else (none, regs)) := by
  refine ⟨httpd_valid_path_iff, by decide, by decide, by decide, by decide, by decide,
    by decide, by decide, by decide, by decide, by decide, by decide, ?_, ?_, ?_, ?_, ?_⟩
  · intro regs path desc ct cs fl fixed
    unfold httpd_register_fixed
    cases httpd_valid_path path <;> rfl
  · intro regs path desc ct cs fl fixed len
    unfold httpd_register_fixed_binary
    cases httpd_valid_path path <;> rfl
  · intro regs path desc
    unfold httpd_register_dir
    cases httpd_valid_path path <;> rfl
  · intro regs path desc ct cs fl dyn
    unfold httpd_register_dyn_term httpd_register_dyn
    cases httpd_valid_path path <;> rfl
  · intro regs path desc ct cs fl dyn
    unfold httpd_register_dyn_nonterm httpd_register_dyn
    cases httpd_valid_path path <;> rfl

set_option maxRecDepth 100000 in
/-- C17, counterexample. The directory entry at `/dir` of the sample registry
matches the URI `/dir`, and the lookup of `/dir` for a request without Host
field is answered `404 Not Found` all the same (by `httpd_redirect`). -/
theorem C17_directory_match_answers_404 :
    entry_matches dir_entry "/dir".toList = true ∧ dir_entry ∈ sample_registry ∧
    (httpd_lookup_uri sample_env fresh sample_registry "/dir".toList).map
      (fun r => (r.1, r.2.1.sent.head?.map (List.take 24))) =
        some (.HS_ERROR_OPEN, some "HTTP/1.1 404 Not Found\r\n".toList) := by
  refine ⟨?_, ?_, ?_⟩ <;> decide

/-- C17 (as amended). For a decoded URI other than `/` and `//`: when the
registry is `before ++ reg :: after` (`before` holds the entries registered
after `reg`), no entry of `before` matches the URI and `reg` does,
`httpd_lookup_uri` acts on `reg`: it calls `httpd_redirect` for a directory
whose path equals the URI, `httpd_dirlist` for a directory matched with a
trailing slash, and `httpd_reply` on `reg` for the other kinds. When no
entry matches, it answers with the reply of `httpd_notfound`, status line
`HTTP/1.1 404 Not Found`. Every registry is in one of the two cases. -/
theorem C17_lookup_first_match (env : Env) (h : httpd_t) (uri : Bytes)
    (hroot1 : cstr uri ≠ "/".toList) (hroot2 : cstr uri ≠ "//".toList) :
    (∀ (before : List httpd_reg_t) (reg : httpd_reg_t) (after : List httpd_reg_t),
      (∀ e ∈ before, entry_matches e uri = false) → entry_matches reg uri = true →
      (reg.type = .OR_DIR → strcmp_eq uri reg.path = true →
        httpd_lookup_uri env h (before ++ reg :: after) uri =
          (httpd_redirect env h uri).map (fun r => (r.1, r.2, before ++ reg :: after))) ∧
      (reg.type = .OR_DIR → strcmp_eq uri reg.path = false →
        httpd_lookup_uri env h (before ++ reg :: after) uri =
          some ((httpd_dirlist env h (before ++ reg :: after) uri).1,
            (httpd_dirlist env h (before ++ reg :: after) uri).2, before ++ reg :: after)) ∧
      (reg.type ≠ .OR_DIR →
        httpd_lookup_uri env h (before ++ reg :: after) uri =
          httpd_reply env h (before ++ reg :: after) after.length uri ∧
        reg_deref (before ++ reg :: after) after.length = some reg)) ∧
    (∀ regs : registry, (∀ e ∈ regs, entry_matches e uri = false) →
      httpd_lookup_uri env h regs uri =
        some ((httpd_notfound env h uri).1, (httpd_notfound env h uri).2, regs) ∧
      ((httpd_notfound env h uri).1 = .HS_SUCCESS_OPEN ∨
        (httpd_notfound env h uri).1 = .HS_SUCCESS_CLOSE) ∧
      ∃ (rest : Bytes) (more : List Bytes), (httpd_notfound env h uri).2.sent = h.sent ++
        (h.request.print_buf ++ "HTTP/1.1 404 Not Found\r\n".toList ++ rest) :: more) ∧
    (∀ regs : registry,
      (∀ e ∈ regs, entry_matches e uri = false) ∨
      ∃ (before : List httpd_reg_t) (reg : httpd_reg_t) (after : List httpd_reg_t),
        regs = before ++ reg :: after ∧ (∀ e ∈ before, entry_matches e uri = false) ∧
          entry_matches reg uri = true) := by
  refine ⟨?_, ?_, first_match_or_none uri⟩
  · intro before reg after hno hm
    have hl : httpd_lookup_uri env h (before ++ reg :: after) uri =
        httpd_lookup_loop env h (before ++ reg :: after) uri (reg :: after) := by
      rw [httpd_lookup_uri_loop env h _ uri hroot1 hroot2,
        httpd_lookup_loop_skip env h _ uri before _ hno]
    refine ⟨?_, ?_, ?_⟩
    · intro ht hs
      rw [hl, httpd_lookup_loop]
      simp only [ht, hs, if_true]
    · intro ht hs
      have hd : dir_slash_match reg uri = true := by
        unfold entry_matches at hm
        rw [ht] at hm
        simpa [hs] using hm
      rw [hl, httpd_lookup_loop]
      simp only [ht, hs, hd, if_true, Bool.false_eq_true, if_false]
    · intro ht
      refine ⟨?_, ?_⟩
      · rw [hl, httpd_lookup_loop_cons env h _ uri reg after ht, hm, if_pos rfl]
      · unfold reg_deref
        simp only [List.length_append, List.length_cons]
        rw [if_pos (by omega)]
        have : before.length + (after.length + 1) - 1 - after.length = before.length := by omega
        rw [this, List.get?_eq_getElem?, List.getElem?_append_right (Nat.le_refl _)]
        simp
  · intro regs hno
    refine ⟨?_, httpd_notfound_spec env h uri⟩
    rw [httpd_lookup_uri_loop env h _ uri hroot1 hroot2]
    have := httpd_lookup_loop_skip env h regs uri regs [] hno
    rw [List.append_nil] at this
    rw [this, httpd_lookup_loop]

set_option maxRecDepth 100000 in
/-- C17, witness: a second entry registered at `/p` after the sample
registry answers the lookup of `/p`, and the lookup of `/x` finds nothing. -/
theorem C17_lookup_first_match_witness :
    (httpd_lookup_uri sample_env fresh ([] ++ shadow_entry :: sample_registry) "/p".toList =
        httpd_reply sample_env fresh ([] ++ shadow_entry :: sample_registry)
          sample_registry.length "/p".toList ∧
      reg_deref ([] ++ shadow_entry :: sample_registry) sample_registry.length =
        some shadow_entry) ∧
    (httpd_lookup_uri sample_env fresh (shadow_entry :: sample_registry) "/p".toList).map
      (fun r => r.2.1.sent.getLast?) = some (some "newer".toList) ∧
    (httpd_lookup_uri sample_env fresh sample_registry "/x".toList =
        some ((httpd_notfound sample_env fresh "/x".toList).1,
          (httpd_notfound sample_env fresh "/x".toList).2, sample_registry) ∧
      ((httpd_notfound sample_env fresh "/x".toList).1 = .HS_SUCCESS_OPEN ∨
        (httpd_notfound sample_env fresh "/x".toList).1 = .HS_SUCCESS_CLOSE) ∧
      ∃ (rest : Bytes) (more : List Bytes),
        (httpd_notfound sample_env fresh "/x".toList).2.sent = fresh.sent ++
          (fresh.request.print_buf ++ "HTTP/1.1 404 Not Found\r\n".toList ++ rest) :: more) :=
  ⟨((C17_lookup_first_match sample_env fresh "/p".toList (by decide) (by decide)).1
      [] shadow_entry sample_registry (by decide) (by decide)).2.2 (by decide),
    by decide,
    (C17_lookup_first_match sample_env fresh "/x".toList (by decide) (by decide)).2.1
      sample_registry (by decide)⟩

/-- C18. In the loop of `httpd_lookup_uri` an entry that is not a directory
is handed to `httpd_reply` exactly when it matches the URI. An entry of kind
fixed text, fixed binary or dynamic terminal matches `u` exactly when `u`
equals its path; an entry of kind dynamic nonterminal matches `u` exactly
when its path is a prefix of `u` and the rest of `u` is empty or begins with
a slash. -/
theorem C18_entry_matching (env : Env) :
    (∀ (h : httpd_t) (regs : registry) (u : Bytes) (reg : httpd_reg_t)
        (rest : List httpd_reg_t), reg.type ≠ .OR_DIR →
      httpd_lookup_loop env h regs u (reg :: rest) =
        if entry_matches reg u then httpd_reply env h regs rest.length u
        else httpd_lookup_loop env h regs u rest) ∧
    (∀ (reg : httpd_reg_t) (u : Bytes),
      reg.type = .OR_FIXED ∨ reg.type = .OR_FIXED_BINARY ∨ reg.type = .OR_DYN_TERM →
      (entry_matches reg u = true ↔ cstr u = cstr reg.path)) ∧
    (∀ (reg : httpd_reg_t) (u : Bytes), reg.type = .OR_DYN_NONTERM →
      (entry_matches reg u = true ↔
        ∃ rest : Bytes, cstr u = cstr reg.path ++ rest ∧
          (rest = [] ∨ rest.head? = some '/'))) := by
  refine ⟨fun h regs u reg rest hd => httpd_lookup_loop_cons env h regs u reg rest hd, ?_, ?_⟩
  · intro reg u ht
    unfold entry_matches
    rcases ht with e | e | e <;> rw [e] <;> exact strcmp_eq_iff u reg.path
  · intro reg u ht
    unfold entry_matches
    rw [ht]
    exact nonterm_match_iff reg u

set_option maxRecDepth 100000 in
/-- C18, witness: the fixed text at `/p` and a nonterminal at `/a`, which
`/a` and `/a/b` match and `/ab` does not. -/
theorem C18_entry_matching_witness :
    (entry_matches page_entry "/p".toList = true ∧
      entry_matches page_entry "/p/".toList = false ∧
      entry_matches page_entry "/pq".toList = false) ∧
    (entry_matches nonterm_entry "/a".toList = true ∧
      entry_matches nonterm_entry "/a/b".toList = true ∧
      entry_matches nonterm_entry "/ab".toList = false ∧
      ¬ ∃ rest : Bytes, cstr "/ab".toList = cstr nonterm_entry.path ++ rest ∧
        (rest = [] ∨ rest.head? = some '/')) ∧
    httpd_lookup_loop sample_env fresh [nonterm_entry] "/a/b".toList (nonterm_entry :: []) =
      (if entry_matches nonterm_entry "/a/b".toList then
        httpd_reply sample_env fresh [nonterm_entry] ([] : List httpd_reg_t).length "/a/b".toList
       else httpd_lookup_loop sample_env fresh [nonterm_entry] "/a/b".toList []) :=
  ⟨⟨((C18_entry_matching sample_env).2.1 page_entry "/p".toList (Or.inl (by decide))).mpr
        (by decide), by decide, by decide⟩,
    ⟨((C18_entry_matching sample_env).2.2 nonterm_entry "/a".toList (by decide)).mpr
        ⟨[], by decide, Or.inl rfl⟩,
      ((C18_entry_matching sample_env).2.2 nonterm_entry "/a/b".toList (by decide)).mpr
        ⟨"/b".toList, by decide, Or.inr (by decide)⟩,
      by decide,
      fun hex => absurd
        (((C18_entry_matching sample_env).2.2 nonterm_entry "/ab".toList (by decide)).mpr hex)
        (by decide)⟩,
    (C18_entry_matching sample_env).1 fresh [nonterm_entry] "/a/b".toList nonterm_entry []
      (by decide)⟩

set_option maxRecDepth 100000 in
/-- C19, counterexample. With a nonterminal entry at `/a`, the request for
`/a//b` hands the callback the sub-path `/b`, which begins with a slash:
only one slash is stripped. The callback here answers with the sub-path it
was given. -/
theorem C19_sub_path_keeps_second_slash :
    (httpd_reply echo_env fresh [nonterm_entry] 0 "/a//b".toList).map
      (fun r => (r.1, r.2.1.sent.getLast?)) = some (.HS_SUCCESS_OPEN, some "/b".toList) ∧
    (httpd_input echo_env fresh [nonterm_entry] "GET /a//b HTTP/1.0\r\n\r\n".toList).map
      (fun r => (r.1, r.2.1.sent.head?.map (List.take 17), r.2.1.sent.getLast?)) =
        some (.HS_SUCCESS_CLOSE, some "HTTP/1.1 200 OK\r\n".toList, some "/b".toList) := by
  refine ⟨?_, ?_⟩ <;> decide

/-- C19 (as amended). When `httpd_reply` is called for an idle dynamic entry
`reg` behind the pointer `p`, its result is what the callback of the entry
returns, called with the connection in which `async_node` points at the
entry and with the registry in which the entry's `async_session` holds the
handle of the connection. The sub-path passed is the part of the URI after
the length of the path with one leading slash, if there is one, stripped:
for a URI that is the path followed by `rest` it is `rest` without its first
slash, it is empty when the URI is the path, and it begins with a slash
exactly when `rest` begins with two slashes. -/
theorem C19_dynamic_dispatch (env : Env) (h : httpd_t) (regs : registry) (p : Nat)
    (reg : httpd_reg_t) (uri : Bytes)
    (hreg : reg_deref regs p = some reg) (hidle : reg.async_session = none)
    (hdyn : reg.type = .OR_DYN_TERM ∨ reg.type = .OR_DYN_NONTERM) :
    ∃ sub : Bytes,
      httpd_reply env h regs p uri =
        some (env.dyn reg.dyn sub
          { h with request := { h.request with async_node := some p } }
          (reg_store regs p { reg with async_session := some h.dhandle })) ∧
      reg_deref (reg_store regs p { reg with async_session := some h.dhandle }) p =
        some { reg with async_session := some h.dhandle } ∧
      (∀ rest : Bytes, cstr uri = cstr reg.path ++ rest →
        sub = (if rest.head? = some '/' then rest.drop 1 else rest) ∧
        (sub.head? = some '/' ↔ ∃ t : Bytes, rest = '/' :: '/' :: t)) ∧
      (cstr uri = cstr reg.path → sub = []) := by
  refine ⟨if ((cstr uri).drop (strlen reg.path)).head? = some '/' then
      ((cstr uri).drop (strlen reg.path)).drop 1 else (cstr uri).drop (strlen reg.path),
    ?_, reg_deref_store regs p reg _ hreg, ?_, ?_⟩
  · unfold httpd_reply
    rw [hreg]
    simp only [hidle, ne_eq, not_true_eq_false, if_false, hdyn, if_true]
  · intro rest hu
    have hd : (cstr uri).drop (strlen reg.path) = rest := by
      rw [hu]; exact List.drop_left' rfl
    rw [hd]
    refine ⟨rfl, ?_⟩
    cases rest with
    | nil => simp
    | cons c t =>
      by_cases hc : c = '/'
      · subst hc
        simp only [List.head?_cons, if_true, List.drop_one, List.tail_cons]
        cases t with
        | nil => simp
        | cons d t2 => simp
      · simp [hc]
  · intro hu
    have hd : (cstr uri).drop (strlen reg.path) = [] := by
      rw [hu]; exact List.drop_eq_nil_of_le (Nat.le_refl _)
    rw [hd]
    simp

set_option maxRecDepth 100000 in
/-- C19, witness: the request for `/a/b` dispatched to the nonterminal entry
at `/a`; the sub-path is `b`. -/
theorem C19_dynamic_dispatch_witness :
    (∃ sub : Bytes,
      httpd_reply sample_env fresh [nonterm_entry] 0 "/a/b".toList =
        some (sample_env.dyn nonterm_entry.dyn sub
          { fresh with request := { fresh.request with async_node := some 0 } }
          (reg_store [nonterm_entry] 0
            { nonterm_entry with async_session := some fresh.dhandle })) ∧
      reg_deref (reg_store [nonterm_entry] 0
          { nonterm_entry with async_session := some fresh.dhandle }) 0 =
        some { nonterm_entry with async_session := some fresh.dhandle } ∧
      (∀ rest : Bytes, cstr "/a/b".toList = cstr nonterm_entry.path ++ rest →
        sub = (if rest.head? = some '/' then rest.drop 1 else rest) ∧
        (sub.head? = some '/' ↔ ∃ t : Bytes, rest = '/' :: '/' :: t)) ∧
      (cstr "/a/b".toList = cstr nonterm_entry.path → sub = [])) ∧
    (httpd_input echo_env fresh [nonterm_entry] "GET /a/b HTTP/1.0\r\n\r\n".toList).map
      (fun r => r.2.1.sent.getLast?) = some (some "b".toList) ∧
    (httpd_input echo_env fresh [nonterm_entry] "GET /a HTTP/1.0\r\n\r\n".toList).map
      (fun r => r.2.1.sent.getLast?.map (List.take 16)) =
        some (some "Content-Length: ".toList) :=
  ⟨C19_dynamic_dispatch sample_env fresh [nonterm_entry] 0 nonterm_entry "/a/b".toList
      (by decide) (by decide) (Or.inr (by decide)),
    by decide, by decide⟩

/-- C20. For a connection whose `async_node` points at the registry entry
`reg`: `httpd_dyn_complete` and `httpd_dyn_error` return the registry in
which that entry has `async_session` cleared, every other entry being as it
was, and the connection with `async_node` cleared; the status is
`HS_SUCCESS_CLOSE`, respectively `HS_ERROR_CLOSE`, when the request is not
persistent, and `HS_SUCCESS_OPEN`, respectively `HS_ERROR_OPEN`, with the
request reinitialized, when it is: the byte count, the line length and the
two trace offsets are 0, `saw_first` and `http_1_0` are false, `persistent`
is true, the fields, the queries and the print buffer are empty,
`fields_start` is null and the verb is `VERB_OTHER` (`reinitialized`). -/
theorem C20_dyn_completion (env : Env) (h : httpd_t) (regs : registry) (p : Nat)
    (reg : httpd_reg_t) (hnode : h.request.async_node = some p)
    (hreg : reg_deref regs p = some reg) :
    (∀ text : Bytes, ∃ (st : httpd_status_t) (k : httpd_t),
      httpd_dyn_complete env h regs text =
        some (st, k, reg_store regs p { reg with async_session := none }) ∧
      k.request.async_node = none ∧
      (h.request.persistent = false → st = .HS_SUCCESS_CLOSE) ∧
      (h.request.persistent = true → st = .HS_SUCCESS_OPEN ∧
        (∃ k0 : httpd_t, k = k0.reinit) ∧ reinitialized k.request)) ∧
    (∀ (status_code : Int) (text : Bytes), ∃ (st : httpd_status_t) (k : httpd_t),
      httpd_dyn_error env h regs status_code text =
        some (st, k, reg_store regs p { reg with async_session := none }) ∧
      k.request.async_node = none ∧
      (h.request.persistent = false → st = .HS_ERROR_CLOSE) ∧
      (h.request.persistent = true → st = .HS_ERROR_OPEN ∧
        (∃ k0 : httpd_t, k = k0.reinit) ∧ reinitialized k.request)) ∧
    reg_deref (reg_store regs p { reg with async_session := none }) p =
      some { reg with async_session := none } ∧
    (∀ q : Nat, q ≠ p →
      reg_deref (reg_store regs p { reg with async_session := none }) q = reg_deref regs q) ∧
    (reg_store regs p { reg with async_session := none }).length = regs.length := by
  refine ⟨?_, ?_, reg_deref_store regs p reg _ hreg,
    fun q hq => reg_deref_store_ne regs p q _ hq, reg_store_length regs p _⟩
  · intro text
    obtain ⟨o, _⟩ := dyn_complete_output_spec env
      { h with request := { h.request with async_node := none } } reg text
    have hp : (dyn_complete_output env
        { h with request := { h.request with async_node := none } } reg text).request.persistent =
        h.request.persistent := o.persistent
    refine ⟨(finish_success (dyn_complete_output env
        { h with request := { h.request with async_node := none } } reg text)).1,
      (finish_success (dyn_complete_output env
        { h with request := { h.request with async_node := none } } reg text)).2,
      ?_, ?_, ?_, ?_⟩
    · simp only [httpd_dyn_complete, hnode, hreg]
    · rw [finish_success_async_node, o.async_node]
    · intro hx
      unfold finish_success
      rw [hp, hx]
      rfl
    · intro hx
      unfold finish_success
      rw [hp, hx]
      exact ⟨rfl, ⟨_, rfl⟩, rfl, rfl, rfl, rfl, rfl, rfl, rfl, rfl, rfl, rfl, rfl, rfl⟩
  · intro status_code text
    obtain ⟨k1, o, _, he⟩ := httpd_verror_spec env
      { h with request := { h.request with async_node := none } } .ERRMODE_NONFATAL status_code
      h.request.verb text
    have hne : httpd_dyn_error env h regs status_code text =
        some ((httpd_verror env { h with request := { h.request with async_node := none } }
            .ERRMODE_NONFATAL status_code h.request.verb text).1,
          (httpd_verror env { h with request := { h.request with async_node := none } }
            .ERRMODE_NONFATAL status_code h.request.verb text).2,
          reg_store regs p { reg with async_session := none }) := by
      simp only [httpd_dyn_error, hnode, hreg]
    have hmode : decide (errmode_t.ERRMODE_NONFATAL.toNat ≤ errmode_t.ERRMODE_FATAL.toNat) =
        false := by decide
    rw [hmode, Bool.false_or] at he
    have hk1 : k1.request.async_node = none := o.async_node
    have hpers : ({ h with request := { h.request with async_node := none } } :
        httpd_t).request.persistent = h.request.persistent := rfl
    rw [hpers] at he
    refine ⟨(httpd_verror env { h with request := { h.request with async_node := none } }
        .ERRMODE_NONFATAL status_code h.request.verb text).1,
      (httpd_verror env { h with request := { h.request with async_node := none } }
        .ERRMODE_NONFATAL status_code h.request.verb text).2, hne, ?_, ?_, ?_⟩
    · rw [he]
      split
      · exact hk1
      · exact hk1
    · intro hx
      rw [he, hx]
      rfl
    · intro hx
      rw [he, hx]
      exact ⟨rfl, ⟨_, rfl⟩, rfl, rfl, rfl, rfl, rfl, rfl, rfl, rfl, rfl, rfl, rfl, rfl⟩

set_option maxRecDepth 100000 in
/-- C20, witness: the connection with handle 7, whose request for `/dyn` is
pending (first line seen, verb `GET`), completed with success and with an
error. -/
theorem C20_dyn_completion_witness :
    (∃ (st : httpd_status_t) (k : httpd_t),
      httpd_dyn_complete sample_env pending_conn [busy_entry] "done".toList =
        some (st, k, reg_store [busy_entry] 0 { busy_entry with async_session := none }) ∧
      k.request.async_node = none ∧
      (pending_conn.request.persistent = false → st = .HS_SUCCESS_CLOSE) ∧
      (pending_conn.request.persistent = true →
        st = .HS_SUCCESS_OPEN ∧ (∃ k0 : httpd_t, k = k0.reinit) ∧ reinitialized k.request)) ∧
    (∃ (st : httpd_status_t) (k : httpd_t),
      httpd_dyn_error sample_env pending_conn [busy_entry] 500 "failed".toList =
        some (st, k, reg_store [busy_entry] 0 { busy_entry with async_session := none }) ∧
      k.request.async_node = none ∧
      (pending_conn.request.persistent = false → st = .HS_ERROR_CLOSE) ∧
      (pending_conn.request.persistent = true →
        st = .HS_ERROR_OPEN ∧ (∃ k0 : httpd_t, k = k0.reinit) ∧ reinitialized k.request)) ∧
    reg_deref (reg_store [busy_entry] 0 { busy_entry with async_session := none }) 0 =
      some { busy_entry with async_session := none } ∧
    (httpd_dyn_complete sample_env pending_conn [busy_entry] "done".toList).map
      (fun r => (r.1, r.2.1.sent.head?.map (List.take 17), r.2.2.map (fun e => e.async_session))) =
        some (.HS_SUCCESS_OPEN, some "HTTP/1.1 200 OK\r\n".toList, [none]) ∧
    (httpd_dyn_error sample_env pending_conn [busy_entry] 500 "failed".toList).map
      (fun r => (r.1, r.2.1.sent.head?.map (List.take 36), r.2.2.map (fun e => e.async_session))) =
        some (.HS_ERROR_OPEN, some "HTTP/1.1 500 Internal Server Error\r\n".toList, [none]) ∧
    (httpd_dyn_complete sample_env
        { pending_conn with request := { pending_conn.request with persistent := false } }
        [busy_entry] "done".toList).map (fun r => r.1) = some .HS_SUCCESS_CLOSE ∧
    (httpd_dyn_error sample_env
        { pending_conn with request := { pending_conn.request with persistent := false } }
        [busy_entry] 500 "failed".toList).map (fun r => r.1) = some .HS_ERROR_CLOSE :=
  ⟨(C20_dyn_completion sample_env pending_conn [busy_entry] 0 busy_entry (by decide)
      (by decide)).1 "done".toList,
    (C20_dyn_completion sample_env pending_conn [busy_entry] 0 busy_entry (by decide)
      (by decide)).2.1 500 "failed".toList,
    (C20_dyn_completion sample_env pending_conn [busy_entry] 0 busy_entry (by decide)
      (by decide)).2.2.1,
    by decide, by decide, by decide, by decide⟩

set_option maxRecDepth 100000 in
/-- C21 (defect in the code). The connection with handle 7 requests `/dyn`;
the callback leaves the request pending, so the entry is busy with that
connection. `httpd_close` on the connection wipes and frees the connection
and does not touch the registry: the entry stays busy with the handle of the
closed connection, and the request of another connection for `/dyn` is
answered `409 Conflict`. -/
theorem C21_close_keeps_busy_marker :
    (httpd_input sample_env conn7 [dyn_entry] "GET /dyn HTTP/1.1\r\nHost: abc\r\n\r\n".toList).map
      (fun r => (r.1, r.2.2.map (fun e => e.async_session))) =
        some (.HS_PENDING, [some 7]) ∧
    (httpd_close
      (result_conn (httpd_input sample_env conn7 [dyn_entry]
        "GET /dyn HTTP/1.1\r\nHost: abc\r\n\r\n".toList))
      (result_regs (httpd_input sample_env conn7 [dyn_entry]
        "GET /dyn HTTP/1.1\r\nHost: abc\r\n\r\n".toList))).map (fun e => e.async_session) =
      [some 7] ∧
    (httpd_input sample_env conn8
      (httpd_close
        (result_conn (httpd_input sample_env conn7 [dyn_entry]
          "GET /dyn HTTP/1.1\r\nHost: abc\r\n\r\n".toList))
        (result_regs (httpd_input sample_env conn7 [dyn_entry]
          "GET /dyn HTTP/1.1\r\nHost: abc\r\n\r\n".toList)))
      "GET /dyn HTTP/1.1\r\nHost: abc\r\n\r\n".toList).map
      (fun r => (r.1, r.2.1.sent.head?.map (List.take 23))) =
        some (.HS_ERROR_OPEN, some "HTTP/1.1 409 Conflict\r\n".toList) ∧
    (∀ (h : httpd_t) (regs : registry), httpd_close h regs = regs) := by
  refine ⟨?_, ?_, ?_, fun _ _ => rfl⟩ <;> decide

set_option maxRecDepth 100000 in
/-- C22 (defect in the code). `httpd_verror` returns `HS_ERROR_CLOSE` when
the mode is NonHttp or Fatal or the request is not persistent, and otherwise
`HS_ERROR_OPEN` with the request reinitialized; the successful replies
return `HS_SUCCESS_CLOSE` when the request is not persistent and otherwise
`HS_SUCCESS_OPEN` with the request reinitialized. The 409 reply for a busy
object does not follow the rule: on a connection that is not persistent
`httpd_error` returns `HS_ERROR_CLOSE`, and `httpd_reply` returns
`HS_ERROR_OPEN` all the same, with a request that has not been
reinitialized. -/
theorem C22_busy_error_stays_open :
    (∀ (env : Env) (h : httpd_t) (mode : errmode_t) (status_code : Int) (verb : verb_t)
        (text : Bytes), ∃ k : httpd_t,
      httpd_verror env h mode status_code verb text =
        if mode.toNat ≤ errmode_t.ERRMODE_FATAL.toNat || !h.request.persistent then
          (.HS_ERROR_CLOSE, k)
        else (.HS_ERROR_OPEN, k.reinit)) ∧
    (∀ h : httpd_t, finish_success h =
      if !h.request.persistent then (.HS_SUCCESS_CLOSE, h) else (.HS_SUCCESS_OPEN, h.reinit)) ∧
    (httpd_error sample_env closing_conn .ERRMODE_NONFATAL 409
      ("<P>Object is busy.</P><P>Only one client may access '".toList ++
        cstr (html_quote "/dyn".toList) ++ "' at a time.".toList)).1 = .HS_ERROR_CLOSE ∧
    (httpd_reply sample_env closing_conn [busy_entry] 0 "/dyn".toList).map
      (fun r => (r.1, r.2.1.request.persistent, r.2.1.request.saw_first,
        r.2.1.sent.head?.map (List.take 23))) =
        some (.HS_ERROR_OPEN, false, true, some "HTTP/1.1 409 Conflict\r\n".toList) ∧
    (httpd_input sample_env fresh [busy_entry] "GET /dyn HTTP/1.0\r\n\r\n".toList).map
      (fun r => (r.1, r.2.1.sent.head?.map (List.take 23))) =
        some (.HS_ERROR_OPEN, some "HTTP/1.1 409 Conflict\r\n".toList) := by
  refine ⟨?_, fun _ => rfl, by decide, by decide, by decide⟩
  intro env h mode status_code verb text
  obtain ⟨k, _, _, he⟩ := httpd_verror_spec env h mode status_code verb text
  exact ⟨k, he⟩

set_option maxRecDepth 100000 in
/-- C23 (defect in the code). A HEAD request for a fixed object or for a
directory is answered with the header lines and the blank line and nothing
more. But `httpd_verror` writes nothing after the header for the verb HEAD:
the 404 reply to `HEAD /x` is the header lines alone, without the blank line
that ends the header block. A `HEAD` request line with a malformed version
token sends nothing at all. -/
theorem C23_head_error_lacks_blank_line :
    (httpd_input sample_env fresh sample_registry "HEAD /p HTTP/1.0\r\n\r\n".toList).map
      (fun r => (r.1, r.2.1.sent)) =
        some (.HS_SUCCESS_CLOSE,
          [("HTTP/1.1 200 OK\r\nDate: Thu Jan  1 00:00:00 1970 UTC\r\nServer: x3270\r\n" ++
              "Connection: close\r\nContent-Type: text/plain\r\n").toList,
            "Cache-Control: max-age=43200".toList, "\r\n".toList, "\r\n".toList]) ∧
    (httpd_input sample_env fresh sample_registry "HEAD /dir/ HTTP/1.0\r\n\r\n".toList).map
      (fun r => (r.1, r.2.1.sent)) =
        some (.HS_SUCCESS_CLOSE,
          [("HTTP/1.1 200 OK\r\nDate: Thu Jan  1 00:00:00 1970 UTC\r\nServer: x3270\r\n" ++
              "Connection: close\r\nContent-Type: text/html; charset=iso8859-1\r\n").toList,
            "\r\n".toList]) ∧
    (httpd_input sample_env fresh sample_registry "HEAD /x HTTP/1.0\r\n\r\n".toList).map
      (fun r => (r.1, r.2.1.sent)) =
        some (.HS_SUCCESS_CLOSE,
          [("HTTP/1.1 404 Not Found\r\nDate: Thu Jan  1 00:00:00 1970 UTC\r\n" ++
              "Server: x3270\r\nContent-Type: text/html; charset=iso8859-1\r\n").toList]) ∧
    (httpd_input sample_env fresh sample_registry
        "HEAD /x HTTP/1.1\r\nAccept: text\r\n\r\n".toList).map
      (fun r => (r.1, r.2.1.sent)) =
        some (.HS_ERROR_CLOSE,
          [("HTTP/1.1 400 Bad Request\r\nDate: Thu Jan  1 00:00:00 1970 UTC\r\n" ++
              "Server: x3270\r\nConnection: close\r\n" ++
              "Content-Type: text/html; charset=iso8859-1\r\n").toList]) ∧
    (httpd_dyn_error sample_env
        { pending_conn with request := { pending_conn.request with verb := .VERB_HEAD } }
        [busy_entry] 500 "failed".toList).map (fun r => (r.1, r.2.1.sent)) =
        some (.HS_ERROR_OPEN,
          [("HTTP/1.1 500 Internal Server Error\r\nDate: Thu Jan  1 00:00:00 1970 UTC\r\n" ++
              "Server: x3270\r\nContent-Type: text/html; charset=iso8859-1\r\n").toList]) ∧
    (httpd_input sample_env fresh sample_registry "HEAD /p HTTX/1.1\r\n\r\n".toList).map
      (fun r => (r.1, r.2.1.sent)) = some (.HS_ERROR_CLOSE, []) := by
  refine ⟨?_, ?_, ?_, ?_, ?_, ?_⟩ <;> decide

set_option maxRecDepth 100000 in
/-- C24 (defect in the code). `httpd_http_header` sends the pending output
followed by the status line, the Date line, the Server line, the line
`Connection: close` when `do_close` is set, the Location line when the status
is 301 and a location is set, and the Content-Type line, in this order. But
`httpd_verror` passes `mode <= ERRMODE_FATAL` for `do_close`: the 404 replies
to the HTTP/1.0 requests `GET /x` and `GET /dir` carry no `Connection: close`
line although the result is a Close status. The 200 reply to `GET /p` carries
the line for HTTP/1.0 and not for HTTP/1.1. -/
theorem C24_nonfatal_close_without_header :
    (∀ (env : Env) (h : httpd_t) (status_code : Int) (do_close : Bool) (content_type : Bytes),
      (httpd_http_header env h status_code do_close content_type).sent =
        h.sent ++ [h.request.print_buf ++
          (crlf (cstr ("HTTP/1.1 ".toList ++ fmt_d status_code ++ " ".toList ++
              status_text status_code ++ ['\n'])) ++
            (crlf (cstr ("Date: ".toList ++
                (cstr env.asctime).take ((cstr env.asctime).length - 1) ++ " UTC\n".toList)) ++
            (crlf (cstr ("Server: ".toList ++ cstr env.build ++ ['\n'])) ++
            ((if do_close then crlf (cstr "Connection: close\n".toList) else []) ++
            ((match h.request.location with
              | some location =>
                if status_code = 301 then
                  crlf (cstr ("Location: ".toList ++ cstr location ++ ['\n']))
                else []
              | none => []) ++
            crlf (cstr ("Content-Type: ".toList ++ cstr content_type ++ ['\n'])))))))]) ∧
    (httpd_input sample_env fresh sample_registry "GET /x HTTP/1.0\r\n\r\n".toList).map
      (fun r => (r.1, r.2.1.sent.head?)) =
        some (.HS_SUCCESS_CLOSE,
          some ("HTTP/1.1 404 Not Found\r\nDate: Thu Jan  1 00:00:00 1970 UTC\r\n" ++
            "Server: x3270\r\nContent-Type: text/html; charset=iso8859-1\r\n").toList) ∧
    (httpd_input sample_env fresh sample_registry "GET /dir HTTP/1.0\r\n\r\n".toList).map
      (fun r => (r.1, r.2.1.sent.head?)) =
        some (.HS_ERROR_CLOSE,
          some ("HTTP/1.1 404 Not Found\r\nDate: Thu Jan  1 00:00:00 1970 UTC\r\n" ++
            "Server: x3270\r\nContent-Type: text/html; charset=iso8859-1\r\n").toList) ∧
    (httpd_input sample_env fresh sample_registry "GET /p HTTP/1.0\r\n\r\n".toList).map
      (fun r => (r.1, r.2.1.sent.head?)) =
        some (.HS_SUCCESS_CLOSE,
          some ("HTTP/1.1 200 OK\r\nDate: Thu Jan  1 00:00:00 1970 UTC\r\nServer: x3270\r\n" ++
            "Connection: close\r\nContent-Type: text/plain\r\n").toList) ∧
    (httpd_input sample_env fresh sample_registry
        "GET /p HTTP/1.1\r\nHost: abc\r\n\r\n".toList).map
      (fun r => (r.1, r.2.1.sent.head?)) =
        some (.HS_SUCCESS_OPEN,
          some ("HTTP/1.1 200 OK\r\nDate: Thu Jan  1 00:00:00 1970 UTC\r\nServer: x3270\r\n" ++
            "Content-Type: text/plain\r\n").toList) := by
  refine ⟨?_, by decide, by decide, by decide, by decide⟩
  intro env h status_code do_close content_type
  rw [httpd_http_header_eq, with_output_sent]
  rfl

/-- C25 (counterexample). `httpd_content_len` prints `(unsigned)len` with
`%u`, so the number is the body length modulo 2^32. Two fixed objects are
registered at `/a` and at `/b`, each with a description of 2^30 newlines;
every text that the listing hands to `httpd_print` has at most 2^30 + 10
bytes, well below `INT_MAX`. The request `GET / HTTP/1.0` is answered with
the listing of `/`, in which each of the 2^31 newlines of the two
descriptions has become CR LF: the reply announces `Content-Length: 492` and
then sends a body of 2^32 + 492 bytes. -/
theorem C25_length_wraps_at_4GiB :
    ∃ body : Bytes,
      (httpd_input sample_env fresh (tall_registry (2 ^ 30)) "GET / HTTP/1.0\n\n".toList).map
          (fun r => (r.1, r.2.1.sent)) =
        some (.HS_SUCCESS_CLOSE,
          [("HTTP/1.1 200 OK\r\nDate: Thu Jan  1 00:00:00 1970 UTC\r\nServer: x3270\r\n" ++
              "Connection: close\r\nContent-Type: text/html; charset=iso8859-1\r\n").toList,
            "Content-Length: 492\r\n\r\n".toList, body]) ∧
      body.length = 2 ^ 32 + 492 ∧
      (tall_registry (2 ^ 30)).map (fun reg => (reg.path, reg.type, (cstr reg.desc).length)) =
        [("/b".toList, .OR_FIXED, 2 ^ 30), ("/a".toList, .OR_FIXED, 2 ^ 30)] ∧
      2 ^ 30 + 10 ≤ INT_MAX := by
  have hf : "Content-Length: ".toList ++ fmt_u (492 + 4 * 2 ^ 30) ++ ['\r', '\n', '\r', '\n'] =
      "Content-Length: 492\r\n\r\n".toList := by
    unfold fmt_u
    rw [show (492 + 4 * 2 ^ 30) % 2 ^ 32 = 492 from by norm_num]
    decide
  refine ⟨crlf (dirlist_document sample_env (tall_registry (2 ^ 30)) "/".toList), ?_, ?_,
    tall_registry_descs (2 ^ 30), by decide⟩
  · rw [tall_listing_sent (2 ^ 30), hf]
  · rw [tall_listing_length (2 ^ 30)]
    norm_num

/-- C25 (amended). For a request whose verb is not HEAD, when the header
block and the document before the expansion of newlines have at most
`INT_MAX` bytes each (so that every text handed to `httpd_print` is one that
`xs_vbuffer` can build, and the expanded body has fewer than 2^32 bytes),
each of the four buffered replies (the fixed text of an idle
entry through `httpd_reply`, the directory listing of `httpd_dirlist`, the
completion of a pending dynamic request through `httpd_dyn_complete`, and the
error with HTTP framing of `httpd_error`) sends, after what the connection
had sent before: the header lines, then `Content-Length:` with the decimal
length of the body after the expansion of newlines and the blank line, then
that body (no buffer when it is empty). The header lines are one buffer with
the status, Date, Server, optional Connection and Location, and Content-Type
lines, followed for the fixed text and the completion by the Cache-Control
line and its line end in two buffers. The body buffers are the body. -/
theorem C25_content_length (env : Env) (h : httpd_t) (regs : registry) (p : Nat)
    (reg : httpd_reg_t) (uri text : Bytes) (mode : errmode_t) (status_code : Int)
    (hv : h.request.verb ≠ .VERB_HEAD) :
    (reg_deref regs p = some reg → reg.async_session = none → reg.type = .OR_FIXED →
      (header_text env h.request.location 200 (!h.request.persistent)
        reg.content_str).length ≤ INT_MAX →
      (fixed_document env reg).length ≤ INT_MAX →
      ∃ st k, httpd_reply env h regs p uri = some (st, k, regs) ∧
        k.sent = h.sent ++ buffered_reply
          [h.request.print_buf ++
              header_text env h.request.location 200 (!h.request.persistent) reg.content_str,
            "Cache-Control: max-age=43200".toList, "\r\n".toList]
          (fixed_document env reg)) ∧
    ((header_text env h.request.location 200 (!h.request.persistent)
        "text/html; charset=iso8859-1".toList).length ≤ INT_MAX →
      (dirlist_document env regs uri).length ≤ INT_MAX →
      (httpd_dirlist env h regs uri).2.sent = h.sent ++ buffered_reply
        [h.request.print_buf ++
          header_text env h.request.location 200 (!h.request.persistent)
            "text/html; charset=iso8859-1".toList]
        (dirlist_document env regs uri)) ∧
    (h.request.async_node = some p → reg_deref regs p = some reg →
      (header_text env h.request.location 200 (!h.request.persistent)
        reg.content_str).length ≤ INT_MAX →
      (dyn_document env reg text).length ≤ INT_MAX →
      ∃ st k regs1, httpd_dyn_complete env h regs text = some (st, k, regs1) ∧
        k.sent = h.sent ++ buffered_reply
          [h.request.print_buf ++
              header_text env h.request.location 200 (!h.request.persistent) reg.content_str,
            "Cache-Control: no-store".toList, "\r\n".toList]
          (dyn_document env reg text)) ∧
    (mode ≠ .ERRMODE_NON_HTTP →
      (header_text env h.request.location status_code
        (mode.toNat ≤ errmode_t.ERRMODE_FATAL.toNat)
        "text/html; charset=iso8859-1".toList).length ≤ INT_MAX →
      (error_document env status_code text).length ≤ INT_MAX →
      (httpd_error env h mode status_code text).2.sent = h.sent ++ buffered_reply
        [h.request.print_buf ++
          header_text env h.request.location status_code
            (mode.toNat ≤ errmode_t.ERRMODE_FATAL.toNat) "text/html; charset=iso8859-1".toList]
        (error_document env status_code text)) ∧
    (∀ body : Bytes, (body_chunks body).flatten = body) ∧
    (∀ doc : Bytes, doc.length ≤ INT_MAX → (crlf doc).length < 2 ^ 32) := by
  refine ⟨?_, ?_, ?_, ?_, body_chunks_flatten, crlf_length_int_max⟩
  · intro hr ha ht _ hdoc
    have hlen := crlf_length_int_max _ hdoc
    refine ⟨(finish_success (reply_output env h reg)).1,
      (finish_success (reply_output env h reg)).2,
      httpd_reply_fixed env h regs p uri reg hr ha ht, ?_⟩
    rw [(finish_success_spec _).2, reply_output_sent env h reg hv ht, fmt_u_small _ hlen]
    simp only [buffered_reply, List.append_assoc, List.cons_append, List.nil_append]
  · intro _ hdoc
    have hlen := crlf_length_int_max _ hdoc
    unfold httpd_dirlist
    rw [(finish_success_spec _).2, dirlist_output_sent env h regs uri hv, fmt_u_small _ hlen]
    simp only [buffered_reply, List.append_assoc, List.cons_append, List.nil_append]
  · intro hn hr _ hdoc
    have hlen := crlf_length_int_max _ hdoc
    have hs := dyn_complete_output_sent env
      { h with request := { h.request with async_node := none } } reg text hv
    rw [fmt_u_small _ hlen] at hs
    refine ⟨_, _, _, httpd_dyn_complete_eq env h regs p text reg hn hr,
      (finish_success_spec _).2.trans (hs.trans ?_)⟩
    simp only [buffered_reply, List.append_assoc, List.cons_append, List.nil_append]
  · intro hm _ hdoc
    have hlen := crlf_length_int_max _ hdoc
    unfold httpd_error
    rw [httpd_verror_sent env h mode status_code _ text hm hv, fmt_u_small _ hlen]
    simp only [buffered_reply, List.append_assoc, List.cons_append, List.nil_append]

set_option maxRecDepth 100000 in
/-- C25, witness: the fixed text at `/p`, the listing of the root directory,
the completion of the pending request for `/dyn` with the text `done`, and a
404 error, each on a connection whose verb is GET; the reply for `/p`
announces the five bytes of `hello`. -/
theorem C25_content_length_witness :
    (∃ st k, httpd_reply sample_env fresh [page_entry] 0 "/p".toList =
        some (st, k, [page_entry]) ∧
      k.sent = fresh.sent ++ buffered_reply
        [fresh.request.print_buf ++
            header_text sample_env fresh.request.location 200 (!fresh.request.persistent)
              page_entry.content_str,
          "Cache-Control: max-age=43200".toList, "\r\n".toList]
        (fixed_document sample_env page_entry)) ∧
    (httpd_dirlist sample_env fresh sample_registry "/".toList).2.sent =
      fresh.sent ++ buffered_reply
        [fresh.request.print_buf ++
          header_text sample_env fresh.request.location 200 (!fresh.request.persistent)
            "text/html; charset=iso8859-1".toList]
        (dirlist_document sample_env sample_registry "/".toList) ∧
    (∃ st k regs1, httpd_dyn_complete sample_env pending_conn [busy_entry] "done".toList =
        some (st, k, regs1) ∧
      k.sent = pending_conn.sent ++ buffered_reply
        [pending_conn.request.print_buf ++
            header_text sample_env pending_conn.request.location 200
              (!pending_conn.request.persistent) busy_entry.content_str,
          "Cache-Control: no-store".toList, "\r\n".toList]
        (dyn_document sample_env busy_entry "done".toList)) ∧
    (httpd_error sample_env fresh .ERRMODE_NONFATAL 404 "Document not found.".toList).2.sent =
      fresh.sent ++ buffered_reply
        [fresh.request.print_buf ++
          header_text sample_env fresh.request.location 404
            (errmode_t.ERRMODE_NONFATAL.toNat ≤ errmode_t.ERRMODE_FATAL.toNat)
            "text/html; charset=iso8859-1".toList]
        (error_document sample_env 404 "Document not found.".toList) ∧
    (result_conn (httpd_reply sample_env fresh [page_entry] 0 "/p".toList)).sent =
      [("HTTP/1.1 200 OK\r\nDate: Thu Jan  1 00:00:00 1970 UTC\r\nServer: x3270\r\n" ++
          "Content-Type: text/plain\r\n").toList,
        "Cache-Control: max-age=43200".toList, "\r\n".toList,
        "Content-Length: 5\r\n\r\n".toList, "hello".toList] ∧
    (result_conn (httpd_dyn_complete sample_env pending_conn [busy_entry]
        "a\nb\n".toList)).sent.drop 3 =
      ["Content-Length: 6\r\n\r\n".toList, "a\r\nb\r\n".toList] :=
  ⟨(C25_content_length sample_env fresh [page_entry] 0 page_entry "/p".toList [] .ERRMODE_FATAL
      0 (by decide)).1 rfl rfl rfl (by decide) (by decide),
    (C25_content_length sample_env fresh sample_registry 0 page_entry "/".toList []
      .ERRMODE_FATAL 0 (by decide)).2.1 (by decide) (by decide),
    (C25_content_length sample_env pending_conn [busy_entry] 0 busy_entry [] "done".toList
      .ERRMODE_FATAL 0 (by decide)).2.2.1 rfl rfl (by decide) (by decide),
    (C25_content_length sample_env fresh [] 0 page_entry [] "Document not found.".toList
      .ERRMODE_NONFATAL 404 (by decide)).2.2.2.1 (by decide) (by decide) (by decide),
    by decide, by decide⟩

set_option maxRecDepth 100000 in
/-- C26 (defect in the code). `status_text` maps 200, 301, 400, 404, 409
and 500 to the reason texts of the claim and every other code to `Unknown`,
but 501 to `Not implemented`, with a small `i`, not to `Not Implemented`;
the request `POST /x HTTP/1.1` is answered with the status line
`HTTP/1.1 501 Not implemented`, and the title and the heading of the error
document carry the same text. -/
theorem C26_status_text_501 :
    status_text 501 = "Not implemented".toList ∧
    status_text 501 ≠ "Not Implemented".toList ∧
    status_text 200 = "OK".toList ∧
    status_text 301 = "Moved Permanently".toList ∧
    status_text 400 = "Bad Request".toList ∧
    status_text 404 = "Not Found".toList ∧
    status_text 409 = "Conflict".toList ∧
    status_text 500 = "Internal Server Error".toList ∧
    (∀ code : Int, code ∈ [200, 301, 400, 404, 409, 500, 501] ∨
      status_text code = "Unknown".toList) ∧
    (httpd_input sample_env fresh sample_registry "POST /x HTTP/1.1\r\n\r\n".toList).map
      (fun r => (r.2.1.sent.head?.map (List.take 30),
        r.2.1.sent.getLast?.map (fun b => (b.drop 71).take 36),
        r.2.1.sent.getLast?.map (fun b => (b.drop 127).take 30))) =
      some (some "HTTP/1.1 501 Not implemented\r\n".toList,
        some "<TITLE>501 Not implemented</TITLE>\r\n".toList,
        some "<H1>501 Not implemented</H1>\r\n".toList) := by
  refine ⟨by decide, by decide, by decide, by decide, by decide, by decide, by decide,
    by decide, ?_, ?_⟩
  · intro code
    by_cases h : code ∈ [200, 301, 400, 404, 409, 500, 501]
    · exact Or.inl h
    · right
      simp only [List.mem_cons, List.mem_singleton, List.not_mem_nil, or_false, not_or] at h
      obtain ⟨h1, h2, h3, h4, h5, h6, h7⟩ := h
      simp only [status_text, h1, h2, h3, h4, h5, h6, h7, if_false]
  · decide

set_option maxRecDepth 100000 in
/-- C27 (defect in the code). `parse_queries` hands the results of
`percent_decode` to `strlen` without a test, so a segment with an invalid
escape in its name or value (`a=%zz`, `%4=1`, also after a good segment) is
not skipped: a null pointer is dereferenced (no result here), and the
request `GET /p?a=%zz` has no result either. The rest holds: segments
without `=` or with an empty name are skipped, the fields come in the order
of the segments, and `+` becomes a space in values only. -/
theorem C27_bad_escape_not_skipped :
    parse_queries [] "a=%zz".toList = none ∧
    parse_queries [] "%4=1".toList = none ∧
    parse_queries [] "a=1&b=%4&c=3".toList = none ∧
    httpd_input sample_env fresh sample_registry "GET /p?a=%zz HTTP/1.0\r\n\r\n".toList = none ∧
    parse_queries [] "a=1&b=x+y&=3&c&n+m=v+w&d=%41%2B".toList =
      some [{ name := "a".toList, value := "1".toList },
        { name := "b".toList, value := "x y".toList },
        { name := "n+m".toList, value := "v w".toList },
        { name := "d".toList, value := "A+".toList }] ∧
    parse_queries [] "c&=3&&x".toList = some [] := by
  refine ⟨?_, ?_, ?_, ?_, ?_, ?_⟩ <;> decide

/-- C28. `httpd_fetch_query` returns NULL exactly when no field of the query
list has the name, compared as C strings; and when the list is `before ++ f
:: after`, no field of `before` has the name and `f` has it, the value of `f`
is returned: the first field in the order of the list, which is the order of
the segments of the query string. -/
theorem C28_fetch_query_first (h : httpd_t) (name : Bytes) :
    (httpd_fetch_query h name = none ↔ ∀ f ∈ h.request.queries, cstr f.name ≠ cstr name) ∧
    (∀ (before : List field_t) (f : field_t) (after : List field_t),
      h.request.queries = before ++ f :: after →
      (∀ g ∈ before, cstr g.name ≠ cstr name) → cstr f.name = cstr name →
      httpd_fetch_query h name = some f.value) := by
  unfold httpd_fetch_query
  constructor
  · simp only [Option.map_eq_none', List.find?_eq_none, strcmp_eq, beq_iff_eq]
  · intro before f after hq hno hf
    rw [hq, List.find?_append]
    have h1 : before.find? (fun f => strcmp_eq f.name name) = none := by
      rw [List.find?_eq_none]
      intro g hg
      simpa [strcmp_eq] using hno g hg
    rw [h1]
    simp [List.find?_cons, strcmp_eq, hf]

set_option maxRecDepth 100000 in
/-- C28, witness: the query string `k=1&j=2&k=3`; the value fetched for `k`
is `1`, none is fetched for `x`. -/
theorem C28_fetch_query_first_witness :
    httpd_fetch_query query_conn "k".toList = some "1".toList ∧
    httpd_fetch_query query_conn "j".toList = some "2".toList ∧
    httpd_fetch_query query_conn "x".toList = none ∧
    parse_queries [] "k=1&j=2&k=3".toList = some query_conn.request.queries ∧
    (httpd_input query_env fresh [dyn_entry] "GET /dyn?k=1&j=2&k=3 HTTP/1.0\r\n\r\n".toList).map
      (fun r => (r.1, r.2.1.sent.getLast?)) = some (.HS_SUCCESS_CLOSE, some "1".toList) ∧
    (httpd_input query_env fresh [dyn_entry] "GET /dyn?j=2 HTTP/1.0\r\n\r\n".toList).map
      (fun r => (r.1, r.2.1.sent.getLast?)) = some (.HS_SUCCESS_CLOSE, some "none".toList) := by
  refine ⟨?_, ?_, ?_, ?_, ?_, ?_⟩
  · exact (C28_fetch_query_first query_conn "k".toList).2 []
      { name := "k".toList, value := "1".toList }
      [{ name := "j".toList, value := "2".toList }, { name := "k".toList, value := "3".toList }]
      (by decide) (by decide) (by decide)
  · exact (C28_fetch_query_first query_conn "j".toList).2
      [{ name := "k".toList, value := "1".toList }]
      { name := "j".toList, value := "2".toList } [{ name := "k".toList, value := "3".toList }]
      (by decide) (by decide) (by decide)
  · exact (C28_fetch_query_first query_conn "x".toList).1.mpr (by decide)
  · decide
  · decide
  · decide

set_option maxRecDepth 100000 in
/-- C29 (defect in the code). `httpd_reinit_request` does not clear
`r->query`, and `httpd_digest_request` parses queries whenever `r->query` is
set. After the request `GET /a?k=old` on a persistent connection, `r->query`
still points at byte 7 of the request buffer; the next request on the
connection, `GET /a/k=new`, has no `?` in its URI, and yet the callback finds
the value `new` for the name `k`: the query list is parsed from the bytes of
the path. On a new connection the same request gives the callback no value. -/
theorem C29_stale_query_pointer :
    (httpd_input query_env fresh [nonterm_entry]
        "GET /a?k=old HTTP/1.1\r\nHost: abc\r\n\r\n".toList).map
      (fun r => (r.1, r.2.1.sent.getLast?, r.2.1.request.query, r.2.1.request.queries)) =
        some (.HS_SUCCESS_OPEN, some "old".toList, some 7, []) ∧
    (httpd_input query_env
        (result_conn (httpd_input query_env fresh [nonterm_entry]
          "GET /a?k=old HTTP/1.1\r\nHost: abc\r\n\r\n".toList))
        (result_regs (httpd_input query_env fresh [nonterm_entry]
          "GET /a?k=old HTTP/1.1\r\nHost: abc\r\n\r\n".toList))
        "GET /a/k=new HTTP/1.1\r\nHost: abc\r\n\r\n".toList).map
      (fun r => (r.1, r.2.1.sent.getLast?)) = some (.HS_SUCCESS_OPEN, some "new".toList) ∧
    (httpd_input query_env fresh [nonterm_entry]
        "GET /a/k=new HTTP/1.1\r\nHost: abc\r\n\r\n".toList).map
      (fun r => (r.1, r.2.1.sent.getLast?)) = some (.HS_SUCCESS_OPEN, some "none".toList) ∧
    (∀ r : request_t, (httpd_reinit_request r).query = r.query) := by
  refine ⟨?_, ?_, ?_, fun _ => rfl⟩ <;> decide

set_option maxRecDepth 100000 in
/-- C30 (counterexample). The row test of `httpd_dirlist` does not ask for a
non-empty segment. The root path `/` is registered as a fixed object (handle
2, after the directory `/dir` and the fixed text `/p`), and the listing of
`/` that answers `GET /` has a row with an empty name for the entry at `/`,
before the rows of `/p` and `/dir`. -/
theorem C30_root_entry_listed :
    (httpd_register_fixed sample_registry "/".toList "Root".toList .CT_TEXT "text/plain".toList
      0 "r".toList).1 = some 2 ∧
    root_registry.map (fun reg => (reg.path, reg.type, reg.flags)) =
      [("/".toList, .OR_FIXED, 0), ("/p".toList, .OR_FIXED, 0), ("/dir".toList, .OR_DIR, 0)] ∧
    (httpd_input sample_env fresh root_registry "GET / HTTP/1.0\r\n\r\n".toList).map
      (fun r => (r.1, r.2.1.sent.drop 1)) =
        some (.HS_SUCCESS_CLOSE,
          ["Content-Length: 631\r\n\r\n".toList,
            crlf (doctype_line ++
              ("<HTML>\n <HEAD>\n  <TITLE>Directory of /</TITLE>\n </HEAD>\n <BODY>\n" ++
                " <H1>Directory of /</H1>\n").toList ++
              ("<P><TT><A HREF=".toList ++ [DQUOTE] ++ "/".toList ++ [DQUOTE] ++
                "></A>".toList ++ pad_text 16 ++ "</TT>Root</P>\n".toList) ++
              ("<P><TT><A HREF=".toList ++ [DQUOTE] ++ "/p".toList ++ [DQUOTE] ++
                ">p</A>".toList ++ pad_text 15 ++ "</TT>A page</P>\n".toList) ++
              ("<P><TT><A HREF=".toList ++ [DQUOTE] ++ "/dir/".toList ++ [DQUOTE] ++
                ">dir/</A>".toList ++ pad_text 12 ++ "</TT>A directory</P>\n".toList) ++
              ("\n <HR>\n <I>x3270 - <A HREF=".toList ++ [DQUOTE] ++
                "http://x3270.bgp.nu/".toList ++ [DQUOTE] ++
                ">x3270.bgp.nu</A></I>\n </BODY>\n</HTML>\n".toList))]) := by
  decide

/-- C30 (amended). For a request whose verb is not HEAD, the last buffer
that `httpd_dirlist` sends for the URI `uri` is the document, newlines
expanded, made of the heading, one row for each registry entry that passes
the row test, in the order of the registry, and the trailer; an entry passes
the row test exactly when it is not flagged hidden and its path is `uri`
followed by a segment without a slash, the empty segment included. -/
theorem C30_listing_rows (env : Env) (h : httpd_t) (regs : registry) (uri : Bytes)
    (hv : h.request.verb ≠ .VERB_HEAD) :
    (httpd_dirlist env h regs uri).2.sent.getLast? =
      some (crlf (dirlist_heading uri ++
        (((regs.filter (fun reg => row_shown uri reg)).map (row_document uri)).flatten ++
          (trailer_text env ++ "</HTML>\n".toList)))) ∧
    (∀ reg : httpd_reg_t, row_shown uri reg = true ↔
      reg.flags &&& HF_HIDDEN = 0 ∧ ∃ seg, cstr reg.path = cstr uri ++ seg ∧ '/' ∉ seg) := by
  refine ⟨?_, row_shown_iff uri⟩
  rw [httpd_dirlist_body env h regs uri hv, dirlist_document_eq]

set_option maxRecDepth 100000 in
/-- C30, witness: the listings of `/` and of `/dir/` on a connection whose
verb is GET, for the registry with fixed objects at `/`, `/dir/`, `/dir/sub`,
`/h` (hidden) and `/p` and the directory `/dir`. The rows of `/` are those
of `/`, `/p` and `/dir`; the rows of `/dir/` are those of `/dir/` and
`/dir/sub`. -/
theorem C30_listing_rows_witness :
    ((httpd_dirlist sample_env fresh listing_registry "/".toList).2.sent.getLast? =
        some (crlf (dirlist_heading "/".toList ++
          (((listing_registry.filter (fun reg => row_shown "/".toList reg)).map
              (row_document "/".toList)).flatten ++
            (trailer_text sample_env ++ "</HTML>\n".toList)))) ∧
      (∀ reg : httpd_reg_t, row_shown "/".toList reg = true ↔
        reg.flags &&& HF_HIDDEN = 0 ∧
          ∃ seg, cstr reg.path = cstr "/".toList ++ seg ∧ '/' ∉ seg)) ∧
    listing_registry.map (fun reg => (reg.path, reg.flags)) =
      [("/".toList, 0), ("/dir/".toList, 0), ("/dir/sub".toList, 0), ("/h".toList, HF_HIDDEN),
        ("/p".toList, 0), ("/dir".toList, 0)] ∧
    (listing_registry.filter (fun reg => row_shown "/".toList reg)).map (fun reg => reg.path) =
      ["/".toList, "/p".toList, "/dir".toList] ∧
    (listing_registry.filter (fun reg => row_shown "/dir/".toList reg)).map
        (fun reg => reg.path) =
      ["/dir/".toList, "/dir/sub".toList] ∧
    ((listing_registry.filter (fun reg => row_shown "/dir/".toList reg)).map
        (row_document "/dir/".toList)).flatten =
      ("<P><TT><A HREF=".toList ++ [DQUOTE] ++ "/dir/".toList ++ [DQUOTE] ++
          "></A>".toList ++ pad_text 16 ++ "</TT>Slash</P>\n".toList) ++
        ("<P><TT><A HREF=".toList ++ [DQUOTE] ++ "/dir/sub".toList ++ [DQUOTE] ++
          ">sub</A>".toList ++ pad_text 13 ++ "</TT>Below</P>\n".toList) :=
  ⟨C30_listing_rows sample_env fresh listing_registry "/".toList (by decide),
    by decide, by decide, by decide, by decide⟩

set_option maxRecDepth 100000 in
/-- C31, counterexample. A fresh connection is fed the request line
`GET /p HTTP/1.0` ended by CR LF. The input with the pair CR LF collapsed to
one LF is the line followed by a newline, but the request buffer holds the
three tokens each followed by a NUL: the validation of the request line,
which runs at the newline, has overwritten the two spaces and the newline. -/
theorem C31_request_line_overwritten :
    (httpd_input sample_env fresh sample_registry "GET /p HTTP/1.0\r\n".toList).map
        (fun r => (r.1, r.2.1.request.request_buf, r.2.1.request.nr)) =
      some (.HS_CONTINUE,
        "GET".toList ++ [NUL] ++ "/p".toList ++ [NUL] ++ "HTTP/1.0".toList ++ [NUL], 16) ∧
    crlf_collapse "GET /p HTTP/1.0\r\n".toList = "GET /p HTTP/1.0\n".toList ∧
    "GET".toList ++ [NUL] ++ "/p".toList ++ [NUL] ++ "HTTP/1.0".toList ++ [NUL] ≠
      "GET /p HTTP/1.0\n".toList := by
  refine ⟨?_, ?_, ?_⟩ <;> decide

/-- C31 (as amended). The bytes that `httpd_input` stores in the request buffer, as long
as it answers `HS_CONTINUE`, are the input with every pair CR LF collapsed to
one LF and every other CR turned into LF (`normalize`, which is
`crlf_collapse` on a connection whose last byte was no CR): the byte count
grows by their number and they are found behind the old bytes, apart from the
separators and the newline of the request line, which the validation of that
line overwrites with NULs. Consequently `httpd_input` does with the input what
it does with the normalized input, and the same lines ended by CR, by CR LF or
by LF give the same result, up to the flag `cr` and the input trace offset.
The callbacks are assumed not to answer `HS_CONTINUE` and not to depend on the
flag `cr` and the trace offset. -/
theorem C31_crlf_normalization (env : Env)
    (hdyn : ∀ d s x r, (env.dyn d s x r).1 ≠ .HS_CONTINUE)
    (hcb : ∀ d s h r b n, ∃ m, env.dyn d s (adj b n h) r = adj_res b m (env.dyn d s h r))
    (h : httpd_t) (regs : registry) (data : Bytes) :
    (normalize false data = crlf_collapse data ∧
      '\n' :: normalize true data = crlf_collapse ('\r' :: data)) ∧
    (∀ (k : httpd_t) (regs1 : registry),
      httpd_input env h regs data = some (.HS_CONTINUE, k, regs1) →
      k.request.nr = h.request.nr + (normalize h.cr data).length ∧
      k.cr = cr_after h.cr data ∧
      (∀ j, j < h.request.nr →
        kept h.request.saw_first (buf_get h.request.request_buf j)
          (buf_get k.request.request_buf j)) ∧
      (∀ i, i < (normalize h.cr data).length →
        buf_get k.request.request_buf (h.request.nr + i) = (normalize h.cr data).getD i NUL ∨
        (h.request.saw_first = false ∧
          buf_get k.request.request_buf (h.request.nr + i) = NUL ∧
          (is_sep ((normalize h.cr data).getD i NUL) = true ∨
            (normalize h.cr data).getD i NUL = '\n') ∧
          '\n' ∉ (normalize h.cr data).take i))) ∧
    (httpd_input env { h with cr := false } regs (normalize h.cr data)).map (adj_res false 0) =
      (httpd_input env h regs data).map (adj_res false 0) ∧
    (h.cr = false → ∀ lines : List Bytes, (∀ l ∈ lines, '\r' ∉ l ∧ '\n' ∉ l) →
      (httpd_input env h regs (with_eol ['\r'] lines)).map (adj_res false 0) =
        (httpd_input env h regs (with_eol ['\n'] lines)).map (adj_res false 0) ∧
      (httpd_input env h regs (with_eol ['\r', '\n'] lines)).map (adj_res false 0) =
        (httpd_input env h regs (with_eol ['\n'] lines)).map (adj_res false 0)) := by
  refine ⟨normalize_eq_collapse data, ?_, httpd_input_normal env hcb h regs data, ?_⟩
  · intro k regs1 hr
    rw [httpd_input_cont] at hr
    obtain ⟨a1, _, a3, a4⟩ := httpd_input_loop_kept env hdyn data _ regs k regs1 hr
    obtain ⟨_, b2, _⟩ := httpd_input_loop_continue env hdyn data _ regs k regs1 hr
    exact ⟨a1, b2, a3, a4⟩
  · intro hcr lines hl
    have e1 := httpd_input_normal env hcb h regs (with_eol ['\r'] lines)
    have e2 := httpd_input_normal env hcb h regs (with_eol ['\r', '\n'] lines)
    rw [normalize_cr_eol lines hl, cr_off_eq h hcr] at e1
    rw [normalize_crlf_eol lines hl, cr_off_eq h hcr] at e2
    exact ⟨e1.symm, e2.symm⟩

set_option maxRecDepth 100000 in
/-- C31, witness: the request line `GET /p HTTP/1.0` and a header line, ended
by CR LF, on a fresh connection: 26 bytes are stored for the 28 of the input,
the `G` of the verb is found at index 0, the newline that ends the request
line (index 15) has become a NUL; the whole request gives the same result
with the three line ends. -/
theorem C31_crlf_normalization_witness :
    normalize false "GET /p HTTP/1.0\r\nHost: abc\r\n".toList =
      "GET /p HTTP/1.0\nHost: abc\n".toList ∧
    (fed "GET /p HTTP/1.0\r\nHost: abc\r\n".toList).request.nr = 26 ∧
    buf_get (fed "GET /p HTTP/1.0\r\nHost: abc\r\n".toList).request.request_buf 0 = 'G' ∧
    buf_get (fed "GET /p HTTP/1.0\r\nHost: abc\r\n".toList).request.request_buf 15 = NUL ∧
    (httpd_input sample_env fresh sample_registry
        (with_eol ['\r'] ["GET /p HTTP/1.0".toList, "Host: abc".toList, []])).map
        (adj_res false 0) =
      (httpd_input sample_env fresh sample_registry
        (with_eol ['\n'] ["GET /p HTTP/1.0".toList, "Host: abc".toList, []])).map
        (adj_res false 0) ∧
    (httpd_input sample_env fresh sample_registry
        (with_eol ['\r', '\n'] ["GET /p HTTP/1.0".toList, "Host: abc".toList, []])).map
        (adj_res false 0) =
      (httpd_input sample_env fresh sample_registry
        (with_eol ['\n'] ["GET /p HTTP/1.0".toList, "Host: abc".toList, []])).map
        (adj_res false 0) ∧
    ((httpd_input sample_env fresh sample_registry
        (with_eol ['\r', '\n'] ["GET /p HTTP/1.0".toList, "Host: abc".toList, []])).map
        (fun r => (r.1, r.2.1.sent.getLast?))) = some (.HS_SUCCESS_CLOSE, some "hello".toList) :=
  have t := C31_crlf_normalization sample_env (fun _ _ _ _ => by simp [sample_env])
    (fun _ _ _ _ _ n => ⟨n, rfl⟩) fresh sample_registry "GET /p HTTP/1.0\r\nHost: abc\r\n".toList
  have u := t.2.1 (fed "GET /p HTTP/1.0\r\nHost: abc\r\n".toList) sample_registry (by decide)
  have v := t.2.2.2 rfl ["GET /p HTTP/1.0".toList, "Host: abc".toList, []] (by decide)
  ⟨by decide, u.1.trans (by decide), by decide, by decide, v.1, v.2, by decide⟩

set_option maxRecDepth 100000 in
/-- C32 (counterexample). The validator reads the first line as a C string,
so a NUL byte in the input ends the line for it: the first line `GET /p`,
NUL, ` HTTP/1.0 junk` has four tokens (the second one is `/p` and the NUL),
and the request is not rejected: `/p` is served with status 200. The same
line without the NUL is rejected. -/
theorem C32_line_cut_at_nul :
    line_tokens ("GET /p".toList ++ [NUL] ++ " HTTP/1.0 junk".toList) =
      ["GET".toList, "/p".toList ++ [NUL], "HTTP/1.0".toList, "junk".toList] ∧
    (httpd_input sample_env fresh sample_registry
        ("GET /p".toList ++ [NUL] ++ " HTTP/1.0 junk\n\n".toList)).map
      (fun r => (r.1, r.2.1.sent.head?.map (List.take 17), r.2.1.sent.getLast?)) =
        some (.HS_SUCCESS_CLOSE, some "HTTP/1.1 200 OK\r\n".toList, some "hello".toList) ∧
    (httpd_digest_request_line sample_env
      (line_state ("GET /p".toList ++ [NUL] ++ " HTTP/1.0 junk".toList))).1 = .HS_CONTINUE ∧
    (httpd_input sample_env fresh sample_registry "GET /p HTTP/1.0 junk\n\n".toList).map
      (fun r => r.1) = some .HS_ERROR_CLOSE := by
  decide

/-- C32 (amended). The validator reads the first line as the C string at the
start of the request buffer, so up to its first NUL byte. It answers with the
error 400 `Whitespace at the beginning of the request` when the line begins
with a whitespace character, and otherwise with the error 400 `Invalid number
of tokens` when the line has fewer than two tokens or a fourth token, the
tokens being the maximal runs of characters other than space, tab, formfeed
and vertical tab. A line without leading whitespace and with two tokens goes
to the method check with the first token as the verb; one with three tokens
goes to the version check with the third token and then to the method
check. -/
theorem C32_request_line_tokens (env : Env) (h : httpd_t) :
    (isspace (buf_get h.request.request_buf 0) = true →
      httpd_digest_request_line env h =
        httpd_error env h .ERRMODE_NON_HTTP 400
          ("<P>Invalid request syntax.</P>\n<P>Whitespace at the beginning of the " ++
            "request.</P>").toList) ∧
    (isspace (buf_get h.request.request_buf 0) = false →
      (request_tokens h.request.request_buf).length < 2 ∨
        4 ≤ (request_tokens h.request.request_buf).length →
      ∃ (b : Bytes) (u : Option Nat),
        httpd_digest_request_line env h =
          httpd_error env { h with request := { h.request with request_buf := b, uri := u } }
            .ERRMODE_NON_HTTP 400
            "<P>Invalid request syntax.</P>\n<P>Invalid number of tokens.</P>".toList) ∧
    (isspace (buf_get h.request.request_buf 0) = false →
      ∀ verb uri : Bytes, request_tokens h.request.request_buf = [verb, uri] →
      ∃ (v u : Nat) (b : Bytes),
        request_line_tokens h.request.request_buf = (some v, some u, none, none, b) ∧
        cstr (b.drop v) = verb ∧ cstr (b.drop u) = uri ∧
        httpd_digest_request_line env h =
          verb_check env { h with request := { h.request with
            request_buf := b, uri := some u, http_1_0 := true, persistent := false } }
            .ERRMODE_NON_HTTP verb) ∧
    (isspace (buf_get h.request.request_buf 0) = false →
      ∀ verb uri version : Bytes,
      request_tokens h.request.request_buf = [verb, uri, version] →
      ∃ (v u p : Nat) (b : Bytes),
        request_line_tokens h.request.request_buf = (some v, some u, some p, none, b) ∧
        cstr (b.drop v) = verb ∧ cstr (b.drop u) = uri ∧ cstr (b.drop p) = version ∧
        httpd_digest_request_line env h =
          match protocol_version env.erange version with
          | none =>
            httpd_error env
              (if strcmp_eq verb "HEAD".toList then
                { h with request := { h.request with
                  request_buf := b, uri := some u, verb := .VERB_HEAD } }
               else { h with request := { h.request with request_buf := b, uri := some u } })
              .ERRMODE_NON_HTTP 400
              ("Invalid protocol '".toList ++ version ++ "'.".toList)
          | some (major, minor) =>
            verb_check env { h with request := { h.request with
              request_buf := b, uri := some u, http_1_0 := (major = 1 && minor = 0),
              persistent := !(major = 1 && minor = 0) } } .ERRMODE_FATAL verb) := by
  obtain ⟨few, many, two, three⟩ := request_line_tokens_spec h.request.request_buf
  refine ⟨?_, ?_, ?_, ?_⟩
  · intro hsp
    unfold httpd_digest_request_line
    rw [if_pos hsp]
  · intro hsp hcount
    refine ⟨_, _, httpd_digest_request_line_count env h hsp ?_⟩
    rcases hcount with hc | hc
    · rcases few hc with h1 | h1
      · exact Or.inl h1
      · exact Or.inr (Or.inl h1)
    · obtain ⟨v, u, j, _, _, hj⟩ := many hc
      right; right
      rw [hj]
      exact Option.some_ne_none j
  · intro hsp verb uri htoks
    obtain ⟨v, u, b, htok, hv, hu⟩ := two verb uri htoks
    refine ⟨v, u, b, htok, hv, hu, ?_⟩
    rw [httpd_digest_request_line_two env h v u b hsp htok, hv]
  · intro hsp verb uri version htoks
    obtain ⟨v, u, p, b, htok, hv, hu, hp⟩ := three verb uri version htoks
    refine ⟨v, u, p, b, htok, hv, hu, hp, ?_⟩
    rw [httpd_digest_request_line_three env h v u p b hsp htok, hv, hp]

set_option maxRecDepth 100000 in
/-- C32, witness: the first lines ` GET /p`, `GET`, `GET /p HTTP/1.0 junk`,
`GET /p` and `GET /p HTTP/1.1`. -/
theorem C32_request_line_tokens_witness :
    httpd_digest_request_line sample_env (line_state " GET /p".toList) =
      httpd_error sample_env (line_state " GET /p".toList) .ERRMODE_NON_HTTP 400
        ("<P>Invalid request syntax.</P>\n<P>Whitespace at the beginning of the " ++
          "request.</P>").toList ∧
    (∃ (b : Bytes) (u : Option Nat),
      httpd_digest_request_line sample_env (line_state "GET".toList) =
        httpd_error sample_env
          { line_state "GET".toList with
            request := { (line_state "GET".toList).request with request_buf := b, uri := u } }
          .ERRMODE_NON_HTTP 400
          "<P>Invalid request syntax.</P>\n<P>Invalid number of tokens.</P>".toList) ∧
    (∃ (b : Bytes) (u : Option Nat),
      httpd_digest_request_line sample_env (line_state "GET /p HTTP/1.0 junk".toList) =
        httpd_error sample_env
          { line_state "GET /p HTTP/1.0 junk".toList with
            request := { (line_state "GET /p HTTP/1.0 junk".toList).request with
              request_buf := b, uri := u } }
          .ERRMODE_NON_HTTP 400
          "<P>Invalid request syntax.</P>\n<P>Invalid number of tokens.</P>".toList) ∧
    (∃ (v u : Nat) (b : Bytes),
      request_line_tokens (line_state "GET /p".toList).request.request_buf =
        (some v, some u, none, none, b) ∧
      cstr (b.drop v) = "GET".toList ∧ cstr (b.drop u) = "/p".toList ∧
      httpd_digest_request_line sample_env (line_state "GET /p".toList) =
        verb_check sample_env
          { line_state "GET /p".toList with
            request := { (line_state "GET /p".toList).request with
              request_buf := b, uri := some u, http_1_0 := true, persistent := false } }
          .ERRMODE_NON_HTTP "GET".toList) ∧
    (∃ (v u p : Nat) (b : Bytes),
      request_line_tokens (line_state "GET /p HTTP/1.1".toList).request.request_buf =
        (some v, some u, some p, none, b) ∧
      cstr (b.drop v) = "GET".toList ∧ cstr (b.drop u) = "/p".toList ∧
      cstr (b.drop p) = "HTTP/1.1".toList ∧
      httpd_digest_request_line sample_env (line_state "GET /p HTTP/1.1".toList) =
        match protocol_version sample_env.erange "HTTP/1.1".toList with
        | none =>
          httpd_error sample_env
            (if strcmp_eq "GET".toList "HEAD".toList then
              { line_state "GET /p HTTP/1.1".toList with
                request := { (line_state "GET /p HTTP/1.1".toList).request with
                  request_buf := b, uri := some u, verb := .VERB_HEAD } }
             else
              { line_state "GET /p HTTP/1.1".toList with
                request := { (line_state "GET /p HTTP/1.1".toList).request with
                  request_buf := b, uri := some u } })
            .ERRMODE_NON_HTTP 400
            ("Invalid protocol '".toList ++ "HTTP/1.1".toList ++ "'.".toList)
        | some (major, minor) =>
          verb_check sample_env
            { line_state "GET /p HTTP/1.1".toList with
              request := { (line_state "GET /p HTTP/1.1".toList).request with
                request_buf := b, uri := some u, http_1_0 := (major = 1 && minor = 0),
                persistent := !(major = 1 && minor = 0) } } .ERRMODE_FATAL "GET".toList) ∧
    (httpd_digest_request_line sample_env (line_state "GET /p HTTP/1.1".toList)).1 =
      .HS_CONTINUE ∧
    (httpd_digest_request_line sample_env (line_state "GET\t/p\tHTTP/1.1".toList)).1 =
      .HS_CONTINUE :=
  ⟨(C32_request_line_tokens sample_env (line_state " GET /p".toList)).1 (by decide),
    (C32_request_line_tokens sample_env (line_state "GET".toList)).2.1 (by decide)
      (by decide),
    (C32_request_line_tokens sample_env (line_state "GET /p HTTP/1.0 junk".toList)).2.1
      (by decide) (by decide),
    (C32_request_line_tokens sample_env (line_state "GET /p".toList)).2.2.1 (by decide)
      "GET".toList "/p".toList (by decide),
    (C32_request_line_tokens sample_env (line_state "GET /p HTTP/1.1".toList)).2.2.2
      (by decide) "GET".toList "/p".toList "HTTP/1.1".toList (by decide),
    by decide, by decide⟩

/-- C33. A newline that `httpd_input_char` has to store (a CR, or an LF that
does not follow a CR, with room in the buffer) is stored as LF; then, on an
empty line before the request line, the request is answered by the error 400
`Missing request.` of mode Fatal: the reply starts with the HTTP header with
`Connection: close` and the status is `HS_ERROR_CLOSE`; on an empty line after
the request line, the buffer is terminated with a NUL and handed to
`httpd_digest_request`; at the end of a non-empty first line, the newline is
replaced by a NUL, the start of the fields and `saw_first` are set and the
line is handed to `httpd_digest_request_line`; at the end of a later
non-empty line the input goes on. -/
theorem C33_newline_dispatch (env : Env) (h : httpd_t) (regs : registry) (c : Char)
    (hnl : c = '\n' ∨ c = '\r') (hsw : ¬(h.cr = true ∧ c = '\n'))
    (hnr : h.request.nr < MAX_HTTPD_REQUEST) :
    (stored h c).request.request_buf = buf_set h.request.request_buf h.request.nr '\n' ∧
    (h.request.saw_first = false → h.request.rll = 0 →
      ∃ (k : httpd_t) (more : List Bytes),
        httpd_input_char env h regs c = some (.HS_ERROR_CLOSE, k, regs) ∧
        httpd_error env (stored h c) .ERRMODE_FATAL 400 "Missing request.".toList =
          (.HS_ERROR_CLOSE, k) ∧
        k.sent = h.sent ++
          (h.request.print_buf ++ header_text env h.request.location 400 true
            "text/html; charset=iso8859-1".toList) :: more) ∧
    (h.request.saw_first = true → h.request.rll = 0 →
      httpd_input_char env h regs c =
        httpd_digest_request env { stored h c with request := { (stored h c).request with
          request_buf := buf_set (stored h c).request.request_buf (h.request.nr + 1) NUL } }
          regs) ∧
    (h.request.saw_first = false → h.request.rll ≠ 0 →
      httpd_input_char env h regs c =
        some ((httpd_digest_request_line env { stored h c with
            request := { (stored h c).request with
              rll := 0, request_buf := buf_set (stored h c).request.request_buf h.request.nr NUL,
              fields_start := some (h.request.nr + 1), saw_first := true } }).1,
          (httpd_digest_request_line env { stored h c with
            request := { (stored h c).request with
              rll := 0, request_buf := buf_set (stored h c).request.request_buf h.request.nr NUL,
              fields_start := some (h.request.nr + 1), saw_first := true } }).2, regs)) ∧
    (h.request.saw_first = true → h.request.rll ≠ 0 →
      httpd_input_char env h regs c =
        some (.HS_CONTINUE,
          { stored h c with request := { (stored h c).request with rll := 0 } }, regs)) := by
  have key := httpd_input_char_newline env h regs c hnl hsw hnr
  have hc : (if c = '\r' then '\n' else c) = '\n' := by
    rcases hnl with e | e <;> subst e <;> decide
  refine ⟨?_, ?_, ?_, ?_, ?_⟩
  · show buf_set h.request.request_buf h.request.nr (if c = '\r' then '\n' else c) = _
    rw [hc]
  · intro hs hr
    rw [if_pos hr, if_pos hs] at key
    obtain ⟨k, _, hsent, he⟩ := httpd_verror_spec env (stored h c) .ERRMODE_FATAL 400
      (stored h c).request.verb "Missing request.".toList
    obtain ⟨more, hmore⟩ := hsent (by decide)
    have he2 : httpd_error env (stored h c) .ERRMODE_FATAL 400 "Missing request.".toList =
        (.HS_ERROR_CLOSE, k) := by
      unfold httpd_error
      rw [he]
      rfl
    refine ⟨k, more, ?_, he2, hmore⟩
    rw [key, he2]
  · intro hs hr
    rw [if_pos hr, if_neg (by simp [hs])] at key
    exact key
  · intro hs hr
    rw [if_neg hr, if_pos hs] at key
    exact key
  · intro hs hr
    rw [if_neg hr, if_neg (by simp [hs])] at key
    exact key

set_option maxRecDepth 100000 in
/-- C33, witness: an LF on a fresh connection; a CR after the line
`GET /p HTTP/1.0`; an LF after the bytes `GET /p HTTP/1.0`; an LF after the
first line and the bytes `Host: abc`. -/
theorem C33_newline_dispatch_witness :
    (∃ (k : httpd_t) (more : List Bytes),
      httpd_input_char sample_env fresh sample_registry '\n' =
        some (.HS_ERROR_CLOSE, k, sample_registry) ∧
      httpd_error sample_env (stored fresh '\n') .ERRMODE_FATAL 400 "Missing request.".toList =
        (.HS_ERROR_CLOSE, k) ∧
      k.sent = fresh.sent ++
        (fresh.request.print_buf ++ header_text sample_env fresh.request.location 400 true
          "text/html; charset=iso8859-1".toList) :: more) ∧
    httpd_input_char sample_env (fed "GET /p HTTP/1.0\n".toList) sample_registry '\r' =
      httpd_digest_request sample_env
        { stored (fed "GET /p HTTP/1.0\n".toList) '\r' with
          request := { (stored (fed "GET /p HTTP/1.0\n".toList) '\r').request with
            request_buf :=
              buf_set (stored (fed "GET /p HTTP/1.0\n".toList) '\r').request.request_buf
                ((fed "GET /p HTTP/1.0\n".toList).request.nr + 1) NUL } }
        sample_registry ∧
    httpd_input_char sample_env (fed "GET /p HTTP/1.0".toList) sample_registry '\n' =
      some ((httpd_digest_request_line sample_env
          { stored (fed "GET /p HTTP/1.0".toList) '\n' with
            request := { (stored (fed "GET /p HTTP/1.0".toList) '\n').request with
              rll := 0,
              request_buf :=
                buf_set (stored (fed "GET /p HTTP/1.0".toList) '\n').request.request_buf
                  (fed "GET /p HTTP/1.0".toList).request.nr NUL,
              fields_start := some ((fed "GET /p HTTP/1.0".toList).request.nr + 1),
              saw_first := true } }).1,
        (httpd_digest_request_line sample_env
          { stored (fed "GET /p HTTP/1.0".toList) '\n' with
            request := { (stored (fed "GET /p HTTP/1.0".toList) '\n').request with
              rll := 0,
              request_buf :=
                buf_set (stored (fed "GET /p HTTP/1.0".toList) '\n').request.request_buf
                  (fed "GET /p HTTP/1.0".toList).request.nr NUL,
              fields_start := some ((fed "GET /p HTTP/1.0".toList).request.nr + 1),
              saw_first := true } }).2, sample_registry) ∧
    httpd_input_char sample_env (fed "GET /p HTTP/1.0\nHost: abc".toList) sample_registry '\n' =
      some (.HS_CONTINUE,
        { stored (fed "GET /p HTTP/1.0\nHost: abc".toList) '\n' with
          request := { (stored (fed "GET /p HTTP/1.0\nHost: abc".toList) '\n').request with
            rll := 0 } }, sample_registry) ∧
    (httpd_input sample_env fresh sample_registry "\n".toList).map
      (fun r => (r.1, r.2.1.sent.head?.map (List.take 26))) =
        some (.HS_ERROR_CLOSE, some "HTTP/1.1 400 Bad Request\r\n".toList) ∧
    ((fed "GET /p HTTP/1.0\n".toList).request.saw_first,
      (fed "GET /p HTTP/1.0\n".toList).request.rll,
      (fed "GET /p HTTP/1.0\n".toList).request.request_buf) =
        (true, 0, "GET".toList ++ [NUL] ++ "/p".toList ++ [NUL] ++ "HTTP/1.0".toList ++ [NUL]) :=
  ⟨(C33_newline_dispatch sample_env fresh sample_registry '\n' (Or.inl rfl) (by decide)
      (by decide)).2.1 (by decide) (by decide),
    (C33_newline_dispatch sample_env (fed "GET /p HTTP/1.0\n".toList) sample_registry '\r'
      (Or.inr rfl) (by decide) (by decide)).2.2.1 (by decide) (by decide),
    (C33_newline_dispatch sample_env (fed "GET /p HTTP/1.0".toList) sample_registry '\n'
      (Or.inl rfl) (by decide) (by decide)).2.2.2.1 (by decide) (by decide),
    (C33_newline_dispatch sample_env (fed "GET /p HTTP/1.0\nHost: abc".toList) sample_registry
      '\n' (Or.inl rfl) (by decide) (by decide)).2.2.2.2 (by decide) (by decide),
    by decide, by decide⟩

/-- C34 (counterexample). `httpd_vprint` looks for the next newline with
`strchr` and expands it whatever stands before it: the text `a`, CR, LF, `b`
is written as `a`, CR, CR, LF, `b`, in the buffered mode and in the sending
mode alike, so a CR LF pair of the text is not emitted unchanged. -/
theorem C34_crlf_pair_expanded :
    (httpd_vprint fresh .HP_BUFFER "a\r\nb".toList).request.print_buf = "a\r\r\nb".toList ∧
    (httpd_vprint fresh .HP_SEND "a\r\nb".toList).sent =
      ["a\r".toList, "\r\n".toList, "b".toList] ∧
    (httpd_vprint fresh .HP_SEND "ab".toList).sent = ["ab".toList] ∧
    (httpd_vprint fresh .HP_SEND "a\n\nb\n".toList).sent =
      ["a".toList, "\r\n".toList, "\r\n".toList, "b".toList, "\r\n".toList] := by
  decide

/-- C34 (amended). `httpd_vprint` writes the formatted text, a C string, with
every newline replaced by CR LF, also a newline that follows a CR, and every
other byte unchanged, in order: in the mode `HP_BUFFER` the expanded text is
appended to the print buffer, in the mode `HP_SEND` it is sent in buffers
none of which is empty, and the output trace offset advances by its length;
nothing else of the connection changes. The loop ends within as many rounds
as the text has bytes: more rounds give the same result. -/
theorem C34_vprint_expands_newlines (h : httpd_t) (text : Bytes) :
    httpd_vprint h .HP_BUFFER text =
      { h with request := { h.request with
        print_buf := h.request.print_buf ++ crlf (cstr text) } } ∧
    (∃ chunks : List Bytes, chunks.flatten = crlf (cstr text) ∧ [] ∉ chunks ∧
      httpd_vprint h .HP_SEND text =
        { h with
          sent := h.sent ++ chunks
          request := { h.request with
            ot_offset := h.request.ot_offset + (crlf (cstr text)).length } }) ∧
    (∀ (type : httpd_print_t) (extra : Nat),
      httpd_vprint_loop type ((cstr text).length + extra) h (cstr text) =
        httpd_vprint h type text) ∧
    crlf (cstr text) =
      ((cstr text).map (fun c => if c = '\n' then ['\r', '\n'] else [c])).flatten := by
  refine ⟨httpd_vprint_buffer h text, ?_, ?_, ?_⟩
  · obtain ⟨chunks, h1, h2, h3⟩ :=
      httpd_vprint_loop_send (cstr text).length (cstr text) h (Nat.le_refl _)
    exact ⟨chunks, h1, h2, h3⟩
  · intro type extra
    exact httpd_vprint_loop_fuel type (cstr text) h extra
  · generalize cstr text = s
    induction s with
    | nil => rfl
    | cons c s ih =>
      rw [crlf, List.map_cons, List.flatten_cons, ← ih]
      split <;> rfl

/-- C35. For a string of bytes without a NUL, `percent_decode` without `+`
translation succeeds on the result of `uri_quote` and gives the string back;
`uri_quote` writes each byte in turn, a printable ASCII byte other than the
space and `%` as itself and every other byte as `%` followed by two
hexadecimal digits, the high and the low half of the byte. -/
theorem C35_uri_quote_round_trip (s : Bytes) (hn : NUL ∉ s) (hb : ∀ c ∈ s, c.toNat < 256) :
    percent_decode (uri_quote s) false = some s ∧
    uri_quote s =
      (s.map (fun c =>
        if printable_nonspace c && c != '%' then [c]
        else ['%', Nat.digitChar (c.toNat / 16), Nat.digitChar (c.toNat % 16)])).flatten ∧
    (∀ c ∈ s, is_hex (Nat.digitChar (c.toNat / 16)) = true ∧
      is_hex (Nat.digitChar (c.toNat % 16)) = true) := by
  refine ⟨?_, uri_quote_eq s hn hb, ?_⟩
  · unfold percent_decode
    rw [percent_decode_uri_quote s hn hb, List.nil_append]
  · intro c hc
    have := hb c hc
    exact ⟨(hex_digit_digitChar _ (by omega)).2, (hex_digit_digitChar _ (by omega)).2⟩

/-- C35, witness: the text `a b%`, then the byte 0xe9 and a newline. -/
theorem C35_uri_quote_round_trip_witness :
    (percent_decode (uri_quote ("a b%".toList ++ [Char.ofNat 233, '\n'])) false =
        some ("a b%".toList ++ [Char.ofNat 233, '\n']) ∧
      uri_quote ("a b%".toList ++ [Char.ofNat 233, '\n']) =
        (("a b%".toList ++ [Char.ofNat 233, '\n']).map (fun c =>
          if printable_nonspace c && c != '%' then [c]
          else ['%', Nat.digitChar (c.toNat / 16), Nat.digitChar (c.toNat % 16)])).flatten ∧
      (∀ c ∈ "a b%".toList ++ [Char.ofNat 233, '\n'],
        is_hex (Nat.digitChar (c.toNat / 16)) = true ∧
          is_hex (Nat.digitChar (c.toNat % 16)) = true)) ∧
    uri_quote ("a b%".toList ++ [Char.ofNat 233, '\n']) = "a%20b%25%e9%0a".toList :=
  ⟨C35_uri_quote_round_trip ("a b%".toList ++ [Char.ofNat 233, '\n']) (by decide) (by decide),
    by decide⟩

/-- C36: in every connection state that calls of `httpd_input` reach from a
fresh connection, the byte count `nr` is at most 8191, the request buffer has
at most 8192 bytes, also after any further byte (in the model a store at an
index makes the buffer longer than that index, so every store of a data byte
or of a NUL that was done went to an index below 8192), and the line length
`rll` is zero exactly at the start of a line: when nothing is buffered, when
the last byte buffered is a newline, or when the request line has just been
validated. The callbacks are assumed to leave the byte count, the line length
and the start of the fields alone or to reset them through
`httpd_reinit_request`, and to keep the length and the newlines of the
buffer. -/
theorem C36_ingest_invariant (env : Env)
    (hfr : ∀ d s h r, ingest_frame h (env.dyn d s h r).2.1)
    (h : httpd_t) (hreach : reachable env h) :
    h.request.nr ≤ 8191 ∧ h.request.request_buf.length ≤ 8192 ∧
      (h.request.rll = 0 ↔ at_line_start h) ∧
      (∀ regs c st k regs1, httpd_input_char env h regs c = some (st, k, regs1) →
        k.request.nr ≤ 8191 ∧ k.request.request_buf.length ≤ 8192 ∧
          (k.request.rll = 0 ↔ at_line_start k)) ∧
      (∀ (b : Bytes) (i : Nat) (c : Char), i < (buf_set b i c).length) := by
  have hinv : ingest_inv h := by
    induction hreach with
    | fresh d m s => exact ingest_inv_new d m s
    | input h0 regs data st k regs1 _ hr ih => exact ingest_inv_input env hfr h0 regs data ih st k regs1 hr
  refine ⟨hinv.1, hinv.2.1, hinv.2.2.1, fun regs c st k regs1 hr => ?_, fun b i c => ?_⟩
  · have hk := ingest_inv_input_char env hfr h regs c hinv st k regs1 hr
    exact ⟨hk.1, hk.2.1, hk.2.2.1⟩
  · rw [buf_set_length]
    omega

set_option maxRecDepth 100000 in
/-- C36, witness: the fresh connection fed the request line `GET /p HTTP/1.0`
ended by CR LF and the four bytes `Host`: 20 bytes are buffered, the line
length is 4; fed the request line only, 16 bytes are buffered, the line length
is 0 and the fields start at 16. -/
theorem C36_ingest_invariant_witness :
    ((fed "GET /p HTTP/1.0\r\nHost".toList).request.nr = 20 ∧
      (fed "GET /p HTTP/1.0\r\nHost".toList).request.rll = 4 ∧
      (fed "GET /p HTTP/1.0\r\nHost".toList).request.request_buf.length ≤ 8192 ∧
      ¬ at_line_start (fed "GET /p HTTP/1.0\r\nHost".toList)) ∧
    ((fed "GET /p HTTP/1.0\r\n".toList).request.nr = 16 ∧
      (fed "GET /p HTTP/1.0\r\n".toList).request.rll = 0 ∧
      (fed "GET /p HTTP/1.0\r\n".toList).request.fields_start = some 16 ∧
      at_line_start (fed "GET /p HTTP/1.0\r\n".toList)) :=
  have t := C36_ingest_invariant sample_env (fun _ _ h _ => ingest_frame_refl h)
    (fed "GET /p HTTP/1.0\r\nHost".toList)
    (reachable.input fresh sample_registry "GET /p HTTP/1.0\r\nHost".toList .HS_CONTINUE
      (fed "GET /p HTTP/1.0\r\nHost".toList) sample_registry (reachable.fresh 1 1 0) (by decide))
  have u := C36_ingest_invariant sample_env (fun _ _ h _ => ingest_frame_refl h)
    (fed "GET /p HTTP/1.0\r\n".toList)
    (reachable.input fresh sample_registry "GET /p HTTP/1.0\r\n".toList .HS_CONTINUE
      (fed "GET /p HTTP/1.0\r\n".toList) sample_registry (reachable.fresh 1 1 0) (by decide))
  ⟨⟨by decide, by decide, t.2.1, fun e => absurd (t.2.2.1.mpr e) (by decide)⟩,
    ⟨by decide, by decide, by decide, u.2.2.1.mp (by decide)⟩⟩

set_option maxRecDepth 100000 in
/-- C37 (defect in the code, the one of C1 and C2). The trimming loop of
`httpd_digest_request` tests `s[value_len - 1]`, where `s` points at the
newline that ends the header line, so it reads behind the line, from the far
end downwards. For a value of four bytes or more in the last header line the
reads are behind the NUL that ends the request: on a connection whose earlier
request has left a space at index 46 of the buffer, the value `close` of the
header `Connection` is cut to `clos`, and the request is answered as a
persistent one, while on a fresh connection the connection is closed. For
the header line `H:` with 4088 letters after the request line `GET /
HTTP/1.0`, a request of 4108 bytes, the first read is at index 8192, behind
the array: the value that is stored has 4087 or 4088 letters according to the
byte that lies there. -/
theorem C37_trim_reads_behind_the_line :
    (∀ (env : Env) (buf : Bytes) (s n : Nat),
      trim_value env buf s (n + 1) =
        if isspace (rd env buf (s + n)) then trim_value env buf s n else n + 1) ∧
    (∀ (env : Env) (buf : Bytes) (i : Nat),
      rd env buf (MAX_HTTPD_REQUEST + 1 + i) = env.beyond i) ∧
    (httpd_input sample_env fresh sample_registry closing_request).map
      (fun r => (r.1, r.2.1.sent.length)) = some (.HS_SUCCESS_CLOSE, 5) ∧
    (httpd_input sample_env fresh sample_registry padded_request).map
      (fun r => (r.1, r.2.1.request.nr, buf_get r.2.1.request.request_buf 46)) =
        some (.HS_SUCCESS_OPEN, 0, ' ') ∧
    (httpd_input sample_env (fed padded_request) sample_registry closing_request).map
      (fun r => (r.1, r.2.1.sent.length)) = some (.HS_SUCCESS_OPEN, 10) ∧
    ((fed "GET / HTTP/1.0\nH:aa\n".toList).request.fields_start,
      buf_set (stored (fed "GET / HTTP/1.0\nH:aa\n".toList) '\n').request.request_buf
        ((fed "GET / HTTP/1.0\nH:aa\n".toList).request.nr + 1) NUL) =
      (some 15, big_request 2) ∧
    (big_request 4088).length = 4108 ∧
    (∀ env : Env, digest_field env (big_request 4088) 15 [] =
      .ok 4105 [field_t.mk "H".toList
        (List.replicate (if isspace (env.beyond 0) then 4087 else 4088) 'a')]) := by
  refine ⟨fun _ _ _ _ => rfl, ?_, by decide, by decide, by decide, by decide, ?_, ?_⟩
  · intro env buf i
    unfold rd
    rw [if_neg (by omega), Nat.add_sub_cancel_left]
  · exact big_request_length 4088
  · intro env
    have h1 := digest_field_big env 4087
    have h2 := trim_value_big env 4087 (by decide)
    rw [h2] at h1
    rw [h1]
    by_cases hb : isspace (env.beyond 0) = true
    · simp only [if_pos hb]
      rw [if_neg (by decide)]
    · simp only [if_neg hb]
      rw [if_neg (by decide)]

/-- C38. With callbacks that never return `HS_CONTINUE`: when `httpd_input`
answers the bytes `a` with `HS_CONTINUE`, feeding the bytes `b` to the
connection it has left gives the status, the connection (with what has been
sent) and the registry that feeding `a ++ b` in one call to the original
connection gives. -/
theorem C38_chunking_independence (env : Env)
    (hdyn : ∀ d s x r, (env.dyn d s x r).1 ≠ .HS_CONTINUE)
    (h : httpd_t) (regs : registry) (a b : Bytes) (h1 : httpd_t) (regs1 : registry)
    (ha : httpd_input env h regs a = some (.HS_CONTINUE, h1, regs1)) :
    httpd_input env h1 regs1 b = httpd_input env h regs (a ++ b) := by
  have ha2 : httpd_input_loop env (set_it (h.request.it_offset + a.length) h) regs a =
      some (.HS_CONTINUE, h1, regs1) := ha
  have e1 := httpd_input_loop_set_it env hdyn a _ regs h1 regs1 ha2
    (h.request.it_offset + a.length)
  have hs : set_it (h.request.it_offset + a.length) h1 = h1 := by
    have e1b : httpd_input_loop env (set_it (h.request.it_offset + a.length) h) regs a =
        some (.HS_CONTINUE, set_it (h.request.it_offset + a.length) h1, regs1) := e1
    rw [ha2] at e1b
    simp only [Option.some.injEq, Prod.mk.injEq, true_and, and_true] at e1b
    exact e1b.symm
  have hit : h1.request.it_offset = h.request.it_offset + a.length := by
    rw [← hs]
    rfl
  have e2 : httpd_input_loop env (set_it (h.request.it_offset + (a ++ b).length) h) regs a =
      some (.HS_CONTINUE, set_it (h.request.it_offset + (a ++ b).length) h1, regs1) :=
    httpd_input_loop_set_it env hdyn a _ regs h1 regs1 ha2
      (h.request.it_offset + (a ++ b).length)
  have e3 := httpd_input_loop_append env a b _ regs _ regs1 e2
  show httpd_input_loop env (set_it (h1.request.it_offset + b.length) h1) regs1 b =
    httpd_input_loop env (set_it (h.request.it_offset + (a ++ b).length) h) regs (a ++ b)
  rw [e3, hit, List.length_append, Nat.add_assoc]

set_option maxRecDepth 100000 in
/-- C38, witness: the request `GET /p HTTP/1.0` with CR LF line ends, cut
between the CR and the LF of the first line. -/
theorem C38_chunking_independence_witness :
    httpd_input sample_env fresh sample_registry "GET /p HTTP/1.0\r".toList =
      some (.HS_CONTINUE, fed "GET /p HTTP/1.0\r".toList, sample_registry) ∧
    httpd_input sample_env (fed "GET /p HTTP/1.0\r".toList) sample_registry "\n\r\n".toList =
      httpd_input sample_env fresh sample_registry ("GET /p HTTP/1.0\r".toList ++ "\n\r\n".toList) ∧
    (httpd_input sample_env (fed "GET /p HTTP/1.0\r".toList) sample_registry "\n\r\n".toList).map
      (fun r => (r.1, r.2.1.sent.getLast?)) = some (.HS_SUCCESS_CLOSE, some "hello".toList) :=
  ⟨by decide,
    C38_chunking_independence sample_env (fun _ _ _ _ => by simp [sample_env]) fresh
      sample_registry "GET /p HTTP/1.0\r".toList "\n\r\n".toList
      (fed "GET /p HTTP/1.0\r".toList) sample_registry (by decide),
    by decide⟩

set_option maxRecDepth 100000 in
/-- C39, as stated, fails: the code does not keep input away from a
connection whose request is pending. The connection 7 asks for the dynamic
object `/a`, which stays pending and is busy with it; one more newline makes
`httpd_input` digest the buffered request again, which is answered `409`
(the object is busy, with the asking connection itself) and reinitialized;
the connection then asks for `/b`, which is dispatched: now both entries name
the connection 7 as their busy holder while its in-flight node is `/b` only,
and the completion of that request leaves `/a` busy. -/
theorem C39_pending_connection_dispatched_again :
    asked_a.map (fun r => (r.1, r.2.1.request.async_node)) = some (.HS_PENDING, some 0) ∧
    (reg_deref (result_regs asked_a) 0).map (fun e => e.async_session) = some (some 7) ∧
    asked_again.map (fun r => (r.1, r.2.1.request.async_node, r.2.1.request.nr)) =
      some (.HS_ERROR_OPEN, some 0, 0) ∧
    asked_b.map (fun r => (r.1, r.2.1.dhandle, r.2.1.request.async_node)) =
      some (.HS_PENDING, 7, some 1) ∧
    (reg_deref (result_regs asked_b) 0).map (fun e => e.async_session) = some (some 7) ∧
    (reg_deref (result_regs asked_b) 1).map (fun e => e.async_session) = some (some 7) ∧
    ¬ bound (result_conn asked_b) (result_regs asked_b) ∧
    (httpd_dyn_complete sample_env (result_conn asked_b) (result_regs asked_b) "x".toList).map
        (fun r => (r.2.1.request.async_node,
          (reg_deref r.2.2 0).map (fun e => e.async_session),
          (reg_deref r.2.2 1).map (fun e => e.async_session))) =
      some (none, some (some 7), some none) := by
  refine ⟨by decide, by decide, by decide, by decide, by decide, by decide, ?_, by decide⟩
  intro hb
  have h0 : ∃ reg, reg_deref (result_regs asked_b) 0 = some reg ∧
      reg.async_session = some (result_conn asked_b).dhandle :=
    ⟨(result_regs asked_b).getD 1 httpd_reg_zero, by decide, by decide⟩
  obtain ⟨reg, e1, e2⟩ := h0
  have h1 := (hb 0 reg e1).mp e2
  have h2 : (result_conn asked_b).request.async_node = some 1 := by decide
  rw [h2] at h1
  exact absurd h1 (by decide)

/-- C39, amended: in every state of the server that is reached from
connections without a request in flight (with distinct handles) and a
registry without a busy entry, by calls of `httpd_input` on connections that
have no request in flight and by the completion calls `httpd_dyn_complete` and
`httpd_dyn_error`, an entry of the registry names a connection as its busy
holder if and only if the request of that connection references the entry as
its in-flight node; hence no connection is the busy holder of two entries, and
only dynamic entries are busy. The callbacks are assumed to leave the request
in flight, or to end with one of the two completion calls, and not to answer
`HS_CONTINUE`. -/
theorem C39_busy_binding (env : Env)
    (hdyn : ∀ d s x r, (env.dyn d s x r).1 ≠ .HS_CONTINUE)
    (hcb : ∀ d s h r, (node_frame h (env.dyn d s h r).2.1 ∧ (env.dyn d s h r).2.2 = r) ∨
      (∃ text, httpd_dyn_complete env h r text = some (env.dyn d s h r)) ∨
      (∃ code text, httpd_dyn_error env h r code text = some (env.dyn d s h r)))
    (conns : List httpd_t) (regs : registry) (hs : served env conns regs) :
    (∀ h ∈ conns, ∀ p reg, reg_deref regs p = some reg →
      (reg.async_session = some h.dhandle ↔ h.request.async_node = some p)) ∧
    (∀ h ∈ conns, ∀ p q rp rq, reg_deref regs p = some rp → reg_deref regs q = some rq →
      rp.async_session = some h.dhandle → rq.async_session = some h.dhandle → p = q) ∧
    (∀ p reg, reg_deref regs p = some reg → reg.async_session ≠ none →
      (reg.type = .OR_DYN_TERM ∨ reg.type = .OR_DYN_NONTERM)) := by
  obtain ⟨a, _, c⟩ := served_consistent env hdyn hcb conns regs hs
  refine ⟨a, fun h hh p q rp rq hp hq ep eq => ?_, c⟩
  have e1 := (a h hh p rp hp).mp ep
  have e2 := (a h hh q rq hq).mp eq
  rw [e1] at e2
  simp only [Option.some.injEq] at e2
  exact e2

set_option maxRecDepth 100000 in
/-- C39, witness: the connections 7 and 8 and the registry with the dynamic
objects `/a` and `/b`; after the connection 7 has asked for `/a`, the entry
`/a` (pointer 0) is busy with the connection 7, whose in-flight node it is,
and no entry is busy with the connection 8. -/
theorem C39_busy_binding_witness :
    (reg_deref (result_regs asked_a) 0).map (fun e => e.async_session) = some (some 7) ∧
    (result_conn asked_a).request.async_node = some 0 ∧
    (∀ p reg, reg_deref (result_regs asked_a) p = some reg →
      (reg.async_session = some (result_conn asked_a).dhandle ↔
        (result_conn asked_a).request.async_node = some p)) ∧
    (∀ p reg, reg_deref (result_regs asked_a) p = some reg →
      (reg.async_session = some conn8.dhandle ↔ conn8.request.async_node = some p)) :=
  have t := C39_busy_binding sample_env (fun _ _ _ _ => by simp [sample_env])
    (fun _ _ h r => Or.inl ⟨⟨rfl, rfl⟩, rfl⟩)
    ([] ++ result_conn asked_a :: [conn8]) (result_regs asked_a)
    (served.input [] [conn8] conn7 (result_conn asked_a) two_dyn_registry (result_regs asked_a)
      "GET /a HTTP/1.0\n\n".toList .HS_PENDING
      (served.init [conn7, conn8] two_dyn_registry (by decide) (by decide) (by decide))
      (by decide) (by decide))
  ⟨by decide, by decide, t.1 (result_conn asked_a) (by simp), t.1 conn8 (by simp)⟩

end Httpd
